import Mathlib

/-!
# StereoDSO coarse tracker: accumulators, depth pyramid, residual builder

Shallow embedding of parts of
`src/OptimizationBackend/MatrixAccumulators.h` and
`src/FullSystem/CoarseTracker.cpp`.

Conventions of the embedding.
* `float`/`double` arithmetic is exact rational arithmetic (`ℚ`).  Where the
  code depends on IEEE special values (a division `0/0`, an `isfinite` test on
  an image sample) the value is an explicit sum type that has the special
  values.
* A C array is a function from its index to the stored value.  Indices are
  `Nat` when the code only ever forms non-negative indices and `Int` when the
  code subtracts from an index.  A read outside the allocated range returns
  whatever the function holds there (the neighbouring memory).
* A `for` loop is a left fold of its body over the list of loop indices.
-/

/- The records below are used through their fields; the `sizeOf` and
constructor-injectivity lemmas are generated only where a proof needs them. -/
set_option genInjectivity false
set_option genSizeOf false
set_option genSizeOfSpec false

namespace dso

/-! ## SSE lanes -/

/-- Four packed floats (`__m128`). -/
abbrev M128 := Fin 4 → ℚ

/-- `_mm_set1_ps`. -/
def mm_set1_ps (x : ℚ) : M128 := fun _ => x

/-- `_mm_add_ps`. -/
def mm_add_ps (a b : M128) : M128 := fun l => a l + b l

/-- `_mm_mul_ps`. -/
def mm_mul_ps (a b : M128) : M128 := fun l => a l * b l

/-- `_mm_load_ps(a + pt)`: the four floats at `pt .. pt+3`. -/
def mm_load_ps (a : Nat → ℚ) (pt : Nat) : M128 := fun l => a (pt + l.val)

/-- `_mm_store_ps(a + pt, v)`: overwrite the four floats at `pt .. pt+3`. -/
def mm_store_ps (a : Nat → ℚ) (pt : Nat) (v : M128) : Nat → ℚ :=
  fun i => if h : pt ≤ i ∧ i < pt + 4 then v ⟨i - pt, by omega⟩ else a i

/-- `memset(a, 0, sizeof(float) * n)`. -/
def memset0 (a : Nat → ℚ) (n : Nat) : Nat → ℚ :=
  fun i => if i < n then 0 else a i

/-! ## Accumulator9 / Accumulator11 / Accumulator14

The three classes have the same members and the same `initialize`, `shiftUp`
and (up to the last line of `Accumulator14::finish`) `finish`; they differ in
the dimension `D` and in their unrolled update bodies. -/

/-- Data members of `Accumulator9`, `Accumulator11`, `Accumulator14`.
The counters `numIn1`, `numIn1k`, `numIn1m` are `float` in the source and
hold integer values. -/
structure AccState where
  H : Nat → Nat → ℚ
  b : Nat → ℚ
  num : Nat
  SSEData : Nat → ℚ
  SSEData1k : Nat → ℚ
  SSEData1m : Nat → ℚ
  numIn1 : Nat
  numIn1k : Nat
  numIn1m : Nat

/-- Number of upper-triangle entries of a `D × D` matrix (45, 66, 105). -/
def triSize (D : Nat) : Nat := D * (D + 1) / 2

/-- Index pairs visited by `for (r = 0; r < D; r++) for (c = r; c < D; c++)`. -/
def triangle (D : Nat) : List (Nat × Nat) :=
  (List.range D).flatMap (fun r => (List.range' r (D - r)).map (fun c => (r, c)))

/-- The assignment `H(r, c) = v`. -/
def matSet (H : Nat → Nat → ℚ) (r c : Nat) (v : ℚ) : Nat → Nat → ℚ :=
  fun i j => if i = r ∧ j = c then v else H i j

/-- The chained assignment `H(r, c) = H(c, r) = v`. -/
def matSetSym (H : Nat → Nat → ℚ) (r c : Nat) (v : ℚ) : Nat → Nat → ℚ :=
  fun i j => if (i = r ∧ j = c) ∨ (i = c ∧ j = r) then v else H i j

namespace AccCore

/-- The method `initialize()`. -/
def initialise (D : Nat) (s : AccState) : AccState :=
  { s with
    H := fun _ _ => 0
    b := fun _ => 0
    SSEData := memset0 s.SSEData (4 * triSize D)
    SSEData1k := memset0 s.SSEData1k (4 * triSize D)
    SSEData1m := memset0 s.SSEData1m (4 * triSize D)
    num := 0, numIn1 := 0, numIn1k := 0, numIn1m := 0 }

/-- The loop `for (i = 0; i < N; i++) _mm_store_ps(dst + 4*i, src[4i..] + dst[4i..])`. -/
def addInto (N : Nat) (src dst : Nat → ℚ) : Nat → ℚ :=
  (List.range N).foldl
    (fun d i => mm_store_ps d (4 * i) (mm_add_ps (mm_load_ps src (4 * i)) (mm_load_ps d (4 * i)))) dst

/-- `shiftUp(bool force)`. -/
def shiftUp (D : Nat) (force : Bool) (s : AccState) : AccState :=
  let s1 : AccState :=
    if s.numIn1 > 1000 ∨ force = true then
      { s with
        SSEData1k := addInto (triSize D) s.SSEData s.SSEData1k
        numIn1k := s.numIn1k + s.numIn1
        numIn1 := 0
        SSEData := memset0 s.SSEData (4 * triSize D) }
    else s
  if s1.numIn1k > 1000 ∨ force = true then
    { s1 with
      SSEData1m := addInto (triSize D) s1.SSEData1k s1.SSEData1m
      numIn1m := s1.numIn1m + s1.numIn1k
      numIn1k := 0
      SSEData1k := memset0 s1.SSEData1k (4 * triSize D) }
  else s1

/-- The unrolled body of an SSE update: for each listed operand pair, in
order, `_mm_store_ps(pt, _mm_load_ps(pt) + L_a * R_b); pt += 4`. -/
def accumulate (L R : Nat → M128) : List (Nat × Nat) → Nat → (Nat → ℚ) → (Nat → ℚ)
  | [], _, d => d
  | (a, b) :: ps, pt, d =>
    accumulate L R ps (pt + 4)
      (mm_store_ps d pt (mm_add_ps (mm_load_ps d pt) (mm_mul_ps (L a) (R b))))

/-- Tail of every SSE update: `num += 4; numIn1++; shiftUp(false);`. -/
def countSSE (D : Nat) (s : AccState) : AccState :=
  shiftUp D false { s with num := s.num + 4, numIn1 := s.numIn1 + 1 }

/-- An unweighted SSE update with the given unrolled operand table. -/
def updateSSE (D : Nat) (pairs : List (Nat × Nat)) (J : Nat → M128) (s : AccState) : AccState :=
  countSSE D { s with SSEData := accumulate J J pairs 0 s.SSEData }

/-- A weighted SSE update: the left operand of every product is `Jaw = J_a * w`. -/
def updateSSEWeighted (D : Nat) (pairs : List (Nat × Nat)) (J : Nat → M128) (w : M128)
    (s : AccState) : AccState :=
  countSSE D { s with SSEData := accumulate (fun a => mm_mul_ps (J a) w) J pairs 0 s.SSEData }

/-- One iteration of the read-out loop of `finish()`:
`d = SSEData1m[idx+0] + [idx+1] + [idx+2] + [idx+3]; H(r,c) = H(c,r) = d; idx += 4`. -/
def finishStep (m : Nat → ℚ) (st : (Nat → Nat → ℚ) × Nat) (rc : Nat × Nat) :
    (Nat → Nat → ℚ) × Nat :=
  let d := m (st.2 + 0) + m (st.2 + 1) + m (st.2 + 2) + m (st.2 + 3)
  (matSetSym st.1 rc.1 rc.2 d, st.2 + 4)

/-- `finish()` of `Accumulator9` and `Accumulator11`. -/
def finish (D : Nat) (s : AccState) : AccState :=
  let s1 := shiftUp D true { s with H := fun _ _ => 0 }
  { s1 with H := ((triangle D).foldl (finishStep s1.SSEData1m) (s1.H, 0)).1 }

end AccCore

/-- Operand pairs `(a, b)` of the 45 products `Ja * Jb` (resp. `Jaw * Jb`) in
`Accumulator9::updateSSE` and `Accumulator9::updateSSE_eighted`, in source order. -/
def Accumulator9.pairs : List (Nat × Nat) :=
  [(0,0),(0,1),(0,2),(0,3),(0,4),(0,5),(0,6),(0,7),(0,8),
   (1,1),(1,2),(1,3),(1,4),(1,5),(1,6),(1,7),(1,8),
   (2,2),(2,3),(2,4),(2,5),(2,6),(2,7),(2,8),
   (3,3),(3,4),(3,5),(3,6),(3,7),(3,8),
   (4,4),(4,5),(4,6),(4,7),(4,8),
   (5,5),(5,6),(5,7),(5,8),
   (6,6),(6,7),(6,8),
   (7,7),(7,8),
   (8,8)]

/-- Operand pairs of the 66 products in `Accumulator11::updateSSE` and
`Accumulator11::updateSSE_tened`, in source order. -/
def Accumulator11.pairs : List (Nat × Nat) :=
  [(0,0),(0,1),(0,2),(0,3),(0,4),(0,5),(0,6),(0,7),(0,8),(0,9),(0,10),
   (1,1),(1,2),(1,3),(1,4),(1,5),(1,6),(1,7),(1,8),(1,9),(1,10),
   (2,2),(2,3),(2,4),(2,5),(2,6),(2,7),(2,8),(2,9),(2,10),
   (3,3),(3,4),(3,5),(3,6),(3,7),(3,8),(3,9),(3,10),
   (4,4),(4,5),(4,6),(4,7),(4,8),(4,9),(4,10),
   (5,5),(5,6),(5,7),(5,8),(5,9),(5,10),
   (6,6),(6,7),(6,8),(6,9),(6,10),
   (7,7),(7,8),(7,9),(7,10),
   (8,8),(8,9),(8,10),
   (9,9),(9,10),
   (10,10)]

/-- Operand pairs of the 105 products in `Accumulator14::updateSSE`, in source order. -/
def Accumulator14.pairs : List (Nat × Nat) :=
  [(0,0),(0,1),(0,2),(0,3),(0,4),(0,5),(0,6),(0,7),(0,8),(0,9),(0,10),(0,11),(0,12),(0,13),
   (1,1),(1,2),(1,3),(1,4),(1,5),(1,6),(1,7),(1,8),(1,9),(1,10),(1,11),(1,12),(1,13),
   (2,2),(2,3),(2,4),(2,5),(2,6),(2,7),(2,8),(2,9),(2,10),(2,11),(2,12),(2,13),
   (3,3),(3,4),(3,5),(3,6),(3,7),(3,8),(3,9),(3,10),(3,11),(3,12),(3,13),
   (4,4),(4,5),(4,6),(4,7),(4,8),(4,9),(4,10),(4,11),(4,12),(4,13),
   (5,5),(5,6),(5,7),(5,8),(5,9),(5,10),(5,11),(5,12),(5,13),
   (6,6),(6,7),(6,8),(6,9),(6,10),(6,11),(6,12),(6,13),
   (7,7),(7,8),(7,9),(7,10),(7,11),(7,12),(7,13),
   (8,8),(8,9),(8,10),(8,11),(8,12),(8,13),
   (9,9),(9,10),(9,11),(9,12),(9,13),
   (10,10),(10,11),(10,12),(10,13),
   (11,11),(11,12),(11,13),
   (12,12),(12,13),
   (13,13)]

namespace Accumulator9

def initialise : AccState → AccState := AccCore.initialise 9
def shiftUp : Bool → AccState → AccState := AccCore.shiftUp 9
def finish : AccState → AccState := AccCore.finish 9
def updateSSE : (Nat → M128) → AccState → AccState := AccCore.updateSSE 9 pairs
def updateSSE_eighted : (Nat → M128) → M128 → AccState → AccState :=
  AccCore.updateSSEWeighted 9 pairs

/-- One SSE update call on an `Accumulator9`. -/
inductive Call where
  | updateSSE (J : Nat → M128)
  | updateSSE_eighted (J : Nat → M128) (w : M128)

/-- Run one call. -/
def Call.run : Call → AccState → AccState
  | .updateSSE J => Accumulator9.updateSSE J
  | .updateSSE_eighted J w => Accumulator9.updateSSE_eighted J w

end Accumulator9

namespace Accumulator11

def initialise : AccState → AccState := AccCore.initialise 11
def shiftUp : Bool → AccState → AccState := AccCore.shiftUp 11
def finish : AccState → AccState := AccCore.finish 11
def updateSSE : (Nat → M128) → AccState → AccState := AccCore.updateSSE 11 pairs
def updateSSE_tened : (Nat → M128) → M128 → AccState → AccState :=
  AccCore.updateSSEWeighted 11 pairs

/-- One SSE update call on an `Accumulator11`. -/
inductive Call where
  | updateSSE (J : Nat → M128)
  | updateSSE_tened (J : Nat → M128) (w : M128)

/-- Run one call. -/
def Call.run : Call → AccState → AccState
  | .updateSSE J => Accumulator11.updateSSE J
  | .updateSSE_tened J w => Accumulator11.updateSSE_tened J w

end Accumulator11

namespace Accumulator14

def initialise : AccState → AccState := AccCore.initialise 14
def shiftUp : Bool → AccState → AccState := AccCore.shiftUp 14
def updateSSE : (Nat → M128) → AccState → AccState := AccCore.updateSSE 14 pairs

/-- `Accumulator14::finish()`: as the others, then
`num = numIn1 + numIn1k + numIn1m`. -/
def finish (s : AccState) : AccState :=
  let s1 := AccCore.finish 14 s
  { s1 with num := s1.numIn1 + s1.numIn1k + s1.numIn1m }

end Accumulator14

/-- Weight and Jacobian lanes of one SSE call, the unweighted form having weight 1. -/
def Accumulator9.Call.wJ : Accumulator9.Call → M128 × (Nat → M128)
  | .updateSSE J => (mm_set1_ps 1, J)
  | .updateSSE_eighted J w => (w, J)

/-- Weight and Jacobian lanes of one SSE call, the unweighted form having weight 1. -/
def Accumulator11.Call.wJ : Accumulator11.Call → M128 × (Nat → M128)
  | .updateSSE J => (mm_set1_ps 1, J)
  | .updateSSE_tened J w => (w, J)

/-- The sum over all calls and all four lanes of `w * J_r * J_c`. -/
def outerSum (calls : List (M128 × (Nat → M128))) (r c : Nat) : ℚ :=
  (calls.map (fun wJ => ∑ l : Fin 4, wJ.1 l * wJ.2 r l * wJ.2 c l)).sum

/-! ## AccumulatorApprox (13 × 13) and AccumulatorApprox1515 (15 × 15)

Both keep a 10 × 10 upper triangle (`Data`, 55 of 60 floats used), a
10 × k top-right block and a k × k bottom-right triangle, k = 3 resp. 5. -/

/-- Data members of `AccumulatorApprox` and `AccumulatorApprox1515`. -/
structure ApproxState where
  H : Nat → Nat → ℚ
  num : Nat
  Data : Nat → ℚ
  Data1k : Nat → ℚ
  Data1m : Nat → ℚ
  TopRight_Data : Nat → ℚ
  TopRight_Data1k : Nat → ℚ
  TopRight_Data1m : Nat → ℚ
  BotRight_Data : Nat → ℚ
  BotRight_Data1k : Nat → ℚ
  BotRight_Data1m : Nat → ℚ
  numIn1 : Nat
  numIn1k : Nat
  numIn1m : Nat

namespace ApproxCore

/-- The method `initialize()`; `nTR`, `nBR` are the float counts of the
top-right and bottom-right buffers (32, 8 resp. 52, 16). -/
def initialise (nTR nBR : Nat) (s : ApproxState) : ApproxState :=
  { s with
    Data := memset0 s.Data 60
    Data1k := memset0 s.Data1k 60
    Data1m := memset0 s.Data1m 60
    TopRight_Data := memset0 s.TopRight_Data nTR
    TopRight_Data1k := memset0 s.TopRight_Data1k nTR
    TopRight_Data1m := memset0 s.TopRight_Data1m nTR
    BotRight_Data := memset0 s.BotRight_Data nBR
    BotRight_Data1k := memset0 s.BotRight_Data1k nBR
    BotRight_Data1m := memset0 s.BotRight_Data1m nBR
    num := 0, numIn1 := 0, numIn1k := 0, numIn1m := 0 }

/-- `shiftUp(bool force)`; the loops `for (i = 0; i < n; i += 4)` run `n / 4` times. -/
def shiftUp (nTR nBR : Nat) (force : Bool) (s : ApproxState) : ApproxState :=
  let s1 : ApproxState :=
    if s.numIn1 > 1000 ∨ force = true then
      { s with
        Data1k := AccCore.addInto (60 / 4) s.Data s.Data1k
        TopRight_Data1k := AccCore.addInto (nTR / 4) s.TopRight_Data s.TopRight_Data1k
        BotRight_Data1k := AccCore.addInto (nBR / 4) s.BotRight_Data s.BotRight_Data1k
        numIn1k := s.numIn1k + s.numIn1
        numIn1 := 0
        Data := memset0 s.Data 60
        TopRight_Data := memset0 s.TopRight_Data nTR
        BotRight_Data := memset0 s.BotRight_Data nBR }
    else s
  if s1.numIn1k > 1000 ∨ force = true then
    { s1 with
      Data1m := AccCore.addInto (60 / 4) s1.Data1k s1.Data1m
      TopRight_Data1m := AccCore.addInto (nTR / 4) s1.TopRight_Data1k s1.TopRight_Data1m
      BotRight_Data1m := AccCore.addInto (nBR / 4) s1.BotRight_Data1k s1.BotRight_Data1m
      numIn1m := s1.numIn1m + s1.numIn1k
      numIn1k := 0
      Data1k := memset0 s1.Data1k 60
      TopRight_Data1k := memset0 s1.TopRight_Data1k nTR
      BotRight_Data1k := memset0 s1.BotRight_Data1k nBR }
  else s1

/-- Body of the first read-out loop: `H(r, c) = H(c, r) = Data1m[idx]; idx++`. -/
def topLeftStep (m : Nat → ℚ) (st : (Nat → Nat → ℚ) × Nat) (rc : Nat × Nat) :
    (Nat → Nat → ℚ) × Nat :=
  (matSetSym st.1 rc.1 rc.2 (m st.2), st.2 + 1)

/-- Body of the second read-out loop:
`H(r, c + 10) = H(c + 10, r) = TopRight_Data1m[idx]; idx++`. -/
def topRightStep (m : Nat → ℚ) (st : (Nat → Nat → ℚ) × Nat) (rc : Nat × Nat) :
    (Nat → Nat → ℚ) × Nat :=
  (matSetSym st.1 rc.1 (rc.2 + 10) (m st.2), st.2 + 1)

/-- Index pairs visited by `for (r = 0; r < 10; r++) for (c = 0; c < k; c++)`. -/
def rect (k : Nat) : List (Nat × Nat) :=
  (List.range 10).flatMap (fun r => (List.range k).map (fun c => (r, c)))

/-- The two read-out loops shared by both `finish()` methods. -/
def finishLoops (k : Nat) (s : ApproxState) : Nat → Nat → ℚ :=
  let H1 := ((triangle 10).foldl (topLeftStep s.Data1m) (s.H, 0)).1
  ((rect k).foldl (topRightStep s.TopRight_Data1m) (H1, 0)).1

end ApproxCore

namespace AccumulatorApprox

def initialise : ApproxState → ApproxState := ApproxCore.initialise 32 8
def shiftUp : Bool → ApproxState → ApproxState := ApproxCore.shiftUp 32 8

/-- `AccumulatorApprox::finish()`. -/
def finish (s : ApproxState) : ApproxState :=
  let s1 := shiftUp true { s with H := fun _ _ => 0 }
  let H2 := ApproxCore.finishLoops 3 s1
  let m := s1.BotRight_Data1m
  let H3 := matSet H2 10 10 (m 0)
  let H4 := matSetSym H3 10 11 (m 1)
  let H5 := matSetSym H4 10 12 (m 2)
  let H6 := matSet H5 11 11 (m 3)
  let H7 := matSetSym H6 11 12 (m 4)
  let H8 := matSet H7 12 12 (m 5)
  { s1 with H := H8, num := s1.numIn1 + s1.numIn1k + s1.numIn1m }

end AccumulatorApprox

namespace AccumulatorApprox1515

def initialise : ApproxState → ApproxState := ApproxCore.initialise 52 16
def shiftUp : Bool → ApproxState → ApproxState := ApproxCore.shiftUp 52 16

/-- `AccumulatorApprox1515::finish()`. -/
def finish (s : ApproxState) : ApproxState :=
  let s1 := shiftUp true { s with H := fun _ _ => 0 }
  let H2 := ApproxCore.finishLoops 5 s1
  let m := s1.BotRight_Data1m
  let H3 := matSet H2 10 10 (m 0)
  let H4 := matSetSym H3 10 11 (m 1)
  let H5 := matSetSym H4 10 12 (m 2)
  let H6 := matSetSym H5 10 13 (m 3)
  let H7 := matSetSym H6 10 14 (m 4)
  let H8 := matSet H7 11 11 (m 5)
  let H9 := matSetSym H8 11 12 (m 6)
  let H10 := matSetSym H9 11 13 (m 7)
  let H11 := matSetSym H10 11 14 (m 8)
  let H12 := matSet H11 12 12 (m 9)
  let H13 := matSetSym H12 12 13 (m 10)
  let H14 := matSetSym H13 12 14 (m 11)
  let H15 := matSet H14 13 13 (m 12)
  let H16 := matSetSym H15 13 14 (m 13)
  let H17 := matSet H16 14 14 (m 14)
  { s1 with H := H17, num := s1.numIn1 + s1.numIn1k + s1.numIn1m }

end AccumulatorApprox1515

/-! ## Quantities used to state the accumulator results -/

/-- Total held at float slot `i` across the three cascade tiers. -/
def AccState.tot (s : AccState) (i : Nat) : ℚ := s.SSEData i + s.SSEData1k i + s.SSEData1m i

/-- What one unrolled SSE update with operand table `ps` adds to float slot `i`
(slot `4k + l` is lane `l` of the `k`-th product). -/
def slotTerm (L R : Nat → M128) (ps : List (Nat × Nat)) (i : Nat) : ℚ :=
  if i < 4 * ps.length then
    L (ps.getD (i / 4) (0, 0)).1 ⟨i % 4, Nat.mod_lt _ (by norm_num)⟩ *
      R (ps.getD (i / 4) (0, 0)).2 ⟨i % 4, Nat.mod_lt _ (by norm_num)⟩
  else 0

/-! ## Depth pyramid builder (`CoarseTracker::makeCoarseDepthL0`,
`CoarseTracker::makeCoarseDepthForFirstFrame`) -/

/-- A `float`/`double` value where the special values matter: a finite value
(exact, signed zeros not distinguished), `+inf`, `-inf` or NaN. -/
inductive IEEE where
  | fin (q : ℚ)
  | pinf
  | ninf
  | nan
  deriving DecidableEq

namespace IEEE

/-- `std::isfinite`. -/
def isfinite : IEEE → Bool
  | .fin _ => true
  | _ => false

/-- IEEE addition. -/
def add : IEEE → IEEE → IEEE
  | .fin a, .fin b => .fin (a + b)
  | .nan, _ => .nan
  | _, .nan => .nan
  | .pinf, .ninf => .nan
  | .ninf, .pinf => .nan
  | .pinf, _ => .pinf
  | _, .pinf => .pinf
  | .ninf, _ => .ninf
  | _, .ninf => .ninf

/-- IEEE division of a value by a finite divisor (`x / 0` is `±inf`, `0 / 0` is NaN). -/
def divQ : IEEE → ℚ → IEEE
  | .fin a, n =>
    if n ≠ 0 then .fin (a / n) else if a > 0 then .pinf else if a < 0 then .ninf else .nan
  | .pinf, n => if n < 0 then .ninf else .pinf
  | .ninf, n => if n < 0 then .pinf else .ninf
  | .nan, _ => .nan

/-- IEEE `<`: false as soon as one side is NaN. -/
def lt : IEEE → IEEE → Bool
  | .fin a, .fin b => decide (a < b)
  | .nan, _ => false
  | _, .nan => false
  | .ninf, .ninf => false
  | .ninf, _ => true
  | _, .ninf => false
  | .pinf, _ => false
  | _, .pinf => true

end IEEE

/-- Loop indices of `for (int i = lo; i < hi; i++)`. -/
def intRange (lo hi : Int) : List Int :=
  (List.range (hi - lo).toNat).map (fun (k : Nat) => lo + (k : Int))

/-- Pixels `(x, y)` in the order visited by
`for (y = y0; y < y1; y++) for (x = x0; x < x1; x++)`. -/
def pixelLoop (x0 x1 y0 y1 : Int) : List (Int × Int) :=
  (intRange y0 y1).flatMap (fun y => (intRange x0 x1).map (fun x => (x, y)))

/-- `a[i] = v` on a float array addressed by `int`. -/
def arrSet {β : Type} (a : Int → β) (i : Int) (v : β) : Int → β :=
  fun j => if j = i then v else a j

/-- `a[k] = v` on an array addressed by a non-negative counter. -/
def arrSetN {β : Type} (a : Nat → β) (k : Nat) (v : β) : Nat → β :=
  fun j => if j = k then v else a j

/-- `memset(a, 0, sizeof(float) * n)` on an `int`-addressed array. -/
def memsetZ (a : Int → ℚ) (n : Int) : Int → ℚ :=
  fun i => if 0 ≤ i ∧ i < n then 0 else a i

/-- `memcpy(dst, src, n * sizeof(float))`. -/
def memcpyZ (dst src : Int → ℚ) (n : Int) : Int → ℚ :=
  fun i => if 0 ≤ i ∧ i < n then src i else dst i

/-- The C conversion `(int) x` of a float: truncation toward zero. -/
def truncToInt (x : ℚ) : Int := if 0 ≤ x then ⌊x⌋ else ⌈x⌉

/-- The dense arrays of one pyramid level. -/
structure LevelArrays where
  idepth : Int → ℚ
  weightSums : Int → ℚ
  weightSums_bak : Int → ℚ

/-- The compacted point cloud of one pyramid level; `n` is `pc_n[lvl]`. -/
structure LevelPC where
  u : Nat → ℚ
  v : Nat → ℚ
  idepth : Nat → ℚ
  color : Nat → IEEE
  n : Nat

/-- The tracker members the depth builders read and write.  `w`, `h` are the
per-level image sizes set by `makeK`. -/
structure CoarseTracker where
  pyrLevelsUsed : Nat
  w : Nat → Int
  h : Nat → Int
  lvl : Nat → LevelArrays
  pc : Nat → LevelPC
  /-- First component of `lastRef->dIp[lvl][i]`. -/
  lastRef_dIp : Nat → Int → IEEE

/-- `ResState` of a point-frame residual. -/
inductive ResState where
  | IN
  | OOB
  | OUTLIER
  deriving DecidableEq

/-- The fields of a `PointFrameResidual` read by the level-0 splat. -/
structure PointFrameResidual where
  centerProjectedTo : Fin 3 → ℚ

/-- The fields of a `PointHessian` read by the level-0 splat;
`lastResiduals0` is `lastResiduals[0]` (`none` for a null `first`),
`HdiF` is `efPoint->HdiF`. -/
structure PointHessian where
  u : ℚ
  v : ℚ
  idepth : ℚ
  HdiF : ℚ
  lastResiduals0 : Option PointFrameResidual × ResState

/-- Replace the dense arrays of level `l`. -/
def CoarseTracker.setLvl (t : CoarseTracker) (l : Nat) (a : LevelArrays) : CoarseTracker :=
  { t with lvl := fun k => if k = l then a else t.lvl k }

/-- Replace the point cloud of level `l`. -/
def CoarseTracker.setPC (t : CoarseTracker) (l : Nat) (p : LevelPC) : CoarseTracker :=
  { t with pc := fun k => if k = l then p else t.pc k }

namespace CoarseTracker

/-- `idepth[0][u + w[0]*v] += new_idepth * weight; weightSums[0][u + w[0]*v] += weight`. -/
def splatPoint (w0 : Int) (a : LevelArrays) (u v : Int) (new_idepth weight : ℚ) : LevelArrays :=
  { a with
    idepth := arrSet a.idepth (u + w0 * v) (a.idepth (u + w0 * v) + new_idepth * weight)
    weightSums := arrSet a.weightSums (u + w0 * v) (a.weightSums (u + w0 * v) + weight) }

/-- The two `memset`s that open both builders. -/
def clearL0 (t : CoarseTracker) : CoarseTracker :=
  t.setLvl 0 { t.lvl 0 with
    idepth := memsetZ (t.lvl 0).idepth (t.w 0 * t.h 0)
    weightSums := memsetZ (t.lvl 0).weightSums (t.w 0 * t.h 0) }

/-- Level-0 splat of `makeCoarseDepthL0`; `sqrtf` is the C library function. -/
def splatL0 (sqrtf : ℚ → ℚ) (frameHessians : List (List PointHessian)) (t : CoarseTracker) :
    CoarseTracker :=
  frameHessians.foldl (fun t fh =>
    fh.foldl (fun t ph =>
      match ph.lastResiduals0 with
      | (some r, ResState.IN) =>
        let u := truncToInt (r.centerProjectedTo 0 + 1 / 2)
        let v := truncToInt (r.centerProjectedTo 1 + 1 / 2)
        let new_idepth := r.centerProjectedTo 2
        let weight := sqrtf (1 / 1000 / (ph.HdiF + 1 / 1000000000000))
        t.setLvl 0 (splatPoint (t.w 0) (t.lvl 0) u v new_idepth weight)
      | _ => t) t) (clearL0 t)

/-- Level-0 splat of `makeCoarseDepthForFirstFrame`. -/
def splatFirstFrame (sqrtf : ℚ → ℚ) (fh : List PointHessian) (t : CoarseTracker) :
    CoarseTracker :=
  fh.foldl (fun t ph =>
    let u := truncToInt (ph.u + 1 / 2)
    let v := truncToInt (ph.v + 1 / 2)
    let new_idepth := ph.idepth
    let weight := sqrtf (1 / 1000 / (ph.HdiF + 1 / 1000000000000))
    t.setLvl 0 (splatPoint (t.w 0) (t.lvl 0) u v new_idepth weight)) (clearL0 t)

/-- Body of the downsample loops at pixel `(x, y)` of level `lvl`:
`bidx = 2*x + 2*y*wlm1; a_l[x + y*wl] = a_lm[bidx] + a_lm[bidx+1] + a_lm[bidx+wlm1] + a_lm[bidx+wlm1+1]`. -/
def downsampleStep (wl wlm1 : Int) (lm : LevelArrays) (l : LevelArrays) (p : Int × Int) :
    LevelArrays :=
  let bidx := 2 * p.1 + 2 * p.2 * wlm1
  { l with
    idepth := arrSet l.idepth (p.1 + p.2 * wl)
      (lm.idepth bidx + lm.idepth (bidx + 1) + lm.idepth (bidx + wlm1) + lm.idepth (bidx + wlm1 + 1))
    weightSums := arrSet l.weightSums (p.1 + p.2 * wl)
      (lm.weightSums bidx + lm.weightSums (bidx + 1) + lm.weightSums (bidx + wlm1)
        + lm.weightSums (bidx + wlm1 + 1)) }

/-- One iteration of `for (lvl = 1; lvl < pyrLevelsUsed; lvl++)` of the downsample. -/
def downsampleLevel (t : CoarseTracker) (lvl : Nat) : CoarseTracker :=
  t.setLvl lvl
    ((pixelLoop 0 (t.w lvl) 0 (t.h lvl)).foldl
      (downsampleStep (t.w lvl) (t.w (lvl - 1)) (t.lvl (lvl - 1))) (t.lvl lvl))

/-- The downsample loop nest. -/
def downsample (t : CoarseTracker) : CoarseTracker :=
  (List.range' 1 (t.pyrLevelsUsed - 1)).foldl downsampleLevel t

/-- Index offsets of the four diagonal neighbours, in source order:
`i+1+wl, i-1-wl, i+wl-1, i-wl+1`. -/
def diagOffsets (wl : Int) : List Int := [1 + wl, -1 - wl, wl - 1, -wl + 1]

/-- Index offsets of the 4-neighbour cross, in source order: `i+1, i-1, i+wl, i-wl`. -/
def crossOffsets (wl : Int) : List Int := [1, -1, wl, -wl]

/-- One `if (weightSumsl_bak[n] > 0) { sum += idepthl[n]; num += weightSumsl_bak[n]; numn++; }`. -/
def gatherStep (idepthl bak : Int → ℚ) (i : Int) (acc : ℚ × ℚ × ℚ) (off : Int) : ℚ × ℚ × ℚ :=
  if bak (i + off) > 0 then
    (acc.1 + idepthl (i + off), acc.2.1 + bak (i + off), acc.2.2 + 1)
  else acc

/-- Body of the dilation loop at index `i`. -/
def dilateStep (offs : List Int) (a : LevelArrays) (i : Int) : LevelArrays :=
  if a.weightSums_bak i ≤ 0 then
    let acc := offs.foldl (gatherStep a.idepth a.weightSums_bak i) (0, 0, 0)
    if acc.2.2 > 0 then
      { a with
        idepth := arrSet a.idepth i (acc.1 / acc.2.2)
        weightSums := arrSet a.weightSums i (acc.2.1 / acc.2.2) }
    else a
  else a

/-- One dilation pass over a level: snapshot the weights with `memcpy`, then
`for (i = w; i < w*h - w; i++)`. -/
def dilatePass (offs : List Int) (w h : Int) (a : LevelArrays) : LevelArrays :=
  (intRange w (w * h - w)).foldl (dilateStep offs)
    { a with weightSums_bak := memcpyZ a.weightSums_bak a.weightSums (w * h) }

/-- Dilation of one level with the diagonal neighbourhood. -/
def dilateDiagLevel (t : CoarseTracker) (lvl : Nat) : CoarseTracker :=
  t.setLvl lvl (dilatePass (diagOffsets (t.w lvl)) (t.w lvl) (t.h lvl) (t.lvl lvl))

/-- Dilation of one level with the 4-neighbour cross. -/
def dilateCrossLevel (t : CoarseTracker) (lvl : Nat) : CoarseTracker :=
  t.setLvl lvl (dilatePass (crossOffsets (t.w lvl)) (t.w lvl) (t.h lvl) (t.lvl lvl))

/-- Body of the normalisation loop at pixel `(x, y)`. -/
def normalizeStep (wl : Int) (dIRefl : Int → IEEE) (st : LevelArrays × LevelPC) (p : Int × Int) :
    LevelArrays × LevelPC :=
  let a := st.1
  let pc := st.2
  let i := p.1 + p.2 * wl
  if a.weightSums i > 0 then
    let idepthl := arrSet a.idepth i (a.idepth i / a.weightSums i)
    let pc1 : LevelPC :=
      { pc with
        u := arrSetN pc.u pc.n p.1
        v := arrSetN pc.v pc.n p.2
        idepth := arrSetN pc.idepth pc.n (idepthl i)
        color := arrSetN pc.color pc.n (dIRefl i) }
    if (pc1.color pc1.n).isfinite = false ∨ ¬ (idepthl i > 0) then
      ({ a with idepth := arrSet idepthl i (-1) }, pc1)
    else
      ({ a with idepth := idepthl, weightSums := arrSet a.weightSums i 1 },
        { pc1 with n := pc1.n + 1 })
  else
    ({ a with idepth := arrSet a.idepth i (-1), weightSums := arrSet a.weightSums i 1 }, pc)

/-- One iteration of the level loop of the normalisation:
`lpc_n = 0; for (y = 2; y < hl-2; y++) for (x = 2; x < wl-2; x++) ...; pc_n[lvl] = lpc_n`. -/
def normalizeLevel (t : CoarseTracker) (lvl : Nat) : CoarseTracker :=
  let r := (pixelLoop 2 (t.w lvl - 2) 2 (t.h lvl - 2)).foldl
    (normalizeStep (t.w lvl) (t.lastRef_dIp lvl)) (t.lvl lvl, { t.pc lvl with n := 0 })
  (t.setLvl lvl r.1).setPC lvl r.2

/-- The normalisation and compaction loop nest. -/
def normalize (t : CoarseTracker) : CoarseTracker :=
  (List.range t.pyrLevelsUsed).foldl normalizeLevel t

/-- Everything `makeCoarseDepthL0` does after the level-0 splat. -/
def makeCoarseDepthL0_tail (t : CoarseTracker) : CoarseTracker :=
  let t1 := downsample t
  let t2 := (List.range' 0 2).foldl dilateDiagLevel t1
  let t3 := (List.range' 2 (t.pyrLevelsUsed - 2)).foldl dilateCrossLevel t2
  normalize t3

/-- `CoarseTracker::makeCoarseDepthL0`. -/
def makeCoarseDepthL0 (sqrtf : ℚ → ℚ) (frameHessians : List (List PointHessian))
    (t : CoarseTracker) : CoarseTracker :=
  makeCoarseDepthL0_tail (splatL0 sqrtf frameHessians t)

/-- Everything `makeCoarseDepthForFirstFrame` does after the level-0 splat.
Its second dilation loop (levels 2 and up) has the diagonal offsets. -/
def makeCoarseDepthForFirstFrame_tail (t : CoarseTracker) : CoarseTracker :=
  let t1 := downsample t
  let t2 := (List.range' 0 2).foldl dilateDiagLevel t1
  let t3 := (List.range' 2 (t.pyrLevelsUsed - 2)).foldl dilateDiagLevel t2
  normalize t3

/-- `CoarseTracker::makeCoarseDepthForFirstFrame`. -/
def makeCoarseDepthForFirstFrame (sqrtf : ℚ → ℚ) (fh : List PointHessian)
    (t : CoarseTracker) : CoarseTracker :=
  makeCoarseDepthForFirstFrame_tail (splatFirstFrame sqrtf fh t)

end CoarseTracker

/-! ## Warper / residual builder (`CoarseTracker::calcRes`, `CoarseTracker::calcResStereo`) -/

abbrev Vec3 := Fin 3 → ℚ
abbrev Mat33 := Fin 3 → Fin 3 → ℚ

/-- Matrix-vector product of `Mat33f` and `Vec3f`. -/
def Mat33.mulVec (M : Mat33) (v : Vec3) : Vec3 :=
  fun i => M i 0 * v 0 + M i 1 * v 1 + M i 2 * v 2

/-- Matrix product of two `Mat33f`. -/
def Mat33.mul (A B : Mat33) : Mat33 :=
  fun i j => A i 0 * B 0 j + A i 1 * B 1 j + A i 2 * B 2 j

/-- `Mat33f::Identity()`. -/
def Mat33.Identity : Mat33 := fun i j => if i = j then 1 else 0

/-- `Vec3f(x, y, z)`. -/
def Vec3f (x y z : ℚ) : Vec3 := fun i => if i = 0 then x else if i = 1 then y else z

/-- The accessors of `SE3` that the residual builders use. -/
structure SE3 where
  rotationMatrix : Mat33
  translation : Vec3

/-- Affine brightness parameters. -/
structure AffLight where
  a : ℚ
  b : ℚ

set_option genInjectivity true in
/-- The value returned by `calcRes` / `calcResStereo`:
`(E, numTermsInE, flowT, 0, flowRT, numSaturated / numTermsInE)`. -/
structure Vec6 where
  r0 : IEEE
  r1 : ℚ
  r2 : ℚ
  r3 : ℚ
  r4 : ℚ
  r5 : IEEE

/-- The warp buffers `buf_warped_*` and `buf_warped_n`.  The `_r` buffers exist in
`STEREO_MODE`, `dd` and `dd_r` in `STEREO_MODE && INERTIAL_MODE`. -/
structure WarpBuffers where
  idepth : Nat → ℚ
  u : Nat → ℚ
  v : Nat → ℚ
  dx : Nat → ℚ
  dy : Nat → ℚ
  residual : Nat → ℚ
  weight : Nat → ℚ
  refColor : Nat → ℚ
  idepth_r : Nat → ℚ
  dx_r : Nat → ℚ
  dy_r : Nat → ℚ
  residual_r : Nat → ℚ
  weight_r : Nat → ℚ
  dd : Nat → ℚ
  dd_r : Nat → ℚ
  n : Nat

/-- What the residual builders read.  The point cloud is the one left by the
depth builders, whose colours below `pc_n` are finite.  `interp lvl x y` is
`getInterpolatedElement33(newFrame->dIp[lvl], x, y, w[lvl])`, `interp_r` the
same on `newFrameRight`; `affLL aff` is
`AffLight::fromToVecExposure(lastRef->ab_exposure, newFrame->ab_exposure, lastRef_aff_g2l, aff)`,
`affLL_r` the same with `newFrameRight->ab_exposure`. -/
structure ResEnv where
  w : Nat → Int
  h : Nat → Int
  fx : Nat → ℚ
  fy : Nat → ℚ
  cx : Nat → ℚ
  cy : Nat → ℚ
  Ki : Nat → Mat33
  pc_n : Nat → Nat
  pc_u : Nat → Nat → ℚ
  pc_v : Nat → Nat → ℚ
  pc_idepth : Nat → Nat → ℚ
  pc_color : Nat → Nat → ℚ
  interp : Nat → ℚ → ℚ → IEEE × ℚ × ℚ
  interp_r : Nat → ℚ → ℚ → IEEE × ℚ × ℚ
  affLL : AffLight → ℚ × ℚ
  affLL_r : AffLight → ℚ × ℚ
  setting_huberTH : ℚ
  baseline : ℚ
  /-- Whether `INERTIAL_MODE` is defined (stereo builder only). -/
  inertial : Bool

/-- Local variables of the residual loops that survive an iteration. -/
structure ResAcc where
  E : IEEE
  numTermsInE : Nat
  numTermsInWarped : Nat
  numSaturated : Nat
  sumSquaredShiftT : ℚ
  sumSquaredShiftRT : ℚ
  sumSquaredShiftNum : ℚ
  buf : WarpBuffers

namespace ResEnv

/-- `Ku = fxl * (pt[0] / pt[2]) + cxl`. -/
def projU (e : ResEnv) (lvl : Nat) (pt : Vec3) : ℚ := e.fx lvl * (pt 0 / pt 2) + e.cx lvl

/-- `Kv = fyl * (pt[1] / pt[2]) + cyl`. -/
def projV (e : ResEnv) (lvl : Nat) (pt : Vec3) : ℚ := e.fy lvl * (pt 1 / pt 2) + e.cy lvl

/-- `RKi = refToNew.rotationMatrix() * Ki[lvl]`. -/
def RKi (e : ResEnv) (lvl : Nat) (refToNew : SE3) : Mat33 :=
  refToNew.rotationMatrix.mul (e.Ki lvl)

/-- `pt = RKi * Vec3f(x, y, 1) + t * id` for reference point `i`. -/
def pt (e : ResEnv) (lvl : Nat) (refToNew : SE3) (i : Nat) : Vec3 :=
  fun k => (e.RKi lvl refToNew).mulVec (Vec3f (e.pc_u lvl i) (e.pc_v lvl i) 1) k
    + refToNew.translation k * e.pc_idepth lvl i

/-- `u = pt[0] / pt[2]`. -/
def u (e : ResEnv) (lvl : Nat) (refToNew : SE3) (i : Nat) : ℚ :=
  e.pt lvl refToNew i 0 / e.pt lvl refToNew i 2

/-- `v = pt[1] / pt[2]`. -/
def v (e : ResEnv) (lvl : Nat) (refToNew : SE3) (i : Nat) : ℚ :=
  e.pt lvl refToNew i 1 / e.pt lvl refToNew i 2

/-- `Ku = fxl * u + cxl`. -/
def Ku (e : ResEnv) (lvl : Nat) (refToNew : SE3) (i : Nat) : ℚ :=
  e.fx lvl * e.u lvl refToNew i + e.cx lvl

/-- `Kv = fyl * v + cyl`. -/
def Kv (e : ResEnv) (lvl : Nat) (refToNew : SE3) (i : Nat) : ℚ :=
  e.fy lvl * e.v lvl refToNew i + e.cy lvl

/-- `new_idepth = id / pt[2]`. -/
def new_idepth (e : ResEnv) (lvl : Nat) (refToNew : SE3) (i : Nat) : ℚ :=
  e.pc_idepth lvl i / e.pt lvl refToNew i 2

/-- The test `Ku > 2 && Kv > 2 && Ku < wl - 3 && Kv < hl - 3 && new_idepth > 0`. -/
def inBounds (e : ResEnv) (lvl : Nat) (refToNew : SE3) (i : Nat) : Bool :=
  decide (e.Ku lvl refToNew i > 2 ∧ e.Kv lvl refToNew i > 2
    ∧ e.Ku lvl refToNew i < e.w lvl - 3 ∧ e.Kv lvl refToNew i < e.h lvl - 3
    ∧ e.new_idepth lvl refToNew i > 0)

/-- The block `if (lvl == 0 && i % 32 == 0) { ... }` that accumulates the flow indicators. -/
def flowStep (e : ResEnv) (lvl : Nat) (refToNew : SE3) (i : Nat) (acc : ResAcc) : ResAcc :=
  if lvl = 0 ∧ i % 32 = 0 then
    let id := e.pc_idepth lvl i
    let x := e.pc_u lvl i
    let y := e.pc_v lvl i
    let t := refToNew.translation
    let ptT : Vec3 := fun k => (e.Ki lvl).mulVec (Vec3f x y 1) k + t k * id
    let ptT2 : Vec3 := fun k => (e.Ki lvl).mulVec (Vec3f x y 1) k - t k * id
    let pt3 : Vec3 := fun k => (e.RKi lvl refToNew).mulVec (Vec3f x y 1) k - t k * id
    let Ku := e.Ku lvl refToNew i
    let Kv := e.Kv lvl refToNew i
    let KuT := e.projU lvl ptT
    let KvT := e.projV lvl ptT
    let KuT2 := e.projU lvl ptT2
    let KvT2 := e.projV lvl ptT2
    let Ku3 := e.projU lvl pt3
    let Kv3 := e.projV lvl pt3
    { acc with
      sumSquaredShiftT := acc.sumSquaredShiftT
        + ((KuT - x) * (KuT - x) + (KvT - y) * (KvT - y))
        + ((KuT2 - x) * (KuT2 - x) + (KvT2 - y) * (KvT2 - y))
      sumSquaredShiftRT := acc.sumSquaredShiftRT
        + ((Ku - x) * (Ku - x) + (Kv - y) * (Kv - y))
        + ((Ku3 - x) * (Ku3 - x) + (Kv3 - y) * (Kv3 - y))
      sumSquaredShiftNum := acc.sumSquaredShiftNum + 2 }
  else acc

/-- `fabs(residual) < setting_huberTH ? 1 : setting_huberTH / fabs(residual)`. -/
def huberWeight (e : ResEnv) (residual : ℚ) : ℚ :=
  if |residual| < e.setting_huberTH then 1 else e.setting_huberTH / |residual|

/-- `2 * setting_huberTH * cutoffTH - setting_huberTH * setting_huberTH`. -/
def maxEnergy (e : ResEnv) (cutoffTH : ℚ) : ℚ :=
  2 * e.setting_huberTH * cutoffTH - e.setting_huberTH * e.setting_huberTH

/-- The eight stores `buf_warped_*[k] = ...` of the left image. -/
def storeLeft (b : WarpBuffers) (k : Nat) (new_idepth u v dx dy residual hw refColor : ℚ) :
    WarpBuffers :=
  { b with
    idepth := arrSetN b.idepth k new_idepth
    u := arrSetN b.u k u
    v := arrSetN b.v k v
    dx := arrSetN b.dx k dx
    dy := arrSetN b.dy k dy
    residual := arrSetN b.residual k residual
    weight := arrSetN b.weight k hw
    refColor := arrSetN b.refColor k refColor }

/-- The stores `buf_warped_*_r[k] = ...` of the right image; `dd_r` is
`some` of the value stored in `buf_warped_dd_r` in `INERTIAL_MODE`. -/
def storeRight (b : WarpBuffers) (k : Nat) (idepth_r dx_r dy_r residual_r weight_r : ℚ)
    (dd_r : Option ℚ) : WarpBuffers :=
  { b with
    idepth_r := arrSetN b.idepth_r k idepth_r
    dx_r := arrSetN b.dx_r k dx_r
    dy_r := arrSetN b.dy_r k dy_r
    residual_r := arrSetN b.residual_r k residual_r
    weight_r := arrSetN b.weight_r k weight_r
    dd_r := match dd_r with
      | some x => arrSetN b.dd_r k x
      | none => b.dd_r }

/-- Body of the point loop of `calcRes` (mono). -/
def calcResStep (e : ResEnv) (lvl : Nat) (refToNew : SE3) (aff_g2l : AffLight) (cutoffTH : ℚ)
    (acc0 : ResAcc) (i : Nat) : ResAcc :=
  let affLL := e.affLL aff_g2l
  let acc := e.flowStep lvl refToNew i acc0
  if e.inBounds lvl refToNew i = false then acc
  else
    let refColor := e.pc_color lvl i
    let hitColor := e.interp lvl (e.Ku lvl refToNew i) (e.Kv lvl refToNew i)
    match hitColor.1 with
    | .fin hit0 =>
      let residual := hit0 - (affLL.1 * refColor + affLL.2)
      let hw := e.huberWeight residual
      if |residual| > cutoffTH then
        { acc with
          E := acc.E.add (.fin (e.maxEnergy cutoffTH))
          numTermsInE := acc.numTermsInE + 1
          numSaturated := acc.numSaturated + 1 }
      else
        { acc with
          E := acc.E.add (.fin (hw * residual * residual * (2 - hw)))
          numTermsInE := acc.numTermsInE + 1
          buf := storeLeft acc.buf acc.numTermsInWarped (e.new_idepth lvl refToNew i)
            (e.u lvl refToNew i) (e.v lvl refToNew i) hitColor.2.1 hitColor.2.2 residual hw
            (e.pc_color lvl i)
          numTermsInWarped := acc.numTermsInWarped + 1 }
    | _ => acc

/-- The padding loop shared by both residual builders,
`while (numTermsInWarped % 4 != 0) { <zero entry numTermsInWarped>; numTermsInWarped++; }`,
run with `fuel` as the bound on the number of iterations; `zeroEntry b k`
performs the stores `buf_warped_*[k] = 0` of the builder. -/
def padLoop (zeroEntry : WarpBuffers → Nat → WarpBuffers) : Nat → ResAcc → ResAcc
  | 0, acc => acc
  | fuel + 1, acc =>
    if acc.numTermsInWarped % 4 ≠ 0 then
      padLoop zeroEntry fuel
        { acc with
          buf := zeroEntry acc.buf acc.numTermsInWarped
          numTermsInWarped := acc.numTermsInWarped + 1 }
    else acc

/-- The eight zero stores in the padding loop of `calcRes`. -/
def zeroEntryMono (b : WarpBuffers) (k : Nat) : WarpBuffers := storeLeft b k 0 0 0 0 0 0 0 0

/-- The padding loop of `calcRes`. -/
def padMono : Nat → ResAcc → ResAcc := padLoop zeroEntryMono

/-- The initial values of the locals of `calcRes` / `calcResStereo`. -/
def initAcc (buf : WarpBuffers) : ResAcc :=
  { E := .fin 0, numTermsInE := 0, numTermsInWarped := 0, numSaturated := 0,
    sumSquaredShiftT := 0, sumSquaredShiftRT := 0, sumSquaredShiftNum := 0, buf := buf }

/-- The return value `rs` built from the locals. -/
def result (acc : ResAcc) : Vec6 :=
  { r0 := acc.E
    r1 := acc.numTermsInE
    r2 := acc.sumSquaredShiftT / (acc.sumSquaredShiftNum + 1 / 10)
    r3 := 0
    r4 := acc.sumSquaredShiftRT / (acc.sumSquaredShiftNum + 1 / 10)
    r5 := (IEEE.fin acc.numSaturated).divQ acc.numTermsInE }

/-- The locals of `calcRes` after the point loop. -/
def calcResLoop (e : ResEnv) (lvl : Nat) (refToNew : SE3) (aff_g2l : AffLight) (cutoffTH : ℚ)
    (buf : WarpBuffers) : ResAcc :=
  (List.range (e.pc_n lvl)).foldl (e.calcResStep lvl refToNew aff_g2l cutoffTH) (initAcc buf)

/-- `CoarseTracker::calcRes`: the returned vector and the warp buffers it leaves.
The padding loop needs at most three iterations. -/
def calcRes (e : ResEnv) (lvl : Nat) (refToNew : SE3) (aff_g2l : AffLight) (cutoffTH : ℚ)
    (buf : WarpBuffers) : Vec6 × WarpBuffers :=
  let acc := padMono 3 (e.calcResLoop lvl refToNew aff_g2l cutoffTH buf)
  (result acc, { acc.buf with n := acc.numTermsInWarped })

/-- `pt_r = RKi_s * Vec3f(Ku, Kv, 1) + t_s * new_idepth` with
`RKi_s = Identity * Ki[lvl]`, `t_s = (-baseline, 0, 0)`. -/
def pt_r (e : ResEnv) (lvl : Nat) (refToNew : SE3) (i : Nat) : Vec3 :=
  fun k => (Mat33.Identity.mul (e.Ki lvl)).mulVec
      (Vec3f (e.Ku lvl refToNew i) (e.Kv lvl refToNew i) 1) k
    + Vec3f (-e.baseline) 0 0 k * e.new_idepth lvl refToNew i

/-- `Ku_r = fxl * (pt_r[0] / pt_r[2]) + cxl`. -/
def Ku_r (e : ResEnv) (lvl : Nat) (refToNew : SE3) (i : Nat) : ℚ :=
  e.fx lvl * (e.pt_r lvl refToNew i 0 / e.pt_r lvl refToNew i 2) + e.cx lvl

/-- `Kv_r = fyl * (pt_r[1] / pt_r[2]) + cyl`. -/
def Kv_r (e : ResEnv) (lvl : Nat) (refToNew : SE3) (i : Nat) : ℚ :=
  e.fy lvl * (e.pt_r lvl refToNew i 1 / e.pt_r lvl refToNew i 2) + e.cy lvl

/-- `new_idepth_r = new_idepth / pt_r[2]`. -/
def new_idepth_r (e : ResEnv) (lvl : Nat) (refToNew : SE3) (i : Nat) : ℚ :=
  e.new_idepth lvl refToNew i / e.pt_r lvl refToNew i 2

/-- The right border test
`Ku_r > 2 && Kv_r > 2 && Ku_r < wl - 3 && Kv_r < hl - 3 && new_idepth_r > 0`. -/
def inBounds_r (e : ResEnv) (lvl : Nat) (refToNew : SE3) (i : Nat) : Bool :=
  decide (e.Ku_r lvl refToNew i > 2 ∧ e.Kv_r lvl refToNew i > 2
    ∧ e.Ku_r lvl refToNew i < e.w lvl - 3 ∧ e.Kv_r lvl refToNew i < e.h lvl - 3
    ∧ e.new_idepth_r lvl refToNew i > 0)

/-- The right-image test
`!isfinite(hitColor_r[0]) || hitColor_r[1] == 0 || hitColor_r[2] == 0`. -/
def rightSampleBad (hitColor_r : IEEE × ℚ × ℚ) : Bool :=
  !hitColor_r.1.isfinite || decide (hitColor_r.2.1 = 0) || decide (hitColor_r.2.2 = 0)

/-- Body of the point loop of `calcResStereo`. -/
def calcResStereoStep (e : ResEnv) (lvl : Nat) (refToNew : SE3) (aff_g2l aff_g2l_r : AffLight)
    (cutoffTH : ℚ) (acc0 : ResAcc) (i : Nat) : ResAcc :=
  let fxl := e.fx lvl
  let fyl := e.fy lvl
  let t := refToNew.translation
  let affLL := e.affLL aff_g2l
  let affLL_r := e.affLL_r aff_g2l_r
  let id := e.pc_idepth lvl i
  let u := e.u lvl refToNew i
  let v := e.v lvl refToNew i
  let new_idepth := e.new_idepth lvl refToNew i
  let acc := e.flowStep lvl refToNew i acc0
  if e.inBounds lvl refToNew i = false then acc
  else
    -- `rightValid` is assigned here from the right border test `inBounds_r`;
    -- that value is never read: both branches of the test below assign it again
    let refColor := e.pc_color lvl i
    let hitColor := e.interp lvl (e.Ku lvl refToNew i) (e.Kv lvl refToNew i)
    match hitColor.1 with
    | .fin hit0 =>
      if hitColor.2.1 = 0 ∨ hitColor.2.2 = 0 then acc
      else
        let residual := hit0 - (affLL.1 * refColor + affLL.2)
        let hw := e.huberWeight residual
        let hitColor_r := e.interp_r lvl (e.Ku_r lvl refToNew i) (e.Kv_r lvl refToNew i)
        let rightValid : Bool := if rightSampleBad hitColor_r = true then false else true
        if |residual| > cutoffTH then
          { acc with
            E := (acc.E.add (.fin (e.maxEnergy cutoffTH))).add (.fin (e.maxEnergy cutoffTH))
            numTermsInE := acc.numTermsInE + 1
            numSaturated := acc.numSaturated + 1 }
        else
          let k := acc.numTermsInWarped
          -- right residual; with a non-finite `hitColor_r[0]` it is ±inf or NaN,
          -- `hw_r` is 0 or NaN and the energy term `hw_r * r_r * r_r * (2 - hw_r)` is NaN
          let residual_r : Option ℚ :=
            match hitColor_r.1 with
            | .fin hit_r0 => some (hit_r0 - (affLL_r.1 * refColor + affLL_r.2))
            | _ => none
          let term_r : IEEE :=
            match residual_r with
            | some r => .fin (e.huberWeight r * r * r * (2 - e.huberWeight r))
            | none => .nan
          let pt2 := new_idepth / id
          let bufL0 := storeLeft acc.buf k new_idepth u v hitColor.2.1 hitColor.2.2 residual hw
            (e.pc_color lvl i)
          let bufL : WarpBuffers :=
            if e.inertial = true then
              { bufL0 with
                dd := arrSetN bufL0.dd k
                  (pt2 * (hitColor.2.1 * fxl * (t 0 - u * t 2)
                    + hitColor.2.2 * fyl * (t 1 - v * t 2))) }
            else bufL0
          let zeroR := storeRight bufL k 0 0 0 0 0 (if e.inertial = true then some 0 else none)
          let bufR : WarpBuffers :=
            match residual_r with
            | some r =>
              if rightValid = true ∧ |r| ≤ cutoffTH then
                let pt_r2 := e.new_idepth_r lvl refToNew i / new_idepth
                storeRight bufL k pt_r2 hitColor_r.2.1 hitColor_r.2.2 r (e.huberWeight r)
                  (if e.inertial = true then
                    some (pt_r2 * pt2 * (hitColor_r.2.1 * fxl * (t 0 - u * t 2)
                      + hitColor_r.2.2 * fyl * (t 1 - v * t 2)))
                  else none)
              else zeroR
            | none => zeroR
          { acc with
            E := (acc.E.add (.fin (hw * residual * residual * (2 - hw)))).add term_r
            numTermsInE := acc.numTermsInE + 1
            buf := bufR
            numTermsInWarped := k + 1 }
    | _ => acc

/-- The zero stores in the padding loop of `calcResStereo`: the eight left
buffers, the five `_r` buffers and, in `INERTIAL_MODE`, `dd` and `dd_r`. -/
def zeroEntryStereo (inertial : Bool) (b : WarpBuffers) (k : Nat) : WarpBuffers :=
  let b1 := storeLeft b k 0 0 0 0 0 0 0 0
  let b2 := storeRight b1 k 0 0 0 0 0 (if inertial = true then some 0 else none)
  if inertial = true then { b2 with dd := arrSetN b2.dd k 0 } else b2

/-- The padding loop of `calcResStereo`. -/
def padStereo (inertial : Bool) : Nat → ResAcc → ResAcc := padLoop (zeroEntryStereo inertial)

/-- The locals of `calcResStereo` after the point loop. -/
def calcResStereoLoop (e : ResEnv) (lvl : Nat) (refToNew : SE3) (aff_g2l aff_g2l_r : AffLight)
    (cutoffTH : ℚ) (buf : WarpBuffers) : ResAcc :=
  (List.range (e.pc_n lvl)).foldl (e.calcResStereoStep lvl refToNew aff_g2l aff_g2l_r cutoffTH)
    (initAcc buf)

/-- `CoarseTracker::calcResStereo`. -/
def calcResStereo (e : ResEnv) (lvl : Nat) (refToNew : SE3) (aff_g2l aff_g2l_r : AffLight)
    (cutoffTH : ℚ) (buf : WarpBuffers) : Vec6 × WarpBuffers :=
  let acc := padStereo e.inertial 3 (e.calcResStereoLoop lvl refToNew aff_g2l aff_g2l_r cutoffTH buf)
  (result acc, { acc.buf with n := acc.numTermsInWarped })

end ResEnv

/-! ## Inner Levenberg-Marquardt loop of `trackNewestCoarse` / `trackNewestCoarseStereo`

The two functions run the same loop; they differ in the affine parameters
carried (`aff_g2l`, resp. `aff_g2l` and `aff_g2l_r`), in the size of `H`, `b`
(8, resp. 10) and in the residual and Hessian kernels they call.  The loop is
therefore written once over a pose type `P`, an affine-parameter type `A`
and a type `M` for the pair `(H, b)`. -/

/-- The kernels called inside the loop at a fixed level and cutoff.
* `calcRes p a buf` is `calcRes(lvl, p, a, setting_coarseCutoffTH * levelCutoffRepeat)`
  (resp. `calcResStereo`): the returned `Vec6` and the warp buffers it leaves;
* `calcGSSSE p a buf` is the pair `(H, b)` computed by `calcGSSSE` (resp.
  `calcGSSSEStereo`) from the warp buffers;
* `candidate Hb lambda p a` is `(refToNew_new, aff_g2l_new)`: the damped solve
  `Hl.ldlt().solve(-b)` with its affine-fix branches, the extrapolation, the
  scaling, the non-finite guard, `SE3::exp(..) * refToNew_current` and the
  affine update;
* `incNormLarge Hb lambda` is `inc.norm() > 1e-3` for that same increment. -/
structure LMKernel (P A M : Type) where
  calcRes : P → A → WarpBuffers → Vec6 × WarpBuffers
  calcGSSSE : P → A → WarpBuffers → M
  candidate : M → ℚ → P → A → P × A
  incNormLarge : M → ℚ → Bool

/-- The variables the loop carries from one iteration to the next. -/
structure LMState (P A M : Type) where
  refToNew_current : P
  aff_current : A
  resOld : Vec6
  Hb : M
  lambda : ℚ
  buf : WarpBuffers

/-- `lambdaExtrapolationLimit = 0.001`. -/
def lambdaExtrapolationLimit : ℚ := 1 / 1000

/-- `resX[0] / resX[1]`, the mean energy as the code computes it (in `double`). -/
def Vec6.meanEnergy (r : Vec6) : IEEE := r.r0.divQ r.r1

namespace LMKernel

variable {P A M : Type}

/-- `bool accept = (resNew[0] / resNew[1]) < (resOld[0] / resOld[1])`. -/
def accept (resNew resOld : Vec6) : Bool := resNew.meanEnergy.lt resOld.meanEnergy

/-- One iteration of `for (iteration = 0; iteration < maxIterations[lvl]; iteration++)`.
The second component is `false` when the iteration ends in `break`. -/
def lmIteration (K : LMKernel P A M) (s : LMState P A M) : LMState P A M × Bool :=
  let cand := K.candidate s.Hb s.lambda s.refToNew_current s.aff_current
  let rn := K.calcRes cand.1 cand.2 s.buf
  let resNew := rn.1
  let s1 : LMState P A M :=
    if accept resNew s.resOld = true then
      { refToNew_current := cand.1
        aff_current := cand.2
        resOld := resNew
        Hb := K.calcGSSSE cand.1 cand.2 rn.2
        lambda := s.lambda * (1 / 2)
        buf := rn.2 }
    else
      { s with
        lambda := if s.lambda * 4 < lambdaExtrapolationLimit then lambdaExtrapolationLimit
                  else s.lambda * 4
        buf := rn.2 }
  (s1, K.incNormLarge s.Hb s.lambda)

/-- The inner loop, `maxIterations` being `maxIterations[lvl]`. -/
def lmLoop (K : LMKernel P A M) : (maxIterations : Nat) → LMState P A M → LMState P A M
  | 0, s => s
  | n + 1, s =>
    let r := K.lmIteration s
    if r.2 = true then lmLoop K n r.1 else r.1

end LMKernel

/-! ## Quantities used to state the residual-builder results -/

namespace ResEnv

/-- The residual of reference point `i` in `calcRes`, when the point passes
the border test, the inverse-depth test and the finiteness test; `none` when
one of them discards it. -/
def pointResidual (e : ResEnv) (lvl : Nat) (refToNew : SE3) (aff_g2l : AffLight) (i : Nat) :
    Option ℚ :=
  if e.inBounds lvl refToNew i = false then none
  else
    match (e.interp lvl (e.Ku lvl refToNew i) (e.Kv lvl refToNew i)).1 with
    | .fin hit0 => some (hit0 - ((e.affLL aff_g2l).1 * e.pc_color lvl i + (e.affLL aff_g2l).2))
    | _ => none

/-- The eight mono warp buffers agree at index `j`. -/
def sameMonoAt (b1 b2 : WarpBuffers) (j : Nat) : Prop :=
  b1.idepth j = b2.idepth j ∧ b1.u j = b2.u j ∧ b1.v j = b2.v j ∧ b1.dx j = b2.dx j
  ∧ b1.dy j = b2.dy j ∧ b1.residual j = b2.residual j ∧ b1.weight j = b2.weight j
  ∧ b1.refColor j = b2.refColor j

/-- The eight mono warp buffers are zero at index `j`. -/
def zeroMonoAt (b : WarpBuffers) (j : Nat) : Prop :=
  b.idepth j = 0 ∧ b.u j = 0 ∧ b.v j = 0 ∧ b.dx j = 0 ∧ b.dy j = 0 ∧ b.residual j = 0
  ∧ b.weight j = 0 ∧ b.refColor j = 0

/-- The five right-image warp buffers are zero at index `j`. -/
def zeroRightAt (b : WarpBuffers) (j : Nat) : Prop :=
  b.idepth_r j = 0 ∧ b.dx_r j = 0 ∧ b.dy_r j = 0 ∧ b.residual_r j = 0 ∧ b.weight_r j = 0

/-- The two inertial-stereo warp buffers are zero at index `j`. -/
def zeroInertialAt (b : WarpBuffers) (j : Nat) : Prop :=
  b.dd j = 0 ∧ b.dd_r j = 0

end ResEnv

namespace ResEnv

/-- Loop invariant of the point loops: every counted term is saturated or
stored, at most one entry is stored per point, and an entry is stored only in
an image more than 5 pixels wide and high. -/
def ResInv (e : ResEnv) (lvl : Nat) (acc : ResAcc) (i : Nat) : Prop :=
  acc.numTermsInE = acc.numSaturated + acc.numTermsInWarped
  ∧ acc.numTermsInWarped ≤ i
  ∧ (0 < acc.numTermsInWarped → 5 < e.w lvl ∧ 5 < e.h lvl)

/-- Every warp buffer that exists in the stereo build is zero at index `j`. -/
def zeroStereoAt (inertial : Bool) (b : WarpBuffers) (j : Nat) : Prop :=
  zeroMonoAt b j ∧ zeroRightAt b j ∧ (inertial = true → zeroInertialAt b j)

end ResEnv

/-! ## Concrete inputs used by the witnesses -/

/-- A state whose buffers hold arbitrary left-over values. -/
def AccState.junk : AccState :=
  { H := fun _ _ => 7, b := fun _ => 7, num := 7, SSEData := fun _ => 7, SSEData1k := fun _ => 7,
    SSEData1m := fun _ => 7, numIn1 := 7, numIn1k := 7, numIn1m := 7 }

/-- A small residual-builder input: a 10 × 10 level, identity intrinsics,
three reference points on the diagonal, the middle one with a colour far from
the image. -/
def ResEnv.sample : ResEnv :=
  { w := fun _ => 10, h := fun _ => 10
    fx := fun _ => 1, fy := fun _ => 1, cx := fun _ => 0, cy := fun _ => 0
    Ki := fun _ => Mat33.Identity
    pc_n := fun _ => 3
    pc_u := fun _ k => 3 + k, pc_v := fun _ k => 3 + k
    pc_idepth := fun _ _ => 1
    pc_color := fun _ k => if k = 1 then 100 else 0
    interp := fun _ x y => (IEEE.fin (x + y), 1, 1)
    interp_r := fun _ x y => (IEEE.fin (x + y), 1, 1)
    affLL := fun _ => (1, 0)
    affLL_r := fun _ => (1, 0)
    setting_huberTH := 9
    baseline := 0
    inertial := true }

/-- The identity pose. -/
def SE3.identity : SE3 := { rotationMatrix := Mat33.Identity, translation := fun _ => 0 }

/-- Warp buffers holding left-over values. -/
def WarpBuffers.junk : WarpBuffers :=
  { idepth := fun _ => 7, u := fun _ => 7, v := fun _ => 7, dx := fun _ => 7, dy := fun _ => 7,
    residual := fun _ => 7, weight := fun _ => 7, refColor := fun _ => 7, idepth_r := fun _ => 7,
    dx_r := fun _ => 7, dy_r := fun _ => 7, residual_r := fun _ => 7, weight_r := fun _ => 7,
    dd := fun _ => 7, dd_r := fun _ => 7, n := 7 }

/-- A three-level pyramid over a 20 × 20 image after the level-0 splat of a
single point at pixel `(8, 4)` with inverse depth `1/2` and weight `1`; the
reference image is constant. -/
def CoarseTracker.onePoint20 : CoarseTracker :=
  { pyrLevelsUsed := 3
    w := fun l => 20 >>> l
    h := fun l => 20 >>> l
    lvl := fun l =>
      if l = 0 then
        { idepth := fun i => if i = 8 + 4 * 20 then 1 / 2 else 0
          weightSums := fun i => if i = 8 + 4 * 20 then 1 else 0
          weightSums_bak := fun _ => 0 }
      else { idepth := fun _ => 0, weightSums := fun _ => 0, weightSums_bak := fun _ => 0 }
    pc := fun _ =>
      { u := fun _ => 0, v := fun _ => 0, idepth := fun _ => 0, color := fun _ => .fin 0, n := 0 }
    lastRef_dIp := fun _ _ => .fin 1 }

/-- Level arrays of a `w`-wide level holding a single valid pixel `(1, 2)` with
inverse depth `1/2` and weight `1`; the float in front of the first element of
`weightSums_bak` holds `1` and the float in front of the first element of
`idepth` holds `9` (both buffers are never written outside the level's `w * h`
elements). -/
def LevelArrays.nearCorner (w : Int) : LevelArrays :=
  { idepth := fun i => if i = 1 + 2 * w then 1 / 2 else if i = -1 then 9 else 0
    weightSums := fun i => if i = 1 + 2 * w then 1 else 0
    weightSums_bak := fun i => if i = -1 then 1 else 0 }


/-! ## Quantities used to state the depth-pyramid results -/

namespace CoarseTracker

/-- The `(sum, num, numn)` gathered at index `i` from the arrays `idepthl`, `bak`. -/
def gather (offs : List Int) (idepthl bak : Int → ℚ) (i : Int) : ℚ × ℚ × ℚ :=
  offs.foldl (gatherStep idepthl bak i) (0, 0, 0)

/-- The dilation pass written out of place: every output value is computed from
the arrays as they were before the pass (`a.idepth`, and the snapshot of
`a.weightSums`), nothing written is ever read. -/
def dilateOutOfPlace (offs : List Int) (w h : Int) (a : LevelArrays) : LevelArrays :=
  let bak := memcpyZ a.weightSums_bak a.weightSums (w * h)
  { idepth := fun i =>
      if w ≤ i ∧ i < w * h - w ∧ bak i ≤ 0 ∧ (gather offs a.idepth bak i).2.2 > 0 then
        (gather offs a.idepth bak i).1 / (gather offs a.idepth bak i).2.2
      else a.idepth i
    weightSums := fun i =>
      if w ≤ i ∧ i < w * h - w ∧ bak i ≤ 0 ∧ (gather offs a.idepth bak i).2.2 > 0 then
        (gather offs a.idepth bak i).2.1 / (gather offs a.idepth bak i).2.2
      else a.weightSums i
    weightSums_bak := bak }

end CoarseTracker

namespace CoarseTracker

/-- Level `l` holds the 2 × 2 block sums of level `l - 1`: for every pixel
`(x, y)` of level `l`, `idepth` and `weightSums` at `x + y * w_l` are the sums of
the level-`(l-1)` values at `(2x,2y)`, `(2x+1,2y)`, `(2x,2y+1)`, `(2x+1,2y+1)`. -/
def DownsampledAt (t : CoarseTracker) (l : Nat) : Prop :=
  ∀ x y : Int, 0 ≤ x → x < t.w l → 0 ≤ y → y < t.h l →
    (t.lvl l).idepth (x + y * t.w l)
      = (t.lvl (l - 1)).idepth (2 * x + 2 * y * t.w (l - 1))
        + (t.lvl (l - 1)).idepth (2 * x + 1 + 2 * y * t.w (l - 1))
        + (t.lvl (l - 1)).idepth (2 * x + (2 * y + 1) * t.w (l - 1))
        + (t.lvl (l - 1)).idepth (2 * x + 1 + (2 * y + 1) * t.w (l - 1))
    ∧ (t.lvl l).weightSums (x + y * t.w l)
      = (t.lvl (l - 1)).weightSums (2 * x + 2 * y * t.w (l - 1))
        + (t.lvl (l - 1)).weightSums (2 * x + 1 + 2 * y * t.w (l - 1))
        + (t.lvl (l - 1)).weightSums (2 * x + (2 * y + 1) * t.w (l - 1))
        + (t.lvl (l - 1)).weightSums (2 * x + 1 + (2 * y + 1) * t.w (l - 1))

/-- Entry `k` of a level's point cloud is well formed: positive inverse depth,
finite colour, integer pixel coordinates inside the 2-pixel border, and its
inverse depth is the dense value at that pixel. -/
def PCEntryOK (wl hl : Int) (a : LevelArrays) (pc : LevelPC) (k : Nat) : Prop :=
  pc.idepth k > 0 ∧ (pc.color k).isfinite = true
  ∧ ∃ x y : Int, pc.u k = (x : ℚ) ∧ pc.v k = (y : ℚ) ∧ 2 ≤ x ∧ x < wl - 2 ∧ 2 ≤ y ∧ y < hl - 2
    ∧ pc.idepth k = a.idepth (x + y * wl)

/-- The point cloud of one level is well formed, in strictly increasing
row-major pixel order, and no longer than the number of interior pixels. -/
def PCLevelOK (wl hl : Int) (a : LevelArrays) (pc : LevelPC) : Prop :=
  (∀ k, k < pc.n → PCEntryOK wl hl a pc k)
  ∧ (∀ k k', k < k' → k' < pc.n → pc.u k + pc.v k * (wl : ℚ) < pc.u k' + pc.v k' * (wl : ℚ))
  ∧ (pc.n : Int) ≤ max (wl - 4) 0 * max (hl - 4) 0

/-- The point clouds of all used pyramid levels are well formed. -/
def PCInvariant (t : CoarseTracker) : Prop :=
  ∀ L, L < t.pyrLevelsUsed → PCLevelOK (t.w L) (t.h L) (t.lvl L) (t.pc L)

/-- Ghost invariant of the normalisation loop: the kept pixels `G`, in order,
are a sublist of the pixels visited so far, and entry `k` of the point cloud
was written from `G[k]`. -/
def NormInv (wl : Int) (P : List (Int × Int)) (st : LevelArrays × LevelPC) : Prop :=
  ∃ G : List (Int × Int), G.Sublist P ∧ G.length = st.2.n
    ∧ ∀ k g, G[k]? = some g →
        st.2.u k = (g.1 : ℚ) ∧ st.2.v k = (g.2 : ℚ) ∧ st.2.idepth k > 0
        ∧ (st.2.color k).isfinite = true ∧ st.2.idepth k = st.1.idepth (g.1 + g.2 * wl)

end CoarseTracker

namespace CoarseTracker

/-- Indices of the listed neighbour pixels whose weight in `a` is positive. -/
def validNeighbours (nb : List (Int × Int)) (w : Int) (a : LevelArrays) : List Int :=
  (nb.map (fun p => p.1 + p.2 * w)).filter (fun j => decide (a.weightSums j > 0))

/-- Pixel `(x, y)` of `r` is untouched when none of the listed neighbours is
valid in `a`, and otherwise holds the arithmetic mean of the valid neighbours'
`idepth` values and the arithmetic mean of their weights. -/
def MeanOfNeighbours (nb : List (Int × Int)) (w : Int) (a r : LevelArrays) (x y : Int) : Prop :=
  (validNeighbours nb w a = [] →
    r.idepth (x + y * w) = a.idepth (x + y * w)
    ∧ r.weightSums (x + y * w) = a.weightSums (x + y * w))
  ∧ (validNeighbours nb w a ≠ [] →
    r.idepth (x + y * w)
      = ((validNeighbours nb w a).map a.idepth).sum / ((validNeighbours nb w a).length : ℚ)
    ∧ r.weightSums (x + y * w)
      = ((validNeighbours nb w a).map a.weightSums).sum / ((validNeighbours nb w a).length : ℚ))

/-- The four diagonal neighbours of `(x, y)`, in the order the code visits them. -/
def diagNeighbours (x y : Int) : List (Int × Int) :=
  [(x + 1, y + 1), (x - 1, y - 1), (x - 1, y + 1), (x + 1, y - 1)]

/-- The 4-neighbour cross of `(x, y)`, in the order the code visits it. -/
def crossNeighbours (x y : Int) : List (Int × Int) :=
  [(x + 1, y), (x - 1, y), (x, y + 1), (x, y - 1)]

end CoarseTracker


/-! ## Single-lane updates of `Accumulator9` / `Accumulator11` / `Accumulator14`

The bodies are unrolled straight-line code over a running pointer `pt`; each
is embedded as the list of its statements, in source order. -/

/-- One statement of an unrolled single-lane update body. -/
inductive SingleStmt where
  /-- The pair `*pt += Ja * Jb; pt += 4;`. -/
  | addAdv (a b : Nat)
  /-- The pair `*pt += Ja * Jb * w; pt += 4;`. -/
  | addwAdv (a b : Nat)
  /-- A `*pt += Ja * Jb;` that is not followed by `pt += 4;`. -/
  | add (a b : Nat)
  /-- The in-place scaling `Ja *= w;` of an argument. -/
  | scale (a : Nat)

/-- The locals of a single-lane update: the (mutable) arguments `J0, J1, ...`,
the offset of `pt` from `SSEData`, and the buffer `SSEData`. -/
structure SingleRun where
  J : Nat → ℚ
  pt : Nat
  d : Nat → ℚ

/-- Execute one statement. -/
def SingleStmt.exec (w : ℚ) (s : SingleRun) : SingleStmt → SingleRun
  | .addAdv a b => { s with d := arrSetN s.d s.pt (s.d s.pt + s.J a * s.J b), pt := s.pt + 4 }
  | .addwAdv a b => { s with d := arrSetN s.d s.pt (s.d s.pt + s.J a * s.J b * w), pt := s.pt + 4 }
  | .add a b => { s with d := arrSetN s.d s.pt (s.d s.pt + s.J a * s.J b) }
  | .scale a => { s with J := arrSetN s.J a (s.J a * w) }

namespace AccCore

/-- Tail of every single-lane update: `num++; numIn1++; shiftUp(false);`. -/
def countSingle (D : Nat) (s : AccState) : AccState :=
  shiftUp D false { s with num := s.num + 1, numIn1 := s.numIn1 + 1 }

/-- A single-lane update with the given statement list: `float *pt = SSEData + off;`,
the statements, then the counters. -/
def updateSingleBody (D : Nat) (stmts : List SingleStmt) (J : Nat → ℚ) (w : ℚ) (off : Nat)
    (s : AccState) : AccState :=
  countSingle D
    { s with SSEData := (stmts.foldl (SingleStmt.exec w) { J := J, pt := off, d := s.SSEData }).d }

end AccCore

open SingleStmt in
/-- Statements of `Accumulator9::updateSingle`, in source order. -/
def Accumulator9.updateSingle_stmts : List SingleStmt :=
  [addAdv 0 0, addAdv 1 0, addAdv 2 0, addAdv 3 0, addAdv 4 0, addAdv 5 0,
   addAdv 6 0, addAdv 7 0, addAdv 8 0, addAdv 1 1, addAdv 2 1, addAdv 3 1,
   addAdv 4 1, addAdv 5 1, addAdv 6 1, addAdv 7 1, addAdv 8 1, addAdv 2 2,
   addAdv 3 2, addAdv 4 2, addAdv 5 2, addAdv 6 2, addAdv 7 2, addAdv 8 2,
   addAdv 3 3, addAdv 4 3, addAdv 5 3, addAdv 6 3, addAdv 7 3, addAdv 8 3,
   addAdv 4 4, addAdv 5 4, addAdv 6 4, addAdv 7 4, addAdv 8 4, addAdv 5 5,
   addAdv 6 5, addAdv 7 5, addAdv 8 5, addAdv 6 6, addAdv 7 6, addAdv 8 6,
   addAdv 7 7, addAdv 8 7, addAdv 8 8]

open SingleStmt in
/-- Statements of `Accumulator9::updateSingleWeighted`, in source order. -/
def Accumulator9.updateSingleWeighted_stmts : List SingleStmt :=
  [addwAdv 0 0, scale 0, addAdv 1 0, addAdv 2 0, addAdv 3 0, addAdv 4 0,
   addAdv 5 0, addAdv 6 0, addAdv 7 0, addAdv 8 0, addwAdv 1 1, scale 1,
   addAdv 2 1, addAdv 3 1, addAdv 4 1, addAdv 5 1, addAdv 6 1, addAdv 7 1,
   addAdv 8 1, addwAdv 2 2, scale 2, addAdv 3 2, addAdv 4 2, addAdv 5 2,
   addAdv 6 2, addAdv 7 2, addAdv 8 2, addwAdv 3 3, scale 3, addAdv 4 3,
   addAdv 5 3, addAdv 6 3, addAdv 7 3, addAdv 8 3, addwAdv 4 4, scale 4,
   addAdv 5 4, addAdv 6 4, addAdv 7 4, addAdv 8 4, addwAdv 5 5, scale 5,
   addAdv 6 5, addAdv 7 5, addAdv 8 5, addwAdv 6 6, scale 6, addAdv 7 6,
   addAdv 8 6, addwAdv 7 7, scale 7, addAdv 8 7, addwAdv 8 8]

open SingleStmt in
/-- Statements of `Accumulator11::updateSingle`, in source order. -/
def Accumulator11.updateSingle_stmts : List SingleStmt :=
  [addAdv 0 0, addAdv 1 0, addAdv 2 0, addAdv 3 0, addAdv 4 0, addAdv 5 0,
   addAdv 6 0, addAdv 7 0, addAdv 8 0, addAdv 9 0, addAdv 10 0, addAdv 1 1,
   addAdv 2 1, addAdv 3 1, addAdv 4 1, addAdv 5 1, addAdv 6 1, addAdv 7 1,
   addAdv 8 1, addAdv 9 1, addAdv 10 1, addAdv 2 2, addAdv 3 2, addAdv 4 2,
   addAdv 5 2, addAdv 6 2, addAdv 7 2, addAdv 8 2, addAdv 9 2, addAdv 10 2,
   addAdv 3 3, addAdv 4 3, addAdv 5 3, addAdv 6 3, addAdv 7 3, addAdv 8 3,
   addAdv 9 3, addAdv 10 3, addAdv 4 4, addAdv 5 4, addAdv 6 4, addAdv 7 4,
   addAdv 8 4, addAdv 9 4, addAdv 10 4, addAdv 5 5, addAdv 6 5, addAdv 7 5,
   addAdv 8 5, addAdv 9 5, addAdv 10 5, addAdv 6 6, addAdv 7 6, addAdv 8 6,
   addAdv 9 6, addAdv 10 6, addAdv 7 7, addAdv 8 7, addAdv 9 7, addAdv 10 7,
   addAdv 8 8, addAdv 9 8, addAdv 10 8, addAdv 9 9, addAdv 10 9, addAdv 10 10]

open SingleStmt in
/-- Statements of `Accumulator11::updateSingleWeighted`, in source order. -/
def Accumulator11.updateSingleWeighted_stmts : List SingleStmt :=
  [addwAdv 0 0, scale 0, addAdv 1 0, addAdv 2 0, addAdv 3 0, addAdv 4 0,
   addAdv 5 0, addAdv 6 0, addAdv 7 0, addAdv 8 0, addAdv 9 0, addAdv 10 0,
   addwAdv 1 1, scale 1, addAdv 2 1, addAdv 3 1, addAdv 4 1, addAdv 5 1,
   addAdv 6 1, addAdv 7 1, addAdv 8 1, addAdv 9 1, addAdv 10 1, addwAdv 2 2,
   scale 2, addAdv 3 2, addAdv 4 2, addAdv 5 2, addAdv 6 2, addAdv 7 2,
   addAdv 8 2, addAdv 9 2, addAdv 10 2, addwAdv 3 3, scale 3, addAdv 4 3,
   addAdv 5 3, addAdv 6 3, addAdv 7 3, addAdv 8 3, addAdv 9 3, addAdv 10 3,
   addwAdv 4 4, scale 4, addAdv 5 4, addAdv 6 4, addAdv 7 4, addAdv 8 4,
   addAdv 9 4, addAdv 10 4, addwAdv 5 5, scale 5, addAdv 6 5, addAdv 7 5,
   addAdv 8 5, addAdv 9 5, addAdv 10 5, addwAdv 6 6, scale 6, addAdv 7 6,
   addAdv 8 6, addAdv 9 6, addAdv 10 6, addwAdv 7 7, scale 7, addAdv 8 7,
   addAdv 9 7, addAdv 10 7, addwAdv 8 8, scale 8, addAdv 9 8, addAdv 10 8,
   addwAdv 9 9, scale 9, add 10 9, addwAdv 10 10]

open SingleStmt in
/-- Statements of `Accumulator14::updateSingle`, in source order. -/
def Accumulator14.updateSingle_stmts : List SingleStmt :=
  [addAdv 0 0, addAdv 1 0, addAdv 2 0, addAdv 3 0, addAdv 4 0, addAdv 5 0,
   addAdv 6 0, addAdv 7 0, addAdv 8 0, addAdv 9 0, addAdv 10 0, addAdv 11 0,
   addAdv 12 0, addAdv 13 0, addAdv 1 1, addAdv 2 1, addAdv 3 1, addAdv 4 1,
   addAdv 5 1, addAdv 6 1, addAdv 7 1, addAdv 8 1, addAdv 9 1, addAdv 10 1,
   addAdv 11 1, addAdv 12 1, addAdv 13 1, addAdv 2 2, addAdv 3 2, addAdv 4 2,
   addAdv 5 2, addAdv 6 2, addAdv 7 2, addAdv 8 2, addAdv 9 2, addAdv 10 2,
   addAdv 11 2, addAdv 12 2, addAdv 13 2, addAdv 3 3, addAdv 4 3, addAdv 5 3,
   addAdv 6 3, addAdv 7 3, addAdv 8 3, addAdv 9 3, addAdv 10 3, addAdv 11 3,
   addAdv 12 3, addAdv 13 3, addAdv 4 4, addAdv 5 4, addAdv 6 4, addAdv 7 4,
   addAdv 8 4, addAdv 9 4, addAdv 10 4, addAdv 11 4, addAdv 12 4, addAdv 13 4,
   addAdv 5 5, addAdv 6 5, addAdv 7 5, addAdv 8 5, addAdv 9 5, addAdv 10 5,
   addAdv 11 5, addAdv 12 5, addAdv 13 5, addAdv 6 6, addAdv 7 6, addAdv 8 6,
   addAdv 9 6, addAdv 10 6, addAdv 11 6, addAdv 12 6, addAdv 13 6, addAdv 7 7,
   addAdv 8 7, addAdv 9 7, addAdv 10 7, addAdv 11 7, addAdv 12 7, addAdv 13 7,
   addAdv 8 8, addAdv 9 8, addAdv 10 8, addAdv 11 8, addAdv 12 8, addAdv 13 8,
   addAdv 9 9, addAdv 10 9, addAdv 11 9, addAdv 12 9, addAdv 13 9, addAdv 10 10,
   addAdv 11 10, addAdv 12 10, addAdv 13 10, addAdv 11 11, addAdv 12 11, addAdv 13 11,
   addAdv 12 12, addAdv 13 12, addAdv 13 13]

namespace Accumulator9

def updateSingle : (Nat → ℚ) → Nat → AccState → AccState :=
  fun J off => AccCore.updateSingleBody 9 updateSingle_stmts J 1 off
def updateSingleWeighted : (Nat → ℚ) → ℚ → Nat → AccState → AccState :=
  AccCore.updateSingleBody 9 updateSingleWeighted_stmts

/-- One update call of any kind on an `Accumulator9`. -/
inductive AnyCall where
  | sse (c : Call)
  | updateSingle (J : Nat → ℚ) (off : Nat)
  | updateSingleWeighted (J : Nat → ℚ) (w : ℚ) (off : Nat)

/-- Run one call. -/
def AnyCall.run : AnyCall → AccState → AccState
  | .sse c => c.run
  | .updateSingle J off => Accumulator9.updateSingle J off
  | .updateSingleWeighted J w off => Accumulator9.updateSingleWeighted J w off

/-- Lanes submitted by one call: 4 for an SSE update, 1 for a single-lane update. -/
def AnyCall.lanes : AnyCall → Nat
  | .sse _ => 4
  | _ => 1

end Accumulator9

namespace Accumulator11

def updateSingle : (Nat → ℚ) → Nat → AccState → AccState :=
  fun J off => AccCore.updateSingleBody 11 updateSingle_stmts J 1 off
def updateSingleWeighted : (Nat → ℚ) → ℚ → Nat → AccState → AccState :=
  AccCore.updateSingleBody 11 updateSingleWeighted_stmts

/-- One update call of any kind on an `Accumulator11`. -/
inductive AnyCall where
  | sse (c : Call)
  | updateSingle (J : Nat → ℚ) (off : Nat)
  | updateSingleWeighted (J : Nat → ℚ) (w : ℚ) (off : Nat)

/-- Run one call. -/
def AnyCall.run : AnyCall → AccState → AccState
  | .sse c => c.run
  | .updateSingle J off => Accumulator11.updateSingle J off
  | .updateSingleWeighted J w off => Accumulator11.updateSingleWeighted J w off

/-- Lanes submitted by one call: 4 for an SSE update, 1 for a single-lane update. -/
def AnyCall.lanes : AnyCall → Nat
  | .sse _ => 4
  | _ => 1

end Accumulator11

namespace Accumulator14

def updateSingle : (Nat → ℚ) → Nat → AccState → AccState :=
  fun J off => AccCore.updateSingleBody 14 updateSingle_stmts J 1 off

/-- One update call of any kind on an `Accumulator14`. -/
inductive AnyCall where
  | updateSSE (J : Nat → M128)
  | updateSingle (J : Nat → ℚ) (off : Nat)

/-- Run one call. -/
def AnyCall.run : AnyCall → AccState → AccState
  | .updateSSE J => Accumulator14.updateSSE J
  | .updateSingle J off => Accumulator14.updateSingle J off

/-- Lanes submitted by one call: 4 for an SSE update, 1 for a single-lane update. -/
def AnyCall.lanes : AnyCall → Nat
  | .updateSSE _ => 4
  | _ => 1

end Accumulator14

/-! ## Updates of `AccumulatorApprox` / `AccumulatorApprox1515` -/

namespace ApproxCore

/-- Operand pairs `(p, q)` of the 55 statements
`Data[k] += a*x[p]*x[q] + c*y[p]*y[q] + b*(x[p]*y[q] + y[p]*x[q])`, `k = 0 .. 54`, of
`updateSSE` (and of `update`, where `x[i]` is `x4[i]` for `i < 4` and `x6[i-4]` otherwise),
in source order. -/
def pairs : List (Nat × Nat) :=
  [(0,0),(1,0),(2,0),(3,0),(4,0),(5,0),(6,0),(7,0),(8,0),(9,0),
   (1,1),(2,1),(3,1),(4,1),(5,1),(6,1),(7,1),(8,1),(9,1),
   (2,2),(3,2),(4,2),(5,2),(6,2),(7,2),(8,2),(9,2),
   (3,3),(4,3),(5,3),(6,3),(7,3),(8,3),(9,3),
   (4,4),(5,4),(6,4),(7,4),(8,4),(9,4),
   (5,5),(6,5),(7,5),(8,5),(9,5),
   (6,6),(7,6),(8,6),(9,6),
   (7,7),(8,7),(9,7),
   (8,8),(9,8),
   (9,9)]

/-- The statement `Data[k] += a*x[p]*x[q] + c*y[p]*y[q] + b*(x[p]*y[q] + y[p]*x[q])`;
the state carries the index `k` of the next statement. -/
def dataStep (x y : Nat → ℚ) (a b c : ℚ) (st : (Nat → ℚ) × Nat) (pq : Nat × Nat) :
    (Nat → ℚ) × Nat :=
  (arrSetN st.1 st.2
    (st.1 st.2 + (a * x pq.1 * x pq.2 + c * y pq.1 * y pq.2
      + b * (x pq.1 * y pq.2 + y pq.1 * x pq.2))), st.2 + 1)

/-- Tail of `updateSSE` and `update`: `num++; numIn1++; shiftUp(false);`. -/
def count (nTR nBR : Nat) (s : ApproxState) : ApproxState :=
  shiftUp nTR nBR false { s with num := s.num + 1, numIn1 := s.numIn1 + 1 }

/-- The method `updateSSE(x, y, a, b, c)`. -/
def updateSSE (nTR nBR : Nat) (x y : Nat → ℚ) (a b c : ℚ) (s : ApproxState) : ApproxState :=
  count nTR nBR { s with Data := (pairs.foldl (dataStep x y a b c) (s.Data, 0)).1 }

/-- The array read as `x4[i]` for `i < 4` and as `x6[i - 4]` from there on. -/
def join46 (x4 x6 : Nat → ℚ) : Nat → ℚ := fun i => if i < 4 then x4 i else x6 (i - 4)

/-- The method `update(x4, x6, y4, y6, a, b, c)`. -/
def update (nTR nBR : Nat) (x4 x6 y4 y6 : Nat → ℚ) (a b c : ℚ) (s : ApproxState) : ApproxState :=
  count nTR nBR
    { s with Data := (pairs.foldl (dataStep (join46 x4 x6) (join46 y4 y6) a b c) (s.Data, 0)).1 }

/-- The method `updateTopRight(x4, x6, y4, y6, TR00, TR10, ...)` with `k` columns:
`TopRight_Data[k*p + j] += x[p] * TR0j + y[p] * TR1j` for `p = 0 .. 9`, `j = 0 .. k-1`
(`TR i j` is the argument `TRij`); the counters are not touched. -/
def updateTopRight (k : Nat) (x4 x6 y4 y6 : Nat → ℚ) (TR : Nat → Nat → ℚ) (s : ApproxState) :
    ApproxState :=
  { s with
    TopRight_Data := (rect k).foldl
      (fun d pj => arrSetN d (k * pj.1 + pj.2)
        (d (k * pj.1 + pj.2) + (join46 x4 x6 pj.1 * TR 0 pj.2 + join46 y4 y6 pj.1 * TR 1 pj.2)))
      s.TopRight_Data }

/-- The method `updateBotRight(a00, a01, ...)`: `BotRight_Data[i] += ` the `i`-th
argument, for the `n` arguments; the counters are not touched. -/
def updateBotRight (n : Nat) (args : Nat → ℚ) (s : ApproxState) : ApproxState :=
  { s with
    BotRight_Data := (List.range n).foldl (fun d i => arrSetN d i (d i + args i)) s.BotRight_Data }

/-- One update call on an `AccumulatorApprox` or `AccumulatorApprox1515`. -/
inductive Call where
  | updateSSE (x y : Nat → ℚ) (a b c : ℚ)
  | update (x4 x6 y4 y6 : Nat → ℚ) (a b c : ℚ)
  | updateTopRight (x4 x6 y4 y6 : Nat → ℚ) (TR : Nat → Nat → ℚ)
  | updateBotRight (args : Nat → ℚ)

/-- Run one call; `k` is 3 resp. 5. -/
def Call.run (nTR nBR k : Nat) : Call → ApproxState → ApproxState
  | .updateSSE x y a b c => ApproxCore.updateSSE nTR nBR x y a b c
  | .update x4 x6 y4 y6 a b c => ApproxCore.update nTR nBR x4 x6 y4 y6 a b c
  | .updateTopRight x4 x6 y4 y6 TR => ApproxCore.updateTopRight k x4 x6 y4 y6 TR
  | .updateBotRight args => ApproxCore.updateBotRight (k * (k + 1) / 2) args

/-- Whether the call is one of the two that count (`updateSSE`, `update`). -/
def Call.counted : Call → Bool
  | .updateSSE .. => true
  | .update .. => true
  | _ => false

end ApproxCore

namespace AccumulatorApprox

def Call.run : ApproxCore.Call → ApproxState → ApproxState := ApproxCore.Call.run 32 8 3

end AccumulatorApprox

namespace AccumulatorApprox1515

def Call.run : ApproxCore.Call → ApproxState → ApproxState := ApproxCore.Call.run 52 16 5

end AccumulatorApprox1515

/-! ## Accumulator1, AccumulatorXX, AccumulatorX -/

/-- Data members of `Accumulator1`. -/
structure Acc1State where
  A : ℚ
  num : Nat
  SSEData : Nat → ℚ
  SSEData1k : Nat → ℚ
  SSEData1m : Nat → ℚ
  numIn1 : Nat
  numIn1k : Nat
  numIn1m : Nat

namespace Accumulator1

/-- The method `initialize()`. -/
def initialise (s : Acc1State) : Acc1State :=
  { s with
    A := 0
    SSEData := memset0 s.SSEData 4
    SSEData1k := memset0 s.SSEData1k 4
    SSEData1m := memset0 s.SSEData1m 4
    num := 0, numIn1 := 0, numIn1k := 0, numIn1m := 0 }

/-- `shiftUp(bool force)`. -/
def shiftUp (force : Bool) (s : Acc1State) : Acc1State :=
  let s1 : Acc1State :=
    if s.numIn1 > 1000 ∨ force = true then
      { s with
        SSEData1k := mm_store_ps s.SSEData1k 0
          (mm_add_ps (mm_load_ps s.SSEData 0) (mm_load_ps s.SSEData1k 0))
        numIn1k := s.numIn1k + s.numIn1
        numIn1 := 0
        SSEData := memset0 s.SSEData 4 }
    else s
  if s1.numIn1k > 1000 ∨ force = true then
    { s1 with
      SSEData1m := mm_store_ps s1.SSEData1m 0
        (mm_add_ps (mm_load_ps s1.SSEData1k 0) (mm_load_ps s1.SSEData1m 0))
      numIn1m := s1.numIn1m + s1.numIn1k
      numIn1k := 0
      SSEData1k := memset0 s1.SSEData1k 4 }
  else s1

/-- The method `finish()`. -/
def finish (s : Acc1State) : Acc1State :=
  let s1 := shiftUp true s
  { s1 with A := s1.SSEData1m (0 + 0) + s1.SSEData1m (0 + 1) + s1.SSEData1m (0 + 2)
      + s1.SSEData1m (0 + 3) }

/-- The method `updateSingleNoShift(val)`. -/
def updateSingleNoShift (val : ℚ) (s : Acc1State) : Acc1State :=
  { s with SSEData := arrSetN s.SSEData 0 (s.SSEData 0 + val), num := s.num + 1,
           numIn1 := s.numIn1 + 1 }

/-- The method `updateSSENoShift(val)`. -/
def updateSSENoShift (val : M128) (s : Acc1State) : Acc1State :=
  { s with SSEData := mm_store_ps s.SSEData 0 (mm_add_ps (mm_load_ps s.SSEData 0) val),
           num := s.num + 4, numIn1 := s.numIn1 + 1 }

/-- The method `updateSingle(val)`. -/
def updateSingle (val : ℚ) (s : Acc1State) : Acc1State := shiftUp false (updateSingleNoShift val s)

/-- The method `updateSSE(val)`. -/
def updateSSE (val : M128) (s : Acc1State) : Acc1State := shiftUp false (updateSSENoShift val s)

/-- One update call on an `Accumulator1`. -/
inductive Call where
  | updateSingle (val : ℚ)
  | updateSSE (val : M128)
  | updateSingleNoShift (val : ℚ)
  | updateSSENoShift (val : M128)

/-- Run one call. -/
def Call.run : Call → Acc1State → Acc1State
  | .updateSingle v => Accumulator1.updateSingle v
  | .updateSSE v => Accumulator1.updateSSE v
  | .updateSingleNoShift v => Accumulator1.updateSingleNoShift v
  | .updateSSENoShift v => Accumulator1.updateSSENoShift v

/-- Lanes submitted by one call. -/
def Call.lanes : Call → Nat
  | .updateSingle _ => 1
  | .updateSSE _ => 4
  | .updateSingleNoShift _ => 1
  | .updateSSENoShift _ => 4

end Accumulator1

/-- Data members of `AccumulatorXX<i, j>` (and of `AccumulatorX<i>`, a column being
the case `j = 1`). -/
structure AccXState where
  A : Nat → Nat → ℚ
  A1k : Nat → Nat → ℚ
  A1m : Nat → Nat → ℚ
  num : Nat
  numIn1 : Nat
  numIn1k : Nat
  numIn1m : Nat

namespace AccumulatorXX

/-- The method `initialize()`. -/
def initialise (_ : AccXState) : AccXState :=
  { A := fun _ _ => 0, A1k := fun _ _ => 0, A1m := fun _ _ => 0
    num := 0, numIn1 := 0, numIn1k := 0, numIn1m := 0 }

/-- `shiftUp(bool force)`. -/
def shiftUp (force : Bool) (s : AccXState) : AccXState :=
  let s1 : AccXState :=
    if s.numIn1 > 1000 ∨ force = true then
      { s with
        A1k := fun r c => s.A1k r c + s.A r c
        A := fun _ _ => 0
        numIn1k := s.numIn1k + s.numIn1
        numIn1 := 0 }
    else s
  if s1.numIn1k > 1000 ∨ force = true then
    { s1 with
      A1m := fun r c => s1.A1m r c + s1.A1k r c
      A1k := fun _ _ => 0
      numIn1m := s1.numIn1m + s1.numIn1k
      numIn1k := 0 }
  else s1

/-- The method `finish()`. -/
def finish (s : AccXState) : AccXState :=
  let s1 := shiftUp true s
  { s1 with num := s1.numIn1 + s1.numIn1k + s1.numIn1m }

/-- `AccumulatorXX::update(L, R, w)`: `A += w * L * R.transpose(); numIn1++; shiftUp(false);`. -/
def update (L R : Nat → ℚ) (w : ℚ) (s : AccXState) : AccXState :=
  shiftUp false { s with A := fun r c => s.A r c + w * L r * R c, numIn1 := s.numIn1 + 1 }

end AccumulatorXX

namespace AccumulatorX

def initialise : AccXState → AccXState := AccumulatorXX.initialise
def shiftUp : Bool → AccXState → AccXState := AccumulatorXX.shiftUp
def finish : AccXState → AccXState := AccumulatorXX.finish

/-- `AccumulatorX::update(L, w)`: `A += w * L; numIn1++; shiftUp(false);`. -/
def update (L : Nat → ℚ) (w : ℚ) (s : AccXState) : AccXState :=
  AccumulatorXX.shiftUp false
    { s with A := fun r c => s.A r c + w * L r, numIn1 := s.numIn1 + 1 }

/-- `AccumulatorX::updateNoWeight(L)`: `A += L; numIn1++; shiftUp(false);`. -/
def updateNoWeight (L : Nat → ℚ) (s : AccXState) : AccXState :=
  AccumulatorXX.shiftUp false
    { s with A := fun r c => s.A r c + L r, numIn1 := s.numIn1 + 1 }

end AccumulatorX

/-- One update call on an `AccumulatorX`. -/
inductive AccumulatorX.Call where
  | update (L : Nat → ℚ) (w : ℚ)
  | updateNoWeight (L : Nat → ℚ)

/-- Run one call. -/
def AccumulatorX.Call.run : AccumulatorX.Call → AccXState → AccXState
  | .update L w => AccumulatorX.update L w
  | .updateNoWeight L => AccumulatorX.updateNoWeight L

/-- An `Accumulator1` whose buffers hold arbitrary left-over values. -/
def Acc1State.junk : Acc1State :=
  { A := 7, num := 7, SSEData := fun _ => 7, SSEData1k := fun _ => 7, SSEData1m := fun _ => 7,
    numIn1 := 7, numIn1k := 7, numIn1m := 7 }

/-! ## The tracking call (`CoarseTracker::trackNewestCoarse`,
`CoarseTracker::trackNewestCoarseStereo`)

The two functions are the same code up to the affine parameters carried
(`aff_g2l`, resp. `aff_g2l` and `aff_g2l_r`), the size of `H`, `b` and the
kernels called, so the level loop is written once over a pose type `P`, an
affine-parameter type `A` and a type `M` for the pair `(H, b)`.  A `while`
loop is a function of a fuel bound that gives `none` when the bound is
reached with the loop condition still true. -/

namespace IEEE

/-- `fabsf`. -/
def abs : IEEE → IEEE
  | .fin q => .fin |q|
  | .pinf => .pinf
  | .ninf => .pinf
  | .nan => .nan

/-- Product with a finite factor. -/
def mulQ : IEEE → ℚ → IEEE
  | .fin a, c => .fin (a * c)
  | .pinf, c => if c > 0 then .pinf else if c < 0 then .ninf else .nan
  | .ninf, c => if c > 0 then .ninf else if c < 0 then .pinf else .nan
  | .nan, _ => .nan

/-- The square `x * x`. -/
def sq : IEEE → IEEE
  | .fin a => .fin (a * a)
  | .pinf => .pinf
  | .ninf => .pinf
  | .nan => .nan

/-- IEEE `<=`: false as soon as one side is NaN. -/
def le : IEEE → IEEE → Bool
  | .fin a, .fin b => decide (a ≤ b)
  | .nan, _ => false
  | _, .nan => false
  | .ninf, _ => true
  | _, .pinf => true
  | .pinf, _ => false
  | _, .ninf => false

/-- The value of a finite float (0 for the special values). -/
def toQ : IEEE → ℚ
  | .fin a => a
  | _ => 0

end IEEE

/-- A `while (cond) body` loop run for at most `fuel` executions of the body. -/
def whileFuel {σ : Type} (cond : σ → Bool) (body : σ → σ) : Nat → σ → Option σ
  | 0, s => if cond s = true then none else some s
  | fuel + 1, s => if cond s = true then whileFuel cond body fuel (body s) else some s

/-- The four kernels a tracking call uses.
* `calcRes lvl p a cutoffTH buf` is `calcRes(lvl, p, a, cutoffTH)` (resp.
  `calcResStereo`): the returned `Vec6` and the warp buffers it leaves;
* `calcGSSSE lvl p a buf` is the pair `(H, b)` computed by `calcGSSSE` (resp.
  `calcGSSSEStereo`) from the warp buffers;
* `candidate Hb lambda p a` is `(refToNew_new, aff_g2l_new)`;
* `incNormLarge Hb lambda` is `inc.norm() > 1e-3`. -/
structure TrackKernel (P A M : Type) where
  calcRes : Nat → P → A → ℚ → WarpBuffers → Vec6 × WarpBuffers
  calcGSSSE : Nat → P → A → WarpBuffers → M
  candidate : M → ℚ → P → A → P × A
  incNormLarge : M → ℚ → Bool

/-- The arguments and settings of a tracking call that are not kernels:
`sqrtf`, `logf` are the C library functions, `fromToVecExposure a` is
`AffLight::fromToVecExposure(lastRef->ab_exposure, newFrame->ab_exposure,
lastRef_aff_g2l, a).cast<float>()`. -/
structure TrackParams where
  setting_coarseCutoffTH : ℚ
  setting_affineOptModeA : ℚ
  setting_affineOptModeB : ℚ
  coarsestLvl : Nat
  minResForAbort : Nat → IEEE
  sqrtf : IEEE → IEEE
  logf : ℚ → IEEE
  fromToVecExposure : AffLight → ℚ × ℚ

/-- `int maxIterations[] = {10, 20, 50, 50, 50}` read at `lvl` (the call asserts
`coarsestLvl < 5`). -/
def maxIterations (lvl : Nat) : Nat := [10, 20, 50, 50, 50].getD lvl 0

/-- The locals of the cutoff-escalation loop. -/
structure CutoffState where
  levelCutoffRepeat : ℚ
  resOld : Vec6
  buf : WarpBuffers

/-- The loop condition `resOld[5] > 0.6 && levelCutoffRepeat < 50`. -/
def CutoffState.cond (c : CutoffState) : Bool :=
  IEEE.lt (.fin (6 / 10)) c.resOld.r5 && decide (c.levelCutoffRepeat < 50)

namespace TrackKernel

variable {P A M : Type}

/-- The kernels of the inner loop at level `lvl` with cutoff
`setting_coarseCutoffTH * levelCutoffRepeat`. -/
def atLevel (T : TrackKernel P A M) (cutoffTH : ℚ) (lvl : Nat) (levelCutoffRepeat : ℚ) :
    LMKernel P A M :=
  { calcRes := fun p a buf => T.calcRes lvl p a (cutoffTH * levelCutoffRepeat) buf
    calcGSSSE := T.calcGSSSE lvl
    candidate := T.candidate
    incNormLarge := T.incNormLarge }

/-- The evaluation `resOld = calcRes(lvl, refToNew_current, aff_g2l_current,
setting_coarseCutoffTH * levelCutoffRepeat)` as a state of the cutoff loop. -/
def evalAt (T : TrackKernel P A M) (cutoffTH : ℚ) (lvl : Nat) (p : P) (a : A)
    (levelCutoffRepeat : ℚ) (buf : WarpBuffers) : CutoffState :=
  { levelCutoffRepeat := levelCutoffRepeat
    resOld := (T.calcRes lvl p a (cutoffTH * levelCutoffRepeat) buf).1
    buf := (T.calcRes lvl p a (cutoffTH * levelCutoffRepeat) buf).2 }

/-- Body of the cutoff loop: `levelCutoffRepeat *= 2; resOld = calcRes(...)`. -/
def cutoffBody (T : TrackKernel P A M) (cutoffTH : ℚ) (lvl : Nat) (p : P) (a : A)
    (c : CutoffState) : CutoffState :=
  T.evalAt cutoffTH lvl p a (c.levelCutoffRepeat * 2) c.buf

/-- `float levelCutoffRepeat = 1; Vec6 resOld = calcRes(...); while (...) { ... }`. -/
def cutoffLoop (T : TrackKernel P A M) (cutoffTH : ℚ) (fuel : Nat) (lvl : Nat) (p : P) (a : A)
    (buf : WarpBuffers) : Option CutoffState :=
  whileFuel CutoffState.cond (T.cutoffBody cutoffTH lvl p a) fuel (T.evalAt cutoffTH lvl p a 1 buf)

end TrackKernel

/-- The variables a tracking call carries across level passes, and the members
it writes.  `passes` is a ghost record: the level and the final
`levelCutoffRepeat` of every level pass made so far, in order. -/
structure TrackState (P A : Type) where
  refToNew_current : P
  aff_current : A
  haveRepeated : Bool
  buf : WarpBuffers
  lastResiduals : Nat → IEEE
  lastFlowIndicators : Fin 3 → ℚ
  passes : List (Nat × ℚ)

/-- How the level loop was left: through `return false`, or by running out. -/
inductive LoopExit (σ : Type) where
  | aborted (s : σ)
  | finished (s : σ)

namespace TrackKernel

variable {P A M : Type}

/-- One pass of the level loop up to and including the inner iterations:
the state of the inner loop when it ends, and the final `levelCutoffRepeat`. -/
def levelPass (T : TrackKernel P A M) (S : TrackParams) (fuel : Nat) (lvl : Nat)
    (s : TrackState P A) : Option (LMState P A M × ℚ) :=
  match T.cutoffLoop S.setting_coarseCutoffTH fuel lvl s.refToNew_current s.aff_current s.buf with
  | none => none
  | some c =>
    let K := T.atLevel S.setting_coarseCutoffTH lvl c.levelCutoffRepeat
    some (K.lmLoop (maxIterations lvl)
      { refToNew_current := s.refToNew_current
        aff_current := s.aff_current
        resOld := c.resOld
        Hb := T.calcGSSSE lvl s.refToNew_current s.aff_current c.buf
        lambda := 1 / 100
        buf := c.buf }, c.levelCutoffRepeat)

/-- The state after the inner iterations of a pass:
`lastResiduals[lvl] = sqrtf((float) (resOld[0] / resOld[1]));
lastFlowIndicators = resOld.segment<3>(2);`. -/
def afterPass (S : TrackParams) (lvl : Nat) (s : TrackState P A) (r : LMState P A M × ℚ) :
    TrackState P A :=
  { s with
    refToNew_current := r.1.refToNew_current
    aff_current := r.1.aff_current
    buf := r.1.buf
    lastResiduals := arrSetN s.lastResiduals lvl (S.sqrtf r.1.resOld.meanEnergy)
    lastFlowIndicators := fun i =>
      if i = 0 then r.1.resOld.r2 else if i = 1 then r.1.resOld.r3 else r.1.resOld.r4
    passes := s.passes ++ [(lvl, r.2)] }

/-- The test `lastResiduals[lvl] > 1.5 * minResForAbort[lvl]`. -/
def abortTest (S : TrackParams) (lvl : Nat) (s : TrackState P A) : Bool :=
  IEEE.lt ((S.minResForAbort lvl).mulQ (3 / 2)) (s.lastResiduals lvl)

/-- The level loop `for (int lvl = coarsestLvl; lvl >= 0; lvl--)`, entered at
`lvl`, for at most `passFuel` passes.  After a pass that is not aborted,
`if (levelCutoffRepeat > 1 && !haveRepeated) { lvl++; haveRepeated = true; }`
and then the loop's own `lvl--` and test `lvl >= 0`. -/
def levelLoop (T : TrackKernel P A M) (S : TrackParams) (fuel : Nat) :
    (passFuel : Nat) → (lvl : Nat) → TrackState P A → Option (LoopExit (TrackState P A))
  | 0, _, _ => none
  | passFuel + 1, lvl, s =>
    match T.levelPass S fuel lvl s with
    | none => none
    | some r =>
      let s1 := afterPass S lvl s r
      if abortTest S lvl s1 = true then some (.aborted s1)
      else if r.2 > 1 ∧ s1.haveRepeated = false then
        levelLoop T S fuel passFuel lvl { s1 with haveRepeated := true }
      else
        match lvl with
        | 0 => some (.finished s1)
        | l + 1 => levelLoop T S fuel passFuel l s1

/-- The state at the head of the level loop: `lastResiduals.setConstant(NAN);
lastFlowIndicators.setConstant(1000); ... refToNew_current = lastToNew_out;
aff_g2l_current = aff_g2l_out; haveRepeated = false;`. -/
def entry (lastToNew_out : P) (aff_out : A) (buf : WarpBuffers) : TrackState P A :=
  { refToNew_current := lastToNew_out
    aff_current := aff_out
    haveRepeated := false
    buf := buf
    lastResiduals := fun _ => .nan
    lastFlowIndicators := fun _ => 1000
    passes := [] }

end TrackKernel

/-- What a tracking call leaves: the returned `bool`, the out-parameters
(`aff_out` is `aff_g2l_out`, resp. the pair `aff_g2l_out`, `aff_g2l_r_out`) and
the state of the level loop when it was left. -/
structure TrackResult (P A : Type) where
  ret : Bool
  lastToNew_out : P
  aff_out : A
  state : TrackState P A

namespace TrackParams

/-- The first test after the level loop:
`(setting_affineOptModeA != 0 && fabsf(aff_g2l_out.a) > 1.2)
 || (setting_affineOptModeB != 0 && fabsf(aff_g2l_out.b) > 200)`. -/
def affTooLarge (S : TrackParams) (aff_g2l_out : AffLight) : Bool :=
  (decide (S.setting_affineOptModeA ≠ 0) && decide (|aff_g2l_out.a| > 12 / 10))
  || (decide (S.setting_affineOptModeB ≠ 0) && decide (|aff_g2l_out.b| > 200))

/-- The second test, on `relAff = fromToVecExposure(..., aff_g2l_out)`:
`(setting_affineOptModeA == 0 && fabsf(logf((float) relAff[0])) > 1.5)
 || (setting_affineOptModeB == 0 && fabsf((float) relAff[1]) > 200)`. -/
def relAffTooLarge (S : TrackParams) (aff_g2l_out : AffLight) : Bool :=
  (decide (S.setting_affineOptModeA = 0)
      && IEEE.lt (.fin (15 / 10)) (S.logf (S.fromToVecExposure aff_g2l_out).1).abs)
  || (decide (S.setting_affineOptModeB = 0)
      && decide (|(S.fromToVecExposure aff_g2l_out).2| > 200))

/-- `if (setting_affineOptModeA < 0) aff_g2l_out.a = 0;
if (setting_affineOptModeB < 0) aff_g2l_out.b = 0;`. -/
def zeroFixed (S : TrackParams) (aff_g2l_out : AffLight) : AffLight :=
  { a := if S.setting_affineOptModeA < 0 then 0 else aff_g2l_out.a
    b := if S.setting_affineOptModeB < 0 then 0 else aff_g2l_out.b }

end TrackParams

/-- `CoarseTracker::trackNewestCoarse`; `lastToNew_out`, `aff_g2l_out` are the
values of the reference parameters on entry, `buf` the warp buffers on entry. -/
def trackNewestCoarse {P M : Type} (T : TrackKernel P AffLight M) (S : TrackParams)
    (fuel : Nat) (lastToNew_out : P) (aff_g2l_out : AffLight) (buf : WarpBuffers) :
    Option (TrackResult P AffLight) :=
  match T.levelLoop S fuel fuel S.coarsestLvl (TrackKernel.entry lastToNew_out aff_g2l_out buf) with
  | none => none
  | some (.aborted s) =>
    some { ret := false, lastToNew_out := lastToNew_out, aff_out := aff_g2l_out, state := s }
  | some (.finished s) =>
    -- `lastToNew_out = refToNew_current; aff_g2l_out = aff_g2l_current;`
    if S.affTooLarge s.aff_current = true then
      some { ret := false, lastToNew_out := s.refToNew_current, aff_out := s.aff_current,
             state := s }
    else if S.relAffTooLarge s.aff_current = true then
      some { ret := false, lastToNew_out := s.refToNew_current, aff_out := s.aff_current,
             state := s }
    else
      some { ret := true, lastToNew_out := s.refToNew_current,
             aff_out := S.zeroFixed s.aff_current, state := s }

/-- `CoarseTracker::trackNewestCoarseStereo` (the `STEREO_MODE` function without
the inertial part); the affine parameters are the pair
`(aff_g2l_out, aff_g2l_r_out)`. -/
def trackNewestCoarseStereo {P M : Type} (T : TrackKernel P (AffLight × AffLight) M)
    (S : TrackParams) (fuel : Nat) (lastToNew_out : P) (aff_g2l_out aff_g2l_r_out : AffLight)
    (buf : WarpBuffers) : Option (TrackResult P (AffLight × AffLight)) :=
  match T.levelLoop S fuel fuel S.coarsestLvl
      (TrackKernel.entry lastToNew_out (aff_g2l_out, aff_g2l_r_out) buf) with
  | none => none
  | some (.aborted s) =>
    some { ret := false, lastToNew_out := lastToNew_out, aff_out := (aff_g2l_out, aff_g2l_r_out),
           state := s }
  | some (.finished s) =>
    -- `lastToNew_out = refToNew_current; aff_g2l_out = aff_g2l_current;
    --  aff_g2l_r_out = aff_g2l_r_current;`
    if S.affTooLarge s.aff_current.1 = true then
      some { ret := false, lastToNew_out := s.refToNew_current, aff_out := s.aff_current,
             state := s }
    else if S.relAffTooLarge s.aff_current.1 = true then
      some { ret := false, lastToNew_out := s.refToNew_current, aff_out := s.aff_current,
             state := s }
    else
      some { ret := true, lastToNew_out := s.refToNew_current,
             aff_out := (S.zeroFixed s.aff_current.1, s.aff_current.2), state := s }

/-! ## The solve step of the inner loop

`H`, `b` are `double` matrices, kept exact; the result of an LDLT solve can be
non-finite, so increments are vectors of `IEEE` values. -/

/-- Settings and library functions of the solve step.
* `ldltSolve n M v` is `M.topLeftCorner<n, n>().ldlt().solve(v.head<n>())`;
* `sqrt` is the C library function;
* `expMul v T` is `SE3::exp(v) * T`. -/
structure SolverEnv where
  SCALE_XI_ROT : ℚ
  SCALE_XI_TRANS : ℚ
  SCALE_A : ℚ
  SCALE_B : ℚ
  ldltSolve : Nat → (Nat → Nat → ℚ) → (Nat → ℚ) → Nat → IEEE
  sqrt : ℚ → ℚ
  expMul : (Nat → ℚ) → SE3 → SE3

/-- `Hl = H; for (int i = 0; i < n; i++) Hl(i, i) *= (1 + lambda);`. -/
def damp (n : Nat) (H : Nat → Nat → ℚ) (lambda : ℚ) : Nat → Nat → ℚ :=
  fun i j => if i = j ∧ i < n then H i j * (1 + lambda) else H i j

/-- `M.col(a) = M.col(b)`. -/
def colAssign (M : Nat → Nat → ℚ) (a b : Nat) : Nat → Nat → ℚ :=
  fun i j => if j = a then M i b else M i j

/-- `M.row(a) = M.row(b)`. -/
def rowAssign (M : Nat → Nat → ℚ) (a b : Nat) : Nat → Nat → ℚ :=
  fun i j => if i = a then M b j else M i j

/-- `extrapFac`: 1, or `sqrt(sqrt(lambdaExtrapolationLimit / lambda))` when
`lambda < lambdaExtrapolationLimit`. -/
def SolverEnv.extrapFac (E : SolverEnv) (lambda : ℚ) : ℚ :=
  if lambda < lambdaExtrapolationLimit then E.sqrt (E.sqrt (lambdaExtrapolationLimit / lambda))
  else 1

/-- `v.sum()` of an `n`-vector. -/
def vecSum (n : Nat) (v : Nat → IEEE) : IEEE :=
  (List.range n).foldl (fun acc i => acc.add (v i)) (.fin 0)

/-- `if (!std::isfinite(incScaled.sum())) incScaled.setZero();`. -/
def finiteOrZero (n : Nat) (v : Nat → IEEE) : Nat → IEEE :=
  if (vecSum n v).isfinite = false then fun _ => .fin 0 else v

/-- `inc.norm() > 1e-3`, taken on the squared norm: `inc.squaredNorm() > 1e-6`. -/
def normLarge (n : Nat) (v : Nat → IEEE) : Bool :=
  IEEE.lt (.fin (1 / 1000000)) (vecSum n (fun i => (v i).sq))

namespace SolverEnv

/-- The increment `inc` of `trackNewestCoarse` after `inc *= extrapFac`:
the full solve, overwritten by the affine-fix branch that applies. -/
def incMono (E : SolverEnv) (modeA modeB : ℚ) (H : Nat → Nat → ℚ) (b : Nat → ℚ) (lambda : ℚ) :
    Nat → IEEE :=
  let Hl := damp 8 H lambda
  let negb : Nat → ℚ := fun i => -b i
  let inc0 : Nat → IEEE := fun i => if i < 8 then E.ldltSolve 8 Hl negb i else .fin 0
  let inc1 : Nat → IEEE :=
    if modeA < 0 ∧ modeB < 0 then
      -- `inc.head<6>() = Hl.topLeftCorner<6, 6>().ldlt().solve(-b.head<6>());`
      -- `inc.tail<2>().setZero();`
      fun i => if i < 6 then E.ldltSolve 6 Hl negb i else .fin 0
    else inc0
  let inc2 : Nat → IEEE :=
    if ¬ (modeA < 0) ∧ modeB < 0 then
      -- `inc.head<7>() = Hl.topLeftCorner<7, 7>().ldlt().solve(-b.head<7>());`
      -- `inc.tail<1>().setZero();`
      fun i => if i < 7 then E.ldltSolve 7 Hl negb i else .fin 0
    else inc1
  let inc3 : Nat → IEEE :=
    if modeA < 0 ∧ ¬ (modeB < 0) then
      let HlStitch := rowAssign (colAssign Hl 6 7) 6 7
      let bStitch := arrSetN b 6 (b 7)
      let incStitch := E.ldltSolve 7 HlStitch (fun i => -bStitch i)
      -- `inc.setZero(); inc.head<6>() = incStitch.head<6>(); inc[6] = 0; inc[7] = incStitch[6];`
      fun i => if i < 6 then incStitch i else if i = 7 then incStitch 6 else .fin 0
    else inc2
  fun i => (inc3 i).mulQ (E.extrapFac lambda)

/-- `incScaled` of `trackNewestCoarse`, after the non-finite guard. -/
def incScaledMono (E : SolverEnv) (inc : Nat → IEEE) : Nat → IEEE :=
  finiteOrZero 8 (fun i =>
    if i < 3 then (inc i).mulQ E.SCALE_XI_ROT
    else if i < 6 then (inc i).mulQ E.SCALE_XI_TRANS
    else if i = 6 then (inc i).mulQ E.SCALE_A
    else if i = 7 then (inc i).mulQ E.SCALE_B
    else inc i)

/-- `(refToNew_new, aff_g2l_new)` of `trackNewestCoarse`:
`SE3::exp((Vec6) incScaled.head<6>()) * refToNew_current`,
`aff_g2l_new.a += incScaled[6]; aff_g2l_new.b += incScaled[7]`. -/
def candidateMono (E : SolverEnv) (modeA modeB : ℚ) (Hb : (Nat → Nat → ℚ) × (Nat → ℚ))
    (lambda : ℚ) (p : SE3) (a : AffLight) : SE3 × AffLight :=
  let incScaled := E.incScaledMono (E.incMono modeA modeB Hb.1 Hb.2 lambda)
  (E.expMul (fun i => (incScaled i).toQ) p,
    { a := a.a + (incScaled 6).toQ, b := a.b + (incScaled 7).toQ })

/-- The increment `inc` of `trackNewestCoarseStereo` after `inc *= extrapFac`. -/
def incStereo (E : SolverEnv) (modeA modeB : ℚ) (H : Nat → Nat → ℚ) (b : Nat → ℚ) (lambda : ℚ) :
    Nat → IEEE :=
  let Hl := damp 10 H lambda
  let negb : Nat → ℚ := fun i => -b i
  let inc0 : Nat → IEEE := fun i => if i < 10 then E.ldltSolve 10 Hl negb i else .fin 0
  let inc1 : Nat → IEEE :=
    if modeA < 0 ∧ modeB < 0 then
      -- `inc.head<6>() = Hl.topLeftCorner<6, 6>().ldlt().solve(-b.head<6>());`
      -- `inc.tail<4>().setZero();`
      fun i => if i < 6 then E.ldltSolve 6 Hl negb i else .fin 0
    else inc0
  let inc2 : Nat → IEEE :=
    if ¬ (modeA < 0) ∧ modeB < 0 then
      let HlStitch := rowAssign (colAssign Hl 7 8) 7 8
      let bStitch := arrSetN b 7 (b 8)
      let incStitch := E.ldltSolve 8 HlStitch (fun i => -bStitch i)
      -- `inc.setZero(); inc.head<6>() = incStitch.head<6>();`
      -- `inc[6] = incStitch[6]; inc[8] = incStitch[7];`
      fun i => if i < 6 then incStitch i else if i = 6 then incStitch 6
        else if i = 8 then incStitch 7 else .fin 0
    else inc1
  let inc3 : Nat → IEEE :=
    if modeA < 0 ∧ ¬ (modeB < 0) then
      let HlStitch := rowAssign (colAssign (rowAssign (colAssign Hl 6 7) 6 7) 7 9) 7 9
      let bStitch := arrSetN (arrSetN b 6 (b 7)) 7 (b 9)
      let incStitch := E.ldltSolve 8 HlStitch (fun i => -bStitch i)
      -- `inc.setZero(); inc.head<6>() = incStitch.head<6>();`
      -- `inc[7] = incStitch[6]; inc[9] = incStitch[7];`
      fun i => if i < 6 then incStitch i else if i = 7 then incStitch 6
        else if i = 9 then incStitch 7 else .fin 0
    else inc2
  fun i => (inc3 i).mulQ (E.extrapFac lambda)

/-- `incScaled` of `trackNewestCoarseStereo`, after the non-finite guard. -/
def incScaledStereo (E : SolverEnv) (inc : Nat → IEEE) : Nat → IEEE :=
  finiteOrZero 10 (fun i =>
    if i < 3 then (inc i).mulQ E.SCALE_XI_ROT
    else if i < 6 then (inc i).mulQ E.SCALE_XI_TRANS
    else if i = 6 then (inc i).mulQ E.SCALE_A
    else if i = 7 then (inc i).mulQ E.SCALE_B
    else if i = 8 then (inc i).mulQ E.SCALE_A
    else if i = 9 then (inc i).mulQ E.SCALE_B
    else inc i)

/-- `(refToNew_new, (aff_g2l_new, aff_g2l_r_new))` of `trackNewestCoarseStereo`. -/
def candidateStereo (E : SolverEnv) (modeA modeB : ℚ) (Hb : (Nat → Nat → ℚ) × (Nat → ℚ))
    (lambda : ℚ) (p : SE3) (a : AffLight × AffLight) : SE3 × (AffLight × AffLight) :=
  let incScaled := E.incScaledStereo (E.incStereo modeA modeB Hb.1 Hb.2 lambda)
  (E.expMul (fun i => (incScaled i).toQ) p,
    ({ a := a.1.a + (incScaled 6).toQ, b := a.1.b + (incScaled 7).toQ },
     { a := a.2.a + (incScaled 8).toQ, b := a.2.b + (incScaled 9).toQ }))

/-- The kernels of `trackNewestCoarse`, the residual and Hessian builders being given. -/
def monoKernel (E : SolverEnv) (S : TrackParams)
    (calcRes : Nat → SE3 → AffLight → ℚ → WarpBuffers → Vec6 × WarpBuffers)
    (calcGSSSE : Nat → SE3 → AffLight → WarpBuffers → (Nat → Nat → ℚ) × (Nat → ℚ)) :
    TrackKernel SE3 AffLight ((Nat → Nat → ℚ) × (Nat → ℚ)) :=
  { calcRes := calcRes
    calcGSSSE := calcGSSSE
    candidate := E.candidateMono S.setting_affineOptModeA S.setting_affineOptModeB
    incNormLarge := fun Hb lambda =>
      normLarge 8 (E.incMono S.setting_affineOptModeA S.setting_affineOptModeB Hb.1 Hb.2 lambda) }

/-- The kernels of `trackNewestCoarseStereo`, the residual and Hessian builders being given. -/
def stereoKernel (E : SolverEnv) (S : TrackParams)
    (calcResStereo : Nat → SE3 → AffLight × AffLight → ℚ → WarpBuffers → Vec6 × WarpBuffers)
    (calcGSSSEStereo : Nat → SE3 → AffLight × AffLight → WarpBuffers
      → (Nat → Nat → ℚ) × (Nat → ℚ)) :
    TrackKernel SE3 (AffLight × AffLight) ((Nat → Nat → ℚ) × (Nat → ℚ)) :=
  { calcRes := calcResStereo
    calcGSSSE := calcGSSSEStereo
    candidate := E.candidateStereo S.setting_affineOptModeA S.setting_affineOptModeB
    incNormLarge := fun Hb lambda =>
      normLarge 10
        (E.incStereo S.setting_affineOptModeA S.setting_affineOptModeB Hb.1 Hb.2 lambda) }

end SolverEnv

/-! ## Concrete inputs for the tracking call -/

/-- A tracker whose reference frame has no points on any level. -/
def ResEnv.noPoints : ResEnv := { ResEnv.sample with pc_n := fun _ => 0 }

/-- The scale constants of the repository's settings and stand-ins for the library
functions that are exact on the systems the sample runs solve: the solve
divides by the diagonal (exact for a diagonal matrix), `sqrt` is exact at 0
and 1, and `expMul` adds the first three components to the translation (exact
for an increment without rotational part applied to a pose without rotation). -/
def SolverEnv.sample : SolverEnv :=
  { SCALE_XI_ROT := 1, SCALE_XI_TRANS := 1 / 2, SCALE_A := 10, SCALE_B := 1000
    ldltSolve := fun n M v i => if i < n then (IEEE.fin (v i)).divQ (M i i) else .fin 0
    sqrt := fun x => x
    expMul := fun v T => { T with translation := fun k => T.translation k + v k.val } }

/-- A stand-in for `calcGSSSE` / `calcGSSSEStereo`: the identity Hessian and a
zero gradient. -/
def sampleGS {P A : Type} : Nat → P → A → WarpBuffers → (Nat → Nat → ℚ) × (Nat → ℚ) :=
  fun _ _ _ _ => (fun i j => if i = j then 1 else 0, fun _ => 0)

/-- Parameters of a sample call: both affine modes fixed (`-1`), two levels,
`minResForAbort` all NaN, a reference frame with affine parameters `(0, 0)` and
an exposure ratio of 8 between the frames (`fromToVecExposure` is exact for
`a = 0`), and stand-ins for `sqrtf` (exact at 0 and 1) and `logf` (`logf(8)` taken
as 2). -/
def TrackParams.sample : TrackParams :=
  { setting_coarseCutoffTH := 20
    setting_affineOptModeA := -1
    setting_affineOptModeB := -1
    coarsestLvl := 1
    minResForAbort := fun _ => .nan
    sqrtf := fun x => x
    logf := fun x => if x = 8 then .fin 2 else .fin 0
    fromToVecExposure := fun aff => (8, aff.b) }

/-- The kernels of `trackNewestCoarse` on a residual environment, with the
sample solver. -/
def TrackKernel.sampleMono (e : ResEnv) (S : TrackParams) :
    TrackKernel SE3 AffLight ((Nat → Nat → ℚ) × (Nat → ℚ)) :=
  SolverEnv.sample.monoKernel S (fun lvl p a c buf => e.calcRes lvl p a c buf) sampleGS

/-- The kernels of `trackNewestCoarseStereo` on a residual environment, with the
sample solver. -/
def TrackKernel.sampleStereo (e : ResEnv) (S : TrackParams) :
    TrackKernel SE3 (AffLight × AffLight) ((Nat → Nat → ℚ) × (Nat → ℚ)) :=
  SolverEnv.sample.stereoKernel S
    (fun lvl p a c buf => e.calcResStereo lvl p a.1 a.2 c buf) sampleGS

/-! ## Quantities used to state the results on the tracking call -/

/-- The state with which the level loop was left. -/
def LoopExit.state {σ : Type} : LoopExit σ → σ
  | .aborted s => s
  | .finished s => s

/-- Whether the level loop was left through `return false`. -/
def LoopExit.isAborted {σ : Type} : LoopExit σ → Bool
  | .aborted _ => true
  | .finished _ => false

/-- The state update of one inner iteration. -/
def LMKernel.step {P A M : Type} (K : LMKernel P A M) (s : LMState P A M) : LMState P A M :=
  (K.lmIteration s).1

/-- The shape of a sequence of level passes `(level, final levelCutoffRepeat)` made
by the level loop when it is entered at `lvl` with `haveRepeated = hr` (a
sequence cut short by `return false` included): the first pass is at `lvl`; if
its multiplier ended `> 1` and no level was repeated before, the next pass is at
the same level and from then on `haveRepeated` holds; otherwise the pass is the
last one or the next pass is one level down. -/
def Schedule : Bool → Nat → List (Nat × ℚ) → Prop
  | _, _, [] => True
  | hr, lvl, q :: rest =>
    q.1 = lvl ∧
      ((q.2 > 1 ∧ hr = false → Schedule true lvl rest)
       ∧ (¬ (q.2 > 1 ∧ hr = false) → rest = [] ∨ (0 < lvl ∧ Schedule hr (lvl - 1) rest)))

/-- Number of passes that are followed by a pass at the same level. -/
def repeats : List (Nat × ℚ) → Nat
  | a :: b :: rest => (if a.1 = b.1 then 1 else 0) + repeats (b :: rest)
  | _ => 0

/-- The sample tracker with every reference colour far from the image: all
residuals are near `-90`. -/
def ResEnv.farColours : ResEnv := { ResEnv.sample with pc_color := fun _ _ => 100 }

/-- An identity Hessian with a gradient that is non-zero in the slot of `a` only. -/
def sampleHbA : (Nat → Nat → ℚ) × (Nat → ℚ) :=
  (fun i j => if i = j then 1 else 0, fun i => if i = 6 then -101 / 100 else 0)

/-! ## IMU pre-integration (`CoarseTracker::redoPreintegration`,
`IMUResidual::redoPreintegration`, `CoarseTracker::getIMUHessian`,
`IMUResidual::linearize`)

Doubles are exact rationals; Eigen matrices are Mathlib matrices over `ℚ`. -/

abbrev Mat3 := Matrix (Fin 3) (Fin 3) ℚ
abbrev Mat15 := Matrix (Fin 15) (Fin 15) ℚ
abbrev SpeedAndBias := Fin 9 → ℚ

/-- `v.segment<3>(s)` of a `SpeedAndBias` (velocity at 0, gyro bias at 3,
accelerometer bias at 6). -/
def SpeedAndBias.segment3 (v : SpeedAndBias) (s : Fin 7) : Vec3 :=
  fun k => v ⟨s.val + k.val, by omega⟩

/-- `v.tail<6>()` of a `SpeedAndBias`. -/
def SpeedAndBias.tail6 (v : SpeedAndBias) : Fin 6 → ℚ :=
  fun k => v ⟨3 + k.val, by omega⟩

/-- `M.block<p, q>(r, c) = Bk`. -/
def setBlock {m n p q : Nat} (M : Matrix (Fin m) (Fin n) ℚ) (r c : Nat)
    (Bk : Matrix (Fin p) (Fin q) ℚ) : Matrix (Fin m) (Fin n) ℚ :=
  fun i j =>
    if h : r ≤ i.val ∧ i.val < r + p ∧ c ≤ j.val ∧ j.val < c + q then
      Bk ⟨i.val - r, by omega⟩ ⟨j.val - c, by omega⟩
    else M i j

/-- `M.block<15, q>(0, c)` read out of a 15 x 15 matrix. -/
def colBlock (q c : Nat) (h : c + q ≤ 15) (M : Mat15) : Matrix (Fin 15) (Fin q) ℚ :=
  fun i j => M i ⟨c + j.val, by omega⟩

/-- `v.segment<p>(s) = w` on a 15-vector. -/
def setSegment {p : Nat} (v : Fin 15 → ℚ) (s : Nat) (w : Fin p → ℚ) : Fin 15 → ℚ :=
  fun i => if h : s ≤ i.val ∧ i.val < s + p then w ⟨i.val - s, by omega⟩ else v i

/-- One IMU sample. -/
structure IMUMeasurement where
  timestamp : ℚ
  gyr : Vec3
  acc : Vec3

/-- The fields of `IMUParameters` that the code reads. -/
structure IMUParameters where
  a_max : ℚ
  g_max : ℚ
  sigma_g_c : ℚ
  sigma_a_c : ℚ
  sigma_gw_c : ℚ
  sigma_aw_c : ℚ
  g : ℚ

/-- The library functions the pre-integration code calls (Sophus, okvis
kinematics, Eigen): `SO3::exp(v).matrix()`, `SO3::log(SO3(M))`,
`okvis::kinematics::rightJacobian`, `okvis::kinematics::crossMx`, the Eigen
`inverse()` of a 3 x 3 and of a 15 x 15 matrix, `Eigen::LLT::matrixL()`,
`norm()` of a 3-vector and of a 15-vector, and `SE3::inverse()`. -/
structure IMULib where
  SO3exp : Vec3 → Mat3
  SO3log : Mat3 → Vec3
  rightJacobian : Vec3 → Mat3
  crossMx : Vec3 → Mat3
  inverse3 : Mat3 → Mat3
  inverse15 : Mat15 → Mat15
  lltMatrixL : Mat15 → Mat15
  norm : Vec3 → ℚ
  norm15 : (Fin 15 → ℚ) → ℚ
  se3Inverse : SE3 → SE3

/-- The pre-integration members of `CoarseTracker` and of `IMUResidual`
(`redoPropagation_` is called `redo_` and `speedAndBias_ref_` is called
`speedAndBiases_ref_` in `IMUResidual`). -/
structure PreintState where
  t0_ : ℚ
  t1_ : ℚ
  redoPropagation_ : Bool
  Delta_tilde_R_ij_ : Mat3
  Delta_tilde_v_ij_ : Vec3
  Delta_tilde_p_ij_ : Vec3
  Sigma_eta_ : Matrix (Fin 6) (Fin 6) ℚ
  d_R_d_bg_ : Mat3
  d_p_d_bg_ : Mat3
  d_p_d_ba_ : Mat3
  d_v_d_bg_ : Mat3
  d_v_d_ba_ : Mat3
  Sigma_ij_ : Mat15
  information_ : Mat15
  squareRootInformation_ : Mat15
  speedAndBias_ref_ : SpeedAndBias

/-- The record of one performed integration step (not program state): the
index of the sample `it`, the values of `time`, `nexttime` and `dt`, and the
locals `sigma_g_c`, `sigma_a_c` after the saturation tests. -/
structure PreintStep where
  k : Nat
  time : ℚ
  nexttime : ℚ
  dt : ℚ
  sigma_g_c : ℚ
  sigma_a_c : ℚ

set_option genInjectivity true in
/-- The locals of the sample loop together with the members; `done` records
that the loop was left through `break`; `steps` and `visited` (the indices at
which the loop body ran) are records for stating results. -/
structure PreintLoop where
  st : PreintState
  time : ℚ
  Delta_t : ℚ
  hasStarted : Bool
  i : Nat
  done : Bool
  steps : List PreintStep
  visited : List Nat

/-- The two copies of the routine: the one of `CoarseTracker`, which takes
`T_WS_0` and `T_WS_1`, and the one of `IMUResidual`. -/
inductive PreintVariant where
  | coarseTracker (T_WS_0 T_WS_1 : SE3)
  | imuResidual

/-- The six assignments `Sigma_eta_(k, k) = sigma_gw_c * sigma_gw_c` (k < 3) and
`Sigma_eta_(k, k) = sigma_aw_c * sigma_aw_c` (3 ≤ k < 6). -/
def sigmaEtaAssign (imuParameters : IMUParameters) (S : Matrix (Fin 6) (Fin 6) ℚ) :
    Matrix (Fin 6) (Fin 6) ℚ :=
  fun i j =>
    if i = j then
      (if i.val < 3 then imuParameters.sigma_gw_c * imuParameters.sigma_gw_c
       else imuParameters.sigma_aw_c * imuParameters.sigma_aw_c)
    else S i j

/-- The statements between the early return and the loop: the increments, the
noise diagonal, the sub-Jacobians and `Sigma_ij_` are reset. -/
def preintReset (imuParameters : IMUParameters) (st : PreintState) : PreintState :=
  { st with
    Delta_tilde_R_ij_ := 1
    Delta_tilde_v_ij_ := 0
    Delta_tilde_p_ij_ := 0
    Sigma_eta_ := sigmaEtaAssign imuParameters st.Sigma_eta_
    d_R_d_bg_ := 0
    d_p_d_bg_ := 0
    d_p_d_ba_ := 0
    d_v_d_bg_ := 0
    d_v_d_ba_ := 0
    Sigma_ij_ := 0 }

/-- The test `fabs(a[0]) > m || fabs(a[1]) > m || fabs(a[2]) > m ||
fabs(b[0]) > m || fabs(b[1]) > m || fabs(b[2]) > m`. -/
def saturated (a b : Vec3) (m : ℚ) : Bool :=
  decide (|a 0| > m) || decide (|a 1| > m) || decide (|a 2| > m)
    || decide (|b 0| > m) || decide (|b 1| > m) || decide (|b 2| > m)

/-- The matrix `A` of the covariance propagation. -/
def preintA (L : IMULib) (Delta_R R_ij_ : Mat3) (acc_S_true : Vec3) (dt : ℚ) : Mat15 :=
  setBlock
    (setBlock
      (setBlock (1 : Mat15) 0 0 Delta_R.transpose)
      3 0 (dt • (-R_ij_ * L.crossMx acc_S_true)))
    6 0 (dt • (dt • (((-(3 / 2 : ℚ)) • R_ij_) * L.crossMx acc_S_true)))

/-- The matrix `B` of the covariance propagation. -/
def preintB (L : IMULib) (R_ij_ : Mat3) (omega_S_true : Vec3) (dt : ℚ) :
    Matrix (Fin 15) (Fin 6) ℚ :=
  setBlock
    (setBlock
      (setBlock
        (setBlock
          (setBlock (0 : Matrix (Fin 15) (Fin 6) ℚ) 0 0
            (dt • L.rightJacobian (dt • omega_S_true)))
          3 3 (dt • R_ij_))
        6 3 (dt • (dt • ((3 / 2 : ℚ) • R_ij_))))
      9 0 (dt • (1 : Mat3)))
    12 3 (dt • (1 : Mat3))

/-- The new `Delta_tilde_p_ij`: `CoarseTracker` adds
`1.5 * Delta_tilde_R_ij_ * acc_S_true * dt * dt`, `IMUResidual` adds
`Delta_tilde_v_ij_ * dt + 0.5 * Delta_tilde_R_ij_ * acc_S_true * dt * dt`. -/
def PreintVariant.nextP (v : PreintVariant) (st : PreintState) (acc_S_true : Vec3) (dt : ℚ) :
    Vec3 :=
  match v with
  | .coarseTracker _ _ =>
    st.Delta_tilde_p_ij_
      + dt • (dt • ((((3 / 2 : ℚ)) • st.Delta_tilde_R_ij_).mulVec acc_S_true))
  | .imuResidual =>
    st.Delta_tilde_p_ij_ + dt • st.Delta_tilde_v_ij_
      + dt • (dt • ((((1 / 2 : ℚ)) • st.Delta_tilde_R_ij_).mulVec acc_S_true))

/-- The term added to `d_R_d_bg_`: in `CoarseTracker`
`-T_WS_1.rotationMatrix() * Delta_tilde_R_ij_.transpose() *
T_WS_0.rotationMatrix().transpose() * rightJacobian(omega_S_true * dt) * dt`, in
`IMUResidual` `-Delta_tilde_R_ij * rightJacobian(omega_S_true * dt) * dt` with the
new `Delta_tilde_R_ij`. -/
def PreintVariant.dRdbgTerm (v : PreintVariant) (L : IMULib) (st : PreintState)
    (Delta_tilde_R_ij : Mat3) (omega_S_true : Vec3) (dt : ℚ) : Mat3 :=
  match v with
  | .coarseTracker T_WS_0 T_WS_1 =>
    dt • (-(Matrix.of T_WS_1.rotationMatrix) * st.Delta_tilde_R_ij_.transpose
      * (Matrix.of T_WS_0.rotationMatrix).transpose * L.rightJacobian (dt • omega_S_true))
  | .imuResidual =>
    dt • (-Delta_tilde_R_ij * L.rightJacobian (dt • omega_S_true))

/-- The statement `time = nexttime;`, present in `CoarseTracker` only. -/
def PreintVariant.nextTime (v : PreintVariant) (time nexttime : ℚ) : ℚ :=
  match v with
  | .coarseTracker _ _ => nexttime
  | .imuResidual => time

/-- One pass of the loop `for (it = imuData.begin(); it != imuData.end(); ++it)`
at `it = imuData.begin() + k`.  `junk` stands for what `*(it + 1)` reads when
`it + 1 == imuData.end()`.  Nothing happens once the loop was left through
`break`. -/
def preintBody (L : IMULib) (v : PreintVariant) (imuData : List IMUMeasurement)
    (junk : IMUMeasurement) (speedAndBias : SpeedAndBias) (imuParameters : IMUParameters)
    (s : PreintLoop) (k : Nat) : PreintLoop :=
  if s.done = true then s else
  let it := imuData.getD k junk
  let it1 := imuData.getD (k + 1) junk
  let s := { s with visited := s.visited ++ [k] }
  -- time delta
  let nexttime0 : ℚ := if k + 1 = imuData.length then s.st.t1_ else it1.timestamp
  let clamp : Bool := decide (s.st.t1_ < nexttime0)
  let interval : ℚ := nexttime0 - it.timestamp
  let nexttime : ℚ := if clamp = true then s.st.t1_ else nexttime0
  let dt : ℚ := nexttime - s.time
  let r : ℚ := dt / interval
  let omega_S_1 : Vec3 := if clamp = true then (1 - r) • it.gyr + r • it1.gyr else it1.gyr
  let acc_S_1 : Vec3 := if clamp = true then (1 - r) • it.acc + r • it1.acc else it1.acc
  if dt ≤ 0 then s else
  let r0 : ℚ := dt / (nexttime - it.timestamp)
  let omega_S_0 : Vec3 :=
    if s.hasStarted = false then r0 • it.gyr + (1 - r0) • omega_S_1 else it.gyr
  let acc_S_0 : Vec3 :=
    if s.hasStarted = false then r0 • it.acc + (1 - r0) • acc_S_1 else it.acc
  -- ensure integrity
  let sigma_g_c : ℚ :=
    if saturated omega_S_0 omega_S_1 imuParameters.g_max = true
    then imuParameters.sigma_g_c * 100 else imuParameters.sigma_g_c
  let sigma_a_c : ℚ :=
    if saturated acc_S_0 acc_S_1 imuParameters.a_max = true
    then imuParameters.sigma_a_c * 100 else imuParameters.sigma_a_c
  -- actual propagation
  let omega_S_true : Vec3 := (1 / 2 : ℚ) • (omega_S_0 + omega_S_1) - speedAndBias.segment3 3
  let Delta_R : Mat3 := L.SO3exp (dt • omega_S_true)
  let Delta_tilde_R_ij : Mat3 := s.st.Delta_tilde_R_ij_ * Delta_R
  let acc_S_true : Vec3 := (1 / 2 : ℚ) • (acc_S_0 + acc_S_1) - speedAndBias.segment3 6
  let Delta_tilde_v_ij : Vec3 :=
    s.st.Delta_tilde_v_ij_ + dt • (s.st.Delta_tilde_R_ij_.mulVec acc_S_true)
  let Delta_tilde_p_ij : Vec3 := v.nextP s.st acc_S_true dt
  -- jacobian propagation
  let d_R_d_bg : Mat3 := s.st.d_R_d_bg_ + v.dRdbgTerm L s.st Delta_tilde_R_ij omega_S_true dt
  let d_v_d_bg : Mat3 :=
    s.st.d_v_d_bg_ + dt • (-s.st.Delta_tilde_R_ij_ * L.crossMx omega_S_true * d_R_d_bg)
  let d_v_d_ba : Mat3 := s.st.d_v_d_ba_ + dt • (-s.st.Delta_tilde_R_ij_)
  let d_p_d_bg : Mat3 :=
    s.st.d_p_d_bg_
      + dt • (((-(3 / 2 : ℚ)) • s.st.Delta_tilde_R_ij_) * L.crossMx omega_S_true * d_R_d_bg)
  let d_p_d_ba : Mat3 := s.st.d_p_d_ba_ + dt • (dt • ((-(3 / 2 : ℚ)) • s.st.Delta_tilde_R_ij_))
  -- covariance propagation
  let A : Mat15 := preintA L Delta_R s.st.Delta_tilde_R_ij_ acc_S_true dt
  let B : Matrix (Fin 15) (Fin 6) ℚ := preintB L s.st.Delta_tilde_R_ij_ omega_S_true dt
  let Sigma_ij : Mat15 := A * s.st.Sigma_ij_ * A.transpose + B * s.st.Sigma_eta_ * B.transpose
  { st := { s.st with
            Delta_tilde_R_ij_ := Delta_tilde_R_ij
            Delta_tilde_v_ij_ := Delta_tilde_v_ij
            Delta_tilde_p_ij_ := Delta_tilde_p_ij
            d_R_d_bg_ := d_R_d_bg
            d_v_d_bg_ := d_v_d_bg
            d_v_d_ba_ := d_v_d_ba
            d_p_d_bg_ := d_p_d_bg
            d_p_d_ba_ := d_p_d_ba
            Sigma_ij_ := Sigma_ij }
    time := v.nextTime s.time nexttime
    Delta_t := s.Delta_t + dt
    hasStarted := true
    i := s.i + 1
    done := decide (nexttime = s.st.t1_)
    steps := s.steps ++ [{ k := k, time := s.time, nexttime := nexttime, dt := dt,
                           sigma_g_c := sigma_g_c, sigma_a_c := sigma_a_c }]
    visited := s.visited }

/-- The locals before the loop: `time = t0_`, `Delta_t = 0`, `hasStarted = false`,
`i = 0`. -/
def preintEntry (st : PreintState) : PreintLoop :=
  { st := st, time := st.t0_, Delta_t := 0, hasStarted := false, i := 0, done := false,
    steps := [], visited := [] }

/-- The whole sample loop. -/
def preintLoop (L : IMULib) (v : PreintVariant) (imuData : List IMUMeasurement)
    (junk : IMUMeasurement) (speedAndBias : SpeedAndBias) (imuParameters : IMUParameters)
    (st : PreintState) : PreintLoop :=
  (List.range imuData.length).foldl
    (preintBody L v imuData junk speedAndBias imuParameters) (preintEntry st)

/-- The statements after the loop: the reference point is stored, `Sigma_ij_`
is symmetrised, inverted, the inverse symmetrised, and the transposed Cholesky
factor of the result becomes `squareRootInformation_`. -/
def preintFinish (L : IMULib) (speedAndBias : SpeedAndBias) (st : PreintState) : PreintState :=
  let Sigma_ij : Mat15 := (1 / 2 : ℚ) • st.Sigma_ij_ + (1 / 2 : ℚ) • st.Sigma_ij_.transpose
  let information0 : Mat15 := L.inverse15 Sigma_ij
  let information : Mat15 := (1 / 2 : ℚ) • information0 + (1 / 2 : ℚ) • information0.transpose
  { st with
    speedAndBias_ref_ := speedAndBias
    Sigma_ij_ := Sigma_ij
    information_ := information
    squareRootInformation_ := (L.lltMatrixL information).transpose }

/-- What a call of `redoPreintegration` leaves: the returned `int`, the
members, and the records of the loop. -/
structure PreintRun where
  ret : Int
  state : PreintState
  steps : List PreintStep
  visited : List Nat

/-- The body shared by the two copies of `redoPreintegration`.  No result is
given for an empty `imuData` (`front()` and `back()` of an empty vector) and
when `assert(imuData.front().timestamp <= time)` fails. -/
def redoPreintegrationCore (L : IMULib) (v : PreintVariant) (imuData : List IMUMeasurement)
    (junk : IMUMeasurement) (speedAndBias : SpeedAndBias) (imuParameters : IMUParameters)
    (st : PreintState) : Option PreintRun :=
  match imuData.head?, imuData.getLast? with
  | some front, some back =>
    if ¬ (front.timestamp ≤ st.t0_) then none
    else if ¬ (back.timestamp ≥ st.t1_) then
      some { ret := -1, state := st, steps := [], visited := [] }
    else
      let s := preintLoop L v imuData junk speedAndBias imuParameters
        (preintReset imuParameters st)
      some { ret := (s.i : Int), state := preintFinish L speedAndBias s.st,
             steps := s.steps, visited := s.visited }
  | _, _ => none

/-- `CoarseTracker::redoPreintegration(imuData, T_WS_0, T_WS_1, speedAndBias,
imuParameters)` on the members `st`. -/
def CoarseTracker.redoPreintegration (L : IMULib) (imuData : List IMUMeasurement)
    (junk : IMUMeasurement) (T_WS_0 T_WS_1 : SE3) (speedAndBias : SpeedAndBias)
    (imuParameters : IMUParameters) (st : PreintState) : Option PreintRun :=
  redoPreintegrationCore L (.coarseTracker T_WS_0 T_WS_1) imuData junk speedAndBias
    imuParameters st

/-- `IMUResidual::redoPreintegration(T_WS, speedAndBias, imuParameters)` on the
members `st` and the member `imuData`; `T_WS` is not used by the body. -/
def IMUResidual.redoPreintegration (L : IMULib) (imuData : List IMUMeasurement)
    (junk : IMUMeasurement) (_T_WS : SE3) (speedAndBias : SpeedAndBias)
    (imuParameters : IMUParameters) (st : PreintState) : Option PreintRun :=
  redoPreintegrationCore L .imuResidual imuData junk speedAndBias imuParameters st

/-- The outputs `res`, `Jrdxi_0`, `Jrdsb_0`, `Jrdxi_1`, `Jrdsb_1` of
`getIMUHessian` (in `IMUResidual::linearize`: `J->resF`, `J->Jrdxi[0]`,
`J->Jrdsb[0]`, `J->Jrdxi[1]`, `J->Jrdsb[1]`). -/
structure IMUJacobians where
  res : Fin 15 → ℚ
  Jrdxi_0 : Matrix (Fin 15) (Fin 6) ℚ
  Jrdsb_0 : Matrix (Fin 15) (Fin 9) ℚ
  Jrdxi_1 : Matrix (Fin 15) (Fin 6) ℚ
  Jrdsb_1 : Matrix (Fin 15) (Fin 9) ℚ

/-- The argument of `crossMx` in the `p/R` block:
`t_S1 - t_S0 - speedAndBias_0.head<3>() * Delta_t - 0.5 * g_W * Delta_t * Delta_t`. -/
def imuPTerm (t_S0 t_S1 : Vec3) (speedAndBias_0 : SpeedAndBias) (g_W : Vec3) (Delta_t : ℚ) :
    Vec3 :=
  t_S1 - t_S0 - Delta_t • speedAndBias_0.segment3 0 - Delta_t • (Delta_t • ((1 / 2 : ℚ) • g_W))

/-- The argument of `crossMx` in the `v/R` block:
`speedAndBias_1.head<3>() - speedAndBias_0.head<3>() - g_W * Delta_t`. -/
def imuVTerm (speedAndBias_0 speedAndBias_1 : SpeedAndBias) (g_W : Vec3) (Delta_t : ℚ) : Vec3 :=
  speedAndBias_1.segment3 0 - speedAndBias_0.segment3 0 - Delta_t • g_W

/-- The overall error vector, the same expression in `getIMUHessian` and in
`linearize`; `dbh` and `dbt` are `Delta_b.head<3>()` and `Delta_b.tail<3>()`. -/
def imuError (L : IMULib) (st : PreintState) (C_S0_W C_WS_1 : Mat3) (t_S0 t_S1 : Vec3)
    (speedAndBias_0 speedAndBias_1 : SpeedAndBias) (g_W : Vec3) (Delta_t : ℚ)
    (dbh dbt : Vec3) : Fin 15 → ℚ :=
  let p : Vec3 :=
    C_S0_W.mulVec (imuPTerm t_S0 t_S1 speedAndBias_0 g_W Delta_t)
      - (st.Delta_tilde_p_ij_ + st.d_p_d_bg_.mulVec dbh + st.d_p_d_ba_.mulVec dbt)
  let R : Vec3 :=
    L.SO3log ((st.Delta_tilde_R_ij_ * L.SO3exp (st.d_R_d_bg_.mulVec dbh)).transpose
      * C_S0_W * C_WS_1)
  let v : Vec3 :=
    C_S0_W.mulVec (imuVTerm speedAndBias_0 speedAndBias_1 g_W Delta_t)
      - (st.Delta_tilde_v_ij_ + st.d_v_d_bg_.mulVec dbh + st.d_v_d_ba_.mulVec dbt)
  setSegment (setSegment (setSegment (setSegment (0 : Fin 15 → ℚ) 0 p) 3 R) 6 v) 9
    (speedAndBias_1.tail6 - speedAndBias_0.tail6)

/-- The block `R/bg` of `F0`, the same in both functions:
`-rightJacobian(-error.segment<3>(3)).inverse() *
rightJacobian(d_R_d_bg_ * Delta_b.head<3>()) * d_R_d_bg_`. -/
def imuRbgBlock (L : IMULib) (st : PreintState) (eR dbh : Vec3) : Mat3 :=
  -(L.inverse3 (L.rightJacobian (-eR))) * L.rightJacobian (st.d_R_d_bg_.mulVec dbh)
    * st.d_R_d_bg_

/-- The members a call of `redoPreintegration` made through its result
leaves: those of the run, or none when the run gives no result. -/
def PreintState.redoIf (st : PreintState) (redo : Bool) (run : PreintState → Option PreintRun) :
    Option PreintState :=
  if redo = true then (run st).map (fun r => { r.state with redoPropagation_ := false })
  else some st

namespace CoarseTracker

/-- The matrix `F0` of `getIMUHessian`. -/
def getIMUHessian_F0 (L : IMULib) (st : PreintState) (C_S0_W C_S1_W : Mat3) (pT vT : Vec3)
    (Delta_t : ℚ) (eR dbh : Vec3) : Mat15 :=
  let F0 : Mat15 := 0
  let F0 := setBlock F0 0 0 ((-1 : ℚ) • (-C_S0_W))
  let F0 := setBlock F0 0 3 (((-1 : ℚ) • C_S0_W) * L.crossMx pT)
  let F0 := setBlock F0 0 6 (Delta_t • (-C_S0_W))
  let F0 := setBlock F0 0 9 (-st.d_p_d_bg_)
  let F0 := setBlock F0 0 12 (-st.d_p_d_ba_)
  let F0 := setBlock F0 3 3 (((-1 : ℚ) • (-(L.inverse3 (L.rightJacobian eR)))) * C_S1_W)
  let F0 := setBlock F0 3 9 (imuRbgBlock L st eR dbh)
  let F0 := setBlock F0 6 3 (((-1 : ℚ) • C_S0_W) * L.crossMx vT)
  let F0 := setBlock F0 6 6 ((-1 : ℚ) • (-C_S0_W))
  let F0 := setBlock F0 6 9 (-st.d_v_d_bg_)
  let F0 := setBlock F0 6 12 (-st.d_v_d_ba_)
  let F0 := setBlock F0 9 9 (1 : Mat3)
  setBlock F0 12 12 (1 : Mat3)

/-- The matrix `F1` of `getIMUHessian`. -/
def getIMUHessian_F1 (L : IMULib) (C_S0_W C_S1_W : Mat3) (eR : Vec3) : Mat15 :=
  let F1 : Mat15 := 0
  let F1 := setBlock F1 0 0 ((-1 : ℚ) • C_S0_W)
  let F1 := setBlock F1 3 3 (((-1 : ℚ) • L.inverse3 (L.rightJacobian eR)) * C_S1_W)
  let F1 := setBlock F1 6 6 C_S0_W
  let F1 := setBlock F1 9 9 (-(1 : Mat3))
  setBlock F1 12 12 (-(1 : Mat3))

/-- `CoarseTracker::getIMUHessian` on the members `st`, with the member
`imuParameters`, the setting `setting_imuResidualWeight` and
`lastRef->worldToCam_evalPT.rotationMatrix()` as `lastRefRot`.  The value
returned by `redoPreintegration` is not read.  Gives the outputs and the
members after the call. -/
def getIMUHessian (L : IMULib) (setting_imuResidualWeight : ℚ) (imuParameters : IMUParameters)
    (lastRefRot : Mat3) (vIMUData : List IMUMeasurement) (junk : IMUMeasurement)
    (T_SW_0 T_SW_1 : SE3) (speedAndBias_0 speedAndBias_1 : SpeedAndBias) (st : PreintState) :
    Option (IMUJacobians × PreintState) :=
  let Delta_t : ℚ := st.t1_ - st.t0_
  let Delta_b : SpeedAndBias := speedAndBias_1 - st.speedAndBias_ref_
  let T_WS_0 := L.se3Inverse T_SW_0
  let T_WS_1 := L.se3Inverse T_SW_1
  let t_S0 := T_WS_0.translation
  let t_S1 := T_WS_1.translation
  let C_WS_0 : Mat3 := Matrix.of T_WS_0.rotationMatrix
  let C_S0_W : Mat3 := C_WS_0.transpose
  let C_WS_1 : Mat3 := Matrix.of T_WS_1.rotationMatrix
  let C_S1_W : Mat3 := C_WS_1.transpose
  let redo : Bool :=
    st.redoPropagation_ || decide (L.norm (Delta_b.segment3 0) * Delta_t > 1 / 10000)
  let Delta_b : SpeedAndBias := if redo = true then 0 else Delta_b
  (st.redoIf redo
    (redoPreintegration L vIMUData junk T_WS_0 T_WS_1 speedAndBias_0 imuParameters)).map
  fun st =>
    let g_W : Vec3 := lastRefRot.mulVec (Vec3f 0 (-imuParameters.g) 0)
    let dbh := Delta_b.segment3 0
    let dbt := Delta_b.segment3 6
    let error := imuError L st C_S0_W C_WS_1 t_S0 t_S1 speedAndBias_0 speedAndBias_1 g_W
      Delta_t dbh dbt
    let eR : Vec3 := fun k => error ⟨3 + k.val, by omega⟩
    let F0 := getIMUHessian_F0 L st C_S0_W C_S1_W
      (imuPTerm t_S0 t_S1 speedAndBias_0 g_W Delta_t)
      (imuVTerm speedAndBias_0 speedAndBias_1 g_W Delta_t) Delta_t eR dbh
    let F1 := getIMUHessian_F1 L C_S0_W C_S1_W eR
    ({ res := setting_imuResidualWeight • st.squareRootInformation_.mulVec error
       Jrdxi_0 := (setting_imuResidualWeight • st.squareRootInformation_)
         * colBlock 6 0 (by omega) F0
       Jrdsb_0 := (setting_imuResidualWeight • st.squareRootInformation_)
         * colBlock 9 6 (by omega) F0
       Jrdxi_1 := (setting_imuResidualWeight • st.squareRootInformation_)
         * colBlock 6 0 (by omega) F1
       Jrdsb_1 := (setting_imuResidualWeight • st.squareRootInformation_)
         * colBlock 9 6 (by omega) F1 }, st)

end CoarseTracker

namespace IMUResidual

/-- The matrix `F0` of `linearize`. -/
def linearize_F0 (L : IMULib) (st : PreintState) (C_S0_W C_S1_W : Mat3) (pT vT : Vec3)
    (Delta_t : ℚ) (eR dbh : Vec3) : Mat15 :=
  let F0 : Mat15 := 0
  let F0 := setBlock F0 0 0 (-C_S0_W)
  let F0 := setBlock F0 0 3 (C_S0_W * L.crossMx pT)
  let F0 := setBlock F0 0 6 (Delta_t • (-C_S0_W))
  let F0 := setBlock F0 0 9 (-st.d_p_d_bg_)
  let F0 := setBlock F0 0 12 (-st.d_p_d_ba_)
  let F0 := setBlock F0 3 3 (-(L.inverse3 (L.rightJacobian eR)) * C_S1_W)
  let F0 := setBlock F0 3 9 (imuRbgBlock L st eR dbh)
  let F0 := setBlock F0 6 3 (C_S0_W * L.crossMx vT)
  let F0 := setBlock F0 6 6 (-C_S0_W)
  let F0 := setBlock F0 6 9 (-st.d_v_d_bg_)
  let F0 := setBlock F0 6 12 (-st.d_v_d_ba_)
  let F0 := setBlock F0 9 9 (1 : Mat3)
  setBlock F0 12 12 (1 : Mat3)

/-- The matrix `F1` of `linearize`. -/
def linearize_F1 (L : IMULib) (C_S0_W C_S1_W : Mat3) (eR : Vec3) : Mat15 :=
  let F1 : Mat15 := 0
  let F1 := setBlock F1 0 0 C_S0_W
  let F1 := setBlock F1 3 3 (L.inverse3 (L.rightJacobian eR) * C_S1_W)
  let F1 := setBlock F1 6 6 C_S0_W
  let F1 := setBlock F1 9 9 (-(1 : Mat3))
  setBlock F1 12 12 (-(1 : Mat3))

/-- What `linearize` leaves: `*J`, the returned `state_NewEnergy`, the
pre-integration members and `redoCounter_`. -/
structure Linearized where
  J : IMUJacobians
  state_NewEnergy : ℚ
  st : PreintState
  redoCounter_ : Nat

/-- `IMUResidual::linearize(imuParameters)` on the members `st`, `imuData` and
`redoCounter_`, with `from_f->PRE_T_CW`, `to_f->PRE_T_CW` and the states of the
two `speedAndBiasHessian`s as arguments.  The value returned by
`redoPreintegration` is not read.  The casts to `float` are exact here, and
`Vector3d(0, 0, 6371009).normalized()` is `(0, 0, 1)`. -/
def linearize (L : IMULib) (setting_imuResidualWeight : ℚ) (imuParameters : IMUParameters)
    (imuData : List IMUMeasurement) (junk : IMUMeasurement) (from_PRE_T_CW to_PRE_T_CW : SE3)
    (speedAndBiases_0 speedAndBiases_1 : SpeedAndBias) (redoCounter_ : Nat)
    (st : PreintState) : Option Linearized :=
  let T_WS_0 := L.se3Inverse from_PRE_T_CW
  let T_WS_1 := L.se3Inverse to_PRE_T_CW
  let t_S0 := T_WS_0.translation
  let t_S1 := T_WS_1.translation
  let C_WS_0 : Mat3 := Matrix.of T_WS_0.rotationMatrix
  let C_S0_W : Mat3 := C_WS_0.transpose
  let C_WS_1 : Mat3 := Matrix.of T_WS_1.rotationMatrix
  let C_S1_W : Mat3 := C_WS_1.transpose
  let Delta_t : ℚ := st.t1_ - st.t0_
  let Delta_b : Fin 6 → ℚ := speedAndBiases_0.tail6 - st.speedAndBias_ref_.tail6
  let head3 : (Fin 6 → ℚ) → Vec3 := fun d k => d ⟨k.val, by omega⟩
  let tail3 : (Fin 6 → ℚ) → Vec3 := fun d k => d ⟨3 + k.val, by omega⟩
  let redo : Bool :=
    st.redoPropagation_ || decide (L.norm (head3 Delta_b) * Delta_t > 1 / 10000)
  let Delta_b : Fin 6 → ℚ := if redo = true then 0 else Delta_b
  (st.redoIf redo
    (redoPreintegration L imuData junk T_WS_0 speedAndBiases_0 imuParameters)).map
  fun st =>
    let g_W : Vec3 := imuParameters.g • Vec3f 0 0 1
    let dbh := head3 Delta_b
    let dbt := tail3 Delta_b
    let error := imuError L st C_S0_W C_WS_1 t_S0 t_S1 speedAndBiases_0 speedAndBiases_1 g_W
      Delta_t dbh dbt
    let eR : Vec3 := fun k => error ⟨3 + k.val, by omega⟩
    let F0 := linearize_F0 L st C_S0_W C_S1_W
      (imuPTerm t_S0 t_S1 speedAndBiases_0 g_W Delta_t)
      (imuVTerm speedAndBiases_0 speedAndBiases_1 g_W Delta_t) Delta_t eR dbh
    let F1 := linearize_F1 L C_S0_W C_S1_W eR
    let resF : Fin 15 → ℚ := setting_imuResidualWeight • st.squareRootInformation_.mulVec error
    { J := { res := resF
             Jrdxi_0 := setting_imuResidualWeight
               • (st.squareRootInformation_ * colBlock 6 0 (by omega) F0)
             Jrdsb_0 := setting_imuResidualWeight
               • (st.squareRootInformation_ * colBlock 9 6 (by omega) F0)
             Jrdxi_1 := setting_imuResidualWeight
               • (st.squareRootInformation_ * colBlock 6 0 (by omega) F1)
             Jrdsb_1 := setting_imuResidualWeight
               • (st.squareRootInformation_ * colBlock 9 6 (by omega) F1) }
      state_NewEnergy := setting_imuResidualWeight * L.norm15 resF
      st := st
      redoCounter_ := if redo = true then redoCounter_ + 1 else redoCounter_ }

end IMUResidual

/-! ## Concrete inputs for the pre-integration -/

/-- Stand-ins for the library functions that are exact at the arguments of
the sample calls: `SO3::exp` at 0, `SO3::log` at the identity, `rightJacobian`
at 0, the inverses and the Cholesky factor at the identity, the norms on
vectors with at most one non-zero component; `crossMx` and `SE3::inverse` are
exact everywhere. -/
def IMULib.sample : IMULib :=
  { SO3exp := fun _ => 1
    SO3log := fun _ => 0
    rightJacobian := fun _ => 1
    crossMx := fun v => Matrix.of (fun i j : Fin 3 =>
      if i.val = 0 ∧ j.val = 1 then -v 2 else if i.val = 0 ∧ j.val = 2 then v 1
      else if i.val = 1 ∧ j.val = 0 then v 2 else if i.val = 1 ∧ j.val = 2 then -v 0
      else if i.val = 2 ∧ j.val = 0 then -v 1 else if i.val = 2 ∧ j.val = 1 then v 0 else 0)
    inverse3 := fun M => M
    inverse15 := fun M => M
    lltMatrixL := fun M => M
    norm := fun v => |v 0| + |v 1| + |v 2|
    norm15 := fun v => (List.finRange 15).foldl (fun a i => a + |v i|) 0
    se3Inverse := fun T =>
      { rotationMatrix := fun i j => T.rotationMatrix j i
        translation := fun i =>
          -(T.rotationMatrix 0 i * T.translation 0 + T.rotationMatrix 1 i * T.translation 1
            + T.rotationMatrix 2 i * T.translation 2) } }

/-- Noise parameters of a sample call. -/
def IMUParameters.sample : IMUParameters :=
  { a_max := 176, g_max := 8, sigma_g_c := 3 / 250, sigma_a_c := 1 / 125,
    sigma_gw_c := 1 / 100, sigma_aw_c := 1 / 10, g := 981 / 100 }

/-- A sample at time `t` with zero rates. -/
def IMUMeasurement.zeroAt (t : ℚ) : IMUMeasurement := { timestamp := t, gyr := 0, acc := 0 }

/-- Members as an earlier frame pair may have left them, with the window of
the current frame pair `t0_ = 0`, `t1_ = 1` and `redoPropagation_ = true` as
the tracking call sets them: `Delta_tilde_v_ij_ = (5, 0, 0)`, identity rotation
and square-root information, everything else zero. -/
def PreintState.stale : PreintState :=
  { t0_ := 0, t1_ := 1, redoPropagation_ := true
    Delta_tilde_R_ij_ := 1
    Delta_tilde_v_ij_ := Vec3f 5 0 0
    Delta_tilde_p_ij_ := 0
    Sigma_eta_ := 0
    d_R_d_bg_ := 0, d_p_d_bg_ := 0, d_p_d_ba_ := 0, d_v_d_bg_ := 0, d_v_d_ba_ := 0
    Sigma_ij_ := 0
    information_ := 1
    squareRootInformation_ := 1
    speedAndBias_ref_ := 0 }

/-- A speed-and-bias with velocity `(x, 0, 0)` and zero biases. -/
def SpeedAndBias.ofSpeed (x : ℚ) : SpeedAndBias := fun k => if k.val = 0 then x else 0


/-! ## Inputs for the single-lane updates -/

/-- The SSE operand holding `x` in lane `off` and zeros in the other lanes. -/
def laneOnly (off : Nat) (x : ℚ) : M128 := fun l => if l.val = off then x else 0

/-- The arguments `J0 = 1, J1 = 2, ..., J10 = 11`. -/
def rampJ : Nat → ℚ := fun k => (k : ℚ) + 1

/-- What a statement list adds to the float at `SSEData + off + 4 * k`, when
run with `pt = SSEData + off + 4 * n` and arguments `J`. -/
def SingleStmt.contrib (w : ℚ) : List SingleStmt → (Nat → ℚ) → Nat → Nat → ℚ
  | [], _, _, _ => 0
  | .addAdv a b :: t, J, n, k => (if n = k then J a * J b else 0) + contrib w t J (n + 1) k
  | .addwAdv a b :: t, J, n, k => (if n = k then J a * J b * w else 0) + contrib w t J (n + 1) k
  | .add a b :: t, J, n, k => (if n = k then J a * J b else 0) + contrib w t J n k
  | .scale a :: t, J, n, k => contrib w t (arrSetN J a (J a * w)) n k


/-! ## Quantities used to state the results on the approximate accumulators -/

/-- Total held at float `i` of `Data` across the three cascade tiers. -/
def ApproxState.dtot (s : ApproxState) (i : Nat) : ℚ := s.Data i + s.Data1k i + s.Data1m i

/-- Entry `(p, q)` of `[x y] * [[a, b], [b, c]] * [x y]^T`:
`a*x_p*x_q + b*(x_p*y_q + y_p*x_q) + c*y_p*y_q`. -/
def approxTerm (x y : Nat → ℚ) (a b c : ℚ) (p q : Nat) : ℚ :=
  a * x p * x q + b * (x p * y q + y p * x q) + c * y p * y q

/-- What one call contributes to entry `(p, q)` of the top-left block: the
term of its arguments for `updateSSE` and `update` (whose `x` is `x4` followed
by `x6`, and `y` likewise), nothing for the other two methods. -/
def ApproxCore.Call.term : ApproxCore.Call → Nat → Nat → ℚ
  | .updateSSE x y a b c, p, q => approxTerm x y a b c p q
  | .update x4 x6 y4 y6 a b c, p, q =>
    approxTerm (ApproxCore.join46 x4 x6) (ApproxCore.join46 y4 y6) a b c p q
  | _, _, _ => 0


/-! ## Point-frame residual linearisation (`PointFrameResidual::linearize`)

The function exists twice, under `STEREO_MODE` and without it; the two
copies differ only in the Jacobian entries they write to `*J` (the stereo
copy has the two extra affine columns).  The model keeps the members that
carry the residual state and the two sums that decide it; the writes to
`*J` and to `projectedTo`, which no statement of the function reads back,
are not part of it. -/

/-- What `linearize` reads.  `projectCenter` is the result of the first
`projectPoint` call (the values stored in `centerProjectedTo`, or `none` when
the call returns false); `projectPoint idx` is the result `(Ku, Kv)` of the call
for pattern point `idx`; `interp Ku Kv` is
`getInterpolatedElement33(dIl, Ku, Kv, wG[0])`; `affLL` is `precalc->PRE_aff_mode`. -/
structure LinEnv where
  patternNum : Nat
  projectCenter : Option (Fin 3 → ℚ)
  projectPoint : Nat → Option (ℚ × ℚ)
  interp : ℚ → ℚ → IEEE × ℚ × ℚ
  color : Nat → ℚ
  weights : Nat → ℚ
  affLL : ℚ × ℚ
  setting_outlierTHSumComponent : ℚ
  setting_huberTH : ℚ
  sqrtf : ℚ → ℚ
  host_frameEnergyTH : ℚ
  target_frameEnergyTH : ℚ

/-- The residual-state members of a `PointFrameResidual`. -/
structure ResidualState where
  state_state : ResState
  state_energy : ℚ
  state_NewState : ResState
  state_NewEnergy : ℚ
  state_NewEnergyWithOutlier : ℚ
  centerProjectedTo : Fin 3 → ℚ

namespace LinEnv

/-- `std::max<float>(host->frameEnergyTH, target->frameEnergyTH)`. -/
def frameEnergyTH (e : LinEnv) : ℚ := max e.host_frameEnergyTH e.target_frameEnergyTH

/-- The term `w * w * hw * residual * residual * (2 - hw)` added to `energyLeft`
for a sample `(hitColor[0], hitColor[1], hitColor[2]) = (h0, dx, dy)` of pattern
point `idx`. -/
def energyTerm (e : LinEnv) (idx : Nat) (h0 dx dy : ℚ) : ℚ :=
  let residual := h0 - (e.affLL.1 * e.color idx + e.affLL.2)
  let w := e.sqrtf (e.setting_outlierTHSumComponent
    / (e.setting_outlierTHSumComponent + (dx * dx + dy * dy)))
  let w := (1 / 2 : ℚ) * (w + e.weights idx)
  let hw := if |residual| < e.setting_huberTH then 1 else e.setting_huberTH / |residual|
  w * w * hw * residual * residual * (2 - hw)

/-- The term `hw * hw * (hitColor[1] * hitColor[1] + hitColor[2] * hitColor[2])`
added to `wJI2_sum`, taken after `if (hw < 1) hw = sqrtf(hw); hw = hw * w;
hitColor[1] *= hw; hitColor[2] *= hw;`. -/
def gradTerm (e : LinEnv) (idx : Nat) (h0 dx dy : ℚ) : ℚ :=
  let residual := h0 - (e.affLL.1 * e.color idx + e.affLL.2)
  let w := e.sqrtf (e.setting_outlierTHSumComponent
    / (e.setting_outlierTHSumComponent + (dx * dx + dy * dy)))
  let w := (1 / 2 : ℚ) * (w + e.weights idx)
  let hw := if |residual| < e.setting_huberTH then 1 else e.setting_huberTH / |residual|
  let hw := if hw < 1 then e.sqrtf hw else hw
  let hw := hw * w
  let dx := dx * hw
  let dy := dy * hw
  hw * hw * (dx * dx + dy * dy)

/-- Body of `for (int idx = 0; idx < patternNum; idx++)` on the pair
`(energyLeft, wJI2_sum)`; `none` once an iteration has left the function
through one of its two `return state_energy;`. -/
def patternStep (e : LinEnv) (acc : Option (ℚ × ℚ)) (idx : Nat) : Option (ℚ × ℚ) :=
  match acc with
  | none => none
  | some (energyLeft, wJI2_sum) =>
    match e.projectPoint idx with
    | none => none
    | some (Ku, Kv) =>
      match e.interp Ku Kv with
      | (.fin h0, dx, dy) =>
        some (energyLeft + e.energyTerm idx h0 dx dy, wJI2_sum + e.gradTerm idx h0 dx dy)
      | _ => none

/-- The pattern loop, started with `energyLeft = 0`, `wJI2_sum = 0`. -/
def patternLoop (e : LinEnv) : Option (ℚ × ℚ) :=
  (List.range e.patternNum).foldl e.patternStep (some (0, 0))

/-- `PointFrameResidual::linearize`: the returned value and the members after
the call. -/
def linearize (e : LinEnv) (r : ResidualState) : ℚ × ResidualState :=
  let r := { r with state_NewEnergyWithOutlier := -1 }
  if r.state_state = ResState.OOB then (r.state_energy, { r with state_NewState := .OOB })
  else
    match e.projectCenter with
    | none => (r.state_energy, { r with state_NewState := .OOB })
    | some ctr =>
      let r := { r with centerProjectedTo := ctr }
      match e.patternLoop with
      | none => (r.state_energy, { r with state_NewState := .OOB })
      | some (energyLeft, wJI2_sum) =>
        let r := { r with state_NewEnergyWithOutlier := energyLeft }
        if energyLeft > e.frameEnergyTH ∨ wJI2_sum < 2 then
          (e.frameEnergyTH,
            { r with state_NewState := .OUTLIER, state_NewEnergy := e.frameEnergyTH })
        else
          (energyLeft, { r with state_NewState := .IN, state_NewEnergy := energyLeft })

end LinEnv

/-- A residual with an 8-point pattern: every sample is `(idx + 5, 3, 0)`, the
reference colours are `idx`, so every residual is 5; with
`setting_outlierTHSumComponent = 16` the radicand of the gradient weight is
`16/25`, and `sqrtf` is replaced by a stand-in that is exact there and at 0
and 1. -/
def LinEnv.sample : LinEnv :=
  { patternNum := 8
    projectCenter := some (fun _ => 1)
    projectPoint := fun idx => some ((idx : ℚ), 5)
    interp := fun x _ => (IEEE.fin (x + 5), 3, 0)
    color := fun idx => idx
    weights := fun _ => 4 / 5
    affLL := (1, 0)
    setting_outlierTHSumComponent := 16
    setting_huberTH := 9
    sqrtf := fun x => if x = 16 / 25 then 4 / 5 else x
    host_frameEnergyTH := 300
    target_frameEnergyTH := 200 }

/-- Residual members before a first linearisation. -/
def ResidualState.fresh : ResidualState :=
  { state_state := .IN, state_energy := 0, state_NewState := .OUTLIER, state_NewEnergy := 0,
    state_NewEnergyWithOutlier := -1, centerProjectedTo := fun _ => 0 }


/-! ## Pyramid intrinsics (`CoarseTracker::makeK`) -/

/-- The calibration read through `HCalib->fxl()`, `fyl()`, `cxl()`, `cyl()`. -/
structure CalibHessian where
  fxl : ℚ
  fyl : ℚ
  cxl : ℚ
  cyl : ℚ

/-- The per-level members written by `makeK`. -/
structure PyramidK where
  w : Nat → Int
  h : Nat → Int
  fx : Nat → ℚ
  fy : Nat → ℚ
  cx : Nat → ℚ
  cy : Nat → ℚ
  K : Nat → Mat33
  Ki : Nat → Mat33
  fxi : Nat → ℚ
  fyi : Nat → ℚ
  cxi : Nat → ℚ
  cyi : Nat → ℚ

namespace PyramidK

/-- The `int` value of `(int) 1 << level`, for `level < 31`. -/
def shl1 (level : Nat) : Int := 2 ^ level

/-- Body of the first loop of `makeK`. -/
def scaleStep (p : PyramidK) (level : Nat) : PyramidK :=
  { p with
    w := arrSetN p.w level (p.w 0 >>> level)
    h := arrSetN p.h level (p.h 0 >>> level)
    fx := arrSetN p.fx level (p.fx (level - 1) * (1 / 2))
    fy := arrSetN p.fy level (p.fy (level - 1) * (1 / 2))
    cx := arrSetN p.cx level ((p.cx 0 + 1 / 2) / (shl1 level : ℚ) - 1 / 2)
    cy := arrSetN p.cy level ((p.cy 0 + 1 / 2) / (shl1 level : ℚ) - 1 / 2) }

/-- The matrix `fx, 0, cx, 0, fy, cy, 0, 0, 1` (row by row). -/
def Kof (fx fy cx cy : ℚ) : Mat33 :=
  fun i j =>
    if i = 0 ∧ j = 0 then fx else if i = 0 ∧ j = 2 then cx
    else if i = 1 ∧ j = 1 then fy else if i = 1 ∧ j = 2 then cy
    else if i = 2 ∧ j = 2 then 1 else 0

/-- Body of the second loop of `makeK`; `inverse` is the Eigen `inverse()` of a
3 x 3 matrix. -/
def kStep (inverse : Mat33 → Mat33) (p : PyramidK) (level : Nat) : PyramidK :=
  let Kl := Kof (p.fx level) (p.fy level) (p.cx level) (p.cy level)
  let Kil := inverse Kl
  { p with
    K := arrSetN p.K level Kl
    Ki := arrSetN p.Ki level Kil
    fxi := arrSetN p.fxi level (Kil 0 0)
    fyi := arrSetN p.fyi level (Kil 1 1)
    cxi := arrSetN p.cxi level (Kil 0 2)
    cyi := arrSetN p.cyi level (Kil 1 2) }

/-- `CoarseTracker::makeK(HCalib)`, with the globals `wG[0]`, `hG[0]` and
`pyrLevelsUsed`. -/
def makeK (inverse : Mat33 → Mat33) (wG0 hG0 : Int) (pyrLevelsUsed : Nat)
    (HCalib : CalibHessian) (p : PyramidK) : PyramidK :=
  let p0 : PyramidK :=
    { p with
      w := arrSetN p.w 0 wG0
      h := arrSetN p.h 0 hG0
      fx := arrSetN p.fx 0 HCalib.fxl
      fy := arrSetN p.fy 0 HCalib.fyl
      cx := arrSetN p.cx 0 HCalib.cxl
      cy := arrSetN p.cy 0 HCalib.cyl }
  let p1 := (List.range' 1 (pyrLevelsUsed - 1)).foldl scaleStep p0
  (List.range pyrLevelsUsed).foldl (kStep inverse) p1

end PyramidK

/-- Members holding left-over values. -/
def PyramidK.junk : PyramidK :=
  { w := fun _ => 7, h := fun _ => 7, fx := fun _ => 7, fy := fun _ => 7, cx := fun _ => 7,
    cy := fun _ => 7, K := fun _ _ _ => 7, Ki := fun _ _ _ => 7, fxi := fun _ => 7,
    fyi := fun _ => 7, cxi := fun _ => 7, cyi := fun _ => 7 }

/-- The inverse of an upper-triangular intrinsics matrix
`fx, 0, cx, 0, fy, cy, 0, 0, 1`, as a stand-in for the Eigen `inverse()`. -/
def inverseK (K : Mat33) : Mat33 :=
  PyramidK.Kof (1 / K 0 0) (1 / K 1 1) (-(K 0 2) / K 0 0) (-(K 1 2) / K 1 1)


/-- The input `ResEnv.sample` with a stereo baseline of 2: the right projection
of the first reference point, `(3, 3)` at inverse depth 1, is `(1, 3)`, inside
the image and less than 2 pixels from its left border. -/
def ResEnv.wideBaseline : ResEnv := { ResEnv.sample with baseline := 2 }


/-! ## The non-finite guard of the solve step -/

/-- `incScaled` of `trackNewestCoarse` before the test
`if (!std::isfinite(incScaled.sum())) incScaled.setZero();`. -/
def SolverEnv.scaledMono (E : SolverEnv) (inc : Nat → IEEE) : Nat → IEEE :=
  fun i =>
    if i < 3 then (inc i).mulQ E.SCALE_XI_ROT
    else if i < 6 then (inc i).mulQ E.SCALE_XI_TRANS
    else if i = 6 then (inc i).mulQ E.SCALE_A
    else if i = 7 then (inc i).mulQ E.SCALE_B
    else inc i

/-- `incScaled` of `trackNewestCoarseStereo` before the test
`if (!std::isfinite(incScaled.sum())) incScaled.setZero();`. -/
def SolverEnv.scaledStereo (E : SolverEnv) (inc : Nat → IEEE) : Nat → IEEE :=
  fun i =>
    if i < 3 then (inc i).mulQ E.SCALE_XI_ROT
    else if i < 6 then (inc i).mulQ E.SCALE_XI_TRANS
    else if i = 6 then (inc i).mulQ E.SCALE_A
    else if i = 7 then (inc i).mulQ E.SCALE_B
    else if i = 8 then (inc i).mulQ E.SCALE_A
    else if i = 9 then (inc i).mulQ E.SCALE_B
    else inc i

/-- The sample solver with the LDLT solve of a system that holds NaN, whose
solution is NaN in every component.  `H` and `b` are exact in the model; such a
system is what `calcGSSSE` leaves on a level without residual terms, where it
multiplies the accumulated sums by `1 / buf_warped_n`. -/
def SolverEnv.nanSolve : SolverEnv :=
  { SolverEnv.sample with ldltSolve := fun _ _ _ _ => .nan }

/-- The sample solver with the LDLT solve of a system whose solution is `+inf`
in every component. -/
def SolverEnv.infSolve : SolverEnv :=
  { SolverEnv.sample with ldltSolve := fun _ _ _ _ => .pinf }

/-- The state of the inner loop of `trackNewestCoarse` on `ResEnv.sample` at level 0
with cutoff 20, at the identity pose with `lambda = 0.01`: `resOld` and the warp
buffers are those of `calcRes` at that pose. -/
def LMState.sampleMono : LMState SE3 AffLight ((Nat → Nat → ℚ) × (Nat → ℚ)) :=
  { refToNew_current := SE3.identity
    aff_current := ⟨0, 0⟩
    resOld := (ResEnv.sample.calcRes 0 SE3.identity ⟨0, 0⟩ 20 WarpBuffers.junk).1
    Hb := sampleGS 0 SE3.identity (⟨0, 0⟩ : AffLight)
      (ResEnv.sample.calcRes 0 SE3.identity ⟨0, 0⟩ 20 WarpBuffers.junk).2
    lambda := 1 / 100
    buf := (ResEnv.sample.calcRes 0 SE3.identity ⟨0, 0⟩ 20 WarpBuffers.junk).2 }

/-- The same for `trackNewestCoarseStereo`. -/
def LMState.sampleStereo : LMState SE3 (AffLight × AffLight) ((Nat → Nat → ℚ) × (Nat → ℚ)) :=
  { refToNew_current := SE3.identity
    aff_current := (⟨0, 0⟩, ⟨0, 0⟩)
    resOld := (ResEnv.sample.calcResStereo 0 SE3.identity ⟨0, 0⟩ ⟨0, 0⟩ 20 WarpBuffers.junk).1
    Hb := sampleGS 0 SE3.identity ((⟨0, 0⟩, ⟨0, 0⟩) : AffLight × AffLight)
      (ResEnv.sample.calcResStereo 0 SE3.identity ⟨0, 0⟩ ⟨0, 0⟩ 20 WarpBuffers.junk).2
    lambda := 1 / 100
    buf := (ResEnv.sample.calcResStereo 0 SE3.identity ⟨0, 0⟩ ⟨0, 0⟩ 20 WarpBuffers.junk).2 }

/-- Equality of two residual records is decided field by field. -/
instance Vec6.decEq : DecidableEq Vec6 := fun a b =>
  decidable_of_iff
    (a.r0 = b.r0 ∧ a.r1 = b.r1 ∧ a.r2 = b.r2 ∧ a.r3 = b.r3 ∧ a.r4 = b.r4 ∧ a.r5 = b.r5)
    (by cases a; cases b; simp)


/-! ## The inertial iterations of `trackNewestCoarseStereo` (`STEREO_MODE && INERTIAL_MODE`)

After the level loop the function runs six iterations on the direct terms of
level 0 together with the IMU terms.  `H` and `b` are `MatXX`, `VecX`, kept as
arrays over natural indices (zero outside their size); fixed-size Eigen
matrices are Mathlib matrices. -/

/-- A fixed-size matrix read at natural indices, 0 outside its size. -/
def natMat {p q : Nat} (A : Matrix (Fin p) (Fin q) ℚ) : Nat → Nat → ℚ :=
  fun i j => if h : i < p ∧ j < q then A ⟨i, h.1⟩ ⟨j, h.2⟩ else 0

/-- A fixed-size vector read at natural indices, 0 outside its size. -/
def natVec {p : Nat} (v : Fin p → ℚ) : Nat → ℚ :=
  fun i => if h : i < p then v ⟨i, h⟩ else 0

/-- `M.block<p, q>(r, c) += B`. -/
def addBlock (M : Nat → Nat → ℚ) (p q r c : Nat) (B : Nat → Nat → ℚ) : Nat → Nat → ℚ :=
  fun i j => if r ≤ i ∧ i < r + p ∧ c ≤ j ∧ j < c + q then M i j + B (i - r) (j - c) else M i j

/-- `M.block<p, q>(r, c) = M.block<q, p>(r2, c2).transpose()`, the two blocks being
disjoint. -/
def mirrorBlock (M : Nat → Nat → ℚ) (p q r c r2 c2 : Nat) : Nat → Nat → ℚ :=
  fun i j => if r ≤ i ∧ i < r + p ∧ c ≤ j ∧ j < c + q then M (r2 + (j - c)) (c2 + (i - r))
    else M i j

/-- `v.segment<p>(s) += w`. -/
def addSegment (v : Nat → ℚ) (p s : Nat) (w : Nat → ℚ) : Nat → ℚ :=
  fun i => if s ≤ i ∧ i < s + p then v i + w (i - s) else v i

/-- The 28 x 28 system built when `lastFrameShell` is null, before the damping. -/
def build28 (H_D : Nat → Nat → ℚ) (b_D : Nat → ℚ) (J : IMUJacobians) :
    (Nat → Nat → ℚ) × (Nat → ℚ) :=
  let H : Nat → Nat → ℚ := fun _ _ => 0
  let b : Nat → ℚ := fun _ => 0
  let H := addBlock H 10 10 0 0 H_D
  let b := addSegment b 10 0 b_D
  let H := addBlock H 6 6 0 0 (natMat (J.Jrdxi_1.transpose * J.Jrdxi_1))
  let H := addBlock H 6 9 0 10 (natMat (J.Jrdxi_1.transpose * J.Jrdsb_0))
  let H := addBlock H 6 9 0 19 (natMat (J.Jrdxi_1.transpose * J.Jrdsb_1))
  let H := addBlock H 9 9 10 10 (natMat (J.Jrdsb_0.transpose * J.Jrdsb_0))
  let H := addBlock H 9 9 10 19 (natMat (J.Jrdsb_0.transpose * J.Jrdsb_1))
  let H := addBlock H 9 9 19 19 (natMat (J.Jrdsb_1.transpose * J.Jrdsb_1))
  let H := mirrorBlock H 9 6 10 0 0 10
  let H := mirrorBlock H 9 6 19 0 0 19
  let H := mirrorBlock H 9 9 19 10 10 19
  let b := addSegment b 6 0 (natVec (J.Jrdxi_1.transpose.mulVec J.res))
  let b := addSegment b 9 10 (natVec (J.Jrdsb_0.transpose.mulVec J.res))
  let b := addSegment b 9 19 (natVec (J.Jrdsb_1.transpose.mulVec J.res))
  (H, b)

/-- The 38 x 38 system built when `lastFrameShell` is set, before the damping;
`HM`, `bM` are the members holding the prior (19 x 19 and 19). -/
def build38 (H_D : Nat → Nat → ℚ) (b_D : Nat → ℚ) (J : IMUJacobians) (HM : Nat → Nat → ℚ)
    (bM : Nat → ℚ) : (Nat → Nat → ℚ) × (Nat → ℚ) :=
  let H : Nat → Nat → ℚ := fun _ _ => 0
  let b : Nat → ℚ := fun _ => 0
  let H := addBlock H 10 10 19 19 H_D
  let b := addSegment b 10 19 b_D
  let H := addBlock H 6 6 0 0 (natMat (J.Jrdxi_0.transpose * J.Jrdxi_0))
  let H := addBlock H 6 9 0 10 (natMat (J.Jrdxi_0.transpose * J.Jrdsb_0))
  let H := addBlock H 6 6 0 19 (natMat (J.Jrdxi_0.transpose * J.Jrdxi_1))
  let H := addBlock H 6 9 0 28 (natMat (J.Jrdxi_0.transpose * J.Jrdsb_1))
  let H := addBlock H 9 9 10 10 (natMat (J.Jrdsb_0.transpose * J.Jrdsb_0))
  let H := addBlock H 9 6 10 19 (natMat (J.Jrdsb_0.transpose * J.Jrdxi_1))
  let H := addBlock H 9 9 10 28 (natMat (J.Jrdsb_0.transpose * J.Jrdsb_1))
  let H := addBlock H 6 6 19 19 (natMat (J.Jrdxi_1.transpose * J.Jrdxi_1))
  let H := addBlock H 6 9 19 28 (natMat (J.Jrdxi_1.transpose * J.Jrdsb_1))
  let H := addBlock H 9 9 29 29 (natMat (J.Jrdsb_1.transpose * J.Jrdsb_1))
  let H := mirrorBlock H 9 6 10 0 0 10
  let H := mirrorBlock H 6 6 19 0 0 19
  let H := mirrorBlock H 6 9 19 10 10 19
  let H := mirrorBlock H 9 6 28 0 0 28
  let H := mirrorBlock H 9 9 28 10 10 28
  let H := mirrorBlock H 9 6 28 19 19 28
  let b := addSegment b 6 0 (natVec (J.Jrdxi_0.transpose.mulVec J.res))
  let b := addSegment b 9 10 (natVec (J.Jrdsb_0.transpose.mulVec J.res))
  let b := addSegment b 6 19 (natVec (J.Jrdxi_1.transpose.mulVec J.res))
  let b := addSegment b 9 29 (natVec (J.Jrdsb_1.transpose.mulVec J.res))
  -- prior
  let H := addBlock H 10 10 0 0 HM
  let H := addBlock H 9 9 10 10 (fun i j => HM (10 + i) (10 + j))
  let b := addSegment b 10 0 bM
  let b := addSegment b 9 10 (fun i => bM (10 + i))
  (H, b)


/-- What the inertial iterations call, all at level 0:
* `calcResStereo p a buf` is `calcResStereo(0, p, a.1, a.2, setting_coarseCutoffTH * 1)`: the
  returned `Vec6` and the warp buffers it leaves;
* `calcGSSSEStereo p a buf` is the pair `(H_D, b_D)` that
  `calcGSSSEStereo(0, H_D, b_D, p, a.1, a.2)` computes from the warp buffers;
* `getIMUHessian T_SW_0 T_SW_1 speedAndBias_0 speedAndBias_1 st` gives the outputs
  of `getIMUHessian(vIMUData, ...)` and the pre-integration members after the call,
  or nothing when the call has no result. -/
structure InertialKernel where
  calcResStereo : SE3 → AffLight × AffLight → WarpBuffers → Vec6 × WarpBuffers
  calcGSSSEStereo : SE3 → AffLight × AffLight → WarpBuffers → (Nat → Nat → ℚ) × (Nat → ℚ)
  getIMUHessian : SE3 → SE3 → SpeedAndBias → SpeedAndBias → PreintState
    → Option (IMUJacobians × PreintState)

/-- A record of one inertial iteration (not program state): the pose and the
affine parameters passed to the `calcResStereo` call that gives `resOld`, the
pose passed to `calcGSSSEStereo`, the value of `T_SW_1` at that moment, `resOld`,
`resNew` and `accept`. -/
structure InertialEval where
  resPose : SE3
  resAff : AffLight × AffLight
  gsPose : SE3
  T_SW_1 : SE3
  resOld : Vec6
  resNew : Vec6
  accept : Bool

/-- The variables the inertial iterations carry.  `refToNew_current`,
`aff_current = (aff_g2l_current, aff_g2l_r_current)` are those of the level loop; `H`,
`b` hold the system of the last iteration (after the damping of `H`); `evals` is
a record for stating results. -/
structure InertialState where
  refToNew_current : SE3
  aff_current : AffLight × AffLight
  T_SW_0 : SE3
  T_SW_1 : SE3
  speedAndBias_0 : SpeedAndBias
  speedAndBias_1 : SpeedAndBias
  H : Nat → Nat → ℚ
  b : Nat → ℚ
  buf : WarpBuffers
  st : PreintState
  evals : List InertialEval

/-- `sb += inc.segment<9>(s)`; no value when a component of the segment is not
finite (the model keeps speed and biases exact). -/
def SpeedAndBias.addInc (sb : SpeedAndBias) (inc : Nat → IEEE) (s : Nat) : Option SpeedAndBias :=
  if ∀ k : Fin 9, (inc (s + k.val)).isfinite = true
  then some (fun k => sb k + (inc (s + k.val)).toQ)
  else none

/-- The size of the system: 38 with a last-frame shell, 28 without. -/
def inertialSize (lastFrameShell : Bool) : Nat := if lastFrameShell = true then 38 else 28

/-- The system of an inertial iteration after
`for (int i = 0; i < n; i++) H(i, i) *= (1 + lambda);`. -/
def inertialSystem (lastFrameShell : Bool) (HM : Nat → Nat → ℚ) (bM : Nat → ℚ)
    (HbD : (Nat → Nat → ℚ) × (Nat → ℚ)) (J : IMUJacobians) (lambda : ℚ) :
    (Nat → Nat → ℚ) × (Nat → ℚ) :=
  let Hb := if lastFrameShell = true then build38 HbD.1 HbD.2 J HM bM
    else build28 HbD.1 HbD.2 J
  (damp (inertialSize lastFrameShell) Hb.1 lambda, Hb.2)

/-- `inc = H.ldlt().solve(-b); inc *= extrapFac;`. -/
def inertialInc (E : SolverEnv) (lastFrameShell : Bool) (Hb : (Nat → Nat → ℚ) × (Nat → ℚ))
    (lambda : ℚ) : Nat → IEEE :=
  fun i =>
    (if i < inertialSize lastFrameShell
      then E.ldltSolve (inertialSize lastFrameShell) Hb.1 (fun i => -Hb.2 i) i
      else .fin 0).mulQ (E.extrapFac lambda)

/-- `(T_SW_1_new, (aff_g2l_new, aff_g2l_r_new))`, from `incScaled = inc.segment<10>(19)` with
a last-frame shell and `incScaled = inc.head<10>()` without. -/
def inertialCandidate (E : SolverEnv) (lastFrameShell : Bool) (inc : Nat → IEEE) (T_SW_1 : SE3)
    (a : AffLight × AffLight) : SE3 × (AffLight × AffLight) :=
  let o1 : Nat := if lastFrameShell = true then 19 else 0
  let incScaled := E.incScaledStereo (fun i => inc (o1 + i))
  (E.expMul (fun i => (incScaled i).toQ) T_SW_1,
    ({ a := a.1.a + (incScaled 6).toQ, b := a.1.b + (incScaled 7).toQ },
     { a := a.2.a + (incScaled 8).toQ, b := a.2.b + (incScaled 9).toQ }))

/-- The value of `T_SW_0` after an accepted step: `T_SW_0_new`, from
`incScaled = inc.segment<10>(0)`, with a last-frame shell; `T_SW_0` without. -/
def inertialT0 (E : SolverEnv) (lastFrameShell : Bool) (inc : Nat → IEEE) (T_SW_0 : SE3) : SE3 :=
  if lastFrameShell = true
  then E.expMul (fun i => ((E.incScaledStereo (fun i => inc i)) i).toQ) T_SW_0
  else T_SW_0

/-- The offset of the increment of `speedAndBias_1` in `inc`. -/
def sb1Offset (lastFrameShell : Bool) : Nat := if lastFrameShell = true then 29 else 19

namespace InertialKernel

/-- One iteration of `for (int iteration = 0; iteration < 6; iteration++)`.
`lastFrameShell` tells whether the member `lastFrameShell` is set; `HM`, `bM` are
the members holding the prior.  No result when `getIMUHessian` has none or when
an accepted step adds a non-finite value to a speed and bias. -/
def inertialIteration (K : InertialKernel) (E : SolverEnv) (lastFrameShell : Bool)
    (HM : Nat → Nat → ℚ) (bM : Nat → ℚ) (s : InertialState) : Option InertialState :=
  -- `float lambda = 0.01;`
  let lambda : ℚ := 1 / 100
  -- get Direct Hessian
  let ro := K.calcResStereo s.refToNew_current s.aff_current s.buf
  let resOld := ro.1
  let HbD := K.calcGSSSEStereo s.T_SW_1 s.aff_current ro.2
  -- get IMU Hessian
  match K.getIMUHessian s.T_SW_0 s.T_SW_1 s.speedAndBias_0 s.speedAndBias_1 s.st with
  | none => none
  | some (J, st) =>
    let Hb := inertialSystem lastFrameShell HM bM HbD J lambda
    let inc := inertialInc E lastFrameShell Hb lambda
    let cand := inertialCandidate E lastFrameShell inc s.T_SW_1 s.aff_current
    let rn := K.calcResStereo cand.1 cand.2 ro.2
    let resNew := rn.1
    let ev : InertialEval :=
      { resPose := s.refToNew_current, resAff := s.aff_current, gsPose := s.T_SW_1,
        T_SW_1 := s.T_SW_1, resOld := resOld, resNew := resNew,
        accept := LMKernel.accept resNew resOld }
    if LMKernel.accept resNew resOld = true then
      match s.speedAndBias_0.addInc inc 10,
            s.speedAndBias_1.addInc inc (sb1Offset lastFrameShell) with
      | some sb0, some sb1 =>
        some { s with
          aff_current := cand.2
          T_SW_0 := inertialT0 E lastFrameShell inc s.T_SW_0
          T_SW_1 := cand.1
          speedAndBias_0 := sb0
          speedAndBias_1 := sb1
          H := Hb.1, b := Hb.2, buf := rn.2, st := st
          evals := s.evals ++ [ev] }
      | _, _ => none
    else
      some { s with H := Hb.1, b := Hb.2, buf := rn.2, st := st, evals := s.evals ++ [ev] }

/-- The six inertial iterations. -/
def inertialLoop (K : InertialKernel) (E : SolverEnv) (lastFrameShell : Bool)
    (HM : Nat → Nat → ℚ) (bM : Nat → ℚ) (s : InertialState) : Option InertialState :=
  (List.range 6).foldl (fun o _ => o.bind (K.inertialIteration E lastFrameShell HM bM)) (some s)

end InertialKernel

/-- The state with which the inertial iterations are entered:
`redoPropagation_ = true`, `t0_`, `t1_` the time stamps of the two frames,
`speedAndBias_0`, `speedAndBias_1` those of the two shells, `T_SW_0 = lastToNew_out` with
a last-frame shell and the identity without, `T_SW_1 = refToNew_current`. -/
def inertialEntry (lastFrameShell : Bool) (lastToNew_out refToNew_current : SE3)
    (aff_current : AffLight × AffLight) (t0 t1 : ℚ) (speedAndBias_0 speedAndBias_1 : SpeedAndBias)
    (H : Nat → Nat → ℚ) (b : Nat → ℚ) (buf : WarpBuffers) (st : PreintState) : InertialState :=
  { refToNew_current := refToNew_current
    aff_current := aff_current
    T_SW_0 := if lastFrameShell = true then lastToNew_out else SE3.identity
    T_SW_1 := refToNew_current
    speedAndBias_0 := speedAndBias_0
    speedAndBias_1 := speedAndBias_1
    H := H, b := b, buf := buf
    st := { st with redoPropagation_ := true, t0_ := t0, t1_ := t1 }
    evals := [] }


/-! ## Concrete inputs for the inertial iterations -/

/-- The input `ResEnv.sample` with reference colours `3/5` below the image value
that each point meets at the identity pose: every residual is `3/5` there, and
`1/10` after a shift of the pose by `-1/2` in `x`. -/
def ResEnv.nearMinimum : ResEnv :=
  { ResEnv.sample with pc_color := fun _ k => 2 * (k : ℚ) + 27 / 5 }

/-- The sample solver with a solve that divides by the diagonal and gives 0
where the diagonal entry is 0, as the LDLT solve does on a diagonal matrix (it
applies the pseudo-inverse of `D`). -/
def SolverEnv.diagSolve : SolverEnv :=
  { SolverEnv.sample with
    ldltSolve := fun n M v i => if i < n ∧ M i i ≠ 0 then .fin (v i / M i i) else .fin 0 }

/-- Zero IMU residual and Jacobians, the outputs of `getIMUHessian` for
`setting_imuResidualWeight = 0`. -/
def IMUJacobians.zero : IMUJacobians :=
  { res := 0, Jrdxi_0 := 0, Jrdsb_0 := 0, Jrdxi_1 := 0, Jrdsb_1 := 0 }

/-- Kernels of a sample run: `calcResStereo` on `ResEnv.nearMinimum` with cutoff 20;
a stand-in for `calcGSSSEStereo` (identity `H_D`, `b_D` with `1.01 / 2` in its first
slot, so that the damped solve gives the step `-1/2` in `x`); a stand-in for
`getIMUHessian` with zero outputs, which clears `redoPropagation_` and does not
follow the other members. -/
def InertialKernel.sample : InertialKernel :=
  { calcResStereo := fun p a buf => ResEnv.nearMinimum.calcResStereo 0 p a.1 a.2 20 buf
    calcGSSSEStereo := fun _ _ _ =>
      (fun i j => if i = j ∧ i < 10 then 1 else 0, fun i => if i = 0 then 101 / 200 else 0)
    getIMUHessian := fun _ _ _ _ st =>
      some (IMUJacobians.zero, { st with redoPropagation_ := false }) }

/-- The state after a level loop that ended at the identity pose with affine
parameters `(0, 0)`, with a last-frame shell at the identity, zero speed and
biases and the time stamps 0 and 1. -/
def InertialState.sample : InertialState :=
  inertialEntry true SE3.identity SE3.identity (⟨0, 0⟩, ⟨0, 0⟩) 0 1 0 0 (fun _ _ => 0)
    (fun _ => 0) WarpBuffers.junk PreintState.stale


/-! ## Quantities used to state the results on the 38 x 38 system -/

/-- The stacked IMU Jacobian, a 15 x 38 matrix: the column blocks `Jrdxi_0`,
`Jrdsb_0`, `Jrdxi_1`, `Jrdsb_1` at the column offsets 0, 10, 19, 29, zero columns
elsewhere. -/
def IMUJacobians.stacked (J : IMUJacobians) : Fin 15 → Nat → ℚ :=
  fun k c =>
    if h : c < 6 then J.Jrdxi_0 k ⟨c, h⟩
    else if h : 10 ≤ c ∧ c < 19 then J.Jrdsb_0 k ⟨c - 10, by omega⟩
    else if h : 19 ≤ c ∧ c < 25 then J.Jrdxi_1 k ⟨c - 19, by omega⟩
    else if h : 29 ≤ c ∧ c < 38 then J.Jrdsb_1 k ⟨c - 29, by omega⟩
    else 0

/-- Entry `(i, j)` of `J^T * J` for the stacked Jacobian. -/
def IMUJacobians.JtJ (J : IMUJacobians) (i j : Nat) : ℚ :=
  ∑ k : Fin 15, J.stacked k i * J.stacked k j

/-- Entry `i` of `J^T * res` for the stacked Jacobian. -/
def IMUJacobians.Jtres (J : IMUJacobians) (i : Nat) : ℚ :=
  ∑ k : Fin 15, J.stacked k i * J.res k

/-- A prior with 1 in every entry. -/
def onesHM : Nat → Nat → ℚ := fun i j => if i < 19 ∧ j < 19 then 1 else 0

/-- Jacobians whose only non-zero entries are `Jrdxi_0(0, 0) = 1` and
`Jrdsb_1(0, 0) = 2`, `Jrdsb_1(0, 8) = 3`. -/
def IMUJacobians.corner : IMUJacobians :=
  { res := fun k => if k.val = 0 then 1 else 0
    Jrdxi_0 := Matrix.of (fun k c => if k.val = 0 ∧ c.val = 0 then 1 else 0)
    Jrdsb_0 := 0
    Jrdxi_1 := 0
    Jrdsb_1 := Matrix.of (fun k c =>
      if k.val = 0 ∧ c.val = 0 then 2 else if k.val = 0 ∧ c.val = 8 then 3 else 0) }



/-! ## The marginalisation after the inertial iterations -/

/-- `M.block<p, q>(r, c) = B`. -/
def assignBlock (M : Nat → Nat → ℚ) (p q r c : Nat) (B : Nat → Nat → ℚ) : Nat → Nat → ℚ :=
  fun i j => if r ≤ i ∧ i < r + p ∧ c ≤ j ∧ j < c + q then B (i - r) (j - c) else M i j

/-- The block of `M` that starts at `(r, c)`, read from index 0. -/
def readBlock (M : Nat → Nat → ℚ) (r c : Nat) : Nat → Nat → ℚ :=
  fun i j => M (r + i) (c + j)

/-- `v.segment<p>(s) = w`. -/
def assignSegment (v : Nat → ℚ) (p s : Nat) (w : Nat → ℚ) : Nat → ℚ :=
  fun i => if s ≤ i ∧ i < s + p then w (i - s) else v i

/-- The segment of `v` that starts at `s`, read from index 0. -/
def readSegment (v : Nat → ℚ) (s : Nat) : Nat → ℚ :=
  fun i => v (s + i)

/-- Entry `(i, j)` of the product `B * Di * C` of a matrix with `m` columns, an
`m x m` matrix and a matrix with `m` rows. -/
def triple (m : Nat) (B Di C : Nat → Nat → ℚ) (i j : Nat) : ℚ :=
  ∑ k in Finset.range m, ∑ l in Finset.range m, B i k * Di k l * C l j

/-- Entry `i` of the product `B * Di * v`. -/
def tripleVec (m : Nat) (B Di : Nat → Nat → ℚ) (v : Nat → ℚ) (i : Nat) : ℚ :=
  ∑ k in Finset.range m, ∑ l in Finset.range m, B i k * Di k l * v l

/-- The block moves made on `H` and `b` when `lastFrameShell` is null. -/
def moveBlocks28 (H : Nat → Nat → ℚ) (b : Nat → ℚ) : (Nat → Nat → ℚ) × (Nat → ℚ) :=
  -- 4 <-> 8
  let temp4 := readBlock H 10 10
  let H := assignBlock H 9 9 10 10 (readBlock H 19 19)
  let H := assignBlock H 9 9 19 19 temp4
  -- 5 <-> 7
  let H := assignBlock H 9 9 10 19 (fun i j => readBlock H 10 19 j i)
  let H := assignBlock H 9 9 19 10 (fun i j => readBlock H 19 10 j i)
  -- 1 <-> 2
  let temp1 := readBlock H 0 10
  let H := assignBlock H 10 9 0 10 (readBlock H 0 19)
  let H := assignBlock H 10 9 0 19 temp1
  -- 3 <-> 6
  let temp3 := readBlock H 10 0
  let H := assignBlock H 9 10 10 0 (readBlock H 19 0)
  let H := assignBlock H 9 10 19 0 temp3
  -- Move b parts
  let tempb := readSegment b 10
  let b := assignSegment b 9 10 (readSegment b 19)
  let b := assignSegment b 9 19 tempb
  (H, b)

/-- The marginalisation statements: the new values of the members `HM`, `bM`
(19 x 19 and 19, zero outside), from `H`, `b` as the last iteration left them.
`inverse m M` is the Eigen `inverse()` of the `m x m` matrix `M`.
Without a last-frame shell:
`HM = H.block<19, 19>(0, 0) - H.block<19, 9>(0, 19) * H.block<9, 9>(19, 19).inverse()
* H.block<9, 19>(19, 0)` after the block moves, `bM` alike; with one:
`HM = H.block<19, 19>(19, 19) - H.block<19, 19>(19, 0) * H.block<19, 19>(0, 0).inverse()
* H.block<19, 19>(0, 19)`, `bM` alike. -/
def marginalize (inverse : Nat → (Nat → Nat → ℚ) → Nat → Nat → ℚ) (lastFrameShell : Bool)
    (H : Nat → Nat → ℚ) (b : Nat → ℚ) : (Nat → Nat → ℚ) × (Nat → ℚ) :=
  if lastFrameShell = false then
    let Hb := moveBlocks28 H b
    let Di := inverse 9 (readBlock Hb.1 19 19)
    (fun i j => if i < 19 ∧ j < 19
        then Hb.1 i j - triple 9 (readBlock Hb.1 0 19) Di (readBlock Hb.1 19 0) i j else 0,
      fun i => if i < 19
        then Hb.2 i - tripleVec 9 (readBlock Hb.1 0 19) Di (readSegment Hb.2 19) i else 0)
  else
    let Di := inverse 19 (readBlock H 0 0)
    (fun i j => if i < 19 ∧ j < 19
        then readBlock H 19 19 i j - triple 19 (readBlock H 19 0) Di (readBlock H 0 19) i j
        else 0,
      fun i => if i < 19
        then readSegment b 19 i - tripleVec 19 (readBlock H 19 0) Di (readSegment b 0) i else 0)

/-- The members `HM`, `bM` after the inertial part: the marginalisation of the
system that the last of the six iterations left. -/
def InertialKernel.inertialPrior (K : InertialKernel) (E : SolverEnv)
    (inverse : Nat → (Nat → Nat → ℚ) → Nat → Nat → ℚ) (lastFrameShell : Bool)
    (HM : Nat → Nat → ℚ) (bM : Nat → ℚ) (s : InertialState) :
    Option ((Nat → Nat → ℚ) × (Nat → ℚ)) :=
  (K.inertialLoop E lastFrameShell HM bM s).map
    (fun s1 => marginalize inverse lastFrameShell s1.H s1.b)

/-- The exchange of the index ranges 10..18 and 19..27. -/
def swapSb (i : Nat) : Nat :=
  if 10 ≤ i ∧ i < 19 then i + 9 else if 19 ≤ i ∧ i < 28 then i - 9 else i

/-- The inverse of a diagonal matrix, 0 outside the diagonal and where the
diagonal entry is 0. -/
def inverseDiag : Nat → (Nat → Nat → ℚ) → Nat → Nat → ℚ :=
  fun n M i j => if i = j ∧ i < n then 1 / M i i else 0


/-- A symmetric sample system: 2 on the diagonal, except 3 at the first pose
entry of the new frame (`p`), which is coupled by 1 to the first eliminated
variable (`q`); `b` is 1 at `p`, 4 at `q`. -/
def sampleSystem (p q : Nat) : (Nat → Nat → ℚ) × (Nat → ℚ) :=
  (fun i j => if i = p ∧ j = p then 3 else if i = j then 2
      else if (i = p ∧ j = q) ∨ (i = q ∧ j = p) then 1 else 0,
    fun i => if i = p then 1 else if i = q then 4 else 0)


/-! ## Quantities used to state the results on the pre-integration loop -/

/-- The loop state without the records of the performed steps. -/
def PreintLoop.core (s : PreintLoop) : PreintLoop := { s with steps := [] }

/-- A sample at time `t` with zero rates and the acceleration `(a, 0, 0)`. -/
def IMUMeasurement.accAt (t a : ℚ) : IMUMeasurement :=
  { timestamp := t, gyr := 0, acc := Vec3f a 0 0 }

/-- A sample at time `t` with the rate `(g, 0, 0)` and zero acceleration. -/
def IMUMeasurement.gyrAt (t g : ℚ) : IMUMeasurement :=
  { timestamp := t, gyr := Vec3f g 0 0, acc := 0 }

/-! ## Inputs for the redo test of the inertial residual -/

/-- A speed-and-bias with gyro bias `(x, 0, 0)`, zero velocity and zero
accelerometer bias. -/
def SpeedAndBias.ofGyroBias (x : ℚ) : SpeedAndBias := fun k => if k.val = 3 then x else 0

/-- Members after an earlier pre-integration over `[0, 1]`: no redo
requested, linearisation point 0, `Delta_tilde_v_ij_ = (5, 0, 0)` and
`d_v_d_bg_` the identity. -/
def PreintState.settled : PreintState :=
  { PreintState.stale with redoPropagation_ := false, d_v_d_bg_ := 1 }

/-- The three samples at times 0, 1/2 and 1 with zero measurements. -/
def IMUMeasurement.zeroRun : List IMUMeasurement :=
  [IMUMeasurement.zeroAt 0, IMUMeasurement.zeroAt (1 / 2), IMUMeasurement.zeroAt 1]

/-! ## The step ends of the pre-integration loop -/

/-- The value of `nexttime` when the test `dt <= 0.0` is reached in the pass at
`it = imuData.begin() + k`: the timestamp of the next sample (`t1_` after the
last sample), replaced by `t1_` when it lies behind `end = t1_`. -/
def preintNexttime (imuData : List IMUMeasurement) (junk : IMUMeasurement) (t1 : ℚ) (k : Nat) :
    ℚ :=
  let nexttime0 : ℚ := if k + 1 = imuData.length then t1 else (imuData.getD (k + 1) junk).timestamp
  if t1 < nexttime0 then t1 else nexttime0

/-- The samples at times 0, 1/2 and 1, each with acceleration `(1, 0, 0)` and
zero rates. -/
def IMUMeasurement.pushRun : List IMUMeasurement :=
  [IMUMeasurement.accAt 0 1, IMUMeasurement.accAt (1 / 2) 1, IMUMeasurement.accAt 1 1]

/-- The loop invariant of the sample loop of `CoarseTracker::redoPreintegration`
over a window `[t0, t1]` and `n` samples: while the loop has not been left,
`time` lies before `t1`; the recorded steps have positive length, each starts
where the one before ended, the first starts at `t0`, the last ends at `time`,
and their lengths add up to `time - t0`; every pass ran at an index that has a
next sample. -/
structure PreintLoop.Walked (n : Nat) (t0 t1 : ℚ) (s : PreintLoop) : Prop where
  ht1 : s.st.t1_ = t1
  open_lt : s.done = false → s.time < t1
  closed : s.done = true → s.time = t1
  dt_pos : ∀ p ∈ s.steps, 0 < p.dt ∧ p.dt = p.nexttime - p.time ∧ p.k + 1 < n
  chain : List.Chain' (fun a b : PreintStep => b.time = a.nexttime) s.steps
  first : ∀ p, s.steps.head? = some p → p.time = t0
  last : ∀ p, s.steps.getLast? = some p → p.nexttime = s.time
  empty : s.steps = [] → s.time = t0
  total : (s.steps.map PreintStep.dt).sum = s.time - t0
  delta : s.Delta_t = s.time - t0
  visited : ∀ k ∈ s.visited, k + 1 < n

/-! ## The indices touched by the dilation loop -/

/-- The indices at which the body of the dilation loop at `i` reads or writes
`weightSumsl_bak`, `idepthl` or `weightSumsl`: `i` itself and, when
`weightSumsl_bak[i] <= 0`, the four tested neighbours `i + off`. -/
def dilateIndices (offs : List Int) (a : LevelArrays) (i : Int) : List Int :=
  if a.weightSums_bak i ≤ 0 then i :: offs.map (fun off => i + off) else [i]

/-- Level arrays of a `w * h` level holding a single valid pixel
`(w - 2, h - 3)` with inverse depth `1/2` and weight `1`; the float behind the
last element of `weightSums_bak` holds `1` and the float behind the last
element of `idepth` holds `9`. -/
def LevelArrays.nearEnd (w h : Int) : LevelArrays :=
  { idepth := fun i => if i = (w - 2) + (h - 3) * w then 1 / 2 else if i = w * h then 9 else 0
    weightSums := fun i => if i = (w - 2) + (h - 3) * w then 1 else 0
    weightSums_bak := fun i => if i = w * h then 1 else 0 }

/-! ## The per-lane factor of `calcMSCSSEStereo` -/

/-- The divisor `dd * dd + dd_r * dd_r` of `dd2_i` in `calcMSCSSEStereo` at lane
`k` of the warp buffers (the loop `for (i = 0; i < n; i += 4)` processes the
lanes `k < buf_warped_n`). -/
def calcMSCSSEStereo_divisor (b : WarpBuffers) (k : Nat) : ℚ :=
  b.dd k * b.dd k + b.dd_r k * b.dd_r k

/-- The factor `dd2_i = 1 / (dd * dd + dd_r * dd_r)` at lane `k`. -/
def calcMSCSSEStereo_dd2_i (b : WarpBuffers) (k : Nat) : IEEE :=
  (IEEE.fin 1).divQ (calcMSCSSEStereo_divisor b k)

/-- The weight operand `buf_warped_weight[k] * dd2_i` of the first
`updateSSE_tened` at lane `k`. -/
def calcMSCSSEStereo_weight (b : WarpBuffers) (k : Nat) : IEEE :=
  (calcMSCSSEStereo_dd2_i b k).mulQ (b.weight k)

/-- The weight operand `buf_warped_weight_r[k] * dd2_i` of the second
`updateSSE_tened` at lane `k`. -/
def calcMSCSSEStereo_weight_r (b : WarpBuffers) (k : Nat) : IEEE :=
  (calcMSCSSEStereo_dd2_i b k).mulQ (b.weight_r k)

/-- The pose with identity rotation and translation `(x, 0, 0)`. -/
def SE3.shiftX (x : ℚ) : SE3 := { rotationMatrix := Mat33.Identity, translation := Vec3f x 0 0 }

/-! ## Quantities used to state the result on dilated pixels -/

namespace CoarseTracker

/-- What the normalisation stores in `idepthl[i]` at a pixel it visits, from the
values `s = idepthl[i]`, `wt = weightSumsl[i]` and the colour `c = dIRefl[i][0]`
before the visit: the quotient `s / wt` when the weight is positive, the colour
is finite and the quotient is positive, and `-1` otherwise. -/
def normalizedValue (s wt : ℚ) (c : IEEE) : ℚ :=
  if wt > 0 ∧ c.isfinite = true ∧ s / wt > 0 then s / wt else -1

/-- Pixel `(x, y)` of a `w * h` level with arrays `a` before the dilation pass
with offsets `offs` (neighbourhood `nb`): the pass leaves a positive weight
there, the quotient `idepth / weightSums` after the pass is the sum of the valid
neighbours' `idepth` entries over the sum of their weights, that quotient lies
within any bounds that hold for the neighbours' own quotients, and the
normalisation loop of the level stores it (`-1` when the colour is not finite or
the quotient is not positive). -/
def FilledByDilation (nb : List (Int × Int)) (offs : List Int) (w h : Int) (a : LevelArrays)
    (dIRefl : Int → IEEE) (pc : LevelPC) (x y : Int) : Prop :=
  0 < ((validNeighbours nb w a).map a.weightSums).sum
  ∧ 0 < (dilatePass offs w h a).weightSums (x + y * w)
  ∧ (dilatePass offs w h a).idepth (x + y * w) / (dilatePass offs w h a).weightSums (x + y * w)
      = ((validNeighbours nb w a).map a.idepth).sum
          / ((validNeighbours nb w a).map a.weightSums).sum
  ∧ (∀ lo hi : ℚ,
      (∀ j ∈ validNeighbours nb w a,
        lo ≤ a.idepth j / a.weightSums j ∧ a.idepth j / a.weightSums j ≤ hi) →
      lo ≤ ((validNeighbours nb w a).map a.idepth).sum
            / ((validNeighbours nb w a).map a.weightSums).sum
      ∧ ((validNeighbours nb w a).map a.idepth).sum
            / ((validNeighbours nb w a).map a.weightSums).sum ≤ hi)
  ∧ ((pixelLoop 2 (w - 2) 2 (h - 2)).foldl (normalizeStep w dIRefl)
        (dilatePass offs w h a, { pc with n := 0 })).1.idepth (x + y * w)
      = if (dIRefl (x + y * w)).isfinite = true
            ∧ 0 < ((validNeighbours nb w a).map a.idepth).sum
                / ((validNeighbours nb w a).map a.weightSums).sum
        then ((validNeighbours nb w a).map a.idepth).sum
                / ((validNeighbours nb w a).map a.weightSums).sum
        else -1

end CoarseTracker

/-- A 5 × 5 level whose pixels `(1, 1)` and `(3, 3)` hold the sums `3` and `1`
with weights `1` and `2`, and whose pixels `(3, 2)` and `(2, 1)` hold the sums
`2` and `1` with weights `4` and `1`; all other pixels are empty. -/
def LevelArrays.fourValid : LevelArrays :=
  { idepth := fun i => if i = 6 then 3 else if i = 18 then 1 else if i = 13 then 2
      else if i = 7 then 1 else 0
    weightSums := fun i => if i = 6 then 1 else if i = 18 then 2 else if i = 13 then 4
      else if i = 7 then 1 else 0
    weightSums_bak := fun _ => 0 }

/-! ## The middle tier of the accumulator cascade -/

/-- One public operation on an accumulator whose update calls have type `C`. -/
inductive AccOp (C : Type) where
  | initialise
  | finish
  | call (c : C)

/-- Run one operation, given the three kinds of method of the class. -/
def AccOp.run {S C : Type} (init fin : S → S) (run : C → S → S) : AccOp C → S → S
  | .initialise => init
  | .finish => fin
  | .call c => run c

/-- Whether the operation is `initialize`, `finish` or an update that calls
`shiftUp`. -/
def AccOp.settles {C : Type} (shifts : C → Bool) : AccOp C → Bool
  | .initialise => true
  | .finish => true
  | .call c => shifts c

/-- Whether the call ends in `shiftUp(false)`: the two `NoShift` updates of
`Accumulator1` do not. -/
def Accumulator1.Call.shifts : Accumulator1.Call → Bool
  | .updateSingle _ => true
  | .updateSSE _ => true
  | .updateSingleNoShift _ => false
  | .updateSSENoShift _ => false

/-- The middle tier of an `Accumulator9`, `Accumulator11` or `Accumulator14` is
empty: `numIn1k` is 0 and `SSEData1k` holds zeros. -/
def AccState.midEmpty (D : Nat) (s : AccState) : Prop :=
  s.numIn1k = 0 ∧ ∀ i, i < 4 * triSize D → s.SSEData1k i = 0

/-- The middle tier is empty and tier 0 holds at most 1000 counts. -/
def AccState.settled (D : Nat) (s : AccState) : Prop :=
  s.midEmpty D ∧ s.numIn1 ≤ 1000

/-- The middle tier of an `Accumulator1` is empty. -/
def Acc1State.midEmpty (s : Acc1State) : Prop :=
  s.numIn1k = 0 ∧ ∀ i, i < 4 → s.SSEData1k i = 0

/-- The middle tier is empty and tier 0 holds at most 1000 counts. -/
def Acc1State.settled (s : Acc1State) : Prop :=
  s.midEmpty ∧ s.numIn1 ≤ 1000

/-- The middle tier of an `AccumulatorXX` or `AccumulatorX` is empty. -/
def AccXState.midEmpty (s : AccXState) : Prop :=
  s.numIn1k = 0 ∧ ∀ r c, s.A1k r c = 0

/-- The middle tier is empty and tier 0 holds at most 1000 counts. -/
def AccXState.settled (s : AccXState) : Prop :=
  s.midEmpty ∧ s.numIn1 ≤ 1000

/-- The middle tier of an `AccumulatorApprox` (`nTR = 32`, `nBR = 8`) or
`AccumulatorApprox1515` (`nTR = 52`, `nBR = 16`) is empty. -/
def ApproxState.midEmpty (nTR nBR : Nat) (s : ApproxState) : Prop :=
  s.numIn1k = 0 ∧ (∀ i, i < 60 → s.Data1k i = 0) ∧ (∀ i, i < nTR → s.TopRight_Data1k i = 0)
    ∧ (∀ i, i < nBR → s.BotRight_Data1k i = 0)

/-- The middle tier is empty and tier 0 holds at most 1000 counts. -/
def ApproxState.settled (nTR nBR : Nat) (s : ApproxState) : Prop :=
  s.midEmpty nTR nBR ∧ s.numIn1 ≤ 1000

/-- Run a list of operations, in order. -/
def AccOp.runAll {S C : Type} (init fin : S → S) (run : C → S → S) (ops : List (AccOp C))
    (s0 : S) : S :=
  ops.foldl (fun s p => p.run init fin run s) s0

/-- The run starts with `initialize` or with `finish`, the two operations
that do not read the cascade state they find. -/
def AccOp.startsFresh {C : Type} (ops : List (AccOp C)) : Prop :=
  ops.head? = some .initialise ∨ ops.head? = some .finish

/-- An `Accumulator1` after `initialize()` whose tier 0 holds 1000 counts with
sum 1000 in lane 0. -/
def Acc1State.full : Acc1State :=
  { Accumulator1.initialise Acc1State.junk with
    numIn1 := 1000, num := 1000, SSEData := fun i => if i = 0 then 1000 else 0 }



/-! # Theorems -/

/-! ## Accumulators -/

theorem mm_store_ps_apply (a : Nat → ℚ) (pt : Nat) (v : M128) (i : Nat) :
    mm_store_ps a pt v i = if h : pt ≤ i ∧ i < pt + 4 then v ⟨i - pt, by omega⟩ else a i := rfl

theorem addInto_apply (N : Nat) (src dst : Nat → ℚ) (i : Nat) :
    AccCore.addInto N src dst i = if i < 4 * N then src i + dst i else dst i := by
  induction N with
  | zero => simp [AccCore.addInto]
  | succ n ih =>
    unfold AccCore.addInto at ih ⊢
    rw [List.range_succ, List.foldl_append]
    simp only [List.foldl_cons, List.foldl_nil]
    rw [mm_store_ps_apply]
    by_cases h : 4 * n ≤ i ∧ i < 4 * n + 4
    · rw [dif_pos h]
      have h1 : i < 4 * (n + 1) := by omega
      rw [if_pos h1]
      simp only [mm_add_ps, mm_load_ps]
      have h2 : 4 * n + (i - 4 * n) = i := by omega
      rw [h2, ih, if_neg (by omega)]
    · rw [dif_neg h, ih]
      by_cases h3 : i < 4 * n
      · rw [if_pos h3, if_pos (by omega)]
      · rw [if_neg h3, if_neg (by omega)]

theorem shiftUp_tot (D : Nat) (force : Bool) (s : AccState) (i : Nat) :
    (AccCore.shiftUp D force s).tot i = s.tot i := by
  unfold AccCore.shiftUp AccState.tot
  by_cases h1 : s.numIn1 > 1000 ∨ force = true
  · simp only [h1, if_true]
    by_cases h2 : s.numIn1k + s.numIn1 > 1000 ∨ force = true
    · simp only [h2, if_true, addInto_apply, memset0]
      by_cases hi : i < 4 * triSize D
      · simp [hi]
      · simp [hi]
    · simp only [h2, if_false, addInto_apply, memset0]
      by_cases hi : i < 4 * triSize D
      · simp [hi]
      · simp [hi]
  · simp only [h1, if_false]
    by_cases h2 : s.numIn1k > 1000 ∨ force = true
    · simp only [h2, if_true, addInto_apply, memset0]
      by_cases hi : i < 4 * triSize D
      · simp [hi]; ring
      · simp [hi]
    · simp only [h2, if_false]

theorem shiftUp_true_lower (D : Nat) (s : AccState) (i : Nat) (hi : i < 4 * triSize D) :
    (AccCore.shiftUp D true s).SSEData i = 0 ∧ (AccCore.shiftUp D true s).SSEData1k i = 0 := by
  simp [AccCore.shiftUp, memset0, hi]

theorem shiftUp_true_1m (D : Nat) (s : AccState) (i : Nat) (hi : i < 4 * triSize D) :
    (AccCore.shiftUp D true s).SSEData1m i = s.tot i := by
  have h := shiftUp_tot D true s i
  have h2 := shiftUp_true_lower D s i hi
  unfold AccState.tot at h
  rw [h2.1, h2.2] at h
  simpa using h



theorem accumulate_apply (L R : Nat → M128) (ps : List (Nat × Nat)) (pt : Nat) (d : Nat → ℚ)
    (i : Nat) :
    AccCore.accumulate L R ps pt d i = if pt ≤ i then d i + slotTerm L R ps (i - pt) else d i := by
  induction ps generalizing pt d with
  | nil => simp [AccCore.accumulate, slotTerm]
  | cons p ps ih =>
    obtain ⟨a, b⟩ := p
    rw [AccCore.accumulate, ih, mm_store_ps_apply]
    by_cases h1 : pt + 4 ≤ i
    · have h2 : ¬ (pt ≤ i ∧ i < pt + 4) := by omega
      have h3 : pt ≤ i := by omega
      rw [if_pos h1, if_pos h3, dif_neg h2]
      congr 1
      unfold slotTerm
      have e1 : (i - pt) / 4 = (i - (pt + 4)) / 4 + 1 := by omega
      have e2 : (i - pt) % 4 = (i - (pt + 4)) % 4 := by omega
      by_cases h4 : i - (pt + 4) < 4 * ps.length
      · have h5 : i - pt < 4 * (List.length ((a, b) :: ps)) := by
          simp only [List.length_cons]; omega
        rw [if_pos h4, if_pos h5]
        simp only [e1, e2, List.getD_cons_succ]
      · have h5 : ¬ i - pt < 4 * (List.length ((a, b) :: ps)) := by
          simp only [List.length_cons]; omega
        rw [if_neg h4, if_neg h5]
    · rw [if_neg h1]
      by_cases h3 : pt ≤ i
      · have h2 : pt ≤ i ∧ i < pt + 4 := by omega
        rw [if_pos h3, dif_pos h2]
        unfold slotTerm
        have h5 : i - pt < 4 * (List.length ((a, b) :: ps)) := by
          simp only [List.length_cons]; omega
        rw [if_pos h5]
        have e1 : (i - pt) / 4 = 0 := by omega
        have e2 : (i - pt) % 4 = i - pt := by omega
        simp only [e1, e2, List.getD_cons_zero, mm_add_ps, mm_load_ps, mm_mul_ps]
        have e3 : pt + (i - pt) = i := by omega
        rw [e3]
      · have h2 : ¬ (pt ≤ i ∧ i < pt + 4) := by omega
        rw [if_neg h3, dif_neg h2]



theorem finishStep_eq (m : Nat → ℚ) (H0 : Nat → Nat → ℚ) (idx0 : Nat) (x : Nat × Nat) :
    AccCore.finishStep m (H0, idx0) x
      = (fun i j => if (i = x.1 ∧ j = x.2) ∨ (i = x.2 ∧ j = x.1)
          then m (idx0 + 0) + m (idx0 + 1) + m (idx0 + 2) + m (idx0 + 3) else H0 i j, idx0 + 4) := rfl

theorem finishStep_fold_idx (m : Nat → ℚ) (L : List (Nat × Nat)) (H0 : Nat → Nat → ℚ) (idx0 : Nat) :
    (L.foldl (AccCore.finishStep m) (H0, idx0)).2 = idx0 + 4 * L.length := by
  induction L generalizing H0 idx0 with
  | nil => simp
  | cons x xs ih =>
    rw [List.foldl_cons, finishStep_eq, ih]
    simp only [List.length_cons]
    ring

theorem finishStep_fold_untouched (m : Nat → ℚ) (L : List (Nat × Nat)) (H0 : Nat → Nat → ℚ)
    (idx0 i j : Nat) (h : ∀ x ∈ L, ¬ ((i = x.1 ∧ j = x.2) ∨ (i = x.2 ∧ j = x.1))) :
    (L.foldl (AccCore.finishStep m) (H0, idx0)).1 i j = H0 i j := by
  induction L generalizing H0 idx0 with
  | nil => simp
  | cons x xs ih =>
    rw [List.foldl_cons, finishStep_eq, ih _ _ (fun y hy => h y (List.mem_cons_of_mem _ hy))]
    have hx := h x (List.mem_cons_self _ _)
    simp only [if_neg hx]

theorem finishStep_fold_at (m : Nat → ℚ) (L : List (Nat × Nat)) (H0 : Nat → Nat → ℚ)
    (idx0 : Nat) (hnd : L.Nodup) (hup : ∀ x ∈ L, x.1 ≤ x.2) (k : Nat) (hk : k < L.length) :
    (L.foldl (AccCore.finishStep m) (H0, idx0)).1 (L.get ⟨k, hk⟩).1 (L.get ⟨k, hk⟩).2
      = m (idx0 + 4 * k + 0) + m (idx0 + 4 * k + 1) + m (idx0 + 4 * k + 2) + m (idx0 + 4 * k + 3) := by
  induction L generalizing H0 idx0 k with
  | nil => simp at hk
  | cons x xs ih =>
    rw [List.foldl_cons]
    have hnd2 := List.nodup_cons.mp hnd
    cases k with
    | zero =>
      simp only [List.get_eq_getElem, List.getElem_cons_zero]
      rw [finishStep_eq, finishStep_fold_untouched]
      · simp
      · intro y hy hc
        have hy1 := hup y (List.mem_cons_of_mem _ hy)
        have hx1 := hup x (List.mem_cons_self _ _)
        apply hnd2.1
        have : x = y := by
          rcases hc with ⟨h1, h2⟩ | ⟨h1, h2⟩
          · exact Prod.ext h1 h2
          · exact Prod.ext (by omega) (by omega)
        rw [this]; exact hy
    | succ k =>
      have hk2 : k < xs.length := by simpa using hk
      have := ih (AccCore.finishStep m (H0, idx0) x).1 (AccCore.finishStep m (H0, idx0) x).2
        hnd2.2 (fun y hy => hup y (List.mem_cons_of_mem _ hy)) k hk2
      simp only [List.get_eq_getElem, List.getElem_cons_succ] at this ⊢
      rw [this]
      have e : (AccCore.finishStep m (H0, idx0) x).2 = idx0 + 4 := rfl
      rw [e]
      have e2 : idx0 + 4 + 4 * k = idx0 + 4 * (k + 1) := by ring
      rw [e2]

theorem matSetSym_symm (H : Nat → Nat → ℚ) (r c : Nat) (v : ℚ) (h0 : ∀ i j, H i j = H j i)
    (i j : Nat) : matSetSym H r c v i j = matSetSym H r c v j i := by
  unfold matSetSym
  by_cases h : (i = r ∧ j = c) ∨ (i = c ∧ j = r)
  · have h' : (j = r ∧ i = c) ∨ (j = c ∧ i = r) := by tauto
    rw [if_pos h, if_pos h']
  · have h' : ¬ ((j = r ∧ i = c) ∨ (j = c ∧ i = r)) := by tauto
    rw [if_neg h, if_neg h', h0]

theorem matSet_diag_symm (H : Nat → Nat → ℚ) (r : Nat) (v : ℚ) (h0 : ∀ i j, H i j = H j i)
    (i j : Nat) : matSet H r r v i j = matSet H r r v j i := by
  unfold matSet
  by_cases h : i = r ∧ j = r
  · rw [if_pos h, if_pos ⟨h.2, h.1⟩]
  · have h' : ¬ (j = r ∧ i = r) := by tauto
    rw [if_neg h, if_neg h', h0]

/-- A read-out loop whose every step is a mirrored assignment keeps `H` symmetric. -/
theorem fold_symm {A : Type} (step : (Nat → Nat → ℚ) × Nat → A → (Nat → Nat → ℚ) × Nat)
    (hstep : ∀ st x, (∀ i j, st.1 i j = st.1 j i) → ∀ i j, (step st x).1 i j = (step st x).1 j i)
    (L : List A) (st : (Nat → Nat → ℚ) × Nat) (h0 : ∀ i j, st.1 i j = st.1 j i) (i j : Nat) :
    (L.foldl step st).1 i j = (L.foldl step st).1 j i := by
  induction L generalizing st with
  | nil => exact h0 i j
  | cons x xs ih =>
    rw [List.foldl_cons]
    exact ih _ (hstep st x h0)

theorem finishStep_fold_symm (m : Nat → ℚ) (L : List (Nat × Nat)) (H0 : Nat → Nat → ℚ)
    (idx0 : Nat) (h0 : ∀ i j, H0 i j = H0 j i) (i j : Nat) :
    (L.foldl (AccCore.finishStep m) (H0, idx0)).1 i j
      = (L.foldl (AccCore.finishStep m) (H0, idx0)).1 j i :=
  fold_symm (AccCore.finishStep m)
    (fun st x hs => matSetSym_symm st.1 x.1 x.2 _ hs) L (H0, idx0) h0 i j

theorem foldl_tot {C : Type} (run : C → AccState → AccState) (term : C → Nat → ℚ)
    (h : ∀ c s i, (run c s).tot i = s.tot i + term c i) (calls : List C) (s : AccState) (i : Nat) :
    (calls.foldl (fun s c => run c s) s).tot i = s.tot i + (calls.map (fun c => term c i)).sum := by
  induction calls generalizing s with
  | nil => simp
  | cons c cs ih =>
    rw [List.foldl_cons, ih, h]
    simp only [List.map_cons, List.sum_cons]
    ring

theorem updateSSE_tot (D : Nat) (pairs : List (Nat × Nat)) (J : Nat → M128) (s : AccState) (i : Nat) :
    (AccCore.updateSSE D pairs J s).tot i = s.tot i + slotTerm J J pairs i := by
  unfold AccCore.updateSSE AccCore.countSSE
  rw [shiftUp_tot]
  unfold AccState.tot
  simp only [accumulate_apply, Nat.zero_le, if_true, Nat.sub_zero]
  ring

theorem updateSSEWeighted_tot (D : Nat) (pairs : List (Nat × Nat)) (J : Nat → M128) (w : M128)
    (s : AccState) (i : Nat) :
    (AccCore.updateSSEWeighted D pairs J w s).tot i
      = s.tot i + slotTerm (fun a => mm_mul_ps (J a) w) J pairs i := by
  unfold AccCore.updateSSEWeighted AccCore.countSSE
  rw [shiftUp_tot]
  unfold AccState.tot
  simp only [accumulate_apply, Nat.zero_le, if_true, Nat.sub_zero]
  ring

theorem initialise_tot (D : Nat) (s : AccState) (i : Nat) (hi : i < 4 * triSize D) :
    (AccCore.initialise D s).tot i = 0 := by
  simp [AccCore.initialise, AccState.tot, memset0, hi]

theorem mem_triangle (D r c : Nat) : (r, c) ∈ triangle D ↔ r ≤ c ∧ c < D := by
  unfold triangle
  simp only [List.mem_flatMap, List.mem_range, List.mem_map, List.mem_range'_1, Prod.mk.injEq]
  constructor
  · rintro ⟨a, ha, b, ⟨hb1, hb2⟩, rfl, rfl⟩
    omega
  · rintro ⟨h1, h2⟩
    exact ⟨r, by omega, c, ⟨h1, by omega⟩, rfl, rfl⟩

theorem triangle_upper (D : Nat) : ∀ x ∈ triangle D, x.1 ≤ x.2 := by
  rintro ⟨r, c⟩ h
  exact ((mem_triangle D r c).mp h).1

theorem triangle_nodup (D : Nat) : (triangle D).Nodup := by
  unfold triangle
  rw [List.nodup_flatMap]
  constructor
  · intro r _
    apply List.Nodup.map
    · intro a b h
      exact (Prod.mk.injEq _ _ _ _ ▸ h).2
    · exact List.nodup_range' _ _
  · apply List.Pairwise.imp_of_mem _ (List.nodup_range D)
    intro a b _ _ hab
    simp only [Function.onFun, List.Disjoint]
    intro x hx1 hx2
    simp only [List.mem_map] at hx1 hx2
    obtain ⟨c1, _, rfl⟩ := hx1
    obtain ⟨c2, _, h2⟩ := hx2
    exact hab (Prod.mk.injEq _ _ _ _ ▸ h2).1.symm

theorem slotTerm_at (L R : Nat → M128) (ps : List (Nat × Nat)) (k : Nat) (hk : k < ps.length)
    (l : Fin 4) :
    slotTerm L R ps (4 * k + l.val) = L (ps.get ⟨k, hk⟩).1 l * R (ps.get ⟨k, hk⟩).2 l := by
  unfold slotTerm
  have h : 4 * k + l.val < 4 * ps.length := by have := l.isLt; omega
  rw [if_pos h]
  have e1 : (4 * k + l.val) / 4 = k := by have := l.isLt; omega
  have e2 : (4 * k + l.val) % 4 = l.val := by have := l.isLt; omega
  simp only [e1, e2, Fin.eta]
  rw [List.getD_eq_getElem _ _ hk]
  rfl

theorem sum_map_fin4 {C : Type} (calls : List C) (f : C → Fin 4 → ℚ) :
    (calls.map (fun c => f c 0)).sum + (calls.map (fun c => f c 1)).sum
      + (calls.map (fun c => f c 2)).sum + (calls.map (fun c => f c 3)).sum
      = (calls.map (fun c => ∑ l : Fin 4, f c l)).sum := by
  induction calls with
  | nil => simp
  | cons c cs ih =>
    simp only [List.map_cons, List.sum_cons]
    rw [← ih, Fin.sum_univ_four]
    ring

/-- Generic form of the read-out: every upper-triangle entry of `H` after
`finish()` is the sum over calls and lanes of `w * J_r * J_c`. -/
theorem core_finish_H (D : Nat) (pairs : List (Nat × Nat)) (hp : pairs = triangle D)
    (hN : (triangle D).length = triSize D) {C : Type} (run : C → AccState → AccState)
    (wJ : C → M128 × (Nat → M128))
    (hrun : ∀ c s i, (run c s).tot i
      = s.tot i + slotTerm (fun a => mm_mul_ps ((wJ c).2 a) (wJ c).1) (wJ c).2 pairs i)
    (calls : List C) (s0 : AccState) (r c : Nat) (hrc : r ≤ c) (hc : c < D) :
    (AccCore.finish D (calls.foldl (fun s c => run c s) (AccCore.initialise D s0))).H r c
      = outerSum (calls.map wJ) r c := by
  subst hp
  obtain ⟨k, hk, hget⟩ := List.getElem_of_mem ((mem_triangle D r c).mpr ⟨hrc, hc⟩)
  have hfin := finishStep_fold_at
    (AccCore.shiftUp D true
      { (calls.foldl (fun s c => run c s) (AccCore.initialise D s0)) with H := fun _ _ => 0 }).SSEData1m
    (triangle D) (fun _ _ => 0) 0 (triangle_nodup D) (triangle_upper D) k hk
  simp only [List.get_eq_getElem, hget] at hfin
  have hH : (AccCore.finish D (calls.foldl (fun s c => run c s) (AccCore.initialise D s0))).H r c
      = (List.foldl (AccCore.finishStep (AccCore.shiftUp D true
          { (calls.foldl (fun s c => run c s) (AccCore.initialise D s0)) with
            H := fun _ _ => 0 }).SSEData1m) (fun _ _ => 0, 0) (triangle D)).1 r c := by
    simp [AccCore.finish, AccCore.shiftUp]
  rw [hH, hfin]
  have slot : ∀ l : Fin 4,
      (AccCore.shiftUp D true
        { (calls.foldl (fun s c => run c s) (AccCore.initialise D s0)) with
          H := fun _ _ => 0 }).SSEData1m (0 + 4 * k + l.val)
        = (calls.map (fun cl => (wJ cl).1 l * (wJ cl).2 r l * (wJ cl).2 c l)).sum := by
    intro l
    have hlt : 0 + 4 * k + l.val < 4 * triSize D := by have := l.isLt; omega
    rw [shiftUp_true_1m D _ _ hlt]
    have e : ∀ s : AccState, AccState.tot { s with H := fun _ _ => 0 } = s.tot := fun _ => rfl
    rw [e, foldl_tot run _ hrun, initialise_tot D s0 _ hlt, zero_add]
    congr 1
    apply List.map_congr_left
    intro cl _
    rw [zero_add, slotTerm_at _ _ _ k hk l]
    simp only [List.get_eq_getElem, hget, mm_mul_ps]
    ring
  have s0' := slot 0
  have s1' := slot 1
  have s2' := slot 2
  have s3' := slot 3
  simp only [Fin.val_zero, Fin.val_one, Fin.val_two] at s0' s1' s2'
  have e3 : ((3 : Fin 4) : Nat) = 3 := rfl
  rw [e3] at s3'
  rw [s0', s1', s2', s3']
  unfold outerSum
  rw [List.map_map]
  exact sum_map_fin4 calls (fun cl l => (wJ cl).1 l * (wJ cl).2 r l * (wJ cl).2 c l)

theorem AccCore_finish_symm (D : Nat) (s : AccState) (i j : Nat) :
    (AccCore.finish D s).H i j = (AccCore.finish D s).H j i := by
  unfold AccCore.finish
  exact finishStep_fold_symm _ _ _ _ (fun _ _ => by simp [AccCore.shiftUp]) i j

theorem finishLoops_symm (k : Nat) (s : ApproxState) (h0 : ∀ i j, s.H i j = s.H j i) (i j : Nat) :
    ApproxCore.finishLoops k s i j = ApproxCore.finishLoops k s j i := by
  unfold ApproxCore.finishLoops
  apply fold_symm (ApproxCore.topRightStep s.TopRight_Data1m)
    (fun st x hs => matSetSym_symm st.1 x.1 (x.2 + 10) _ hs)
  exact fold_symm (ApproxCore.topLeftStep s.Data1m)
    (fun st x hs => matSetSym_symm st.1 x.1 x.2 _ hs) (triangle 10) (s.H, 0) h0

theorem Approx_shiftUp_H (nTR nBR : Nat) (force : Bool) (s : ApproxState) :
    (ApproxCore.shiftUp nTR nBR force s).H = s.H := by
  unfold ApproxCore.shiftUp
  by_cases h1 : s.numIn1 > 1000 ∨ force = true
  · simp only [h1, if_true]
    split <;> rfl
  · simp only [h1, if_false]
    split <;> rfl

/-- **C5.** For `Accumulator9`, `Accumulator11`, `Accumulator14`,
`AccumulatorApprox` and `AccumulatorApprox1515`, started from any state at all
(hence after any sequence of operations), the matrix `H` left by `finish()` is
symmetric: `H(i,j) = H(j,i)` for all `i`, `j`. -/
theorem finish_H_symmetric (i j : Nat) :
    (∀ s : AccState, (Accumulator9.finish s).H i j = (Accumulator9.finish s).H j i)
    ∧ (∀ s : AccState, (Accumulator11.finish s).H i j = (Accumulator11.finish s).H j i)
    ∧ (∀ s : AccState, (Accumulator14.finish s).H i j = (Accumulator14.finish s).H j i)
    ∧ (∀ s : ApproxState, (AccumulatorApprox.finish s).H i j = (AccumulatorApprox.finish s).H j i)
    ∧ (∀ s : ApproxState,
        (AccumulatorApprox1515.finish s).H i j = (AccumulatorApprox1515.finish s).H j i) := by
  refine ⟨fun s => AccCore_finish_symm 9 s i j, fun s => AccCore_finish_symm 11 s i j,
    fun s => AccCore_finish_symm 14 s i j, ?_, ?_⟩
  · intro s
    have hz : ∀ a b, (AccumulatorApprox.shiftUp true { s with H := fun _ _ => 0 }).H a b
        = (AccumulatorApprox.shiftUp true { s with H := fun _ _ => 0 }).H b a := by
      intro a b
      simp [AccumulatorApprox.shiftUp, Approx_shiftUp_H]
    have h2 := finishLoops_symm 3 _ hz
    unfold AccumulatorApprox.finish
    simp only
    apply matSet_diag_symm
    apply matSetSym_symm
    apply matSet_diag_symm
    apply matSetSym_symm
    apply matSetSym_symm
    apply matSet_diag_symm
    exact h2
  · intro s
    have hz : ∀ a b, (AccumulatorApprox1515.shiftUp true { s with H := fun _ _ => 0 }).H a b
        = (AccumulatorApprox1515.shiftUp true { s with H := fun _ _ => 0 }).H b a := by
      intro a b
      simp [AccumulatorApprox1515.shiftUp, Approx_shiftUp_H]
    have h2 := finishLoops_symm 5 _ hz
    unfold AccumulatorApprox1515.finish
    simp only
    apply matSet_diag_symm
    apply matSetSym_symm
    apply matSet_diag_symm
    apply matSetSym_symm
    apply matSetSym_symm
    apply matSet_diag_symm
    apply matSetSym_symm
    apply matSetSym_symm
    apply matSetSym_symm
    apply matSet_diag_symm
    apply matSetSym_symm
    apply matSetSym_symm
    apply matSetSym_symm
    apply matSetSym_symm
    apply matSet_diag_symm
    exact h2

theorem mm_mul_set1_one (v : M128) : mm_mul_ps v (mm_set1_ps 1) = v := by
  funext l
  simp [mm_mul_ps, mm_set1_ps]

theorem Accumulator9_run_tot (c : Accumulator9.Call) (s : AccState) (i : Nat) :
    (c.run s).tot i
      = s.tot i + slotTerm (fun a => mm_mul_ps (c.wJ.2 a) c.wJ.1) c.wJ.2 Accumulator9.pairs i := by
  cases c with
  | updateSSE J =>
    simp only [Accumulator9.Call.run, Accumulator9.Call.wJ, Accumulator9.updateSSE,
      updateSSE_tot, mm_mul_set1_one]
  | updateSSE_eighted J w =>
    simp only [Accumulator9.Call.run, Accumulator9.Call.wJ, Accumulator9.updateSSE_eighted,
      updateSSEWeighted_tot]

theorem Accumulator11_run_tot (c : Accumulator11.Call) (s : AccState) (i : Nat) :
    (c.run s).tot i
      = s.tot i + slotTerm (fun a => mm_mul_ps (c.wJ.2 a) c.wJ.1) c.wJ.2 Accumulator11.pairs i := by
  cases c with
  | updateSSE J =>
    simp only [Accumulator11.Call.run, Accumulator11.Call.wJ, Accumulator11.updateSSE,
      updateSSE_tot, mm_mul_set1_one]
  | updateSSE_tened J w =>
    simp only [Accumulator11.Call.run, Accumulator11.Call.wJ, Accumulator11.updateSSE_tened,
      updateSSEWeighted_tot]

theorem Accumulator14_run_tot (J : Nat → M128) (s : AccState) (i : Nat) :
    (Accumulator14.updateSSE J s).tot i
      = s.tot i + slotTerm (fun a => mm_mul_ps (J a) (mm_set1_ps 1)) J Accumulator14.pairs i := by
  simp only [Accumulator14.updateSSE, updateSSE_tot, mm_mul_set1_one]

/-- **C1.** For `Accumulator9`, `Accumulator11` and `Accumulator14`, in exact
arithmetic: after `initialize()` (from any prior state), any finite sequence
of SSE update calls and then `finish()`, every entry `H(r,c)` with `r ≤ c`
inside the matrix equals the sum over all calls and all four lanes of
`w * J_r * J_c` (`w = 1` for the unweighted form), however many cascade
shifts happened in between. -/
theorem finish_H_eq_outerSum (r c : Nat) (hrc : r ≤ c) :
    (c < 9 → ∀ (calls : List Accumulator9.Call) (s0 : AccState),
      (Accumulator9.finish
        (calls.foldl (fun s cl => cl.run s) (Accumulator9.initialise s0))).H r c
        = outerSum (calls.map Accumulator9.Call.wJ) r c)
    ∧ (c < 11 → ∀ (calls : List Accumulator11.Call) (s0 : AccState),
      (Accumulator11.finish
        (calls.foldl (fun s cl => cl.run s) (Accumulator11.initialise s0))).H r c
        = outerSum (calls.map Accumulator11.Call.wJ) r c)
    ∧ (c < 14 → ∀ (calls : List (Nat → M128)) (s0 : AccState),
      (Accumulator14.finish
        (calls.foldl (fun s J => Accumulator14.updateSSE J s) (Accumulator14.initialise s0))).H r c
        = outerSum (calls.map (fun J => (mm_set1_ps 1, J))) r c) := by
  refine ⟨fun hc calls s0 => ?_, fun hc calls s0 => ?_, fun hc calls s0 => ?_⟩
  · exact core_finish_H 9 Accumulator9.pairs (by decide) (by decide) _ _
      Accumulator9_run_tot calls s0 r c hrc hc
  · exact core_finish_H 11 Accumulator11.pairs (by decide) (by decide) _ _
      Accumulator11_run_tot calls s0 r c hrc hc
  · exact core_finish_H 14 Accumulator14.pairs (by decide) (by decide) _ (fun J => (mm_set1_ps 1, J))
      Accumulator14_run_tot calls s0 r c hrc hc

/-! ## Levenberg-Marquardt accept/reject -/

theorem IEEE.lt_trans' (a b c : IEEE) (h1 : a.lt b = true) (h2 : b.lt c = true) :
    a.lt c = true := by
  cases a <;> cases b <;> cases c <;> simp_all [IEEE.lt]
  exact lt_trans h1 h2

theorem lmIteration_accept {P A M : Type} (K : LMKernel P A M) (s : LMState P A M)
    (h : LMKernel.accept
      (K.calcRes (K.candidate s.Hb s.lambda s.refToNew_current s.aff_current).1
        (K.candidate s.Hb s.lambda s.refToNew_current s.aff_current).2 s.buf).1 s.resOld = true) :
    (K.lmIteration s).1 =
      { refToNew_current := (K.candidate s.Hb s.lambda s.refToNew_current s.aff_current).1
        aff_current := (K.candidate s.Hb s.lambda s.refToNew_current s.aff_current).2
        resOld := (K.calcRes (K.candidate s.Hb s.lambda s.refToNew_current s.aff_current).1
          (K.candidate s.Hb s.lambda s.refToNew_current s.aff_current).2 s.buf).1
        Hb := K.calcGSSSE (K.candidate s.Hb s.lambda s.refToNew_current s.aff_current).1
          (K.candidate s.Hb s.lambda s.refToNew_current s.aff_current).2
          (K.calcRes (K.candidate s.Hb s.lambda s.refToNew_current s.aff_current).1
            (K.candidate s.Hb s.lambda s.refToNew_current s.aff_current).2 s.buf).2
        lambda := s.lambda * (1 / 2)
        buf := (K.calcRes (K.candidate s.Hb s.lambda s.refToNew_current s.aff_current).1
          (K.candidate s.Hb s.lambda s.refToNew_current s.aff_current).2 s.buf).2 } := by
  simp only [LMKernel.lmIteration, h, if_true]

theorem lmIteration_reject {P A M : Type} (K : LMKernel P A M) (s : LMState P A M)
    (h : LMKernel.accept
      (K.calcRes (K.candidate s.Hb s.lambda s.refToNew_current s.aff_current).1
        (K.candidate s.Hb s.lambda s.refToNew_current s.aff_current).2 s.buf).1 s.resOld = false) :
    (K.lmIteration s).1 =
      { s with
        lambda := if s.lambda * 4 < lambdaExtrapolationLimit then lambdaExtrapolationLimit
                  else s.lambda * 4
        buf := (K.calcRes (K.candidate s.Hb s.lambda s.refToNew_current s.aff_current).1
          (K.candidate s.Hb s.lambda s.refToNew_current s.aff_current).2 s.buf).2 } := by
  simp only [LMKernel.lmIteration, h, Bool.false_eq_true, if_false]

theorem lmIteration_resOld {P A M : Type} (K : LMKernel P A M) (s : LMState P A M) :
    (K.lmIteration s).1.resOld = s.resOld
      ∨ (K.lmIteration s).1.resOld.meanEnergy.lt s.resOld.meanEnergy = true := by
  unfold LMKernel.lmIteration
  simp only
  split
  · right
    rename_i h
    simpa [LMKernel.accept] using h
  · left; rfl

theorem lmLoop_resOld {P A M : Type} (K : LMKernel P A M) (n : Nat) (s : LMState P A M) :
    (K.lmLoop n s).resOld = s.resOld
      ∨ (K.lmLoop n s).resOld.meanEnergy.lt s.resOld.meanEnergy = true := by
  induction n generalizing s with
  | zero => left; rfl
  | succ n ih =>
    rw [LMKernel.lmLoop]
    split
    · rcases ih (K.lmIteration s).1 with h | h
      · rw [h]; exact lmIteration_resOld K s
      · rcases lmIteration_resOld K s with h2 | h2
        · rw [h2] at h; right; exact h
        · right; exact IEEE.lt_trans' _ _ _ h h2
    · exact lmIteration_resOld K s

/-- **C2.** In every inner LM iteration of `trackNewestCoarse` and
`trackNewestCoarseStereo` the step is accepted if and only if
`E_new/N_new < E_old/N_old` (strictly, as an IEEE comparison); on acceptance
the current pose, affine parameters and residual record become the candidate
ones (and `H`, `b` are recomputed there, `lambda` is halved); on rejection the
pose, the affine parameters, the residual record, `H` and `b` are unchanged and
`lambda` is quadrupled and floored at `0.001`.  Consequently the mean energy
held in `resOld` never increases: after one iteration, and after any number of
iterations of the loop, `resOld` is either the record it was or one with a
strictly smaller mean energy; when both means are finite numbers the later one
is `≤` the earlier one. -/
theorem lm_accept_iff_energy_decreases {P A M : Type} (K : LMKernel P A M) (s : LMState P A M) :
    let cand := K.candidate s.Hb s.lambda s.refToNew_current s.aff_current
    let rn := K.calcRes cand.1 cand.2 s.buf
    let s1 := (K.lmIteration s).1
    (LMKernel.accept rn.1 s.resOld = true ↔ rn.1.meanEnergy.lt s.resOld.meanEnergy = true)
    ∧ (LMKernel.accept rn.1 s.resOld = true →
        s1.refToNew_current = cand.1 ∧ s1.aff_current = cand.2 ∧ s1.resOld = rn.1
        ∧ s1.Hb = K.calcGSSSE cand.1 cand.2 rn.2 ∧ s1.lambda = s.lambda * (1 / 2))
    ∧ (LMKernel.accept rn.1 s.resOld = false →
        s1.refToNew_current = s.refToNew_current ∧ s1.aff_current = s.aff_current
        ∧ s1.resOld = s.resOld ∧ s1.Hb = s.Hb
        ∧ s1.lambda = max (s.lambda * 4) lambdaExtrapolationLimit)
    ∧ (s1.resOld = s.resOld ∨ s1.resOld.meanEnergy.lt s.resOld.meanEnergy = true)
    ∧ (∀ n, (K.lmLoop n s).resOld = s.resOld
        ∨ (K.lmLoop n s).resOld.meanEnergy.lt s.resOld.meanEnergy = true)
    ∧ (∀ n a b, s.resOld.meanEnergy = IEEE.fin a → (K.lmLoop n s).resOld.meanEnergy = IEEE.fin b →
        b ≤ a) := by
  intro cand rn s1
  refine ⟨Iff.rfl, ?_, ?_, lmIteration_resOld K s, fun n => lmLoop_resOld K n s, ?_⟩
  · intro h
    have e : s1 = (K.lmIteration s).1 := rfl
    rw [lmIteration_accept K s h] at e
    rw [e]
    exact ⟨rfl, rfl, rfl, rfl, rfl⟩
  · intro h
    have e : s1 = (K.lmIteration s).1 := rfl
    rw [lmIteration_reject K s h] at e
    rw [e]
    refine ⟨rfl, rfl, rfl, rfl, ?_⟩
    show (if s.lambda * 4 < lambdaExtrapolationLimit then lambdaExtrapolationLimit
      else s.lambda * 4) = _
    split
    · rename_i h1; rw [max_eq_right (le_of_lt h1)]
    · rename_i h1; rw [max_eq_left (not_lt.mp h1)]
  · intro n a b ha hb
    rcases lmLoop_resOld K n s with h | h
    · rw [h, ha] at hb
      injection hb with hb
      exact le_of_eq hb.symm
    · rw [ha, hb] at h
      simp only [IEEE.lt, decide_eq_true_eq] at h
      exact le_of_lt h

theorem finish_H_eq_outerSum_witness :
    (0 ≤ 1 ∧ 1 < 9) ∧ (Accumulator9.finish
      ((List.replicate 1001 (Accumulator9.Call.updateSSE_eighted (fun a _ => (a : ℚ) + 1) (fun _ => 2))
          ++ [Accumulator9.Call.updateSSE (fun a _ => (a : ℚ) + 1)]).foldl
        (fun s cl => cl.run s) (Accumulator9.initialise AccState.junk))).H 0 1 = 16024 := by
  refine ⟨by decide, ?_⟩
  rw [(finish_H_eq_outerSum 0 1 (by decide)).1 (by decide)]
  simp only [outerSum, List.map_append, List.map_replicate, List.sum_append, List.sum_replicate,
    List.map_cons, List.map_nil, List.sum_cons, List.sum_nil, Accumulator9.Call.wJ, mm_set1_ps,
    Fin.sum_univ_four]
  norm_num


/-! ## Residual builder -/

theorem flowStep_frame (e : ResEnv) (lvl : Nat) (refToNew : SE3) (i : Nat) (acc : ResAcc) :
    (e.flowStep lvl refToNew i acc).E = acc.E
    ∧ (e.flowStep lvl refToNew i acc).numTermsInE = acc.numTermsInE
    ∧ (e.flowStep lvl refToNew i acc).numTermsInWarped = acc.numTermsInWarped
    ∧ (e.flowStep lvl refToNew i acc).numSaturated = acc.numSaturated
    ∧ (e.flowStep lvl refToNew i acc).buf = acc.buf := by
  unfold ResEnv.flowStep
  split <;> exact ⟨rfl, rfl, rfl, rfl, rfl⟩

theorem calcResStep_none (e : ResEnv) (lvl : Nat) (refToNew : SE3) (aff_g2l : AffLight)
    (cutoffTH : ℚ) (acc0 : ResAcc) (i : Nat)
    (h : e.pointResidual lvl refToNew aff_g2l i = none) :
    e.calcResStep lvl refToNew aff_g2l cutoffTH acc0 i = e.flowStep lvl refToNew i acc0 := by
  unfold ResEnv.pointResidual at h
  unfold ResEnv.calcResStep
  by_cases hb : e.inBounds lvl refToNew i = false
  · simp only [hb, if_true]
  · have hb' : e.inBounds lvl refToNew i = true := by simpa using hb
    simp only [hb', Bool.true_eq_false, ↓reduceIte] at h ⊢
    cases hi : (e.interp lvl (e.Ku lvl refToNew i) (e.Kv lvl refToNew i)).1 <;>
      simp only [hi] at h ⊢
    cases h

theorem calcResStep_sat (e : ResEnv) (lvl : Nat) (refToNew : SE3) (aff_g2l : AffLight)
    (cutoffTH : ℚ) (acc0 : ResAcc) (i : Nat) (r : ℚ)
    (h : e.pointResidual lvl refToNew aff_g2l i = some r) (hc : |r| > cutoffTH) :
    e.calcResStep lvl refToNew aff_g2l cutoffTH acc0 i =
      { e.flowStep lvl refToNew i acc0 with
        E := (e.flowStep lvl refToNew i acc0).E.add (.fin (e.maxEnergy cutoffTH))
        numTermsInE := (e.flowStep lvl refToNew i acc0).numTermsInE + 1
        numSaturated := (e.flowStep lvl refToNew i acc0).numSaturated + 1 } := by
  unfold ResEnv.pointResidual at h
  unfold ResEnv.calcResStep
  by_cases hb : e.inBounds lvl refToNew i = false
  · simp only [hb, if_true] at h
    cases h
  · have hb' : e.inBounds lvl refToNew i = true := by simpa using hb
    simp only [hb', Bool.true_eq_false, ↓reduceIte] at h ⊢
    cases hi : (e.interp lvl (e.Ku lvl refToNew i) (e.Kv lvl refToNew i)).1 <;>
      simp only [hi] at h ⊢ <;> try cases h
    rw [if_pos hc]

theorem calcResStep_store (e : ResEnv) (lvl : Nat) (refToNew : SE3) (aff_g2l : AffLight)
    (cutoffTH : ℚ) (acc0 : ResAcc) (i : Nat) (r : ℚ)
    (h : e.pointResidual lvl refToNew aff_g2l i = some r) (hc : ¬ |r| > cutoffTH) :
    e.calcResStep lvl refToNew aff_g2l cutoffTH acc0 i =
      { e.flowStep lvl refToNew i acc0 with
        E := (e.flowStep lvl refToNew i acc0).E.add
          (.fin (e.huberWeight r * r * r * (2 - e.huberWeight r)))
        numTermsInE := (e.flowStep lvl refToNew i acc0).numTermsInE + 1
        buf := ResEnv.storeLeft (e.flowStep lvl refToNew i acc0).buf
          (e.flowStep lvl refToNew i acc0).numTermsInWarped (e.new_idepth lvl refToNew i)
          (e.u lvl refToNew i) (e.v lvl refToNew i)
          (e.interp lvl (e.Ku lvl refToNew i) (e.Kv lvl refToNew i)).2.1
          (e.interp lvl (e.Ku lvl refToNew i) (e.Kv lvl refToNew i)).2.2 r (e.huberWeight r)
          (e.pc_color lvl i)
        numTermsInWarped := (e.flowStep lvl refToNew i acc0).numTermsInWarped + 1 } := by
  unfold ResEnv.pointResidual at h
  unfold ResEnv.calcResStep
  by_cases hb : e.inBounds lvl refToNew i = false
  · simp only [hb, if_true] at h
    cases h
  · have hb' : e.inBounds lvl refToNew i = true := by simpa using hb
    simp only [hb', Bool.true_eq_false, ↓reduceIte] at h ⊢
    cases hi : (e.interp lvl (e.Ku lvl refToNew i) (e.Kv lvl refToNew i)).1 <;>
      simp only [hi] at h ⊢ <;> try cases h
    rw [if_neg hc]

theorem inBounds_size (e : ResEnv) (lvl : Nat) (refToNew : SE3) (i : Nat)
    (h : e.inBounds lvl refToNew i = true) : 5 < e.w lvl ∧ 5 < e.h lvl := by
  unfold ResEnv.inBounds at h
  simp only [decide_eq_true_eq] at h
  obtain ⟨h1, h2, h3, h4, _⟩ := h
  have hw : (5 : ℚ) < (e.w lvl : ℚ) := by linarith
  have hh : (5 : ℚ) < (e.h lvl : ℚ) := by linarith
  exact ⟨by exact_mod_cast hw, by exact_mod_cast hh⟩

theorem pointResidual_some_inBounds (e : ResEnv) (lvl : Nat) (refToNew : SE3) (aff_g2l : AffLight)
    (i : Nat) (r : ℚ) (h : e.pointResidual lvl refToNew aff_g2l i = some r) :
    e.inBounds lvl refToNew i = true := by
  unfold ResEnv.pointResidual at h
  by_cases hb : e.inBounds lvl refToNew i = false
  · simp only [hb, if_true] at h
    cases h
  · simpa using hb



theorem calcResStep_inv (e : ResEnv) (lvl : Nat) (refToNew : SE3) (aff_g2l : AffLight)
    (cutoffTH : ℚ) (acc : ResAcc) (i : Nat) (h : ResEnv.ResInv e lvl acc i) :
    ResEnv.ResInv e lvl (e.calcResStep lvl refToNew aff_g2l cutoffTH acc i) (i + 1) := by
  obtain ⟨h1, h2, h3⟩ := h
  obtain ⟨_, f2, f3, f4, _⟩ := flowStep_frame e lvl refToNew i acc
  cases hr : e.pointResidual lvl refToNew aff_g2l i with
  | none =>
    rw [calcResStep_none e lvl refToNew aff_g2l cutoffTH acc i hr]
    exact ⟨by rw [f2, f3, f4]; exact h1, by rw [f3]; omega, by rw [f3]; exact h3⟩
  | some r =>
    by_cases hc : |r| > cutoffTH
    · rw [calcResStep_sat e lvl refToNew aff_g2l cutoffTH acc i r hr hc]
      refine ⟨?_, ?_, ?_⟩
      · show (e.flowStep lvl refToNew i acc).numTermsInE + 1
          = (e.flowStep lvl refToNew i acc).numSaturated + 1
            + (e.flowStep lvl refToNew i acc).numTermsInWarped
        rw [f2, f3, f4]; omega
      · show (e.flowStep lvl refToNew i acc).numTermsInWarped ≤ i + 1
        rw [f3]; omega
      · show 0 < (e.flowStep lvl refToNew i acc).numTermsInWarped → _
        rw [f3]; exact h3
    · rw [calcResStep_store e lvl refToNew aff_g2l cutoffTH acc i r hr hc]
      refine ⟨?_, ?_, ?_⟩
      · show (e.flowStep lvl refToNew i acc).numTermsInE + 1
          = (e.flowStep lvl refToNew i acc).numSaturated
            + ((e.flowStep lvl refToNew i acc).numTermsInWarped + 1)
        rw [f2, f3, f4]; omega
      · show (e.flowStep lvl refToNew i acc).numTermsInWarped + 1 ≤ i + 1
        rw [f3]; omega
      · intro _
        exact inBounds_size e lvl refToNew i
          (pointResidual_some_inBounds e lvl refToNew aff_g2l i r hr)

theorem foldl_range_inv {σ : Type} (step : σ → Nat → σ) (Inv : σ → Nat → Prop)
    (hstep : ∀ s i, Inv s i → Inv (step s i) (i + 1)) (s0 : σ) (h0 : Inv s0 0) (n : Nat) :
    Inv ((List.range n).foldl step s0) n := by
  induction n with
  | zero => simpa using h0
  | succ n ih =>
    rw [List.range_succ, List.foldl_append]
    exact hstep _ _ ih

theorem calcResLoop_inv (e : ResEnv) (lvl : Nat) (refToNew : SE3) (aff_g2l : AffLight)
    (cutoffTH : ℚ) (buf : WarpBuffers) :
    ResEnv.ResInv e lvl (e.calcResLoop lvl refToNew aff_g2l cutoffTH buf) (e.pc_n lvl) := by
  unfold ResEnv.calcResLoop
  apply foldl_range_inv _ (ResEnv.ResInv e lvl) (calcResStep_inv e lvl refToNew aff_g2l cutoffTH)
  exact ⟨rfl, le_refl _, fun h => absurd h (lt_irrefl _)⟩

theorem zeroEntryMono_at (b : WarpBuffers) (k : Nat) :
    ResEnv.zeroMonoAt (ResEnv.zeroEntryMono b k) k := by
  simp [ResEnv.zeroMonoAt, ResEnv.zeroEntryMono, ResEnv.storeLeft, arrSetN]

theorem zeroEntryMono_keeps (b : WarpBuffers) (k j : Nat) (hj : j ≠ k)
    (h : ResEnv.zeroMonoAt b j) : ResEnv.zeroMonoAt (ResEnv.zeroEntryMono b k) j := by
  simpa [ResEnv.zeroMonoAt, ResEnv.zeroEntryMono, ResEnv.storeLeft, arrSetN, hj] using h

theorem zeroEntryStereo_at (inertial : Bool) (b : WarpBuffers) (k : Nat) :
    ResEnv.zeroStereoAt inertial (ResEnv.zeroEntryStereo inertial b k) k := by
  cases inertial <;>
    simp [ResEnv.zeroStereoAt, ResEnv.zeroMonoAt, ResEnv.zeroRightAt, ResEnv.zeroInertialAt,
      ResEnv.zeroEntryStereo, ResEnv.storeLeft, ResEnv.storeRight, arrSetN]

theorem zeroEntryStereo_keeps (inertial : Bool) (b : WarpBuffers) (k j : Nat) (hj : j ≠ k)
    (h : ResEnv.zeroStereoAt inertial b j) :
    ResEnv.zeroStereoAt inertial (ResEnv.zeroEntryStereo inertial b k) j := by
  cases inertial <;>
    simpa [ResEnv.zeroStereoAt, ResEnv.zeroMonoAt, ResEnv.zeroRightAt, ResEnv.zeroInertialAt,
      ResEnv.zeroEntryStereo, ResEnv.storeLeft, ResEnv.storeRight, arrSetN, hj] using h

/-- What the padding loop does, for any iteration bound: it stops at the first
multiple of 4 or when the bound is used up, it leaves the counters and the
energy alone, and every entry it passes is zero. -/
theorem padLoop_spec (zeroEntry : WarpBuffers → Nat → WarpBuffers)
    (Z : WarpBuffers → Nat → Prop) (hZ1 : ∀ b k, Z (zeroEntry b k) k)
    (hZ2 : ∀ b k j, j ≠ k → Z b j → Z (zeroEntry b k) j) (fuel : Nat) (acc : ResAcc) :
    acc.numTermsInWarped ≤ (ResEnv.padLoop zeroEntry fuel acc).numTermsInWarped
    ∧ ((ResEnv.padLoop zeroEntry fuel acc).numTermsInWarped % 4 = 0
      ∨ ((ResEnv.padLoop zeroEntry fuel acc).numTermsInWarped = acc.numTermsInWarped + fuel
        ∧ ∀ m, acc.numTermsInWarped ≤ m → m < acc.numTermsInWarped + fuel → m % 4 ≠ 0))
    ∧ (∀ m, acc.numTermsInWarped ≤ m →
        m < (ResEnv.padLoop zeroEntry fuel acc).numTermsInWarped → m % 4 ≠ 0)
    ∧ (ResEnv.padLoop zeroEntry fuel acc).E = acc.E
    ∧ (ResEnv.padLoop zeroEntry fuel acc).numTermsInE = acc.numTermsInE
    ∧ (ResEnv.padLoop zeroEntry fuel acc).numSaturated = acc.numSaturated
    ∧ (∀ j, Z acc.buf j ∨ (acc.numTermsInWarped ≤ j
          ∧ j < (ResEnv.padLoop zeroEntry fuel acc).numTermsInWarped) →
        Z (ResEnv.padLoop zeroEntry fuel acc).buf j) := by
  induction fuel generalizing acc with
  | zero =>
    refine ⟨le_refl _, Or.inr ⟨rfl, fun m h1 h2 => by omega⟩, fun m h1 h2 => ?_, rfl, rfl, rfl,
      fun j h => ?_⟩
    · simp only [ResEnv.padLoop] at h2; omega
    · rcases h with h | ⟨h1, h2⟩
      · exact h
      · simp only [ResEnv.padLoop] at h2; omega
  | succ fuel ih =>
    rw [ResEnv.padLoop]
    by_cases hm : acc.numTermsInWarped % 4 ≠ 0
    · rw [if_pos hm]
      obtain ⟨i1, i2, i3, i4, i5, i6, i7⟩ := ih
        { acc with
          buf := zeroEntry acc.buf acc.numTermsInWarped
          numTermsInWarped := acc.numTermsInWarped + 1 }
      simp only at i1 i2 i3 i4 i5 i6 i7
      refine ⟨by omega, ?_, ?_, i4, i5, i6, ?_⟩
      · rcases i2 with h | ⟨h, h'⟩
        · exact Or.inl h
        · refine Or.inr ⟨by omega, fun m h1 h2 => ?_⟩
          by_cases hm2 : m = acc.numTermsInWarped
          · rw [hm2]; exact hm
          · exact h' m (by omega) (by omega)
      · intro m h1 h2
        by_cases hm2 : m = acc.numTermsInWarped
        · rw [hm2]; exact hm
        · exact i3 m (by omega) h2
      · intro j h
        by_cases hj : j = acc.numTermsInWarped
        · subst hj
          exact i7 _ (Or.inl (hZ1 _ _))
        · rcases h with h | ⟨h1, h2⟩
          · exact i7 j (Or.inl (hZ2 _ _ _ hj h))
          · exact i7 j (Or.inr ⟨by omega, h2⟩)
    · rw [if_neg hm]
      refine ⟨le_refl _, Or.inl (by omega), fun m h1 h2 => by omega, rfl, rfl, rfl, fun j h => ?_⟩
      rcases h with h | ⟨h1, h2⟩
      · exact h
      · omega

theorem pad_three_mod (n r : Nat)
    (h2 : r % 4 = 0 ∨ (r = n + 3 ∧ ∀ m, n ≤ m → m < n + 3 → m % 4 ≠ 0))
    (h3 : ∀ m, n ≤ m → m < r → m % 4 ≠ 0) : r % 4 = 0 ∧ r ≤ n + 3 := by
  rcases h2 with h | ⟨h, h'⟩
  · refine ⟨h, ?_⟩
    by_contra hc
    have a0 := h3 n (le_refl _) (by omega)
    have a1 := h3 (n + 1) (by omega) (by omega)
    have a2 := h3 (n + 2) (by omega) (by omega)
    have a3 := h3 (n + 3) (by omega) (by omega)
    omega
  · have a0 := h' n (le_refl _) (by omega)
    have a1 := h' (n + 1) (by omega) (by omega)
    have a2 := h' (n + 2) (by omega) (by omega)
    exact ⟨by omega, by omega⟩

theorem padded_le_area (w h : Int) (pc_n stored n : Nat) (hw : 0 ≤ w) (hh : 0 ≤ h)
    (hs : stored ≤ pc_n) (hn : n ≤ stored + 3) (hz : stored = 0 → n = 0)
    (hsz : 0 < stored → 5 < w ∧ 5 < h)
    (hpc : (pc_n : Int) ≤ (w - 4) * (h - 4)) : (n : Int) ≤ w * h := by
  by_cases h0 : stored = 0
  · rw [hz h0]
    simpa using mul_nonneg hw hh
  · obtain ⟨h5w, h5h⟩ := hsz (by omega)
    have : (n : Int) ≤ (w - 4) * (h - 4) + 3 := by
      have : (n : Int) ≤ (pc_n : Int) + 3 := by exact_mod_cast (le_trans hn (by omega))
      linarith
    nlinarith

theorem calcResStereoStep_counts (e : ResEnv) (lvl : Nat) (refToNew : SE3)
    (aff_g2l aff_g2l_r : AffLight) (cutoffTH : ℚ) (acc : ResAcc) (i : Nat) :
    let acc' := e.calcResStereoStep lvl refToNew aff_g2l aff_g2l_r cutoffTH acc i
    (acc'.numTermsInE = acc.numTermsInE ∧ acc'.numSaturated = acc.numSaturated
      ∧ acc'.numTermsInWarped = acc.numTermsInWarped)
    ∨ (e.inBounds lvl refToNew i = true ∧ acc'.numTermsInE = acc.numTermsInE + 1
      ∧ ((acc'.numSaturated = acc.numSaturated + 1
          ∧ acc'.numTermsInWarped = acc.numTermsInWarped)
        ∨ (acc'.numSaturated = acc.numSaturated
          ∧ acc'.numTermsInWarped = acc.numTermsInWarped + 1))) := by
  intro acc'
  obtain ⟨_, f2, f3, f4, _⟩ := flowStep_frame e lvl refToNew i acc
  have hacc' : acc' = e.calcResStereoStep lvl refToNew aff_g2l aff_g2l_r cutoffTH acc i := rfl
  unfold ResEnv.calcResStereoStep at hacc'
  by_cases hb : e.inBounds lvl refToNew i = false
  · simp only [hb, if_true] at hacc'
    left; rw [hacc']; exact ⟨f2, f4, f3⟩
  · have hb' : e.inBounds lvl refToNew i = true := by simpa using hb
    simp only [hb', Bool.true_eq_false, ↓reduceIte] at hacc'
    cases hi : (e.interp lvl (e.Ku lvl refToNew i) (e.Kv lvl refToNew i)).1 with
    | fin hit0 =>
      simp only [hi] at hacc'
      split at hacc'
      · left; rw [hacc']; exact ⟨f2, f4, f3⟩
      · split at hacc'
        · right
          refine ⟨hb', ?_, Or.inl ⟨?_, ?_⟩⟩ <;> rw [hacc'] <;> simp only [f2, f3, f4]
        · right
          refine ⟨hb', ?_, Or.inr ⟨?_, ?_⟩⟩ <;> rw [hacc'] <;> simp only [f2, f3, f4]
    | pinf => simp only [hi] at hacc'; left; rw [hacc']; exact ⟨f2, f4, f3⟩
    | ninf => simp only [hi] at hacc'; left; rw [hacc']; exact ⟨f2, f4, f3⟩
    | nan => simp only [hi] at hacc'; left; rw [hacc']; exact ⟨f2, f4, f3⟩

theorem calcResStereoStep_inv (e : ResEnv) (lvl : Nat) (refToNew : SE3)
    (aff_g2l aff_g2l_r : AffLight) (cutoffTH : ℚ) (acc : ResAcc) (i : Nat) (h : ResEnv.ResInv e lvl acc i) :
    ResEnv.ResInv e lvl (e.calcResStereoStep lvl refToNew aff_g2l aff_g2l_r cutoffTH acc i) (i + 1) := by
  obtain ⟨h1, h2, h3⟩ := h
  rcases calcResStereoStep_counts e lvl refToNew aff_g2l aff_g2l_r cutoffTH acc i with
    ⟨a, b, c⟩ | ⟨hb, a, ⟨b, c⟩ | ⟨b, c⟩⟩
  · exact ⟨by omega, by omega, by rw [c]; exact h3⟩
  · exact ⟨by omega, by omega, by rw [c]; exact h3⟩
  · exact ⟨by omega, by omega, fun _ => inBounds_size e lvl refToNew i hb⟩

theorem calcResStereoLoop_inv (e : ResEnv) (lvl : Nat) (refToNew : SE3)
    (aff_g2l aff_g2l_r : AffLight) (cutoffTH : ℚ) (buf : WarpBuffers) :
    ResEnv.ResInv e lvl (e.calcResStereoLoop lvl refToNew aff_g2l aff_g2l_r cutoffTH buf) (e.pc_n lvl) := by
  unfold ResEnv.calcResStereoLoop
  apply foldl_range_inv _ (ResEnv.ResInv e lvl)
    (calcResStereoStep_inv e lvl refToNew aff_g2l aff_g2l_r cutoffTH)
  exact ⟨rfl, le_refl _, fun h => absurd h (lt_irrefl _)⟩

theorem calcRes_mono_shape (e : ResEnv) (lvl : Nat) (refToNew : SE3) (aff_g2l : AffLight)
    (cutoffTH : ℚ) (buf : WarpBuffers) :
    let stored := (e.calcResLoop lvl refToNew aff_g2l cutoffTH buf).numTermsInWarped
    let out := (e.calcRes lvl refToNew aff_g2l cutoffTH buf).2
    out.n % 4 = 0 ∧ stored ≤ out.n ∧ out.n ≤ stored + 3 ∧ stored ≤ e.pc_n lvl
    ∧ (0 < stored → 5 < e.w lvl ∧ 5 < e.h lvl)
    ∧ ∀ j, stored ≤ j → j < out.n → ResEnv.zeroMonoAt out j := by
  intro stored out
  obtain ⟨_, i2, i3⟩ := calcResLoop_inv e lvl refToNew aff_g2l cutoffTH buf
  obtain ⟨p1, p2, p3, _, _, _, p7⟩ := padLoop_spec ResEnv.zeroEntryMono ResEnv.zeroMonoAt
    zeroEntryMono_at zeroEntryMono_keeps 3 (e.calcResLoop lvl refToNew aff_g2l cutoffTH buf)
  obtain ⟨q1, q2⟩ := pad_three_mod _ _ p2 p3
  exact ⟨q1, p1, q2, i2, i3, fun j h1 h2 => p7 j (Or.inr ⟨h1, h2⟩)⟩

theorem calcRes_stereo_shape (e : ResEnv) (lvl : Nat) (refToNew : SE3)
    (aff_g2l aff_g2l_r : AffLight) (cutoffTH : ℚ) (buf : WarpBuffers) :
    let stored := (e.calcResStereoLoop lvl refToNew aff_g2l aff_g2l_r cutoffTH buf).numTermsInWarped
    let out := (e.calcResStereo lvl refToNew aff_g2l aff_g2l_r cutoffTH buf).2
    out.n % 4 = 0 ∧ stored ≤ out.n ∧ out.n ≤ stored + 3 ∧ stored ≤ e.pc_n lvl
    ∧ (0 < stored → 5 < e.w lvl ∧ 5 < e.h lvl)
    ∧ ∀ j, stored ≤ j → j < out.n → ResEnv.zeroStereoAt e.inertial out j := by
  intro stored out
  obtain ⟨_, i2, i3⟩ := calcResStereoLoop_inv e lvl refToNew aff_g2l aff_g2l_r cutoffTH buf
  obtain ⟨p1, p2, p3, _, _, _, p7⟩ := padLoop_spec (ResEnv.zeroEntryStereo e.inertial)
    (ResEnv.zeroStereoAt e.inertial) (zeroEntryStereo_at e.inertial)
    (zeroEntryStereo_keeps e.inertial) 3
    (e.calcResStereoLoop lvl refToNew aff_g2l aff_g2l_r cutoffTH buf)
  obtain ⟨q1, q2⟩ := pad_three_mod _ _ p2 p3
  exact ⟨q1, p1, q2, i2, i3, fun j h1 h2 => p7 j (Or.inr ⟨h1, h2⟩)⟩

/-- **C4.** After every `calcRes` / `calcResStereo` call at level `L` (image
sizes non-negative): `buf_warped_n` is a multiple of 4; it is at least the
number of stored points and at most `pc_n[L] + 3`; given
`pc_n[L] ≤ (w_L-4)*(h_L-4)` it is at most `w_L*h_L`; and every padding entry,
i.e. every index from the number of stored points up to `buf_warped_n`, is 0 in
every warp buffer of the build (the eight left buffers; in stereo also the
five `_r` buffers and, in inertial mode, `dd` and `dd_r`). -/
theorem buf_warped_n_padded (e : ResEnv) (lvl : Nat) (refToNew : SE3)
    (aff_g2l aff_g2l_r : AffLight) (cutoffTH : ℚ) (buf : WarpBuffers)
    (hw : 0 ≤ e.w lvl) (hh : 0 ≤ e.h lvl) :
    (let stored := (e.calcResLoop lvl refToNew aff_g2l cutoffTH buf).numTermsInWarped
     let out := (e.calcRes lvl refToNew aff_g2l cutoffTH buf).2
     out.n % 4 = 0 ∧ stored ≤ out.n ∧ out.n ≤ e.pc_n lvl + 3
     ∧ ((e.pc_n lvl : Int) ≤ (e.w lvl - 4) * (e.h lvl - 4) → (out.n : Int) ≤ e.w lvl * e.h lvl)
     ∧ ∀ j, stored ≤ j → j < out.n → ResEnv.zeroMonoAt out j)
    ∧ (let stored :=
        (e.calcResStereoLoop lvl refToNew aff_g2l aff_g2l_r cutoffTH buf).numTermsInWarped
       let out := (e.calcResStereo lvl refToNew aff_g2l aff_g2l_r cutoffTH buf).2
       out.n % 4 = 0 ∧ stored ≤ out.n ∧ out.n ≤ e.pc_n lvl + 3
       ∧ ((e.pc_n lvl : Int) ≤ (e.w lvl - 4) * (e.h lvl - 4) → (out.n : Int) ≤ e.w lvl * e.h lvl)
       ∧ ∀ j, stored ≤ j → j < out.n → ResEnv.zeroStereoAt e.inertial out j) := by
  constructor
  · obtain ⟨a1, a2, a3, a4, a5, a6⟩ := calcRes_mono_shape e lvl refToNew aff_g2l cutoffTH buf
    refine ⟨a1, a2, by omega, fun hpc => ?_, a6⟩
    exact padded_le_area _ _ _ _ _ hw hh a4 a3 (fun h0 => by omega) a5 hpc
  · obtain ⟨a1, a2, a3, a4, a5, a6⟩ :=
      calcRes_stereo_shape e lvl refToNew aff_g2l aff_g2l_r cutoffTH buf
    refine ⟨a1, a2, by omega, fun hpc => ?_, a6⟩
    exact padded_le_area _ _ _ _ _ hw hh a4 a3 (fun h0 => by omega) a5 hpc

theorem storeLeft_same_at (b : WarpBuffers) (k j : Nat) (hj : j ≠ k) (a1 a2 a3 a4 a5 a6 a7 a8 : ℚ) :
    ResEnv.sameMonoAt (ResEnv.storeLeft b k a1 a2 a3 a4 a5 a6 a7 a8) b j := by
  simp [ResEnv.sameMonoAt, ResEnv.storeLeft, arrSetN, hj]

theorem divQ_ratio (s n : Nat) (hn : 0 < n) (hs : s ≤ n) :
    ∃ q : ℚ, (IEEE.fin (s : ℚ)).divQ (n : ℚ) = IEEE.fin q ∧ q = (s : ℚ) / (n : ℚ)
      ∧ 0 ≤ q ∧ q ≤ 1 := by
  have hn' : (0 : ℚ) < (n : ℚ) := by exact_mod_cast hn
  refine ⟨(s : ℚ) / (n : ℚ), ?_, rfl, by positivity, ?_⟩
  · simp [IEEE.divQ, ne_of_gt hn']
  · rw [div_le_one hn']
    exact_mod_cast hs

/-- **C6.** In `calcRes` (mono), for every reference point that passes the
border, inverse-depth and finiteness checks, with residual `r`: if
`|r| > cutoffTH` the iteration adds exactly `2*huberTH*cutoffTH - huberTH^2`
to `E`, increments the saturated counter and leaves the warp buffers and their
counter untouched; otherwise it adds `hw*r^2*(2-hw)` to `E` and stores exactly
one warp entry (at the current counter, with residual `r` and weight `hw`, all
other indices unchanged).  Hence in the returned vector `N_E` is the number
saturated plus the number of entries stored before padding, component 3 is 0,
and component 5 is `saturated / N_E`, a number in `[0,1]` whenever `N_E > 0`. -/
theorem calcRes_energy_and_counts (e : ResEnv) (lvl : Nat) (refToNew : SE3) (aff_g2l : AffLight)
    (cutoffTH : ℚ) :
    (∀ (acc : ResAcc) (i : Nat) (r : ℚ), e.pointResidual lvl refToNew aff_g2l i = some r →
      let acc' := e.calcResStep lvl refToNew aff_g2l cutoffTH acc i
      let hw := if |r| < e.setting_huberTH then 1 else e.setting_huberTH / |r|
      (|r| > cutoffTH →
        acc'.E = acc.E.add
          (.fin (2 * e.setting_huberTH * cutoffTH - e.setting_huberTH * e.setting_huberTH))
        ∧ acc'.numSaturated = acc.numSaturated + 1
        ∧ acc'.numTermsInE = acc.numTermsInE + 1
        ∧ acc'.numTermsInWarped = acc.numTermsInWarped
        ∧ acc'.buf = acc.buf)
      ∧ (¬ |r| > cutoffTH →
        acc'.E = acc.E.add (.fin (hw * r * r * (2 - hw)))
        ∧ acc'.numSaturated = acc.numSaturated
        ∧ acc'.numTermsInE = acc.numTermsInE + 1
        ∧ acc'.numTermsInWarped = acc.numTermsInWarped + 1
        ∧ acc'.buf.residual acc.numTermsInWarped = r
        ∧ acc'.buf.weight acc.numTermsInWarped = hw
        ∧ ∀ j, j ≠ acc.numTermsInWarped → ResEnv.sameMonoAt acc'.buf acc.buf j))
    ∧ (∀ buf : WarpBuffers,
      let acc := e.calcResLoop lvl refToNew aff_g2l cutoffTH buf
      let rs := (e.calcRes lvl refToNew aff_g2l cutoffTH buf).1
      rs.r1 = (acc.numSaturated : ℚ) + (acc.numTermsInWarped : ℚ)
      ∧ rs.r3 = 0
      ∧ rs.r5 = (IEEE.fin (acc.numSaturated : ℚ)).divQ rs.r1
      ∧ (0 < rs.r1 → ∃ q : ℚ, rs.r5 = IEEE.fin q ∧ q = (acc.numSaturated : ℚ) / rs.r1
          ∧ 0 ≤ q ∧ q ≤ 1)) := by
  constructor
  · intro acc i r hr acc' hw
    obtain ⟨f1, f2, f3, f4, f5⟩ := flowStep_frame e lvl refToNew i acc
    constructor
    · intro hc
      have : acc' = _ := calcResStep_sat e lvl refToNew aff_g2l cutoffTH acc i r hr hc
      rw [this]
      exact ⟨by simp only [f1, ResEnv.maxEnergy], by simp only [f4], by simp only [f2],
        by simp only [f3], by simp only [f5]⟩
    · intro hc
      have : acc' = _ := calcResStep_store e lvl refToNew aff_g2l cutoffTH acc i r hr hc
      rw [this]
      refine ⟨by simp only [f1, ResEnv.huberWeight, hw], by simp only [f4], by simp only [f2],
        by simp only [f3], ?_, ?_, ?_⟩
      · simp [f3, f5, ResEnv.storeLeft, arrSetN]
      · simp [f3, f5, ResEnv.storeLeft, arrSetN, ResEnv.huberWeight, hw]
      · intro j hj
        simp only [f3, f5]
        exact storeLeft_same_at _ _ _ hj _ _ _ _ _ _ _ _
  · intro buf acc rs
    obtain ⟨i1, _, _⟩ := calcResLoop_inv e lvl refToNew aff_g2l cutoffTH buf
    obtain ⟨_, _, _, _, p5, p6, _⟩ := padLoop_spec ResEnv.zeroEntryMono ResEnv.zeroMonoAt
      zeroEntryMono_at zeroEntryMono_keeps 3 (e.calcResLoop lvl refToNew aff_g2l cutoffTH buf)
    have hr1 : rs.r1 = ((acc.numTermsInE : Nat) : ℚ) := by
      show (((ResEnv.padMono 3 (e.calcResLoop lvl refToNew aff_g2l cutoffTH buf)).numTermsInE
        : Nat) : ℚ) = _
      unfold ResEnv.padMono
      rw [p5]
    have hr5 : rs.r5 = (IEEE.fin (acc.numSaturated : ℚ)).divQ rs.r1 := by
      rw [hr1]
      show (IEEE.fin (((ResEnv.padMono 3
        (e.calcResLoop lvl refToNew aff_g2l cutoffTH buf)).numSaturated : Nat) : ℚ)).divQ
        (((ResEnv.padMono 3 (e.calcResLoop lvl refToNew aff_g2l cutoffTH buf)).numTermsInE
        : Nat) : ℚ) = _
      unfold ResEnv.padMono
      rw [p5, p6]
    have hsum : ((acc.numTermsInE : Nat) : ℚ)
        = (acc.numSaturated : ℚ) + (acc.numTermsInWarped : ℚ) := by
      have : acc.numTermsInE = acc.numSaturated + acc.numTermsInWarped := i1
      exact_mod_cast this
    refine ⟨by rw [hr1, hsum], rfl, hr5, fun hpos => ?_⟩
    rw [hr5, hr1]
    rw [hr1] at hpos
    have hn : 0 < acc.numTermsInE := by exact_mod_cast hpos
    have hs : acc.numSaturated ≤ acc.numTermsInE := by
      have : acc.numTermsInE = acc.numSaturated + acc.numTermsInWarped := i1
      omega
    exact divQ_ratio _ _ hn hs

theorem calcRes_sample_eval :
    (ResEnv.sample.calcRes 0 SE3.identity ⟨0, 0⟩ 20 WarpBuffers.junk).2.n = 4
    ∧ (ResEnv.sample.calcRes 0 SE3.identity ⟨0, 0⟩ 20 WarpBuffers.junk).1.r0 = IEEE.fin 414
    ∧ (ResEnv.sample.calcRes 0 SE3.identity ⟨0, 0⟩ 20 WarpBuffers.junk).1.r1 = 3
    ∧ (ResEnv.sample.calcRes 0 SE3.identity ⟨0, 0⟩ 20 WarpBuffers.junk).1.r5 = IEEE.fin (1 / 3)
    ∧ (ResEnv.sample.calcRes 0 SE3.identity ⟨0, 0⟩ 20 WarpBuffers.junk).2.residual 1 = 10
    ∧ (ResEnv.sample.calcRes 0 SE3.identity ⟨0, 0⟩ 20 WarpBuffers.junk).2.residual 2 = 0
    ∧ (ResEnv.sample.calcResStereo 0 SE3.identity ⟨0, 0⟩ ⟨0, 0⟩ 20 WarpBuffers.junk).2.n = 4
    ∧ (ResEnv.sample.calcResStereo 0 SE3.identity ⟨0, 0⟩ ⟨0, 0⟩ 20 WarpBuffers.junk).2.dd_r 3 = 0 := by
  decide!

theorem buf_warped_n_padded_witness :
    (0 ≤ ResEnv.sample.w 0 ∧ 0 ≤ ResEnv.sample.h 0)
    ∧ (ResEnv.sample.calcRes 0 SE3.identity ⟨0, 0⟩ 20 WarpBuffers.junk).2.n % 4 = 0
    ∧ (ResEnv.sample.calcResStereo 0 SE3.identity ⟨0, 0⟩ ⟨0, 0⟩ 20 WarpBuffers.junk).2.n % 4 = 0 :=
  ⟨⟨by decide, by decide⟩,
    (buf_warped_n_padded ResEnv.sample 0 SE3.identity ⟨0, 0⟩ ⟨0, 0⟩ 20 WarpBuffers.junk
      (by decide) (by decide)).1.1,
    (buf_warped_n_padded ResEnv.sample 0 SE3.identity ⟨0, 0⟩ ⟨0, 0⟩ 20 WarpBuffers.junk
      (by decide) (by decide)).2.1⟩

open CoarseTracker

/-! ## Depth pyramid: dilation -/

theorem mem_intRange (lo hi i : Int) : i ∈ intRange lo hi ↔ lo ≤ i ∧ i < hi := by
  unfold intRange
  rw [List.mem_map]
  constructor
  · rintro ⟨k, hk, rfl⟩
    rw [List.mem_range] at hk
    have h1 : ((k : Nat) : Int) < hi - lo := Int.lt_toNat.mp hk
    have h2 : (0 : Int) ≤ ((k : Nat) : Int) := Int.ofNat_nonneg k
    constructor <;> linarith
  · rintro ⟨h1, h2⟩
    have h3 : ((i - lo).toNat : Int) = i - lo := Int.toNat_of_nonneg (by linarith)
    refine ⟨(i - lo).toNat, ?_, by rw [h3]; ring⟩
    rw [List.mem_range]
    apply Int.lt_toNat.mpr
    rw [h3]; linarith

/-- The neighbour gathering only reads `idepthl` where the snapshot weight is positive. -/
theorem gather_congr (offs : List Int) (id1 id2 bak : Int → ℚ) (i : Int) (acc : ℚ × ℚ × ℚ)
    (h : ∀ j, bak j > 0 → id1 j = id2 j) :
    offs.foldl (gatherStep id1 bak i) acc = offs.foldl (gatherStep id2 bak i) acc := by
  induction offs generalizing acc with
  | nil => rfl
  | cons o os ih =>
    rw [List.foldl_cons, List.foldl_cons]
    have : gatherStep id1 bak i acc o = gatherStep id2 bak i acc o := by
      unfold gatherStep
      by_cases hb : bak (i + o) > 0
      · rw [if_pos hb, if_pos hb, h _ hb]
      · rw [if_neg hb, if_neg hb]
    rw [this, ih]

theorem dilateStep_spec (offs : List Int) (a0 : Int → ℚ) (s : LevelArrays) (i : Int)
    (hpos : ∀ j, s.weightSums_bak j > 0 → s.idepth j = a0 j) :
    (dilateStep offs s i).weightSums_bak = s.weightSums_bak
    ∧ (∀ j, s.weightSums_bak j > 0 → (dilateStep offs s i).idepth j = a0 j)
    ∧ (∀ j, (dilateStep offs s i).idepth j =
        if j = i ∧ s.weightSums_bak i ≤ 0 ∧ (gather offs a0 s.weightSums_bak i).2.2 > 0 then
          (gather offs a0 s.weightSums_bak i).1 / (gather offs a0 s.weightSums_bak i).2.2
        else s.idepth j)
    ∧ (∀ j, (dilateStep offs s i).weightSums j =
        if j = i ∧ s.weightSums_bak i ≤ 0 ∧ (gather offs a0 s.weightSums_bak i).2.2 > 0 then
          (gather offs a0 s.weightSums_bak i).2.1 / (gather offs a0 s.weightSums_bak i).2.2
        else s.weightSums j) := by
  have hg : offs.foldl (gatherStep s.idepth s.weightSums_bak i) (0, 0, 0)
      = gather offs a0 s.weightSums_bak i := gather_congr offs _ _ _ i _ hpos
  unfold dilateStep
  by_cases h1 : s.weightSums_bak i ≤ 0
  · rw [if_pos h1]
    simp only [hg]
    by_cases h2 : (gather offs a0 s.weightSums_bak i).2.2 > 0
    · rw [if_pos h2]
      refine ⟨rfl, fun j hj => ?_, fun j => ?_, fun j => ?_⟩
      · have hji : j ≠ i := fun e => by rw [e] at hj; exact absurd hj (not_lt.mpr h1)
        simp only [arrSet, if_neg hji]
        exact hpos j hj
      · by_cases hji : j = i
        · simp [arrSet, hji, h1, h2]
        · simp [arrSet, hji]
      · by_cases hji : j = i
        · simp [arrSet, hji, h1, h2]
        · simp [arrSet, hji]
    · rw [if_neg h2]
      refine ⟨rfl, hpos, fun j => ?_, fun j => ?_⟩ <;> simp [h2]
  · rw [if_neg h1]
    refine ⟨rfl, hpos, fun j => ?_, fun j => ?_⟩ <;> simp [h1]

theorem dilateFold_spec (offs : List Int) (a0 bak : Int → ℚ) (L : List Int) (s : LevelArrays)
    (hbak : s.weightSums_bak = bak) (hpos : ∀ j, bak j > 0 → s.idepth j = a0 j) :
    (L.foldl (dilateStep offs) s).weightSums_bak = bak
    ∧ (∀ j, bak j > 0 → (L.foldl (dilateStep offs) s).idepth j = a0 j)
    ∧ (∀ j, (L.foldl (dilateStep offs) s).idepth j =
        if j ∈ L ∧ bak j ≤ 0 ∧ (gather offs a0 bak j).2.2 > 0 then
          (gather offs a0 bak j).1 / (gather offs a0 bak j).2.2
        else s.idepth j)
    ∧ (∀ j, (L.foldl (dilateStep offs) s).weightSums j =
        if j ∈ L ∧ bak j ≤ 0 ∧ (gather offs a0 bak j).2.2 > 0 then
          (gather offs a0 bak j).2.1 / (gather offs a0 bak j).2.2
        else s.weightSums j) := by
  induction L generalizing s with
  | nil => exact ⟨hbak, hpos, fun j => by simp, fun j => by simp⟩
  | cons i L ih =>
    rw [List.foldl_cons]
    subst hbak
    obtain ⟨d1, d2, d3, d4⟩ := dilateStep_spec offs a0 s i hpos
    obtain ⟨i1, i2, i3, i4⟩ := ih (dilateStep offs s i) d1 (fun j hj => d2 j hj)
    refine ⟨i1, i2, fun j => ?_, fun j => ?_⟩
    · rw [i3 j, d3 j]
      by_cases hL : j ∈ L ∧ s.weightSums_bak j ≤ 0 ∧ (gather offs a0 s.weightSums_bak j).2.2 > 0
      · rw [if_pos hL, if_pos ⟨List.mem_cons_of_mem _ hL.1, hL.2⟩]
      · rw [if_neg hL]
        by_cases hi : j = i ∧ s.weightSums_bak i ≤ 0 ∧ (gather offs a0 s.weightSums_bak i).2.2 > 0
        · rw [if_pos hi]
          obtain ⟨e, h1, h2⟩ := hi
          subst e
          rw [if_pos ⟨List.mem_cons_self _ _, h1, h2⟩]
        · rw [if_neg hi, if_neg]
          rintro ⟨hm, h1, h2⟩
          rcases List.mem_cons.mp hm with e | hm'
          · subst e; exact hi ⟨rfl, h1, h2⟩
          · exact hL ⟨hm', h1, h2⟩
    · rw [i4 j, d4 j]
      by_cases hL : j ∈ L ∧ s.weightSums_bak j ≤ 0 ∧ (gather offs a0 s.weightSums_bak j).2.2 > 0
      · rw [if_pos hL, if_pos ⟨List.mem_cons_of_mem _ hL.1, hL.2⟩]
      · rw [if_neg hL]
        by_cases hi : j = i ∧ s.weightSums_bak i ≤ 0 ∧ (gather offs a0 s.weightSums_bak i).2.2 > 0
        · rw [if_pos hi]
          obtain ⟨e, h1, h2⟩ := hi
          subst e
          rw [if_pos ⟨List.mem_cons_self _ _, h1, h2⟩]
        · rw [if_neg hi, if_neg]
          rintro ⟨hm, h1, h2⟩
          rcases List.mem_cons.mp hm with e | hm'
          · subst e; exact hi ⟨rfl, h1, h2⟩
          · exact hL ⟨hm', h1, h2⟩

/-- Pointwise form of the comparison between the in-place pass and the
out-of-place pass. -/
theorem dilatePass_pointwise (offs : List Int) (w h : Int) (a : LevelArrays) :
    (∀ j, (dilatePass offs w h a).idepth j = (dilateOutOfPlace offs w h a).idepth j)
    ∧ (∀ j, (dilatePass offs w h a).weightSums j = (dilateOutOfPlace offs w h a).weightSums j) := by
  obtain ⟨_, _, i3, i4⟩ := dilateFold_spec offs a.idepth
    (memcpyZ a.weightSums_bak a.weightSums (w * h)) (intRange w (w * h - w))
    { a with weightSums_bak := memcpyZ a.weightSums_bak a.weightSums (w * h) } rfl
    (fun _ _ => rfl)
  refine ⟨fun j => ?_, fun j => ?_⟩
  · unfold dilatePass dilateOutOfPlace
    rw [i3 j]
    simp only [mem_intRange, and_assoc]
  · unfold dilatePass dilateOutOfPlace
    rw [i4 j]
    simp only [mem_intRange, and_assoc]

/-- **C9.** Each in-place dilation pass (diagonal or cross offsets, any
offsets at all) computes the same `idepth`, `weightSums` and `weightSums_bak`
arrays as the out-of-place pass evaluated on the arrays as they were before
the pass; and throughout the pass `idepth` still holds its pre-pass value at
every index whose snapshot weight is positive, which are the only indices
where it is read. -/
theorem dilatePass_eq_outOfPlace (offs : List Int) (w h : Int) (a : LevelArrays) :
    (dilatePass offs w h a).idepth = (dilateOutOfPlace offs w h a).idepth
    ∧ (dilatePass offs w h a).weightSums = (dilateOutOfPlace offs w h a).weightSums
    ∧ (dilatePass offs w h a).weightSums_bak = (dilateOutOfPlace offs w h a).weightSums_bak
    ∧ (∀ (L : List Int) (j : Int), memcpyZ a.weightSums_bak a.weightSums (w * h) j > 0 →
        (L.foldl (dilateStep offs)
          { a with weightSums_bak := memcpyZ a.weightSums_bak a.weightSums (w * h) }).idepth j
          = a.idepth j) := by
  obtain ⟨p1, p2⟩ := dilatePass_pointwise offs w h a
  refine ⟨funext p1, funext p2, ?_, fun L j hj => ?_⟩
  · exact (dilateFold_spec offs a.idepth (memcpyZ a.weightSums_bak a.weightSums (w * h))
      (intRange w (w * h - w))
      { a with weightSums_bak := memcpyZ a.weightSums_bak a.weightSums (w * h) } rfl
      (fun _ _ => rfl)).1
  · exact (dilateFold_spec offs a.idepth (memcpyZ a.weightSums_bak a.weightSums (w * h)) L
      { a with weightSums_bak := memcpyZ a.weightSums_bak a.weightSums (w * h) } rfl
      (fun _ _ => rfl)).2.1 j hj

theorem mem_pixelLoop (x0 x1 y0 y1 : Int) (p : Int × Int) :
    p ∈ pixelLoop x0 x1 y0 y1 ↔ (x0 ≤ p.1 ∧ p.1 < x1) ∧ (y0 ≤ p.2 ∧ p.2 < y1) := by
  unfold pixelLoop
  simp only [List.mem_flatMap, List.mem_map, mem_intRange]
  constructor
  · rintro ⟨y, hy, x, hx, rfl⟩
    exact ⟨hx, hy⟩
  · rintro ⟨hx, hy⟩
    exact ⟨p.2, hy, p.1, hx, rfl⟩

theorem intRange_pairwise (lo hi : Int) : (intRange lo hi).Pairwise (· < ·) := by
  unfold intRange
  rw [List.pairwise_map]
  apply List.Pairwise.imp _ (List.pairwise_lt_range _)
  intro a b hab
  have : (a : Int) < (b : Int) := by exact_mod_cast hab
  linarith

/-- Row-major index order on pixels whose column lies in `[0, w)`. -/
theorem index_lt_of_row_lt (w x y x' y' : Int) (hx : 0 ≤ x) (hx0 : 0 ≤ x') (hx' : x' < w)
    (hy : y' < y) : x' + y' * w < x + y * w := by
  have h1 : y' + 1 ≤ y := by omega
  have hw : 0 ≤ w := by linarith
  nlinarith [mul_le_mul_of_nonneg_right h1 hw]

theorem pixelLoop_pairwise (w x0 x1 y0 y1 : Int) (h0 : 0 ≤ x0) (h1 : x1 ≤ w) :
    (pixelLoop x0 x1 y0 y1).Pairwise (fun p q => p.1 + p.2 * w < q.1 + q.2 * w) := by
  unfold pixelLoop
  rw [List.pairwise_flatMap]
  constructor
  · intro y _
    rw [List.pairwise_map]
    apply List.Pairwise.imp _ (intRange_pairwise x0 x1)
    intro a b hab
    simp only
    linarith
  · apply List.Pairwise.imp_of_mem _ (intRange_pairwise y0 y1)
    intro y y' _ _ hyy p hp q hq
    simp only [List.mem_map, mem_intRange] at hp hq
    obtain ⟨x, hx, rfl⟩ := hp
    obtain ⟨x', hx', rfl⟩ := hq
    exact index_lt_of_row_lt w x' y' x y (by linarith [hx'.1]) (by linarith [hx.1])
      (by linarith [hx.2]) hyy

theorem length_intRange (lo hi : Int) : (intRange lo hi).length = (hi - lo).toNat := by
  simp [intRange]

theorem length_pixelLoop (x0 x1 y0 y1 : Int) :
    (pixelLoop x0 x1 y0 y1).length = (x1 - x0).toNat * (y1 - y0).toNat := by
  unfold pixelLoop
  rw [List.length_flatMap]
  have : (List.length ∘ fun y : Int => List.map (fun x => (x, y)) (intRange x0 x1))
      = fun _ => (x1 - x0).toNat := by
    funext y
    simp [length_intRange]
  rw [this, List.map_const', List.sum_replicate, length_intRange, smul_eq_mul]
  ring

/-! ## Depth pyramid: downsample -/

theorem downsampleFold_untouched (wl wlm1 : Int) (lm : LevelArrays) (L : List (Int × Int))
    (l : LevelArrays) (j : Int) (h : ∀ q ∈ L, q.1 + q.2 * wl ≠ j) :
    (L.foldl (downsampleStep wl wlm1 lm) l).idepth j = l.idepth j
    ∧ (L.foldl (downsampleStep wl wlm1 lm) l).weightSums j = l.weightSums j := by
  induction L generalizing l with
  | nil => exact ⟨rfl, rfl⟩
  | cons p L ih =>
    rw [List.foldl_cons]
    obtain ⟨i1, i2⟩ := ih (downsampleStep wl wlm1 lm l p)
      (fun q hq => h q (List.mem_cons_of_mem _ hq))
    have hp := h p (List.mem_cons_self _ _)
    rw [i1, i2]
    simp [downsampleStep, arrSet, Ne.symm hp]

theorem downsampleFold_at (wl wlm1 : Int) (lm : LevelArrays) (L : List (Int × Int))
    (hL : L.Pairwise (fun p q => p.1 + p.2 * wl < q.1 + q.2 * wl)) (l : LevelArrays)
    (p : Int × Int) (hp : p ∈ L) :
    (L.foldl (downsampleStep wl wlm1 lm) l).idepth (p.1 + p.2 * wl)
      = lm.idepth (2 * p.1 + 2 * p.2 * wlm1) + lm.idepth (2 * p.1 + 2 * p.2 * wlm1 + 1)
        + lm.idepth (2 * p.1 + 2 * p.2 * wlm1 + wlm1)
        + lm.idepth (2 * p.1 + 2 * p.2 * wlm1 + wlm1 + 1)
    ∧ (L.foldl (downsampleStep wl wlm1 lm) l).weightSums (p.1 + p.2 * wl)
      = lm.weightSums (2 * p.1 + 2 * p.2 * wlm1) + lm.weightSums (2 * p.1 + 2 * p.2 * wlm1 + 1)
        + lm.weightSums (2 * p.1 + 2 * p.2 * wlm1 + wlm1)
        + lm.weightSums (2 * p.1 + 2 * p.2 * wlm1 + wlm1 + 1) := by
  induction L generalizing l with
  | nil => cases hp
  | cons q L ih =>
    rw [List.foldl_cons]
    obtain ⟨hq, hL'⟩ := List.pairwise_cons.mp hL
    rcases List.mem_cons.mp hp with e | hp'
    · subst e
      obtain ⟨u1, u2⟩ := downsampleFold_untouched wl wlm1 lm L (downsampleStep wl wlm1 lm l p)
        (p.1 + p.2 * wl) (fun r hr => ne_of_gt (hq r hr))
      rw [u1, u2]
      simp [downsampleStep, arrSet]
    · exact ih hL' _ hp'

theorem downsampleLevel_frame (t : CoarseTracker) (lvl : Nat) :
    (downsampleLevel t lvl).w = t.w ∧ (downsampleLevel t lvl).h = t.h
    ∧ (downsampleLevel t lvl).pyrLevelsUsed = t.pyrLevelsUsed
    ∧ ∀ k, k ≠ lvl → (downsampleLevel t lvl).lvl k = t.lvl k := by
  refine ⟨rfl, rfl, rfl, fun k hk => ?_⟩
  simp [downsampleLevel, CoarseTracker.setLvl, hk]

theorem downsampleLevel_at (t : CoarseTracker) (l : Nat) (hl : 1 ≤ l) :
    DownsampledAt (downsampleLevel t l) l := by
  intro x y hx0 hx1 hy0 hy1
  have hw : (downsampleLevel t l).w = t.w := rfl
  have hh : (downsampleLevel t l).h = t.h := rfl
  rw [hw] at hx1 ⊢
  rw [hh] at hy1
  have hlm : (downsampleLevel t l).lvl (l - 1) = t.lvl (l - 1) :=
    (downsampleLevel_frame t l).2.2.2 _ (by omega)
  have hll : (downsampleLevel t l).lvl l = (pixelLoop 0 (t.w l) 0 (t.h l)).foldl
      (downsampleStep (t.w l) (t.w (l - 1)) (t.lvl (l - 1))) (t.lvl l) := by
    simp [downsampleLevel, CoarseTracker.setLvl]
  rw [hlm, hll]
  have hmem : (x, y) ∈ pixelLoop 0 (t.w l) 0 (t.h l) :=
    (mem_pixelLoop _ _ _ _ _).mpr ⟨⟨hx0, hx1⟩, ⟨hy0, hy1⟩⟩
  obtain ⟨a1, a2⟩ := downsampleFold_at (t.w l) (t.w (l - 1)) (t.lvl (l - 1)) _
    (pixelLoop_pairwise (t.w l) 0 (t.w l) 0 (t.h l) (le_refl _) (le_refl _)) (t.lvl l) (x, y) hmem
  simp only at a1 a2
  have e1 : 2 * x + 1 + 2 * y * t.w (l - 1) = 2 * x + 2 * y * t.w (l - 1) + 1 := by ring
  have e2 : 2 * x + (2 * y + 1) * t.w (l - 1) = 2 * x + 2 * y * t.w (l - 1) + t.w (l - 1) := by
    ring
  have e3 : 2 * x + 1 + (2 * y + 1) * t.w (l - 1)
      = 2 * x + 2 * y * t.w (l - 1) + t.w (l - 1) + 1 := by ring
  rw [e1, e2, e3]
  exact ⟨a1, a2⟩

theorem downsample_levels (t : CoarseTracker) (m : Nat) :
    let r := (List.range' 1 m).foldl downsampleLevel t
    r.w = t.w ∧ r.h = t.h ∧ r.pyrLevelsUsed = t.pyrLevelsUsed
    ∧ (∀ k, m < k → r.lvl k = t.lvl k) ∧ r.lvl 0 = t.lvl 0
    ∧ ∀ l, 1 ≤ l → l ≤ m → DownsampledAt r l := by
  induction m with
  | zero =>
    intro r
    exact ⟨rfl, rfl, rfl, fun _ _ => rfl, rfl, fun l h1 h2 => by omega⟩
  | succ m ih =>
    intro r
    have hr : r = downsampleLevel ((List.range' 1 m).foldl downsampleLevel t) (1 + m) := by
      show (List.range' 1 (m + 1)).foldl downsampleLevel t = _
      rw [List.range'_concat, List.foldl_append]
      simp
    obtain ⟨i1, i2, i3, i4, i5, i6⟩ := ih
    obtain ⟨f1, f2, f3, f4⟩ := downsampleLevel_frame
      ((List.range' 1 m).foldl downsampleLevel t) (1 + m)
    rw [hr]
    refine ⟨f1.trans i1, f2.trans i2, f3.trans i3, fun k hk => ?_, ?_, fun l h1 h2 => ?_⟩
    · rw [f4 k (by omega)]; exact i4 k (by omega)
    · rw [f4 0 (by omega)]; exact i5
    · by_cases hlm : l ≤ m
      · have := i6 l h1 hlm
        intro x y hx0 hx1 hy0 hy1
        rw [f4 l (by omega), f4 (l - 1) (by omega)]
        rw [f1] at hx1 ⊢
        rw [f2] at hy1
        exact this x y hx0 hx1 hy0 hy1
      · have e : l = 1 + m := by omega
        rw [e]
        exact downsampleLevel_at _ _ (by omega)

theorem shiftRight_one_bounds (w' x : Int) (hx : x < w' >>> (1 : Nat)) :
    2 * x + 1 < w' := by
  rw [Int.shiftRight_eq_div_pow] at hx
  norm_num at hx
  omega

/-- **C7.** The downsample loop nest shared by `makeCoarseDepthL0` and
`makeCoarseDepthForFirstFrame` leaves, for every level `l ≥ 1` below
`pyrLevelsUsed` and every pixel `(x, y)` with `x < w_l`, `y < h_l`,
`idepth_l[x,y]` and `weightSums_l[x,y]` equal to the sum of the four
level-`(l-1)` values at `(2x,2y)`, `(2x+1,2y)`, `(2x,2y+1)`, `(2x+1,2y+1)`;
and with `w_l = w_{l-1} >> 1`, `h_l = h_{l-1} >> 1` the four parent pixels and
their indices lie inside the level-`(l-1)` array. -/
theorem downsample_block_sums (t : CoarseTracker) (l : Nat) (hl1 : 1 ≤ l)
    (hl2 : l < t.pyrLevelsUsed) :
    DownsampledAt (downsample t) l
    ∧ (downsample t).w = t.w ∧ (downsample t).h = t.h
    ∧ (∀ x y : Int, 0 ≤ x → x < t.w l → 0 ≤ y → y < t.h l →
        t.w l = t.w (l - 1) >>> (1 : Nat) → t.h l = t.h (l - 1) >>> (1 : Nat) →
        2 * x + 1 < t.w (l - 1) ∧ 2 * y + 1 < t.h (l - 1)
        ∧ 0 ≤ 2 * x + 2 * y * t.w (l - 1)
        ∧ 2 * x + 1 + (2 * y + 1) * t.w (l - 1) < t.w (l - 1) * t.h (l - 1)) := by
  obtain ⟨i1, i2, _, _, _, i6⟩ := downsample_levels t (t.pyrLevelsUsed - 1)
  refine ⟨i6 l hl1 (by omega), i1, i2, ?_⟩
  intro x y hx0 hx1 hy0 hy1 hw hh
  rw [hw] at hx1
  rw [hh] at hy1
  have bx := shiftRight_one_bounds _ _ hx1
  have b_y := shiftRight_one_bounds _ _ hy1
  have hw0 : 0 ≤ t.w (l - 1) := by linarith
  refine ⟨bx, b_y, by have := mul_nonneg hy0 hw0; linarith, ?_⟩
  have h2 : 2 * y + 2 ≤ t.h (l - 1) := by linarith
  nlinarith [mul_le_mul_of_nonneg_left h2 hw0]

/-! ## Depth pyramid: normalisation and compaction -/

/-- What one iteration of the normalisation loop does to the point cloud and
to the dense inverse depth. -/
theorem normalizeStep_spec (wl : Int) (dIRefl : Int → IEEE) (st : LevelArrays × LevelPC)
    (p : Int × Int) :
    (∀ j, j ≠ p.1 + p.2 * wl → (normalizeStep wl dIRefl st p).1.idepth j = st.1.idepth j)
    ∧ (∀ k, k < st.2.n →
        (normalizeStep wl dIRefl st p).2.u k = st.2.u k
        ∧ (normalizeStep wl dIRefl st p).2.v k = st.2.v k
        ∧ (normalizeStep wl dIRefl st p).2.idepth k = st.2.idepth k
        ∧ (normalizeStep wl dIRefl st p).2.color k = st.2.color k)
    ∧ ((normalizeStep wl dIRefl st p).2.n = st.2.n
      ∨ ((normalizeStep wl dIRefl st p).2.n = st.2.n + 1
        ∧ (normalizeStep wl dIRefl st p).2.u st.2.n = (p.1 : ℚ)
        ∧ (normalizeStep wl dIRefl st p).2.v st.2.n = (p.2 : ℚ)
        ∧ (normalizeStep wl dIRefl st p).2.idepth st.2.n > 0
        ∧ ((normalizeStep wl dIRefl st p).2.color st.2.n).isfinite = true
        ∧ (normalizeStep wl dIRefl st p).2.idepth st.2.n
            = (normalizeStep wl dIRefl st p).1.idepth (p.1 + p.2 * wl))) := by
  unfold normalizeStep
  simp only
  by_cases hw : st.1.weightSums (p.1 + p.2 * wl) > 0
  · simp only [hw, if_true]
    by_cases hbad : (arrSetN st.2.color st.2.n (dIRefl (p.1 + p.2 * wl)) st.2.n).isfinite = false
        ∨ ¬ (arrSet st.1.idepth (p.1 + p.2 * wl)
          (st.1.idepth (p.1 + p.2 * wl) / st.1.weightSums (p.1 + p.2 * wl)) (p.1 + p.2 * wl) > 0)
    · rw [if_pos hbad]
      refine ⟨fun j hj => ?_, fun k hk => ?_, Or.inl rfl⟩
      · simp [arrSet, hj]
      · have : k ≠ st.2.n := by omega
        simp [arrSetN, this]
    · rw [if_neg hbad]
      push_neg at hbad
      obtain ⟨hfin, hpos⟩ := hbad
      refine ⟨fun j hj => ?_, fun k hk => ?_, Or.inr ⟨rfl, ?_, ?_, ?_, ?_, ?_⟩⟩
      · simp [arrSet, hj]
      · have : k ≠ st.2.n := by omega
        simp [arrSetN, this]
      · simp [arrSetN]
      · simp [arrSetN]
      · simpa [arrSetN] using hpos
      · simpa using hfin
      · simp [arrSetN]
  · simp only [hw, if_false]
    refine ⟨fun j hj => ?_, fun k hk => ?_, ?_⟩
    · simp [arrSet, hj]
    · trivial
    · exact Or.inl trivial

theorem normalizeStep_inv (wl : Int) (dIRefl : Int → IEEE) (P : List (Int × Int))
    (st : LevelArrays × LevelPC) (p : Int × Int)
    (hfresh : ∀ q ∈ P, q.1 + q.2 * wl ≠ p.1 + p.2 * wl) (h : NormInv wl P st) :
    NormInv wl (P ++ [p]) (normalizeStep wl dIRefl st p) := by
  obtain ⟨G, hsub, hlen, hG⟩ := h
  obtain ⟨s1, s2, s3⟩ := normalizeStep_spec wl dIRefl st p
  have hold : ∀ k g, G[k]? = some g →
      (normalizeStep wl dIRefl st p).2.u k = (g.1 : ℚ)
      ∧ (normalizeStep wl dIRefl st p).2.v k = (g.2 : ℚ)
      ∧ (normalizeStep wl dIRefl st p).2.idepth k > 0
      ∧ ((normalizeStep wl dIRefl st p).2.color k).isfinite = true
      ∧ (normalizeStep wl dIRefl st p).2.idepth k
          = (normalizeStep wl dIRefl st p).1.idepth (g.1 + g.2 * wl) := by
    intro k g hk
    obtain ⟨a1, a2, a3, a4, a5⟩ := hG k g hk
    have hklt : k < G.length := (List.getElem?_eq_some_iff.mp hk).1
    obtain ⟨b1, b2, b3, b4⟩ := s2 k (by omega)
    have hgP : g ∈ P := by
      obtain ⟨hlt, hget⟩ := List.getElem?_eq_some_iff.mp hk
      rw [← hget]
      exact hsub.subset (List.getElem_mem hlt)
    rw [b1, b2, b3, b4, s1 _ (hfresh g hgP)]
    exact ⟨a1, a2, a3, a4, a5⟩
  rcases s3 with hn | ⟨hn, c1, c2, c3, c4, c5⟩
  · exact ⟨G, hsub.trans (List.sublist_append_left P [p]), by rw [hn]; exact hlen, hold⟩
  · refine ⟨G ++ [p], List.Sublist.append hsub (List.Sublist.refl _), ?_, ?_⟩
    · rw [hn, List.length_append, hlen]; rfl
    · intro k g hk
      by_cases hklt : k < G.length
      · rw [List.getElem?_append_left hklt] at hk
        exact hold k g hk
      · have hkge : G.length ≤ k := by omega
        rw [List.getElem?_append_right hkge] at hk
        have hk0 : k - G.length = 0 := by
          by_contra hne
          have : ([p] : List (Int × Int))[k - G.length]? = none := by
            apply List.getElem?_eq_none
            simp only [List.length_singleton]
            omega
          rw [this] at hk
          cases hk
        rw [hk0] at hk
        simp only [List.getElem?_cons_zero, Option.some.injEq] at hk
        subst hk
        have hkeq : k = st.2.n := by omega
        subst hkeq
        exact ⟨c1, c2, c3, c4, c5⟩

theorem normalizeFold_inv (wl : Int) (dIRefl : Int → IEEE) (S P : List (Int × Int))
    (st : LevelArrays × LevelPC)
    (hPS : ∀ q ∈ P, ∀ p ∈ S, q.1 + q.2 * wl ≠ p.1 + p.2 * wl)
    (hS : S.Pairwise (fun p q => p.1 + p.2 * wl < q.1 + q.2 * wl)) (h : NormInv wl P st) :
    NormInv wl (P ++ S) (S.foldl (normalizeStep wl dIRefl) st) := by
  induction S generalizing P st with
  | nil => simpa using h
  | cons p S ih =>
    rw [List.foldl_cons]
    obtain ⟨hp, hS'⟩ := List.pairwise_cons.mp hS
    have h1 := normalizeStep_inv wl dIRefl P st p
      (fun q hq => hPS q hq p (List.mem_cons_self _ _)) h
    have h2 := ih (P ++ [p]) (normalizeStep wl dIRefl st p) ?_ hS' h1
    · simpa using h2
    · intro q hq r hr
      rcases List.mem_append.mp hq with hq | hq
      · exact hPS q hq r (List.mem_cons_of_mem _ hr)
      · simp only [List.mem_singleton] at hq
        subst hq
        exact ne_of_lt (hp r hr)

/-- After the normalisation loop of one level the point cloud is well formed. -/
theorem normalizeLoop_ok (wl hl : Int) (dIRefl : Int → IEEE) (a : LevelArrays) (pc : LevelPC) :
    PCLevelOK wl hl
      ((pixelLoop 2 (wl - 2) 2 (hl - 2)).foldl (normalizeStep wl dIRefl) (a, { pc with n := 0 })).1
      ((pixelLoop 2 (wl - 2) 2 (hl - 2)).foldl (normalizeStep wl dIRefl) (a, { pc with n := 0 })).2
    := by
  have hpw := pixelLoop_pairwise wl 2 (wl - 2) 2 (hl - 2) (by norm_num) (by linarith)
  have h0 : NormInv wl [] (a, { pc with n := 0 }) :=
    ⟨[], List.Sublist.refl _, rfl, fun k g hk => by simp at hk⟩
  have hinv := normalizeFold_inv wl dIRefl (pixelLoop 2 (wl - 2) 2 (hl - 2)) [] _
    (fun q hq => by cases hq) hpw h0
  rw [List.nil_append] at hinv
  obtain ⟨G, hsub, hlen, hG⟩ := hinv
  refine ⟨fun k hk => ?_, fun k k' hkk hk' => ?_, ?_⟩
  · have hkG : k < G.length := by omega
    obtain ⟨a1, a2, a3, a4, a5⟩ := hG k G[k] (List.getElem?_eq_getElem hkG)
    have hmem : G[k] ∈ pixelLoop 2 (wl - 2) 2 (hl - 2) := hsub.subset (List.getElem_mem hkG)
    obtain ⟨⟨x0, x1⟩, ⟨y0, y1⟩⟩ := (mem_pixelLoop _ _ _ _ _).mp hmem
    exact ⟨a3, a4, G[k].1, G[k].2, a1, a2, x0, x1, y0, y1, a5⟩
  · have hkG : k < G.length := by omega
    have hkG' : k' < G.length := by omega
    obtain ⟨a1, a2, _, _, _⟩ := hG k G[k] (List.getElem?_eq_getElem hkG)
    obtain ⟨b1, b2, _, _, _⟩ := hG k' G[k'] (List.getElem?_eq_getElem hkG')
    have hGpw := hpw.sublist hsub
    have := List.pairwise_iff_getElem.mp hGpw k k' hkG hkG' hkk
    rw [a1, a2, b1, b2]
    exact_mod_cast this
  · have h1 : G.length ≤ (pixelLoop 2 (wl - 2) 2 (hl - 2)).length := hsub.length_le
    rw [length_pixelLoop, hlen] at h1
    have e1 : ((wl - 2 - 2).toNat : Int) = max (wl - 4) 0 := by
      rw [Int.toNat_eq_max]; congr 1; ring
    have e2 : ((hl - 2 - 2).toNat : Int) = max (hl - 4) 0 := by
      rw [Int.toNat_eq_max]; congr 1; ring
    rw [← e1, ← e2]
    exact_mod_cast h1

theorem normalizeLevel_frame (t : CoarseTracker) (lvl : Nat) :
    (normalizeLevel t lvl).w = t.w ∧ (normalizeLevel t lvl).h = t.h
    ∧ (normalizeLevel t lvl).pyrLevelsUsed = t.pyrLevelsUsed
    ∧ (normalizeLevel t lvl).lastRef_dIp = t.lastRef_dIp
    ∧ (∀ k, k ≠ lvl → (normalizeLevel t lvl).lvl k = t.lvl k ∧ (normalizeLevel t lvl).pc k = t.pc k)
    ∧ PCLevelOK (t.w lvl) (t.h lvl) ((normalizeLevel t lvl).lvl lvl) ((normalizeLevel t lvl).pc lvl)
    := by
  refine ⟨rfl, rfl, rfl, rfl, fun k hk => ?_, ?_⟩
  · simp [normalizeLevel, CoarseTracker.setLvl, CoarseTracker.setPC, hk]
  · have h := normalizeLoop_ok (t.w lvl) (t.h lvl) (t.lastRef_dIp lvl) (t.lvl lvl) (t.pc lvl)
    simpa [normalizeLevel, CoarseTracker.setLvl, CoarseTracker.setPC] using h

theorem normalize_levels (t : CoarseTracker) (m : Nat) :
    ((List.range m).foldl normalizeLevel t).w = t.w
    ∧ ((List.range m).foldl normalizeLevel t).h = t.h
    ∧ ((List.range m).foldl normalizeLevel t).pyrLevelsUsed = t.pyrLevelsUsed
    ∧ ∀ L, L < m → PCLevelOK (t.w L) (t.h L) (((List.range m).foldl normalizeLevel t).lvl L)
        (((List.range m).foldl normalizeLevel t).pc L) := by
  induction m with
  | zero => exact ⟨rfl, rfl, rfl, fun L hL => by omega⟩
  | succ m ih =>
    rw [List.range_succ, List.foldl_append]
    simp only [List.foldl_cons, List.foldl_nil]
    obtain ⟨i1, i2, i3, i4⟩ := ih
    obtain ⟨f1, f2, f3, _, f5, f6⟩ := normalizeLevel_frame ((List.range m).foldl normalizeLevel t) m
    refine ⟨f1.trans i1, f2.trans i2, f3.trans i3, fun L hL => ?_⟩
    by_cases hLm : L = m
    · subst hLm
      rw [i1, i2] at f6
      exact f6
    · obtain ⟨g1, g2⟩ := f5 L hLm
      rw [g1, g2]
      exact i4 L (by omega)

theorem normalize_ok (t : CoarseTracker) : PCInvariant (CoarseTracker.normalize t) := by
  obtain ⟨i1, i2, i3, i4⟩ := normalize_levels t t.pyrLevelsUsed
  intro L hL
  unfold CoarseTracker.normalize at hL ⊢
  rw [i3] at hL
  rw [i1, i2]
  exact i4 L hL

/-- **C3.** After `makeCoarseDepthL0` and after `makeCoarseDepthForFirstFrame`,
for every pyramid level `L` and every `k < pc_n[L]`: `pc_idepth[L][k] > 0`,
`pc_color[L][k]` is finite, `pc_u`, `pc_v` are integer pixel coordinates with
`2 ≤ pc_u < w_L - 2`, `2 ≤ pc_v < h_L - 2`, and `pc_idepth[L][k]` equals the
normalised dense value `idepth[L][pc_u + pc_v*w_L]`; the entries are in strictly
increasing row-major pixel order, so `pc_n[L]` is at most the number
`(w_L - 4)*(h_L - 4)` of interior pixels (each factor counted as 0 when
negative). -/
theorem pc_entries_valid (sqrtf : ℚ → ℚ) (frameHessians : List (List PointHessian))
    (fh : List PointHessian) (t : CoarseTracker) :
    PCInvariant (makeCoarseDepthL0 sqrtf frameHessians t)
    ∧ PCInvariant (makeCoarseDepthForFirstFrame sqrtf fh t) :=
  ⟨normalize_ok _, normalize_ok _⟩

/-! ## Depth pyramid: what a dilation pass writes -/

theorem gatherFold_eq (offs : List Int) (idl bak : Int → ℚ) (i : Int) (acc : ℚ × ℚ × ℚ) :
    offs.foldl (gatherStep idl bak i) acc
      = (acc.1 + ((((offs.map (fun o => i + o)).filter (fun j => decide (bak j > 0))).map idl).sum),
         acc.2.1 + ((((offs.map (fun o => i + o)).filter (fun j => decide (bak j > 0))).map bak).sum),
         acc.2.2 + ((((offs.map (fun o => i + o)).filter
            (fun j => decide (bak j > 0))).length : Nat) : ℚ)) := by
  induction offs generalizing acc with
  | nil => simp
  | cons o os ih =>
    rw [List.foldl_cons, ih]
    unfold gatherStep
    by_cases hb : bak (i + o) > 0
    · simp only [hb, if_true, List.map_cons, List.filter_cons, decide_True, List.sum_cons,
        List.length_cons, Nat.cast_add, Nat.cast_one]
      refine Prod.ext ?_ (Prod.ext ?_ ?_) <;> simp only <;> ring
    · simp only [hb, if_false, List.map_cons, List.filter_cons, decide_False]
      simp

theorem pixel_index_in_range (w h x y : Int) (hx0 : 0 ≤ x) (hx1 : x < w) (hy0 : 0 ≤ y)
    (hy1 : y < h) : 0 ≤ x + y * w ∧ x + y * w < w * h := by
  have hw : 0 ≤ w := by linarith
  constructor
  · have := mul_nonneg hy0 hw
    linarith
  · have h1 : y + 1 ≤ h := by linarith
    nlinarith [mul_le_mul_of_nonneg_left h1 hw]

theorem memcpyZ_in (dst src : Int → ℚ) (n j : Int) (h0 : 0 ≤ j) (h1 : j < n) :
    memcpyZ dst src n j = src j := by
  simp [memcpyZ, h0, h1]

/-- Value written by a dilation pass at an index of the loop range whose four
neighbour indices all lie inside the array. -/
theorem dilatePass_at (offs : List Int) (nb : List (Int × Int)) (w h : Int) (a : LevelArrays)
    (x y : Int) (hi0 : w ≤ x + y * w) (hi1 : x + y * w < w * h - w) (hw : 0 ≤ w)
    (hnb : offs.map (fun o => x + y * w + o) = nb.map (fun p => p.1 + p.2 * w))
    (hin : ∀ p ∈ nb, 0 ≤ p.1 + p.2 * w ∧ p.1 + p.2 * w < w * h)
    (hz : a.weightSums (x + y * w) ≤ 0) :
    MeanOfNeighbours nb w a (dilatePass offs w h a) x y := by
  obtain ⟨e1, e2⟩ := dilatePass_pointwise offs w h a
  have hbi : memcpyZ a.weightSums_bak a.weightSums (w * h) (x + y * w) = a.weightSums (x + y * w) :=
    memcpyZ_in _ _ _ _ (by linarith) (by linarith)
  have hfil : ((offs.map (fun o => x + y * w + o)).filter
      (fun j => decide (memcpyZ a.weightSums_bak a.weightSums (w * h) j > 0)))
      = validNeighbours nb w a := by
    unfold validNeighbours
    rw [hnb]
    apply List.filter_congr
    intro j hj
    obtain ⟨p, hp, rfl⟩ := List.mem_map.mp hj
    obtain ⟨b0, b1⟩ := hin p hp
    rw [memcpyZ_in _ _ _ _ b0 b1]
  have hmapw : ((validNeighbours nb w a).map (memcpyZ a.weightSums_bak a.weightSums (w * h)))
      = (validNeighbours nb w a).map a.weightSums := by
    apply List.map_congr_left
    intro j hj
    unfold validNeighbours at hj
    obtain ⟨hj1, _⟩ := List.mem_filter.mp hj
    obtain ⟨p, hp, rfl⟩ := List.mem_map.mp hj1
    obtain ⟨b0, b1⟩ := hin p hp
    exact memcpyZ_in _ _ _ _ b0 b1
  have hg : gather offs a.idepth (memcpyZ a.weightSums_bak a.weightSums (w * h)) (x + y * w)
      = (((validNeighbours nb w a).map a.idepth).sum,
         ((validNeighbours nb w a).map a.weightSums).sum,
         ((validNeighbours nb w a).length : ℚ)) := by
    unfold gather
    rw [gatherFold_eq, hfil, hmapw]
    simp
  have r1 : (dilatePass offs w h a).idepth (x + y * w)
      = (dilateOutOfPlace offs w h a).idepth (x + y * w) := e1 _
  have r2 : (dilatePass offs w h a).weightSums (x + y * w)
      = (dilateOutOfPlace offs w h a).weightSums (x + y * w) := e2 _
  rw [MeanOfNeighbours, r1, r2]
  unfold dilateOutOfPlace
  simp only [hg, hbi]
  constructor
  · intro hv
    rw [hv]
    simp
  · intro hv
    have hlen : (0 : ℚ) < ((validNeighbours nb w a).length : ℚ) := by
      have : 0 < (validNeighbours nb w a).length := List.length_pos.mpr hv
      exact_mod_cast this
    simp only [hi0, hi1, hz, hlen, and_self, gt_iff_lt, if_true]

theorem interior_in_loop (w h x y : Int) (hx : 1 ≤ x) (hx' : x ≤ w - 2) (hy : 1 ≤ y)
    (hy' : y ≤ h - 2) : w ≤ x + y * w ∧ x + y * w < w * h - w := by
  have hw : 0 ≤ w := by linarith
  constructor
  · nlinarith [mul_le_mul_of_nonneg_right hy hw]
  · have h1 : y + 2 ≤ h := by linarith
    nlinarith [mul_le_mul_of_nonneg_left h1 hw]

/-- At an interior pixel whose weight before the pass is not positive, a
diagonal pass writes the mean over the valid diagonal neighbours. -/
theorem dilate_diag_interior (w h : Int) (a : LevelArrays) (x y : Int) (hx : 1 ≤ x)
    (hx' : x ≤ w - 2) (hy : 1 ≤ y) (hy' : y ≤ h - 2) (hz : a.weightSums (x + y * w) ≤ 0) :
    MeanOfNeighbours (diagNeighbours x y) w a (dilatePass (diagOffsets w) w h a) x y := by
  obtain ⟨l0, l1⟩ := interior_in_loop w h x y hx hx' hy hy'
  apply dilatePass_at (diagOffsets w) (diagNeighbours x y) w h a x y l0 l1 (by linarith) ?_ ?_ hz
  · simp only [diagOffsets, diagNeighbours, List.map_cons, List.map_nil]
    congr 1
    · ring
    congr 1
    · ring
    congr 1
    · ring
    congr 1
    ring
  · intro p hp
    simp only [diagNeighbours, List.mem_cons, List.mem_singleton, List.not_mem_nil, or_false] at hp
    rcases hp with rfl | rfl | rfl | rfl <;>
      exact pixel_index_in_range w h _ _ (by dsimp only; linarith) (by dsimp only; linarith)
        (by dsimp only; linarith) (by dsimp only; linarith)

/-- At an interior pixel whose weight before the pass is not positive, a cross
pass writes the mean over the valid direct neighbours. -/
theorem dilate_cross_interior (w h : Int) (a : LevelArrays) (x y : Int) (hx : 1 ≤ x)
    (hx' : x ≤ w - 2) (hy : 1 ≤ y) (hy' : y ≤ h - 2) (hz : a.weightSums (x + y * w) ≤ 0) :
    MeanOfNeighbours (crossNeighbours x y) w a (dilatePass (crossOffsets w) w h a) x y := by
  obtain ⟨l0, l1⟩ := interior_in_loop w h x y hx hx' hy hy'
  apply dilatePass_at (crossOffsets w) (crossNeighbours x y) w h a x y l0 l1 (by linarith) ?_ ?_ hz
  · simp only [crossOffsets, crossNeighbours, List.map_cons, List.map_nil]
    congr 1
    · ring
    congr 1
    · ring
    congr 1
    · ring
    congr 1
    ring
  · intro p hp
    simp only [crossNeighbours, List.mem_cons, List.mem_singleton, List.not_mem_nil, or_false] at hp
    rcases hp with rfl | rfl | rfl | rfl <;>
      exact pixel_index_in_range w h _ _ (by dsimp only; linarith) (by dsimp only; linarith)
        (by dsimp only; linarith) (by dsimp only; linarith)

theorem filter_single (offs : List Int) (hnd : offs.Nodup) (n i0 : Int) (bak : Int → ℚ)
    (hK : ∀ o ∈ offs, (bak (n + o) > 0 ↔ n + o = i0)) :
    (offs.map (fun o => n + o)).filter (fun j => decide (bak j > 0))
      = if i0 - n ∈ offs then [i0] else [] := by
  induction offs with
  | nil => simp
  | cons o os ih =>
    obtain ⟨hno, hnd'⟩ := List.nodup_cons.mp hnd
    have ih' := ih hnd' (fun o' ho' => hK o' (List.mem_cons_of_mem _ ho'))
    have hKo := hK o (List.mem_cons_self _ _)
    rw [List.map_cons, List.filter_cons, ih']
    by_cases ho : n + o = i0
    · have hpos : bak (n + o) > 0 := hKo.mpr ho
      have e : i0 - n = o := by linarith
      rw [e, if_neg hno, if_pos (List.mem_cons_self _ _)]
      rw [ho] at hpos
      simp only [hpos, decide_True, if_true, ho]
    · have hneg : ¬ bak (n + o) > 0 := fun h => ho (hKo.mp h)
      have e : i0 - n ≠ o := fun h => ho (by linarith)
      simp only [hneg, decide_False, List.mem_cons, e, false_or]
      rfl

theorem gather_single (offs : List Int) (hnd : offs.Nodup) (n i0 : Int) (idl bak : Int → ℚ)
    (hK : ∀ o ∈ offs, (bak (n + o) > 0 ↔ n + o = i0)) :
    gather offs idl bak n = if i0 - n ∈ offs then (idl i0, bak i0, 1) else (0, 0, 0) := by
  unfold gather
  rw [gatherFold_eq, filter_single offs hnd n i0 bak hK]
  by_cases h : i0 - n ∈ offs
  · simp [h]
  · simp [h]

theorem diagOffsets_nodup (w : Int) (hw : 3 ≤ w) : (diagOffsets w).Nodup := by
  unfold diagOffsets
  have h1 : (1 + w : Int) ≠ -1 - w := by omega
  have h2 : (1 + w : Int) ≠ w - 1 := by omega
  have h3 : (1 + w : Int) ≠ -w + 1 := by omega
  have h4 : (-1 - w : Int) ≠ w - 1 := by omega
  have h5 : (-1 - w : Int) ≠ -w + 1 := by omega
  have h6 : (w - 1 : Int) ≠ -w + 1 := by omega
  simp [h1, h2, h3, h4, h5, h6]

/-- A single valid pixel (array value `1/2`, weight `wt > 0`) at least two rows
from the top and bottom and one column from the sides, all other pixels empty,
and no positive value in the two floats adjacent to the snapshot buffer: after
a diagonal pass the four diagonal neighbours hold `1/2` and the four direct
neighbours still hold `0`. -/
theorem dilate_single_pixel (w h x0 y0 : Int) (wt : ℚ) (a : LevelArrays) (hwt : 0 < wt)
    (hx : 1 ≤ x0) (hx' : x0 ≤ w - 2) (hy : 2 ≤ y0) (hy' : y0 ≤ h - 3)
    (hid : ∀ j, 0 ≤ j → j < w * h → a.idepth j = if j = x0 + y0 * w then 1 / 2 else 0)
    (hws : ∀ j, 0 ≤ j → j < w * h → a.weightSums j = if j = x0 + y0 * w then wt else 0)
    (hclean : a.weightSums_bak (-1) ≤ 0 ∧ a.weightSums_bak (w * h) ≤ 0) :
    (∀ p ∈ diagNeighbours x0 y0, (dilatePass (diagOffsets w) w h a).idepth (p.1 + p.2 * w) = 1 / 2)
    ∧ (∀ p ∈ crossNeighbours x0 y0,
        (dilatePass (diagOffsets w) w h a).idepth (p.1 + p.2 * w) = 0) := by
  have hw3 : 3 ≤ w := by linarith
  have hw0 : 0 ≤ w := by linarith
  -- bounds on the index of the valid pixel, with `y0 * w` and `w * h` as atoms
  have hlo : 2 * w ≤ y0 * w := by nlinarith [mul_le_mul_of_nonneg_right hy hw0]
  have hhi : y0 * w + 3 * w ≤ w * h := by
    have : y0 + 3 ≤ h := by linarith
    nlinarith [mul_le_mul_of_nonneg_left this hw0]
  obtain ⟨i0, hi0⟩ : ∃ i0, i0 = x0 + y0 * w := ⟨_, rfl⟩
  have b_lo : 1 + 2 * w ≤ i0 := by rw [hi0]; linarith
  have b_hi : i0 + 2 * w + 2 ≤ w * h := by rw [hi0]; linarith
  rw [← hi0] at hid hws
  have hbak : ∀ j, -1 ≤ j → j ≤ w * h →
      (memcpyZ a.weightSums_bak a.weightSums (w * h) j > 0 ↔ j = i0) := by
    intro j h1 h2
    by_cases hj0 : j = -1
    · rw [hj0]
      have : memcpyZ a.weightSums_bak a.weightSums (w * h) (-1) = a.weightSums_bak (-1) := by
        simp [memcpyZ]
      rw [this]
      constructor
      · intro hp; linarith [hclean.1]
      · intro he; linarith
    · by_cases hjn : j = w * h
      · rw [hjn]
        have : memcpyZ a.weightSums_bak a.weightSums (w * h) (w * h)
            = a.weightSums_bak (w * h) := by
          simp [memcpyZ]
        rw [this]
        constructor
        · intro hp; linarith [hclean.2]
        · intro he; linarith
      · have g0 : 0 ≤ j := by omega
        have g1 : j < w * h := lt_of_le_of_ne h2 hjn
        rw [memcpyZ_in _ _ _ _ g0 g1, hws j g0 g1]
        by_cases he : j = i0
        · simp [he, hwt]
        · simp [he]
  obtain ⟨e1, _⟩ := dilatePass_pointwise (diagOffsets w) w h a
  have hval : ∀ n, w ≤ n → n < w * h - w → n ≠ i0 → n + 1 + w ≤ w * h →
      (dilatePass (diagOffsets w) w h a).idepth n
        = if i0 - n ∈ diagOffsets w then 1 / 2 else 0 := by
    intro n hn0 hn1 hne hn3
    rw [e1]
    unfold dilateOutOfPlace
    simp only
    have hg := gather_single (diagOffsets w) (diagOffsets_nodup w hw3) n i0 a.idepth
      (memcpyZ a.weightSums_bak a.weightSums (w * h)) (fun o ho => by
        apply hbak
        · simp only [diagOffsets, List.mem_cons, List.mem_singleton, List.not_mem_nil,
            or_false] at ho
          rcases ho with rfl | rfl | rfl | rfl <;> linarith
        · simp only [diagOffsets, List.mem_cons, List.mem_singleton, List.not_mem_nil,
            or_false] at ho
          rcases ho with rfl | rfl | rfl | rfl <;> linarith)
    have hbn : memcpyZ a.weightSums_bak a.weightSums (w * h) n ≤ 0 := by
      have := (hbak n (by linarith) (by linarith)).not.mpr hne
      exact not_lt.mp this
    have hidn : a.idepth n = 0 := by
      rw [hid n (by linarith) (by linarith), if_neg hne]
    have hidi : a.idepth i0 = 1 / 2 := by
      rw [hid i0 (by linarith) (by linarith), if_pos rfl]
    rw [hg]
    by_cases hm : i0 - n ∈ diagOffsets w
    · simp only [hm, if_true, hn0, hn1, hbn, true_and, hidi]
      norm_num
    · simp only [hm, if_false, hidn]
      norm_num
  constructor
  · intro p hp
    simp only [diagNeighbours, List.mem_cons, List.mem_singleton, List.not_mem_nil, or_false] at hp
    rcases hp with rfl | rfl | rfl | rfl
    · have e : (x0 + 1 + (y0 + 1) * w) = i0 + 1 + w := by rw [hi0]; ring
      simp only [e]
      rw [hval _ (by linarith) (by linarith) (by omega) (by linarith), if_pos]
      have : i0 - (i0 + 1 + w) = -1 - w := by ring
      rw [this]; simp [diagOffsets]
    · have e : (x0 - 1 + (y0 - 1) * w) = i0 - 1 - w := by rw [hi0]; ring
      simp only [e]
      rw [hval _ (by linarith) (by linarith) (by omega) (by linarith), if_pos]
      have : i0 - (i0 - 1 - w) = 1 + w := by ring
      rw [this]; simp [diagOffsets]
    · have e : (x0 - 1 + (y0 + 1) * w) = i0 - 1 + w := by rw [hi0]; ring
      simp only [e]
      rw [hval _ (by linarith) (by linarith) (by omega) (by linarith), if_pos]
      have : i0 - (i0 - 1 + w) = -w + 1 := by ring
      rw [this]; simp [diagOffsets]
    · have e : (x0 + 1 + (y0 - 1) * w) = i0 + 1 - w := by rw [hi0]; ring
      simp only [e]
      rw [hval _ (by linarith) (by linarith) (by omega) (by linarith), if_pos]
      have : i0 - (i0 + 1 - w) = w - 1 := by ring
      rw [this]; simp [diagOffsets]
  · intro p hp
    simp only [crossNeighbours, List.mem_cons, List.mem_singleton, List.not_mem_nil, or_false] at hp
    have hnot : ∀ d : Int, (d = 1 ∨ d = -1 ∨ d = w ∨ d = -w) → ¬ (d ∈ diagOffsets w) := by
      intro d hd
      simp only [diagOffsets, List.mem_cons, List.mem_singleton, List.not_mem_nil, or_false]
      omega
    rcases hp with rfl | rfl | rfl | rfl
    · have e : (x0 + 1 + y0 * w) = i0 + 1 := by rw [hi0]; ring
      simp only [e]
      rw [hval _ (by linarith) (by linarith) (by omega) (by linarith), if_neg]
      have : i0 - (i0 + 1) = -1 := by ring
      rw [this]; exact hnot _ (by omega)
    · have e : (x0 - 1 + y0 * w) = i0 - 1 := by rw [hi0]; ring
      simp only [e]
      rw [hval _ (by linarith) (by linarith) (by omega) (by linarith), if_neg]
      have : i0 - (i0 - 1) = 1 := by ring
      rw [this]; exact hnot _ (by omega)
    · have e : (x0 + (y0 + 1) * w) = i0 + w := by rw [hi0]; ring
      simp only [e]
      rw [hval _ (by linarith) (by linarith) (by omega) (by linarith), if_neg]
      have : i0 - (i0 + w) = -w := by ring
      rw [this]; exact hnot _ (by omega)
    · have e : (x0 + (y0 - 1) * w) = i0 - w := by rw [hi0]; ring
      simp only [e]
      rw [hval _ (by linarith) (by linarith) (by omega) (by linarith), if_neg]
      have : i0 - (i0 - w) = w := by ring
      rw [this]; exact hnot _ (by omega)

/-! ## Depth pyramid: concrete runs -/

theorem downsample_block_sums_witness :
    (1 ≤ 1 ∧ 1 < CoarseTracker.onePoint20.pyrLevelsUsed)
    ∧ DownsampledAt (downsample CoarseTracker.onePoint20) 1 :=
  ⟨⟨by decide, by decide⟩,
    (downsample_block_sums CoarseTracker.onePoint20 1 (by decide) (by decide)).1⟩

/-- With the valid pixel at `(1, 2)`, the first iteration `i = w` of the pass
(pixel `(0, 1)`, a diagonal neighbour) tests `weightSums_bak[i - 1 - w]`, the
float in front of the buffer; when that float is positive the pixel receives
the mean of `1/2` and the float in front of `idepth`. -/
theorem dilate_reads_before_buffer (w h : Int) (a : LevelArrays) (hw : 3 ≤ w) (hh : 5 ≤ h)
    (hid : ∀ j, 0 ≤ j → j < w * h → a.idepth j = if j = 1 + 2 * w then 1 / 2 else 0)
    (hws : ∀ j, 0 ≤ j → j < w * h → a.weightSums j = if j = 1 + 2 * w then 1 else 0)
    (hdirty : a.weightSums_bak (-1) > 0) :
    (dilatePass (diagOffsets w) w h a).idepth (0 + 1 * w) = (1 / 2 + a.idepth (-1)) / 2 := by
  have hwh : 5 * w ≤ w * h := by nlinarith [mul_le_mul_of_nonneg_left hh (by linarith : (0 : Int) ≤ w)]
  obtain ⟨e1, _⟩ := dilatePass_pointwise (diagOffsets w) w h a
  have hb : ∀ j, 0 ≤ j → j < w * h →
      memcpyZ a.weightSums_bak a.weightSums (w * h) j = if j = 1 + 2 * w then 1 else 0 := by
    intro j h0 h1
    rw [memcpyZ_in _ _ _ _ h0 h1, hws j h0 h1]
  have hbm : memcpyZ a.weightSums_bak a.weightSums (w * h) (-1) = a.weightSums_bak (-1) := by
    simp [memcpyZ]
  have g : gather (diagOffsets w) a.idepth (memcpyZ a.weightSums_bak a.weightSums (w * h)) w
      = (1 / 2 + a.idepth (-1), 1 + a.weightSums_bak (-1), 2) := by
    have i1 : w + (1 + w) = 1 + 2 * w := by ring
    have i2 : w + (-1 - w) = -1 := by ring
    have b3 := hb (w + (w - 1)) (by linarith) (by linarith)
    have b4 := hb (w + (-w + 1)) (by linarith) (by linarith)
    rw [if_neg (by omega)] at b3 b4
    have b1 := hb (1 + 2 * w) (by linarith) (by linarith)
    rw [if_pos rfl] at b1
    have d1 := hid (1 + 2 * w) (by linarith) (by linarith)
    rw [if_pos rfl] at d1
    simp only [gather, diagOffsets, List.foldl_cons, List.foldl_nil, gatherStep, i1, i2, b1, b3,
      b4, hbm, d1, hdirty, gt_iff_lt, zero_lt_one, lt_self_iff_false, if_true, if_false]
    refine Prod.ext ?_ (Prod.ext ?_ ?_) <;> norm_num
  have hbw := hb w (by linarith) (by linarith)
  rw [if_neg (by omega)] at hbw
  rw [zero_add, one_mul, e1]
  unfold dilateOutOfPlace
  simp only [g, hbw]
  rw [if_pos ⟨le_refl _, by linarith, le_refl _, by norm_num⟩]

/-- **C8.** Concrete run of the diagonal pass on a 4 × 5 level whose only
valid pixel is `(1, 2)` (two rows from the top and bottom, one column from the
side, inverse depth `1/2`): with a positive float in front of `weightSums_bak`
the diagonal neighbour `(0, 1)` ends at `19/4`, not `1/2`; with that float at
`0` it ends at `1/2`. -/
theorem dilate_near_corner_eval :
    (dilatePass (diagOffsets 4) 4 5 (LevelArrays.nearCorner 4)).idepth (0 + 1 * 4) = 19 / 4
    ∧ (dilatePass (diagOffsets 4) 4 5
        { LevelArrays.nearCorner 4 with weightSums_bak := fun _ => 0 }).idepth (0 + 1 * 4)
        = 1 / 2 := by
  decide!

/-- With at most two pyramid levels the second dilation loop is empty and the
two builders run the same steps after the level-0 splat. -/
theorem tails_agree_upto_two_levels (t : CoarseTracker) (h : t.pyrLevelsUsed ≤ 2) :
    makeCoarseDepthForFirstFrame_tail t = makeCoarseDepthL0_tail t := by
  have e : t.pyrLevelsUsed - 2 = 0 := by omega
  unfold makeCoarseDepthForFirstFrame_tail makeCoarseDepthL0_tail
  simp only [e, List.range'_zero, List.foldl_nil]

set_option maxRecDepth 100000 in
/-- **C10.** Started from the same level-0 arrays (one point at `(8, 4)` of a
20 × 20 image, three levels), the two builders end with different level-2 point
clouds: `makeCoarseDepthL0` dilates level 2 with the cross and keeps one point,
`makeCoarseDepthForFirstFrame` dilates it with the diagonals and keeps none. -/
theorem firstFrame_level2_differs :
    ((makeCoarseDepthL0_tail CoarseTracker.onePoint20).pc 2).n = 1
    ∧ ((makeCoarseDepthForFirstFrame_tail CoarseTracker.onePoint20).pc 2).n = 0 := by
  decide!


/-! ## Cascade counters -/

theorem AccCore_shiftUp_counters (D : Nat) (force : Bool) (s : AccState) :
    (AccCore.shiftUp D force s).numIn1 + (AccCore.shiftUp D force s).numIn1k
        + (AccCore.shiftUp D force s).numIn1m = s.numIn1 + s.numIn1k + s.numIn1m
    ∧ (AccCore.shiftUp D force s).num = s.num
    ∧ (force = true → (AccCore.shiftUp D force s).numIn1 = 0
        ∧ (AccCore.shiftUp D force s).numIn1k = 0) := by
  unfold AccCore.shiftUp
  by_cases h1 : s.numIn1 > 1000 ∨ force = true
  · by_cases h2 : s.numIn1k + s.numIn1 > 1000 ∨ force = true
    · simp only [h1, h2, if_true]
      refine ⟨by omega, trivial, fun _ => ⟨trivial, trivial⟩⟩
    · simp only [h1, h2, if_true, if_false]
      refine ⟨by omega, trivial, fun hf => absurd (Or.inr hf) h2⟩
  · by_cases h2 : s.numIn1k > 1000 ∨ force = true
    · simp only [h1, h2, if_true, if_false]
      refine ⟨by omega, trivial, fun hf => absurd (Or.inr hf) h1⟩
    · simp only [h1, h2, if_false]
      refine ⟨trivial, trivial, fun hf => absurd (Or.inr hf) h1⟩

/-- Sum of the three cascade counters. -/
theorem AccCore_countSSE_counters (D : Nat) (s : AccState) :
    (AccCore.countSSE D s).numIn1 + (AccCore.countSSE D s).numIn1k
        + (AccCore.countSSE D s).numIn1m = s.numIn1 + s.numIn1k + s.numIn1m + 1
    ∧ (AccCore.countSSE D s).num = s.num + 4 := by
  unfold AccCore.countSSE
  obtain ⟨h1, h2, _⟩ := AccCore_shiftUp_counters D false
    { s with num := s.num + 4, numIn1 := s.numIn1 + 1 }
  refine ⟨?_, h2⟩
  rw [h1]
  show s.numIn1 + 1 + s.numIn1k + s.numIn1m = _
  omega

theorem AccCore_countSingle_counters (D : Nat) (s : AccState) :
    (AccCore.countSingle D s).numIn1 + (AccCore.countSingle D s).numIn1k
        + (AccCore.countSingle D s).numIn1m = s.numIn1 + s.numIn1k + s.numIn1m + 1
    ∧ (AccCore.countSingle D s).num = s.num + 1 := by
  unfold AccCore.countSingle
  obtain ⟨h1, h2, _⟩ := AccCore_shiftUp_counters D false
    { s with num := s.num + 1, numIn1 := s.numIn1 + 1 }
  refine ⟨?_, h2⟩
  rw [h1]
  show s.numIn1 + 1 + s.numIn1k + s.numIn1m = _
  omega

theorem AccCore_finish_counters (D : Nat) (s : AccState) :
    (AccCore.finish D s).numIn1 = 0 ∧ (AccCore.finish D s).numIn1k = 0
    ∧ (AccCore.finish D s).numIn1m = s.numIn1 + s.numIn1k + s.numIn1m
    ∧ (AccCore.finish D s).num = s.num := by
  unfold AccCore.finish
  obtain ⟨h1, h2, h3⟩ := AccCore_shiftUp_counters D true { s with H := fun _ _ => 0 }
  obtain ⟨h4, h5⟩ := h3 rfl
  refine ⟨h4, h5, ?_, h2⟩
  rw [h4, h5] at h1
  simpa using h1

/-- Counters after a run of calls, each adding `inc c` to the counter sum and
`lanes c` to `num`. -/
theorem counters_fold {σ C : Type} (run : C → σ → σ) (tot num : σ → Nat) (inc lanes : C → Nat)
    (h : ∀ c s, tot (run c s) = tot s + inc c ∧ num (run c s) = num s + lanes c)
    (calls : List C) (s : σ) :
    tot (calls.foldl (fun s c => run c s) s) = tot s + (calls.map inc).sum
    ∧ num (calls.foldl (fun s c => run c s) s) = num s + (calls.map lanes).sum := by
  induction calls generalizing s with
  | nil => simp
  | cons c cs ih =>
    rw [List.foldl_cons]
    obtain ⟨i1, i2⟩ := ih (run c s)
    obtain ⟨h1, h2⟩ := h c s
    rw [i1, i2, h1, h2]
    simp only [List.map_cons, List.sum_cons]
    constructor <;> omega

theorem sum_map_one {C : Type} (calls : List C) : (calls.map (fun _ => 1)).sum = calls.length := by
  induction calls with
  | nil => rfl
  | cons c cs ih => simp only [List.map_cons, List.sum_cons, List.length_cons, ih]; omega

theorem Accumulator9_call_counters (c : Accumulator9.AnyCall) (s : AccState) :
    (c.run s).numIn1 + (c.run s).numIn1k + (c.run s).numIn1m
        = s.numIn1 + s.numIn1k + s.numIn1m + 1
    ∧ (c.run s).num = s.num + c.lanes := by
  cases c with
  | sse c =>
    cases c with
    | updateSSE J => exact AccCore_countSSE_counters 9 _
    | updateSSE_eighted J w => exact AccCore_countSSE_counters 9 _
  | updateSingle J off => exact AccCore_countSingle_counters 9 _
  | updateSingleWeighted J w off => exact AccCore_countSingle_counters 9 _

theorem Accumulator11_call_counters (c : Accumulator11.AnyCall) (s : AccState) :
    (c.run s).numIn1 + (c.run s).numIn1k + (c.run s).numIn1m
        = s.numIn1 + s.numIn1k + s.numIn1m + 1
    ∧ (c.run s).num = s.num + c.lanes := by
  cases c with
  | sse c =>
    cases c with
    | updateSSE J => exact AccCore_countSSE_counters 11 _
    | updateSSE_tened J w => exact AccCore_countSSE_counters 11 _
  | updateSingle J off => exact AccCore_countSingle_counters 11 _
  | updateSingleWeighted J w off => exact AccCore_countSingle_counters 11 _

theorem Accumulator14_call_counters (c : Accumulator14.AnyCall) (s : AccState) :
    (c.run s).numIn1 + (c.run s).numIn1k + (c.run s).numIn1m
        = s.numIn1 + s.numIn1k + s.numIn1m + 1
    ∧ (c.run s).num = s.num + c.lanes := by
  cases c with
  | updateSSE J => exact AccCore_countSSE_counters 14 _
  | updateSingle J off => exact AccCore_countSingle_counters 14 _

theorem ApproxCore_shiftUp_counters (nTR nBR : Nat) (force : Bool) (s : ApproxState) :
    (ApproxCore.shiftUp nTR nBR force s).numIn1 + (ApproxCore.shiftUp nTR nBR force s).numIn1k
        + (ApproxCore.shiftUp nTR nBR force s).numIn1m = s.numIn1 + s.numIn1k + s.numIn1m
    ∧ (ApproxCore.shiftUp nTR nBR force s).num = s.num
    ∧ (force = true → (ApproxCore.shiftUp nTR nBR force s).numIn1 = 0
        ∧ (ApproxCore.shiftUp nTR nBR force s).numIn1k = 0) := by
  unfold ApproxCore.shiftUp
  by_cases h1 : s.numIn1 > 1000 ∨ force = true
  · by_cases h2 : s.numIn1k + s.numIn1 > 1000 ∨ force = true
    · simp only [h1, h2, if_true]
      refine ⟨by omega, trivial, fun _ => ⟨trivial, trivial⟩⟩
    · simp only [h1, h2, if_true, if_false]
      refine ⟨by omega, trivial, fun hf => absurd (Or.inr hf) h2⟩
  · by_cases h2 : s.numIn1k > 1000 ∨ force = true
    · simp only [h1, h2, if_true, if_false]
      refine ⟨by omega, trivial, fun hf => absurd (Or.inr hf) h1⟩
    · simp only [h1, h2, if_false]
      refine ⟨trivial, trivial, fun hf => absurd (Or.inr hf) h1⟩

theorem ApproxCore_count_counters (nTR nBR : Nat) (s : ApproxState) :
    (ApproxCore.count nTR nBR s).numIn1 + (ApproxCore.count nTR nBR s).numIn1k
        + (ApproxCore.count nTR nBR s).numIn1m = s.numIn1 + s.numIn1k + s.numIn1m + 1
    ∧ (ApproxCore.count nTR nBR s).num = s.num + 1 := by
  unfold ApproxCore.count
  obtain ⟨h1, h2, _⟩ := ApproxCore_shiftUp_counters nTR nBR false
    { s with num := s.num + 1, numIn1 := s.numIn1 + 1 }
  refine ⟨?_, h2⟩
  rw [h1]
  show s.numIn1 + 1 + s.numIn1k + s.numIn1m = _
  omega

theorem ApproxCore_call_counters (nTR nBR k : Nat) (c : ApproxCore.Call) (s : ApproxState) :
    (c.run nTR nBR k s).numIn1 + (c.run nTR nBR k s).numIn1k + (c.run nTR nBR k s).numIn1m
        = s.numIn1 + s.numIn1k + s.numIn1m + (if c.counted = true then 1 else 0)
    ∧ (c.run nTR nBR k s).num = s.num + (if c.counted = true then 1 else 0) := by
  cases c with
  | updateSSE x y a b c => exact ApproxCore_count_counters nTR nBR _
  | update x4 x6 y4 y6 a b c => exact ApproxCore_count_counters nTR nBR _
  | updateTopRight x4 x6 y4 y6 TR => exact ⟨rfl, rfl⟩
  | updateBotRight args => exact ⟨rfl, rfl⟩

theorem AccumulatorApprox_finish_counters (s : ApproxState) :
    (AccumulatorApprox.finish s).numIn1 = 0 ∧ (AccumulatorApprox.finish s).numIn1k = 0
    ∧ (AccumulatorApprox.finish s).numIn1m = s.numIn1 + s.numIn1k + s.numIn1m := by
  unfold AccumulatorApprox.finish AccumulatorApprox.shiftUp
  obtain ⟨h1, _, h3⟩ := ApproxCore_shiftUp_counters 32 8 true { s with H := fun _ _ => 0 }
  obtain ⟨h4, h5⟩ := h3 rfl
  refine ⟨h4, h5, ?_⟩
  rw [h4, h5] at h1
  simpa using h1

theorem AccumulatorApprox1515_finish_counters (s : ApproxState) :
    (AccumulatorApprox1515.finish s).numIn1 = 0 ∧ (AccumulatorApprox1515.finish s).numIn1k = 0
    ∧ (AccumulatorApprox1515.finish s).numIn1m = s.numIn1 + s.numIn1k + s.numIn1m := by
  unfold AccumulatorApprox1515.finish AccumulatorApprox1515.shiftUp
  obtain ⟨h1, _, h3⟩ := ApproxCore_shiftUp_counters 52 16 true { s with H := fun _ _ => 0 }
  obtain ⟨h4, h5⟩ := h3 rfl
  refine ⟨h4, h5, ?_⟩
  rw [h4, h5] at h1
  simpa using h1

theorem Accumulator1_shiftUp_counters (force : Bool) (s : Acc1State) :
    (Accumulator1.shiftUp force s).numIn1 + (Accumulator1.shiftUp force s).numIn1k
        + (Accumulator1.shiftUp force s).numIn1m = s.numIn1 + s.numIn1k + s.numIn1m
    ∧ (Accumulator1.shiftUp force s).num = s.num
    ∧ (force = true → (Accumulator1.shiftUp force s).numIn1 = 0
        ∧ (Accumulator1.shiftUp force s).numIn1k = 0) := by
  unfold Accumulator1.shiftUp
  by_cases h1 : s.numIn1 > 1000 ∨ force = true
  · by_cases h2 : s.numIn1k + s.numIn1 > 1000 ∨ force = true
    · simp only [h1, h2, if_true]
      refine ⟨by omega, trivial, fun _ => ⟨trivial, trivial⟩⟩
    · simp only [h1, h2, if_true, if_false]
      refine ⟨by omega, trivial, fun hf => absurd (Or.inr hf) h2⟩
  · by_cases h2 : s.numIn1k > 1000 ∨ force = true
    · simp only [h1, h2, if_true, if_false]
      refine ⟨by omega, trivial, fun hf => absurd (Or.inr hf) h1⟩
    · simp only [h1, h2, if_false]
      refine ⟨trivial, trivial, fun hf => absurd (Or.inr hf) h1⟩

theorem Accumulator1_call_counters (c : Accumulator1.Call) (s : Acc1State) :
    (c.run s).numIn1 + (c.run s).numIn1k + (c.run s).numIn1m
        = s.numIn1 + s.numIn1k + s.numIn1m + 1
    ∧ (c.run s).num = s.num + c.lanes := by
  cases c with
  | updateSingle v =>
    obtain ⟨h1, h2, _⟩ := Accumulator1_shiftUp_counters false (Accumulator1.updateSingleNoShift v s)
    refine ⟨?_, h2⟩
    refine h1.trans ?_
    show s.numIn1 + 1 + s.numIn1k + s.numIn1m = _
    omega
  | updateSSE v =>
    obtain ⟨h1, h2, _⟩ := Accumulator1_shiftUp_counters false (Accumulator1.updateSSENoShift v s)
    refine ⟨?_, h2⟩
    refine h1.trans ?_
    show s.numIn1 + 1 + s.numIn1k + s.numIn1m = _
    omega
  | updateSingleNoShift v =>
    refine ⟨?_, rfl⟩
    show s.numIn1 + 1 + s.numIn1k + s.numIn1m = _
    omega
  | updateSSENoShift v =>
    refine ⟨?_, rfl⟩
    show s.numIn1 + 1 + s.numIn1k + s.numIn1m = _
    omega

theorem Accumulator1_finish_counters (s : Acc1State) :
    (Accumulator1.finish s).numIn1 = 0 ∧ (Accumulator1.finish s).numIn1k = 0
    ∧ (Accumulator1.finish s).numIn1m = s.numIn1 + s.numIn1k + s.numIn1m
    ∧ (Accumulator1.finish s).num = s.num := by
  unfold Accumulator1.finish
  obtain ⟨h1, h2, h3⟩ := Accumulator1_shiftUp_counters true s
  obtain ⟨h4, h5⟩ := h3 rfl
  refine ⟨h4, h5, ?_, h2⟩
  rw [h4, h5] at h1
  simpa using h1

theorem AccumulatorXX_shiftUp_counters (force : Bool) (s : AccXState) :
    (AccumulatorXX.shiftUp force s).numIn1 + (AccumulatorXX.shiftUp force s).numIn1k
        + (AccumulatorXX.shiftUp force s).numIn1m = s.numIn1 + s.numIn1k + s.numIn1m
    ∧ (force = true → (AccumulatorXX.shiftUp force s).numIn1 = 0
        ∧ (AccumulatorXX.shiftUp force s).numIn1k = 0) := by
  unfold AccumulatorXX.shiftUp
  by_cases h1 : s.numIn1 > 1000 ∨ force = true
  · by_cases h2 : s.numIn1k + s.numIn1 > 1000 ∨ force = true
    · simp only [h1, h2, if_true]
      refine ⟨by omega, fun _ => ⟨trivial, trivial⟩⟩
    · simp only [h1, h2, if_true, if_false]
      refine ⟨by omega, fun hf => absurd (Or.inr hf) h2⟩
  · by_cases h2 : s.numIn1k > 1000 ∨ force = true
    · simp only [h1, h2, if_true, if_false]
      refine ⟨by omega, fun hf => absurd (Or.inr hf) h1⟩
    · simp only [h1, h2, if_false]
      refine ⟨trivial, fun hf => absurd (Or.inr hf) h1⟩

theorem AccumulatorXX_finish_counters (s : AccXState) :
    (AccumulatorXX.finish s).numIn1 = 0 ∧ (AccumulatorXX.finish s).numIn1k = 0
    ∧ (AccumulatorXX.finish s).numIn1m = s.numIn1 + s.numIn1k + s.numIn1m := by
  unfold AccumulatorXX.finish
  obtain ⟨h1, h3⟩ := AccumulatorXX_shiftUp_counters true s
  obtain ⟨h4, h5⟩ := h3 rfl
  refine ⟨h4, h5, ?_⟩
  rw [h4, h5] at h1
  simpa using h1

theorem AccumulatorXX_update_counters (L R : Nat → ℚ) (w : ℚ) (s : AccXState) :
    (AccumulatorXX.update L R w s).numIn1 + (AccumulatorXX.update L R w s).numIn1k
      + (AccumulatorXX.update L R w s).numIn1m = s.numIn1 + s.numIn1k + s.numIn1m + 1 := by
  unfold AccumulatorXX.update
  refine (AccumulatorXX_shiftUp_counters false _).1.trans ?_
  show s.numIn1 + 1 + s.numIn1k + s.numIn1m = _
  omega

theorem AccumulatorX_call_counters (c : AccumulatorX.Call) (s : AccXState) :
    (c.run s).numIn1 + (c.run s).numIn1k + (c.run s).numIn1m
      = s.numIn1 + s.numIn1k + s.numIn1m + 1 := by
  cases c with
  | update L w =>
    refine (AccumulatorXX_shiftUp_counters false _).1.trans ?_
    show s.numIn1 + 1 + s.numIn1k + s.numIn1m = _
    omega
  | updateNoWeight L =>
    refine (AccumulatorXX_shiftUp_counters false _).1.trans ?_
    show s.numIn1 + 1 + s.numIn1k + s.numIn1m = _
    omega

/-- The counters of the three SSE accumulators after `initialize()`, a run of
calls and the counter part of `finish()`. -/
theorem AccCore_run_counters {C : Type} (D : Nat) (run : C → AccState → AccState)
    (lanes : C → Nat)
    (h : ∀ c s, (run c s).numIn1 + (run c s).numIn1k + (run c s).numIn1m
        = s.numIn1 + s.numIn1k + s.numIn1m + 1 ∧ (run c s).num = s.num + lanes c)
    (calls : List C) (s0 : AccState) :
    (AccCore.finish D (calls.foldl (fun s c => run c s) (AccCore.initialise D s0))).numIn1 = 0
    ∧ (AccCore.finish D (calls.foldl (fun s c => run c s) (AccCore.initialise D s0))).numIn1k = 0
    ∧ (AccCore.finish D (calls.foldl (fun s c => run c s) (AccCore.initialise D s0))).numIn1m
        = calls.length
    ∧ (AccCore.finish D (calls.foldl (fun s c => run c s) (AccCore.initialise D s0))).num
        = (calls.map lanes).sum := by
  obtain ⟨f1, f2, f3, f4⟩ := AccCore_finish_counters D
    (calls.foldl (fun s c => run c s) (AccCore.initialise D s0))
  obtain ⟨c1, c2⟩ := counters_fold run (fun s => s.numIn1 + s.numIn1k + s.numIn1m)
    (fun s => s.num) (fun _ => 1) lanes h calls (AccCore.initialise D s0)
  simp only [sum_map_one] at c1
  refine ⟨f1, f2, ?_, ?_⟩
  · rw [f3, c1]
    show 0 + 0 + 0 + calls.length = calls.length
    omega
  · rw [f4, c2]
    show 0 + (calls.map lanes).sum = _
    omega

/-- **C20.** After `finish()` on any accumulator the cascade counters `numIn1`
and `numIn1k` are 0 and `numIn1m` holds the number of counting update calls made
since `initialize()` (every update call, except `updateTopRight` and
`updateBotRight` of the two approximate accumulators, which do not count); on
`Accumulator1`, `Accumulator9` and `Accumulator11`, whose `finish()` does not
assign `num`, `num` is the total number of lane updates submitted since
`initialize()`: 4 for every SSE update call, 1 for every single-lane call. -/
theorem finish_counters :
    (∀ (calls : List Accumulator9.AnyCall) (s0 : AccState),
      (Accumulator9.finish (calls.foldl (fun s c => c.run s) (Accumulator9.initialise s0))).numIn1
          = 0
      ∧ (Accumulator9.finish
          (calls.foldl (fun s c => c.run s) (Accumulator9.initialise s0))).numIn1k = 0
      ∧ (Accumulator9.finish
          (calls.foldl (fun s c => c.run s) (Accumulator9.initialise s0))).numIn1m = calls.length
      ∧ (Accumulator9.finish (calls.foldl (fun s c => c.run s) (Accumulator9.initialise s0))).num
          = (calls.map Accumulator9.AnyCall.lanes).sum)
    ∧ (∀ (calls : List Accumulator11.AnyCall) (s0 : AccState),
      (Accumulator11.finish
          (calls.foldl (fun s c => c.run s) (Accumulator11.initialise s0))).numIn1 = 0
      ∧ (Accumulator11.finish
          (calls.foldl (fun s c => c.run s) (Accumulator11.initialise s0))).numIn1k = 0
      ∧ (Accumulator11.finish
          (calls.foldl (fun s c => c.run s) (Accumulator11.initialise s0))).numIn1m = calls.length
      ∧ (Accumulator11.finish
          (calls.foldl (fun s c => c.run s) (Accumulator11.initialise s0))).num
          = (calls.map Accumulator11.AnyCall.lanes).sum)
    ∧ (∀ (calls : List Accumulator14.AnyCall) (s0 : AccState),
      (Accumulator14.finish
          (calls.foldl (fun s c => c.run s) (Accumulator14.initialise s0))).numIn1 = 0
      ∧ (Accumulator14.finish
          (calls.foldl (fun s c => c.run s) (Accumulator14.initialise s0))).numIn1k = 0
      ∧ (Accumulator14.finish
          (calls.foldl (fun s c => c.run s) (Accumulator14.initialise s0))).numIn1m = calls.length)
    ∧ (∀ (calls : List Accumulator1.Call) (s0 : Acc1State),
      (Accumulator1.finish (calls.foldl (fun s c => c.run s) (Accumulator1.initialise s0))).numIn1
          = 0
      ∧ (Accumulator1.finish
          (calls.foldl (fun s c => c.run s) (Accumulator1.initialise s0))).numIn1k = 0
      ∧ (Accumulator1.finish
          (calls.foldl (fun s c => c.run s) (Accumulator1.initialise s0))).numIn1m = calls.length
      ∧ (Accumulator1.finish (calls.foldl (fun s c => c.run s) (Accumulator1.initialise s0))).num
          = (calls.map Accumulator1.Call.lanes).sum)
    ∧ (∀ (calls : List ((Nat → ℚ) × (Nat → ℚ) × ℚ)) (s0 : AccXState),
      (AccumulatorXX.finish (calls.foldl (fun s c => AccumulatorXX.update c.1 c.2.1 c.2.2 s)
          (AccumulatorXX.initialise s0))).numIn1 = 0
      ∧ (AccumulatorXX.finish (calls.foldl (fun s c => AccumulatorXX.update c.1 c.2.1 c.2.2 s)
          (AccumulatorXX.initialise s0))).numIn1k = 0
      ∧ (AccumulatorXX.finish (calls.foldl (fun s c => AccumulatorXX.update c.1 c.2.1 c.2.2 s)
          (AccumulatorXX.initialise s0))).numIn1m = calls.length)
    ∧ (∀ (calls : List AccumulatorX.Call) (s0 : AccXState),
      (AccumulatorX.finish
          (calls.foldl (fun s c => c.run s) (AccumulatorX.initialise s0))).numIn1 = 0
      ∧ (AccumulatorX.finish
          (calls.foldl (fun s c => c.run s) (AccumulatorX.initialise s0))).numIn1k = 0
      ∧ (AccumulatorX.finish
          (calls.foldl (fun s c => c.run s) (AccumulatorX.initialise s0))).numIn1m = calls.length)
    ∧ (∀ (calls : List ApproxCore.Call) (s0 : ApproxState),
      (AccumulatorApprox.finish (calls.foldl (fun s c => AccumulatorApprox.Call.run c s)
          (AccumulatorApprox.initialise s0))).numIn1 = 0
      ∧ (AccumulatorApprox.finish (calls.foldl (fun s c => AccumulatorApprox.Call.run c s)
          (AccumulatorApprox.initialise s0))).numIn1k = 0
      ∧ (AccumulatorApprox.finish (calls.foldl (fun s c => AccumulatorApprox.Call.run c s)
          (AccumulatorApprox.initialise s0))).numIn1m
          = (calls.filter ApproxCore.Call.counted).length)
    ∧ (∀ (calls : List ApproxCore.Call) (s0 : ApproxState),
      (AccumulatorApprox1515.finish (calls.foldl (fun s c => AccumulatorApprox1515.Call.run c s)
          (AccumulatorApprox1515.initialise s0))).numIn1 = 0
      ∧ (AccumulatorApprox1515.finish (calls.foldl (fun s c => AccumulatorApprox1515.Call.run c s)
          (AccumulatorApprox1515.initialise s0))).numIn1k = 0
      ∧ (AccumulatorApprox1515.finish (calls.foldl (fun s c => AccumulatorApprox1515.Call.run c s)
          (AccumulatorApprox1515.initialise s0))).numIn1m
          = (calls.filter ApproxCore.Call.counted).length) := by
  have hcnt : ∀ calls : List ApproxCore.Call,
      (calls.map (fun c => if c.counted = true then 1 else 0)).sum
        = (calls.filter ApproxCore.Call.counted).length := by
    intro calls
    induction calls with
    | nil => rfl
    | cons c cs ih =>
      rw [List.map_cons, List.sum_cons, List.filter_cons, ih]
      cases hc : c.counted
      · simp
      · simp only [if_true, List.length_cons]; omega
  refine ⟨fun calls s0 => AccCore_run_counters 9 _ _ Accumulator9_call_counters calls s0,
    fun calls s0 => AccCore_run_counters 11 _ _ Accumulator11_call_counters calls s0,
    fun calls s0 => ?_, fun calls s0 => ?_, fun calls s0 => ?_, fun calls s0 => ?_,
    fun calls s0 => ?_, fun calls s0 => ?_⟩
  · obtain ⟨h1, h2, h3, _⟩ := AccCore_run_counters 14 _ _ Accumulator14_call_counters calls s0
    exact ⟨h1, h2, h3⟩
  · obtain ⟨f1, f2, f3, f4⟩ := Accumulator1_finish_counters
      (calls.foldl (fun s c => c.run s) (Accumulator1.initialise s0))
    obtain ⟨c1, c2⟩ := counters_fold Accumulator1.Call.run
      (fun s => s.numIn1 + s.numIn1k + s.numIn1m) (fun s => s.num) (fun _ => 1)
      Accumulator1.Call.lanes Accumulator1_call_counters calls (Accumulator1.initialise s0)
    simp only [sum_map_one] at c1
    refine ⟨f1, f2, ?_, ?_⟩
    · rw [f3, c1]
      show 0 + 0 + 0 + calls.length = calls.length
      omega
    · rw [f4, c2]
      show 0 + (calls.map Accumulator1.Call.lanes).sum = _
      omega
  · obtain ⟨f1, f2, f3⟩ := AccumulatorXX_finish_counters
      (calls.foldl (fun s c => AccumulatorXX.update c.1 c.2.1 c.2.2 s)
        (AccumulatorXX.initialise s0))
    obtain ⟨c1, _⟩ := counters_fold
      (fun (c : (Nat → ℚ) × (Nat → ℚ) × ℚ) s => AccumulatorXX.update c.1 c.2.1 c.2.2 s)
      (fun s => s.numIn1 + s.numIn1k + s.numIn1m) (fun _ => 0) (fun _ => 1) (fun _ => 0)
      (fun c s => ⟨AccumulatorXX_update_counters c.1 c.2.1 c.2.2 s, rfl⟩) calls
      (AccumulatorXX.initialise s0)
    simp only [sum_map_one] at c1
    refine ⟨f1, f2, ?_⟩
    rw [f3, c1]
    show 0 + 0 + 0 + calls.length = calls.length
    omega
  · obtain ⟨f1, f2, f3⟩ := AccumulatorXX_finish_counters
      (calls.foldl (fun s c => c.run s) (AccumulatorX.initialise s0))
    obtain ⟨c1, _⟩ := counters_fold AccumulatorX.Call.run
      (fun s => s.numIn1 + s.numIn1k + s.numIn1m) (fun _ => 0) (fun _ => 1) (fun _ => 0)
      (fun c s => ⟨AccumulatorX_call_counters c s, rfl⟩) calls (AccumulatorX.initialise s0)
    simp only [sum_map_one] at c1
    refine ⟨f1, f2, ?_⟩
    refine f3.trans ?_
    rw [c1]
    show 0 + 0 + 0 + calls.length = calls.length
    omega
  · obtain ⟨f1, f2, f3⟩ := AccumulatorApprox_finish_counters
      (calls.foldl (fun s c => AccumulatorApprox.Call.run c s) (AccumulatorApprox.initialise s0))
    obtain ⟨c1, _⟩ := counters_fold AccumulatorApprox.Call.run
      (fun s => s.numIn1 + s.numIn1k + s.numIn1m) (fun s => s.num)
      (fun c => if c.counted = true then 1 else 0) (fun c => if c.counted = true then 1 else 0)
      (fun c s => ApproxCore_call_counters 32 8 3 c s) calls (AccumulatorApprox.initialise s0)
    rw [hcnt] at c1
    refine ⟨f1, f2, ?_⟩
    rw [f3, c1]
    show 0 + 0 + 0 + _ = _
    omega
  · obtain ⟨f1, f2, f3⟩ := AccumulatorApprox1515_finish_counters
      (calls.foldl (fun s c => AccumulatorApprox1515.Call.run c s)
        (AccumulatorApprox1515.initialise s0))
    obtain ⟨c1, _⟩ := counters_fold AccumulatorApprox1515.Call.run
      (fun s => s.numIn1 + s.numIn1k + s.numIn1m) (fun s => s.num)
      (fun c => if c.counted = true then 1 else 0) (fun c => if c.counted = true then 1 else 0)
      (fun c s => ApproxCore_call_counters 52 16 5 c s) calls (AccumulatorApprox1515.initialise s0)
    rw [hcnt] at c1
    refine ⟨f1, f2, ?_⟩
    rw [f3, c1]
    show 0 + 0 + 0 + _ = _
    omega

/-- One SSE update between `initialize()` and `finish()`: on an `Accumulator9`
`numIn1m` ends at 1, not at 0; on an `Accumulator14` `numIn1m` ends at 1 and `num`
ends at 1, not at the 4 lanes submitted. -/
theorem finish_counters_one_update :
    (Accumulator9.finish
      (Accumulator9.updateSSE (fun _ _ => 1) (Accumulator9.initialise AccState.junk))).numIn1m = 1
    ∧ (Accumulator14.finish
      (Accumulator14.updateSSE (fun _ _ => 1) (Accumulator14.initialise AccState.junk))).numIn1m = 1
    ∧ (Accumulator14.finish
      (Accumulator14.updateSSE (fun _ _ => 1) (Accumulator14.initialise AccState.junk))).num = 1
    ∧ ¬ ((Accumulator9.finish
      (Accumulator9.updateSSE (fun _ _ => 1) (Accumulator9.initialise AccState.junk))).numIn1 = 0
      ∧ (Accumulator9.finish
      (Accumulator9.updateSSE (fun _ _ => 1) (Accumulator9.initialise AccState.junk))).numIn1k = 0
      ∧ (Accumulator9.finish
      (Accumulator9.updateSSE (fun _ _ => 1) (Accumulator9.initialise AccState.junk))).numIn1m
        = 0) := by
  decide

/-! ## The cutoff-escalation loop -/

theorem whileFuel_iterate {σ : Type} (cond : σ → Bool) (body : σ → σ) (k : Nat) :
    ∀ (s : σ) (fuel : Nat), k ≤ fuel → (∀ j, j < k → cond (body^[j] s) = true) →
      cond (body^[k] s) = false → whileFuel cond body fuel s = some (body^[k] s) := by
  induction k with
  | zero =>
    intro s fuel _ _ hk
    rw [Function.iterate_zero, id] at hk
    cases fuel with
    | zero => simp [whileFuel, hk]
    | succ f => simp [whileFuel, hk]
  | succ k ih =>
    intro s fuel hf hj hk
    cases fuel with
    | zero => omega
    | succ f =>
      have h0 : cond s = true := hj 0 (by omega)
      rw [whileFuel, if_pos h0]
      rw [Function.iterate_succ_apply] at hk ⊢
      apply ih (body s) f (by omega) _ hk
      intro j hjk
      have := hj (j + 1) (by omega)
      rwa [Function.iterate_succ_apply] at this

/-- The first index at which a Boolean sequence that is false at `n` is false. -/
theorem first_false (f : Nat → Bool) (n : Nat) (hn : f n = false) :
    ∃ k, k ≤ n ∧ f k = false ∧ ∀ j, j < k → f j = true := by
  induction n using Nat.strong_induction_on with
  | _ n ih =>
    by_cases h : ∃ j, j < n ∧ f j = false
    · obtain ⟨j, hj, hfj⟩ := h
      obtain ⟨k, hk1, hk2, hk3⟩ := ih j hj hfj
      exact ⟨k, by omega, hk2, hk3⟩
    · refine ⟨n, le_refl _, hn, fun j hj => ?_⟩
      cases hfj : f j
      · exact absurd ⟨j, hj, hfj⟩ h
      · rfl

theorem cutoff_iterate_repeat {P A M : Type} (T : TrackKernel P A M) (cutoffTH : ℚ) (lvl : Nat)
    (p : P) (a : A) (buf : WarpBuffers) (j : Nat) :
    ((T.cutoffBody cutoffTH lvl p a)^[j] (T.evalAt cutoffTH lvl p a 1 buf)).levelCutoffRepeat
      = 2 ^ j := by
  induction j with
  | zero => rfl
  | succ j ih =>
    rw [Function.iterate_succ_apply']
    show _ * 2 = _
    rw [ih, pow_succ]

theorem cutoff_cond_false_of_large (c : CutoffState) (h : 50 ≤ c.levelCutoffRepeat) :
    c.cond = false := by
  unfold CutoffState.cond
  have : ¬ c.levelCutoffRepeat < 50 := not_lt.mpr h
  simp [this]

/-- Shape of every run of the cutoff loop. -/
theorem cutoffLoop_spec {P A M : Type} (T : TrackKernel P A M) (cutoffTH : ℚ) (lvl : Nat)
    (p : P) (a : A) (buf : WarpBuffers) :
    ∃ k : Nat, k ≤ 6
      ∧ (∀ fuel, k ≤ fuel → T.cutoffLoop cutoffTH fuel lvl p a buf
          = some ((T.cutoffBody cutoffTH lvl p a)^[k] (T.evalAt cutoffTH lvl p a 1 buf)))
      ∧ (∀ j, j < k →
          ((T.cutoffBody cutoffTH lvl p a)^[j] (T.evalAt cutoffTH lvl p a 1 buf)).cond = true)
      ∧ ((T.cutoffBody cutoffTH lvl p a)^[k] (T.evalAt cutoffTH lvl p a 1 buf)).cond = false := by
  have h6 : ((T.cutoffBody cutoffTH lvl p a)^[6] (T.evalAt cutoffTH lvl p a 1 buf)).cond
      = false := by
    apply cutoff_cond_false_of_large
    rw [cutoff_iterate_repeat]
    norm_num
  obtain ⟨k, hk, hkf, hkt⟩ := first_false
    (fun j => ((T.cutoffBody cutoffTH lvl p a)^[j] (T.evalAt cutoffTH lvl p a 1 buf)).cond) 6 h6
  refine ⟨k, hk, fun fuel hf => ?_, hkt, hkf⟩
  exact whileFuel_iterate _ _ k _ fuel hf hkt hkf

/-- **C11.** At every pyramid level the cutoff-escalation loop terminates after
`k ≤ 6` doublings (any fuel bound of at least `k`, so any of at least 6, gives
its result); after `j` doublings `levelCutoffRepeat` is `2^j`, so it is always
one of 1, 2, 4, 8, 16, 32, 64, and `resOld` is the evaluation made at that
multiplier; each doubling happens only when the evaluation just made had
`resOld[5] > 0.6` with a multiplier below 50; on exit either the test
`resOld[5] > 0.6` is false for the last evaluation or the multiplier is 64. -/
theorem cutoff_loop_terminates {P A M : Type} (T : TrackKernel P A M) (cutoffTH : ℚ) (lvl : Nat)
    (p : P) (a : A) (buf : WarpBuffers) :
    ∃ k : Nat, k ≤ 6
      ∧ (∀ fuel, k ≤ fuel → T.cutoffLoop cutoffTH fuel lvl p a buf
          = some ((T.cutoffBody cutoffTH lvl p a)^[k] (T.evalAt cutoffTH lvl p a 1 buf)))
      ∧ (∀ j, j ≤ k →
          ((T.cutoffBody cutoffTH lvl p a)^[j] (T.evalAt cutoffTH lvl p a 1 buf)).levelCutoffRepeat
            = 2 ^ j)
      ∧ (∀ j, j < k →
          (T.cutoffBody cutoffTH lvl p a)^[j + 1] (T.evalAt cutoffTH lvl p a 1 buf)
            = T.evalAt cutoffTH lvl p a (2 ^ (j + 1))
                ((T.cutoffBody cutoffTH lvl p a)^[j] (T.evalAt cutoffTH lvl p a 1 buf)).buf)
      ∧ (∀ j, j < k →
          IEEE.lt (.fin (6 / 10))
            ((T.cutoffBody cutoffTH lvl p a)^[j] (T.evalAt cutoffTH lvl p a 1 buf)).resOld.r5 = true
          ∧ ((T.cutoffBody cutoffTH lvl p a)^[j]
              (T.evalAt cutoffTH lvl p a 1 buf)).levelCutoffRepeat < 50)
      ∧ (IEEE.lt (.fin (6 / 10))
            ((T.cutoffBody cutoffTH lvl p a)^[k] (T.evalAt cutoffTH lvl p a 1 buf)).resOld.r5 = false
          ∨ ((T.cutoffBody cutoffTH lvl p a)^[k]
              (T.evalAt cutoffTH lvl p a 1 buf)).levelCutoffRepeat = 64) := by
  obtain ⟨k, hk, hrun, htrue, hfalse⟩ := cutoffLoop_spec T cutoffTH lvl p a buf
  refine ⟨k, hk, hrun, fun j _ => cutoff_iterate_repeat T cutoffTH lvl p a buf j, fun j _ => ?_,
    fun j hj => ?_, ?_⟩
  · rw [Function.iterate_succ_apply']
    show T.evalAt cutoffTH lvl p a (_ * 2) _ = _
    rw [cutoff_iterate_repeat, pow_succ]
  · have h := htrue j hj
    unfold CutoffState.cond at h
    rw [Bool.and_eq_true, decide_eq_true_eq] at h
    exact h
  · unfold CutoffState.cond at hfalse
    rw [Bool.and_eq_false_iff, decide_eq_false_iff_not, not_lt] at hfalse
    rcases hfalse with h | h
    · left; exact h
    · right
      rw [cutoff_iterate_repeat] at h ⊢
      have hk6 : k = 6 := by
        by_contra hne
        have hk5 : k ≤ 5 := by omega
        have : (2 : ℚ) ^ k ≤ 2 ^ 5 := pow_le_pow_right₀ (by norm_num) hk5
        norm_num at this
        linarith
      rw [hk6]; norm_num

/-! ## The level loop -/

theorem lmLoop_iterate {P A M : Type} (K : LMKernel P A M) (n : Nat) (s : LMState P A M) :
    ∃ k, k ≤ n ∧ K.lmLoop n s = K.step^[k] s := by
  induction n generalizing s with
  | zero => exact ⟨0, le_refl _, rfl⟩
  | succ n ih =>
    rw [LMKernel.lmLoop]
    by_cases h : (K.lmIteration s).2 = true
    · obtain ⟨k, hk, e⟩ := ih (K.lmIteration s).1
      refine ⟨k + 1, by omega, ?_⟩
      simp only [h, if_true]
      rw [e, Function.iterate_succ_apply]
      rfl
    · refine ⟨1, by omega, ?_⟩
      simp only [h]
      rfl

/-- An inner iteration leaves the pose and affine parameters alone or replaces
them by the candidate. -/
theorem step_pose {P A M : Type} (K : LMKernel P A M) (s : LMState P A M) :
    ((K.step s).refToNew_current = s.refToNew_current ∧ (K.step s).aff_current = s.aff_current)
    ∨ ((K.step s).refToNew_current
          = (K.candidate s.Hb s.lambda s.refToNew_current s.aff_current).1
        ∧ (K.step s).aff_current
          = (K.candidate s.Hb s.lambda s.refToNew_current s.aff_current).2) := by
  unfold LMKernel.step LMKernel.lmIteration
  by_cases h : LMKernel.accept
      (K.calcRes (K.candidate s.Hb s.lambda s.refToNew_current s.aff_current).1
        (K.candidate s.Hb s.lambda s.refToNew_current s.aff_current).2 s.buf).1 s.resOld = true
  · right
    simp only [h, if_true, and_self]
  · left
    simp only [h, Bool.false_eq_true, ↓reduceIte, and_self]

theorem iterate_step_inv {P A M : Type} (K : LMKernel P A M) (I : P → A → Prop)
    (hI : ∀ Hb lambda p a, I p a → I (K.candidate Hb lambda p a).1 (K.candidate Hb lambda p a).2)
    (k : Nat) (s : LMState P A M) (h : I s.refToNew_current s.aff_current) :
    I (K.step^[k] s).refToNew_current (K.step^[k] s).aff_current := by
  induction k generalizing s with
  | zero => exact h
  | succ k ih =>
    rw [Function.iterate_succ_apply]
    apply ih
    rcases step_pose K s with ⟨e1, e2⟩ | ⟨e1, e2⟩
    · rw [e1, e2]; exact h
    · rw [e1, e2]; exact hI _ _ _ _ h

/-- What one level pass is: the cutoff loop ends after `kc ≤ 6` doublings, then
at most `maxIterations[lvl]` inner iterations run at the final cutoff. -/
theorem levelPass_spec {P A M : Type} (T : TrackKernel P A M) (S : TrackParams) (fuel : Nat)
    (hf : 6 ≤ fuel) (lvl : Nat) (s : TrackState P A) :
    ∃ (c : CutoffState) (kc m : Nat),
      T.cutoffLoop S.setting_coarseCutoffTH fuel lvl s.refToNew_current s.aff_current s.buf = some c
      ∧ kc ≤ 6 ∧ c.levelCutoffRepeat = 2 ^ kc ∧ m ≤ maxIterations lvl
      ∧ T.levelPass S fuel lvl s
        = some ((T.atLevel S.setting_coarseCutoffTH lvl c.levelCutoffRepeat).step^[m]
            { refToNew_current := s.refToNew_current
              aff_current := s.aff_current
              resOld := c.resOld
              Hb := T.calcGSSSE lvl s.refToNew_current s.aff_current c.buf
              lambda := 1 / 100
              buf := c.buf }, c.levelCutoffRepeat) := by
  obtain ⟨kc, hkc, hrun, _, _⟩ := cutoffLoop_spec T S.setting_coarseCutoffTH lvl
    s.refToNew_current s.aff_current s.buf
  have hc := hrun fuel (by omega)
  obtain ⟨m, hm, e⟩ := lmLoop_iterate
    (T.atLevel S.setting_coarseCutoffTH lvl
      ((T.cutoffBody S.setting_coarseCutoffTH lvl s.refToNew_current s.aff_current)^[kc]
        (T.evalAt S.setting_coarseCutoffTH lvl s.refToNew_current s.aff_current 1
          s.buf)).levelCutoffRepeat)
    (maxIterations lvl)
    { refToNew_current := s.refToNew_current
      aff_current := s.aff_current
      resOld := ((T.cutoffBody S.setting_coarseCutoffTH lvl s.refToNew_current s.aff_current)^[kc]
        (T.evalAt S.setting_coarseCutoffTH lvl s.refToNew_current s.aff_current 1 s.buf)).resOld
      Hb := T.calcGSSSE lvl s.refToNew_current s.aff_current
        ((T.cutoffBody S.setting_coarseCutoffTH lvl s.refToNew_current s.aff_current)^[kc]
          (T.evalAt S.setting_coarseCutoffTH lvl s.refToNew_current s.aff_current 1 s.buf)).buf
      lambda := 1 / 100
      buf := ((T.cutoffBody S.setting_coarseCutoffTH lvl s.refToNew_current s.aff_current)^[kc]
        (T.evalAt S.setting_coarseCutoffTH lvl s.refToNew_current s.aff_current 1 s.buf)).buf }
  refine ⟨_, kc, m, hc, hkc, cutoff_iterate_repeat T _ lvl _ _ _ kc, hm, ?_⟩
  unfold TrackKernel.levelPass
  rw [hc]
  simp only
  rw [e]

theorem levelLoop_abort {P A M : Type} (T : TrackKernel P A M) (S : TrackParams) (fuel pf lvl : Nat)
    (s : TrackState P A) (r : LMState P A M × ℚ) (h : T.levelPass S fuel lvl s = some r)
    (hab : TrackKernel.abortTest S lvl (TrackKernel.afterPass S lvl s r) = true) :
    T.levelLoop S fuel (pf + 1) lvl s = some (.aborted (TrackKernel.afterPass S lvl s r)) := by
  rw [TrackKernel.levelLoop, h]
  simp only [hab, if_true]

theorem levelLoop_repeat {P A M : Type} (T : TrackKernel P A M) (S : TrackParams)
    (fuel pf lvl : Nat) (s : TrackState P A) (r : LMState P A M × ℚ)
    (h : T.levelPass S fuel lvl s = some r)
    (hab : TrackKernel.abortTest S lvl (TrackKernel.afterPass S lvl s r) = false)
    (hrp : r.2 > 1 ∧ s.haveRepeated = false) :
    T.levelLoop S fuel (pf + 1) lvl s
      = T.levelLoop S fuel pf lvl { TrackKernel.afterPass S lvl s r with haveRepeated := true } := by
  have hrp' : r.2 > 1 ∧ (TrackKernel.afterPass S lvl s r).haveRepeated = false := hrp
  rw [TrackKernel.levelLoop, h]
  simp only [hab, Bool.false_eq_true, if_false, hrp', and_self, if_true]

theorem levelLoop_last {P A M : Type} (T : TrackKernel P A M) (S : TrackParams)
    (fuel pf : Nat) (s : TrackState P A) (r : LMState P A M × ℚ)
    (h : T.levelPass S fuel 0 s = some r)
    (hab : TrackKernel.abortTest S 0 (TrackKernel.afterPass S 0 s r) = false)
    (hrp : ¬ (r.2 > 1 ∧ s.haveRepeated = false)) :
    T.levelLoop S fuel (pf + 1) 0 s = some (.finished (TrackKernel.afterPass S 0 s r)) := by
  have hrp' : ¬ (r.2 > 1 ∧ (TrackKernel.afterPass S 0 s r).haveRepeated = false) := hrp
  rw [TrackKernel.levelLoop, h]
  simp only [hab, Bool.false_eq_true, if_false, hrp']

theorem levelLoop_down {P A M : Type} (T : TrackKernel P A M) (S : TrackParams)
    (fuel pf l : Nat) (s : TrackState P A) (r : LMState P A M × ℚ)
    (h : T.levelPass S fuel (l + 1) s = some r)
    (hab : TrackKernel.abortTest S (l + 1) (TrackKernel.afterPass S (l + 1) s r) = false)
    (hrp : ¬ (r.2 > 1 ∧ s.haveRepeated = false)) :
    T.levelLoop S fuel (pf + 1) (l + 1) s
      = T.levelLoop S fuel pf l (TrackKernel.afterPass S (l + 1) s r) := by
  have hrp' : ¬ (r.2 > 1 ∧ (TrackKernel.afterPass S (l + 1) s r).haveRepeated = false) := hrp
  rw [TrackKernel.levelLoop, h]
  simp only [hab, Bool.false_eq_true, if_false, hrp']

/-- Every run of the level loop entered with enough fuel: it ends, the passes
it adds have the shape `Schedule`, every pass ends with a multiplier `2^k`,
`k ≤ 6`, an invariant of the candidate step holds at the end, and the loop is
left through `return false` exactly when the test holds after the last pass. -/
theorem levelLoop_spec {P A M : Type} (T : TrackKernel P A M) (S : TrackParams) (fuel : Nat)
    (hf : 6 ≤ fuel) (I : P → A → Prop)
    (hI : ∀ Hb lambda p a, I p a → I (T.candidate Hb lambda p a).1 (T.candidate Hb lambda p a).2) :
    ∀ (pf lvl : Nat) (s : TrackState P A), I s.refToNew_current s.aff_current →
      lvl + 1 + (if s.haveRepeated = false then 1 else 0) ≤ pf →
      ∃ (exit : LoopExit (TrackState P A)) (tr : List (Nat × ℚ)),
        T.levelLoop S fuel pf lvl s = some exit
        ∧ I exit.state.refToNew_current exit.state.aff_current
        ∧ exit.state.passes = s.passes ++ tr
        ∧ Schedule s.haveRepeated lvl tr
        ∧ (∀ q ∈ tr, ∃ k, k ≤ 6 ∧ q.2 = 2 ^ k)
        ∧ (∃ l r, tr.getLast? = some (l, r)
            ∧ TrackKernel.abortTest S l exit.state = exit.isAborted) := by
  intro pf
  induction pf with
  | zero => intro lvl s _ hb; omega
  | succ pf ih =>
    intro lvl s hIs hb
    obtain ⟨c, kc, m, _, hkc, hrep, _, hpass⟩ := levelPass_spec T S fuel hf lvl s
    have hI1 : I (TrackKernel.afterPass S lvl s
        ((T.atLevel S.setting_coarseCutoffTH lvl c.levelCutoffRepeat).step^[m]
          { refToNew_current := s.refToNew_current
            aff_current := s.aff_current
            resOld := c.resOld
            Hb := T.calcGSSSE lvl s.refToNew_current s.aff_current c.buf
            lambda := 1 / 100
            buf := c.buf }, c.levelCutoffRepeat)).refToNew_current
        (TrackKernel.afterPass S lvl s
        ((T.atLevel S.setting_coarseCutoffTH lvl c.levelCutoffRepeat).step^[m]
          { refToNew_current := s.refToNew_current
            aff_current := s.aff_current
            resOld := c.resOld
            Hb := T.calcGSSSE lvl s.refToNew_current s.aff_current c.buf
            lambda := 1 / 100
            buf := c.buf }, c.levelCutoffRepeat)).aff_current :=
      iterate_step_inv (T.atLevel S.setting_coarseCutoffTH lvl c.levelCutoffRepeat) I hI m _ hIs
    generalize hst : (T.atLevel S.setting_coarseCutoffTH lvl c.levelCutoffRepeat).step^[m]
        { refToNew_current := s.refToNew_current
          aff_current := s.aff_current
          resOld := c.resOld
          Hb := T.calcGSSSE lvl s.refToNew_current s.aff_current c.buf
          lambda := 1 / 100
          buf := c.buf } = st at hI1 hpass
    generalize hs1 : TrackKernel.afterPass S lvl s (st, c.levelCutoffRepeat) = s1 at hI1
    have hp1 : s1.passes = s.passes ++ [(lvl, c.levelCutoffRepeat)] := by rw [← hs1]; rfl
    have hr1 : s1.haveRepeated = s.haveRepeated := by rw [← hs1]; rfl
    have hq : ∃ k, k ≤ 6 ∧ c.levelCutoffRepeat = 2 ^ k := ⟨kc, hkc, hrep⟩
    by_cases hab : TrackKernel.abortTest S lvl s1 = true
    · rw [← hs1] at hab
      rw [levelLoop_abort T S fuel pf lvl s _ hpass hab, hs1]
      rw [hs1] at hab
      refine ⟨.aborted s1, [(lvl, c.levelCutoffRepeat)], rfl, hI1, hp1, ?_, ?_, ?_⟩
      · exact ⟨rfl, fun _ => trivial, fun _ => Or.inl rfl⟩
      · intro q hq'
        rw [List.mem_singleton] at hq'
        rw [hq']; exact hq
      · exact ⟨lvl, c.levelCutoffRepeat, rfl, hab⟩
    · have hab' : TrackKernel.abortTest S lvl s1 = false := by
        cases h : TrackKernel.abortTest S lvl s1
        · rfl
        · exact absurd h hab
      by_cases hrp : c.levelCutoffRepeat > 1 ∧ s.haveRepeated = false
      · rw [← hs1] at hab'
        rw [levelLoop_repeat T S fuel pf lvl s _ hpass hab' hrp, hs1]
        have hb2 : lvl + 1 + (if ({ s1 with haveRepeated := true } : TrackState P A).haveRepeated
            = false then 1 else 0) ≤ pf := by
          simp only [hrp.2, if_true] at hb
          simp only [Bool.true_eq_false, if_false]
          omega
        obtain ⟨exit, tr, e1, e2, e3, e4, e5, e6⟩ := ih lvl { s1 with haveRepeated := true } hI1 hb2
        refine ⟨exit, (lvl, c.levelCutoffRepeat) :: tr, e1, e2, ?_, ?_, ?_, ?_⟩
        · rw [e3]
          show s1.passes ++ tr = _
          rw [hp1, List.append_assoc]
          rfl
        · exact ⟨rfl, fun _ => e4, fun hn => absurd hrp hn⟩
        · intro q hq'
          rcases List.mem_cons.mp hq' with h | h
          · rw [h]; exact hq
          · exact e5 q h
        · obtain ⟨l, r, g1, g2⟩ := e6
          refine ⟨l, r, ?_, g2⟩
          cases tr with
          | nil => simp at g1
          | cons t ts => rw [List.getLast?_cons_cons]; exact g1
      · cases lvl with
        | zero =>
          rw [← hs1] at hab'
          rw [levelLoop_last T S fuel pf s _ hpass hab' hrp, hs1]
          rw [hs1] at hab'
          refine ⟨.finished s1, [(0, c.levelCutoffRepeat)], rfl, hI1, hp1, ?_, ?_, ?_⟩
          · exact ⟨rfl, fun h => absurd h hrp, fun _ => Or.inl rfl⟩
          · intro q hq'
            rw [List.mem_singleton] at hq'
            rw [hq']; exact hq
          · exact ⟨0, c.levelCutoffRepeat, rfl, hab'⟩
        | succ l =>
          rw [← hs1] at hab'
          rw [levelLoop_down T S fuel pf l s _ hpass hab' hrp, hs1]
          have hb2 : l + 1 + (if s1.haveRepeated = false then 1 else 0) ≤ pf := by
            rw [hr1]; omega
          obtain ⟨exit, tr, e1, e2, e3, e4, e5, e6⟩ := ih l s1 hI1 hb2
          refine ⟨exit, (l + 1, c.levelCutoffRepeat) :: tr, e1, e2, ?_, ?_, ?_, ?_⟩
          · rw [e3, hp1, List.append_assoc]
            rfl
          · refine ⟨rfl, fun h => absurd h hrp, fun _ => Or.inr ⟨by omega, ?_⟩⟩
            rw [hr1] at e4
            exact e4
          · intro q hq'
            rcases List.mem_cons.mp hq' with h | h
            · rw [h]; exact hq
            · exact e5 q h
          · obtain ⟨l', r, g1, g2⟩ := e6
            refine ⟨l', r, ?_, g2⟩
            cases tr with
            | nil => simp at g1
            | cons t ts => rw [List.getLast?_cons_cons]; exact g1

/-! ## Consequences of the pass schedule -/

theorem schedule_head (hr : Bool) (lvl : Nat) (q : Nat × ℚ) (rest : List (Nat × ℚ))
    (h : Schedule hr lvl (q :: rest)) :
    q.1 = lvl
    ∧ (q.2 > 1 ∧ hr = false → Schedule true lvl rest)
    ∧ (¬ (q.2 > 1 ∧ hr = false) → rest = [] ∨ (0 < lvl ∧ Schedule hr (lvl - 1) rest)) := h

theorem schedule_length (tr : List (Nat × ℚ)) :
    ∀ (hr : Bool) (lvl : Nat), Schedule hr lvl tr →
      tr.length ≤ lvl + 1 + (if hr = false then 1 else 0) := by
  induction tr with
  | nil => intro hr lvl _; simp
  | cons q rest ih =>
    intro hr lvl h
    obtain ⟨_, h1, h2⟩ := schedule_head hr lvl q rest h
    rw [List.length_cons]
    by_cases c : q.2 > 1 ∧ hr = false
    · have := ih true lvl (h1 c)
      simp only [c.2, if_true]
      simp only [Bool.true_eq_false, if_false] at this
      omega
    · rcases h2 c with e | ⟨hl, hs⟩
      · rw [e, List.length_nil]; omega
      · have := ih hr (lvl - 1) hs
        omega

theorem schedule_repeats (tr : List (Nat × ℚ)) :
    ∀ (hr : Bool) (lvl : Nat), Schedule hr lvl tr →
      repeats tr ≤ (if hr = false then 1 else 0) := by
  induction tr with
  | nil => intro hr lvl _; simp [repeats]
  | cons q rest ih =>
    intro hr lvl h
    obtain ⟨hq, h1, h2⟩ := schedule_head hr lvl q rest h
    cases rest with
    | nil => simp [repeats]
    | cons q' rest' =>
      rw [repeats]
      by_cases c : q.2 > 1 ∧ hr = false
      · have := ih true lvl (h1 c)
        simp only [Bool.true_eq_false, if_false] at this
        simp only [c.2, if_true]
        split <;> omega
      · rcases h2 c with e | ⟨hl, hs⟩
        · exact absurd e (List.cons_ne_nil _ _)
        · have := ih hr (lvl - 1) hs
          have hq' := (schedule_head hr (lvl - 1) q' rest' hs).1
          have hne : ¬ q.1 = q'.1 := by omega
          rw [if_neg hne]
          omega

theorem schedule_adjacent (pre : List (Nat × ℚ)) :
    ∀ (hr : Bool) (lvl : Nat) (q q' : Nat × ℚ) (post : List (Nat × ℚ)),
      Schedule hr lvl (pre ++ q :: q' :: post) →
        (q'.1 = q.1 ∨ q'.1 + 1 = q.1)
        ∧ (q'.1 = q.1 ↔ (q.2 > 1 ∧ hr = false ∧ ∀ t ∈ pre, t.2 ≤ 1)) := by
  induction pre with
  | nil =>
    intro hr lvl q q' post h
    rw [List.nil_append] at h
    obtain ⟨hq, h1, h2⟩ := schedule_head hr lvl q _ h
    by_cases c : q.2 > 1 ∧ hr = false
    · have hq' := (schedule_head true lvl q' post (h1 c)).1
      refine ⟨Or.inl (by omega), fun _ => ⟨c.1, c.2, fun t ht => ?_⟩, fun _ => by omega⟩
      simp at ht
    · rcases h2 c with e | ⟨hl, hs⟩
      · exact absurd e (List.cons_ne_nil _ _)
      · have hq' := (schedule_head hr (lvl - 1) q' post hs).1
        refine ⟨Or.inr (by omega), fun e => by omega, fun e => absurd ⟨e.1, e.2.1⟩ c⟩
  | cons t pre ih =>
    intro hr lvl q q' post h
    rw [List.cons_append] at h
    obtain ⟨_, h1, h2⟩ := schedule_head hr lvl t _ h
    by_cases c : t.2 > 1 ∧ hr = false
    · obtain ⟨i1, i2⟩ := ih true lvl q q' post (h1 c)
      refine ⟨i1, fun e => ?_, fun e => ?_⟩
      · have := (i2.mp e).2.1
        simp at this
      · have := e.2.2 t (List.mem_cons_self _ _)
        exact absurd c.1 (not_lt.mpr this)
    · rcases h2 c with e | ⟨hl, hs⟩
      · exact absurd e (by simp)
      · obtain ⟨i1, i2⟩ := ih hr (lvl - 1) q q' post hs
        refine ⟨i1, fun e => ?_, fun e => ?_⟩
        · obtain ⟨g1, g2, g3⟩ := i2.mp e
          refine ⟨g1, g2, fun u hu => ?_⟩
          rcases List.mem_cons.mp hu with hu | hu
          · rw [hu]
            by_contra hgt
            exact c ⟨not_le.mp hgt, g2⟩
          · exact g3 u hu
        · exact i2.mpr ⟨e.1, e.2.1, fun u hu => e.2.2 u (List.mem_cons_of_mem _ hu)⟩

/-- **C12.** With a fuel bound of at least 6 and at least `coarsestLvl + 2`, the
level loop of a tracking call ends; the passes it made have the shape
`Schedule`: they start at `coarsestLvl`, every pass is followed by a pass at
the same level or one level down, and a pass is followed by a pass at the same
level exactly when its cutoff multiplier ended `> 1` and no earlier pass had a
multiplier `> 1`; so at most one pass is repeated and there are at most
`coarsestLvl + 2` passes.  Every pass starts its cutoff loop at multiplier 1,
ends it at some `2^k`, `k ≤ 6`, and then runs at most `maxIterations[lvl]`
inner iterations, `maxIterations` being 10, 20, 50, 50, 50 for levels 0..4. -/
theorem level_loop_passes {P A M : Type} (T : TrackKernel P A M) (S : TrackParams) (fuel : Nat)
    (hf : 6 ≤ fuel) (hp : S.coarsestLvl + 2 ≤ fuel) (p : P) (a : A) (buf : WarpBuffers) :
    ∃ exit : LoopExit (TrackState P A),
      T.levelLoop S fuel fuel S.coarsestLvl (TrackKernel.entry p a buf) = some exit
      ∧ Schedule false S.coarsestLvl exit.state.passes
      ∧ exit.state.passes.length ≤ S.coarsestLvl + 2
      ∧ repeats exit.state.passes ≤ 1
      ∧ (∀ pre q q' post, exit.state.passes = pre ++ q :: q' :: post →
          (q'.1 = q.1 ∨ q'.1 + 1 = q.1)
          ∧ (q'.1 = q.1 ↔ (q.2 > 1 ∧ ∀ t ∈ pre, t.2 ≤ 1)))
      ∧ (∀ q ∈ exit.state.passes, ∃ k, k ≤ 6 ∧ q.2 = 2 ^ k)
      ∧ (∀ (lvl : Nat) (s : TrackState P A), ∃ (c : CutoffState) (m : Nat),
          T.cutoffLoop S.setting_coarseCutoffTH fuel lvl s.refToNew_current s.aff_current s.buf
            = some c
          ∧ m ≤ maxIterations lvl
          ∧ T.levelPass S fuel lvl s
            = some ((T.atLevel S.setting_coarseCutoffTH lvl c.levelCutoffRepeat).step^[m]
                { refToNew_current := s.refToNew_current
                  aff_current := s.aff_current
                  resOld := c.resOld
                  Hb := T.calcGSSSE lvl s.refToNew_current s.aff_current c.buf
                  lambda := 1 / 100
                  buf := c.buf }, c.levelCutoffRepeat))
      ∧ (maxIterations 0 = 10 ∧ maxIterations 1 = 20 ∧ maxIterations 2 = 50
          ∧ maxIterations 3 = 50 ∧ maxIterations 4 = 50) := by
  obtain ⟨exit, tr, e1, _, e3, e4, e5, _⟩ := levelLoop_spec T S fuel hf (fun _ _ => True)
    (fun _ _ _ _ _ => trivial) fuel S.coarsestLvl (TrackKernel.entry p a buf) trivial
    (by show S.coarsestLvl + 1 + 1 ≤ fuel; omega)
  have hpass : exit.state.passes = tr := by
    rw [e3]; rfl
  have e4' : Schedule false S.coarsestLvl tr := e4
  refine ⟨exit, e1, by rw [hpass]; exact e4', ?_, ?_, ?_, by rw [hpass]; exact e5, ?_,
    by decide⟩
  · rw [hpass]
    have := schedule_length tr false S.coarsestLvl e4'
    simpa using this
  · rw [hpass]
    have := schedule_repeats tr false S.coarsestLvl e4'
    simpa using this
  · intro pre q q' post hq
    rw [hpass] at hq
    rw [hq] at e4'
    obtain ⟨i1, i2⟩ := schedule_adjacent pre false S.coarsestLvl q q' post e4'
    refine ⟨i1, i2.trans ⟨fun h => ⟨h.1, h.2.2⟩, fun h => ⟨h.1, rfl, h.2⟩⟩⟩
  · intro lvl s
    obtain ⟨c, _, m, h1, _, _, h4, h5⟩ := levelPass_spec T S fuel hf lvl s
    exact ⟨c, m, h1, h4, h5⟩

/-! ## The solve step: fixed affine parameters -/

theorem finiteOrZero_zero (n : Nat) (v : Nat → IEEE) (i : Nat) (h : v i = .fin 0) :
    finiteOrZero n v i = .fin 0 := by
  unfold finiteOrZero
  split
  · rfl
  · exact h

theorem mulQ_fin_zero (c : ℚ) : (IEEE.fin 0).mulQ c = .fin 0 := by
  simp [IEEE.mulQ]

/-- Which entries of the mono increment are exact zeros. -/
theorem incMono_fixed (E : SolverEnv) (modeA modeB : ℚ) (H : Nat → Nat → ℚ) (b : Nat → ℚ)
    (lambda : ℚ) :
    (modeA < 0 → E.incMono modeA modeB H b lambda 6 = .fin 0)
    ∧ (modeB < 0 → E.incMono modeA modeB H b lambda 7 = .fin 0) := by
  constructor
  · intro hA
    by_cases hB : modeB < 0
    · simp [SolverEnv.incMono, hA, hB, IEEE.mulQ]
    · simp [SolverEnv.incMono, hA, hB, IEEE.mulQ]
  · intro hB
    by_cases hA : modeA < 0
    · simp [SolverEnv.incMono, hA, hB, IEEE.mulQ]
    · simp [SolverEnv.incMono, hA, hB, IEEE.mulQ]

/-- Which entries of the stereo increment are exact zeros. -/
theorem incStereo_fixed (E : SolverEnv) (modeA modeB : ℚ) (H : Nat → Nat → ℚ) (b : Nat → ℚ)
    (lambda : ℚ) :
    (modeA < 0 → E.incStereo modeA modeB H b lambda 6 = .fin 0
      ∧ E.incStereo modeA modeB H b lambda 8 = .fin 0)
    ∧ (modeB < 0 → E.incStereo modeA modeB H b lambda 7 = .fin 0
      ∧ E.incStereo modeA modeB H b lambda 9 = .fin 0) := by
  constructor
  · intro hA
    by_cases hB : modeB < 0
    · simp [SolverEnv.incStereo, hA, hB, IEEE.mulQ]
    · simp [SolverEnv.incStereo, hA, hB, IEEE.mulQ]
  · intro hB
    by_cases hA : modeA < 0
    · simp [SolverEnv.incStereo, hA, hB, IEEE.mulQ]
    · simp [SolverEnv.incStereo, hA, hB, IEEE.mulQ]

theorem incScaledMono_zero (E : SolverEnv) (inc : Nat → IEEE) :
    (inc 6 = .fin 0 → E.incScaledMono inc 6 = .fin 0)
    ∧ (inc 7 = .fin 0 → E.incScaledMono inc 7 = .fin 0) := by
  constructor
  · intro h
    apply finiteOrZero_zero
    simp [h, IEEE.mulQ]
  · intro h
    apply finiteOrZero_zero
    simp [h, IEEE.mulQ]

theorem incScaledStereo_zero (E : SolverEnv) (inc : Nat → IEEE) :
    (inc 6 = .fin 0 → E.incScaledStereo inc 6 = .fin 0)
    ∧ (inc 7 = .fin 0 → E.incScaledStereo inc 7 = .fin 0)
    ∧ (inc 8 = .fin 0 → E.incScaledStereo inc 8 = .fin 0)
    ∧ (inc 9 = .fin 0 → E.incScaledStereo inc 9 = .fin 0) := by
  refine ⟨fun h => ?_, fun h => ?_, fun h => ?_, fun h => ?_⟩ <;>
  · apply finiteOrZero_zero
    simp [h, IEEE.mulQ]

theorem candidateMono_fixed (E : SolverEnv) (modeA modeB : ℚ)
    (Hb : (Nat → Nat → ℚ) × (Nat → ℚ)) (lambda : ℚ) (p : SE3) (a : AffLight) :
    (modeA < 0 → (E.candidateMono modeA modeB Hb lambda p a).2.a = a.a)
    ∧ (modeB < 0 → (E.candidateMono modeA modeB Hb lambda p a).2.b = a.b) := by
  obtain ⟨h6, h7⟩ := incMono_fixed E modeA modeB Hb.1 Hb.2 lambda
  obtain ⟨s6, s7⟩ := incScaledMono_zero E (E.incMono modeA modeB Hb.1 Hb.2 lambda)
  constructor
  · intro hA
    show a.a + (E.incScaledMono (E.incMono modeA modeB Hb.1 Hb.2 lambda) 6).toQ = a.a
    rw [s6 (h6 hA)]
    simp [IEEE.toQ]
  · intro hB
    show a.b + (E.incScaledMono (E.incMono modeA modeB Hb.1 Hb.2 lambda) 7).toQ = a.b
    rw [s7 (h7 hB)]
    simp [IEEE.toQ]

theorem candidateStereo_fixed (E : SolverEnv) (modeA modeB : ℚ)
    (Hb : (Nat → Nat → ℚ) × (Nat → ℚ)) (lambda : ℚ) (p : SE3) (a : AffLight × AffLight) :
    (modeA < 0 → (E.candidateStereo modeA modeB Hb lambda p a).2.1.a = a.1.a
      ∧ (E.candidateStereo modeA modeB Hb lambda p a).2.2.a = a.2.a)
    ∧ (modeB < 0 → (E.candidateStereo modeA modeB Hb lambda p a).2.1.b = a.1.b
      ∧ (E.candidateStereo modeA modeB Hb lambda p a).2.2.b = a.2.b) := by
  obtain ⟨hA', hB'⟩ := incStereo_fixed E modeA modeB Hb.1 Hb.2 lambda
  obtain ⟨s6, s7, s8, s9⟩ := incScaledStereo_zero E (E.incStereo modeA modeB Hb.1 Hb.2 lambda)
  constructor
  · intro hA
    constructor
    · show a.1.a + (E.incScaledStereo (E.incStereo modeA modeB Hb.1 Hb.2 lambda) 6).toQ = a.1.a
      rw [s6 (hA' hA).1]
      simp [IEEE.toQ]
    · show a.2.a + (E.incScaledStereo (E.incStereo modeA modeB Hb.1 Hb.2 lambda) 8).toQ = a.2.a
      rw [s8 (hA' hA).2]
      simp [IEEE.toQ]
  · intro hB
    constructor
    · show a.1.b + (E.incScaledStereo (E.incStereo modeA modeB Hb.1 Hb.2 lambda) 7).toQ = a.1.b
      rw [s7 (hB' hB).1]
      simp [IEEE.toQ]
    · show a.2.b + (E.incScaledStereo (E.incStereo modeA modeB Hb.1 Hb.2 lambda) 9).toQ = a.2.b
      rw [s9 (hB' hB).2]
      simp [IEEE.toQ]

/-- The solve step reads the modes only through the tests `mode < 0`. -/
theorem inc_mode_sign (E : SolverEnv) (mA mA' mB mB' : ℚ) (hA : mA < 0 ↔ mA' < 0)
    (hB : mB < 0 ↔ mB' < 0) :
    E.incMono mA mB = E.incMono mA' mB' ∧ E.incStereo mA mB = E.incStereo mA' mB' := by
  constructor
  · funext H b lambda
    unfold SolverEnv.incMono
    simp only [hA, hB]
  · funext H b lambda
    unfold SolverEnv.incStereo
    simp only [hA, hB]

/-! ## The tracking call: results -/

/-- A level without residual terms: the first evaluation has a NaN saturated
ratio, the cutoff loop stops at once with multiplier 1, and the ratio of the
last evaluation is not `<= 0.6`. -/
theorem cutoff_loop_nan_ratio :
    ((TrackKernel.sampleMono ResEnv.noPoints TrackParams.sample).cutoffLoop 20 6 0 SE3.identity
        ⟨0, 0⟩ WarpBuffers.junk).map (fun c => (c.levelCutoffRepeat, c.resOld.r5))
      = some (1, IEEE.nan)
    ∧ ¬ (IEEE.le IEEE.nan (.fin (6 / 10)) = true ∨ (1 : ℚ) ≥ 50) := by
  decide!

theorem level_loop_passes_witness :
    (6 ≤ 6 ∧ TrackParams.sample.coarsestLvl + 2 ≤ 6)
    ∧ ∃ exit : LoopExit (TrackState SE3 AffLight),
        (TrackKernel.sampleMono ResEnv.farColours TrackParams.sample).levelLoop TrackParams.sample
          6 6 TrackParams.sample.coarsestLvl
          (TrackKernel.entry SE3.identity ⟨0, 0⟩ WarpBuffers.junk) = some exit
        ∧ exit.state.passes.length ≤ TrackParams.sample.coarsestLvl + 2
        ∧ repeats exit.state.passes ≤ 1 := by
  refine ⟨⟨by decide, by decide⟩, ?_⟩
  obtain ⟨exit, h1, _, h3, h4, _⟩ := level_loop_passes
    (TrackKernel.sampleMono ResEnv.farColours TrackParams.sample) TrackParams.sample 6
    (by decide) (by decide) SE3.identity ⟨0, 0⟩ WarpBuffers.junk
  exact ⟨exit, h1, h3, h4⟩

set_option maxRecDepth 100000 in
/-- A run in which the repeat fires: with all residuals near `-90` and a base
cutoff of 20 the multiplier of the first pass ends at 8, level 1 is processed a
second time, and level 0 is not repeated although its multiplier ends at 8
again. -/
theorem level_loop_sample_passes :
    ((TrackKernel.sampleMono ResEnv.farColours TrackParams.sample).levelLoop
      TrackParams.sample 6 6 TrackParams.sample.coarsestLvl
      (TrackKernel.entry SE3.identity ⟨0, 0⟩ WarpBuffers.junk)).map
        (fun e => (e.isAborted, e.state.passes))
      = some (false, [(1, 8), (1, 8), (0, 8)]) := by
  decide!

theorem abortTest_afterPass {P A M : Type} (S : TrackParams) (lvl : Nat) (s : TrackState P A)
    (r : LMState P A M × ℚ) :
    (TrackKernel.afterPass S lvl s r).lastResiduals lvl = S.sqrtf r.1.resOld.meanEnergy
    ∧ TrackKernel.abortTest S lvl (TrackKernel.afterPass S lvl s r)
      = IEEE.lt ((S.minResForAbort lvl).mulQ (3 / 2)) (S.sqrtf r.1.resOld.meanEnergy) := by
  have e : (TrackKernel.afterPass S lvl s r).lastResiduals lvl = S.sqrtf r.1.resOld.meanEnergy := by
    simp [TrackKernel.afterPass, arrSetN]
  refine ⟨e, ?_⟩
  unfold TrackKernel.abortTest
  rw [e]

/-- **C13.** If after the inner iterations of a level pass
`lastResiduals[lvl] = sqrtf(E/N)` is greater than `1.5 * minResForAbort[lvl]`,
the level loop is left at once through `return false`; a call whose level loop
is left that way returns `false` with `lastToNew_out` and `aff_g2l_out` (and
`aff_g2l_r_out` in stereo) holding the values they had on entry; and a level
loop that ends is left that way exactly when the test holds after its last
pass. -/
theorem abort_keeps_out_params {P M : Type} (S : TrackParams) (fuel : Nat) :
    (∀ (A : Type) (T : TrackKernel P A M) (pf lvl : Nat) (s : TrackState P A)
        (r : LMState P A M × ℚ),
        T.levelPass S fuel lvl s = some r →
        IEEE.lt ((S.minResForAbort lvl).mulQ (3 / 2)) (S.sqrtf r.1.resOld.meanEnergy) = true →
        (TrackKernel.afterPass S lvl s r).lastResiduals lvl = S.sqrtf r.1.resOld.meanEnergy
        ∧ T.levelLoop S fuel (pf + 1) lvl s = some (.aborted (TrackKernel.afterPass S lvl s r)))
    ∧ (∀ (T : TrackKernel P AffLight M) (p : P) (a : AffLight) (buf : WarpBuffers)
        (s : TrackState P AffLight),
        T.levelLoop S fuel fuel S.coarsestLvl (TrackKernel.entry p a buf) = some (.aborted s) →
        trackNewestCoarse T S fuel p a buf
          = some { ret := false, lastToNew_out := p, aff_out := a, state := s })
    ∧ (∀ (T : TrackKernel P (AffLight × AffLight) M) (p : P) (a ar : AffLight)
        (buf : WarpBuffers) (s : TrackState P (AffLight × AffLight)),
        T.levelLoop S fuel fuel S.coarsestLvl (TrackKernel.entry p (a, ar) buf)
          = some (.aborted s) →
        trackNewestCoarseStereo T S fuel p a ar buf
          = some { ret := false, lastToNew_out := p, aff_out := (a, ar), state := s })
    ∧ (∀ (A : Type) (T : TrackKernel P A M) (p : P) (a : A) (buf : WarpBuffers),
        6 ≤ fuel → S.coarsestLvl + 2 ≤ fuel →
        ∃ (exit : LoopExit (TrackState P A)) (l : Nat) (r : ℚ),
          T.levelLoop S fuel fuel S.coarsestLvl (TrackKernel.entry p a buf) = some exit
          ∧ exit.state.passes.getLast? = some (l, r)
          ∧ (exit.isAborted = true
              ↔ IEEE.lt ((S.minResForAbort l).mulQ (3 / 2)) (exit.state.lastResiduals l) = true)) := by
  refine ⟨fun A T pf lvl s r hpass hgt => ?_, fun T p a buf s h => ?_, fun T p a ar buf s h => ?_,
    fun A T p a buf hf hp => ?_⟩
  · obtain ⟨e1, e2⟩ := abortTest_afterPass S lvl s r
    exact ⟨e1, levelLoop_abort T S fuel pf lvl s r hpass (e2.trans hgt)⟩
  · unfold trackNewestCoarse
    rw [h]
  · unfold trackNewestCoarseStereo
    rw [h]
  · obtain ⟨exit, tr, e1, _, e3, _, _, l, r, g1, g2⟩ := levelLoop_spec T S fuel hf
      (fun _ _ => True) (fun _ _ _ _ _ => trivial) fuel S.coarsestLvl (TrackKernel.entry p a buf)
      trivial (by show S.coarsestLvl + 1 + 1 ≤ fuel; omega)
    have hpass : exit.state.passes = tr := by rw [e3]; rfl
    refine ⟨exit, l, r, e1, by rw [hpass]; exact g1, ?_⟩
    rw [← g2]
    rfl

set_option maxRecDepth 100000 in
/-- A call that is aborted on its first pass: with `minResForAbort = 0` the
sample run returns `false` after one pass, the affine out-parameter still
`(0.3, 5)`. -/
theorem abort_sample_run :
    (trackNewestCoarse
      (TrackKernel.sampleMono ResEnv.sample
        { TrackParams.sample with minResForAbort := fun _ => .fin 0 })
      { TrackParams.sample with minResForAbort := fun _ => .fin 0 } 6 SE3.identity ⟨3 / 10, 5⟩
      WarpBuffers.junk).map (fun r => (r.ret, r.aff_out.a, r.aff_out.b, r.state.passes))
      = some (false, 3 / 10, 5, [(1, 1)]) := by
  decide!

/-- What a call that returns `true` went through: the level loop ran out, both
tests after it were false, and the out-parameters are the final current values
with the fixed left affine parameters zeroed. -/
theorem mono_true_result {P M : Type} (T : TrackKernel P AffLight M) (S : TrackParams)
    (fuel : Nat) (p : P) (a : AffLight) (buf : WarpBuffers) (r : TrackResult P AffLight)
    (h : trackNewestCoarse T S fuel p a buf = some r) (ht : r.ret = true) :
    T.levelLoop S fuel fuel S.coarsestLvl (TrackKernel.entry p a buf) = some (.finished r.state)
    ∧ S.affTooLarge r.state.aff_current = false
    ∧ S.relAffTooLarge r.state.aff_current = false
    ∧ r.lastToNew_out = r.state.refToNew_current
    ∧ r.aff_out = S.zeroFixed r.state.aff_current := by
  unfold trackNewestCoarse at h
  cases hl : T.levelLoop S fuel fuel S.coarsestLvl (TrackKernel.entry p a buf) with
  | none => rw [hl] at h; simp at h
  | some exit =>
    rw [hl] at h
    cases exit with
    | aborted s =>
      simp only [Option.some.injEq] at h
      rw [← h] at ht
      simp at ht
    | finished s =>
      simp only at h
      by_cases c1 : S.affTooLarge s.aff_current = true
      · rw [if_pos c1, Option.some.injEq] at h
        rw [← h] at ht
        simp at ht
      · rw [if_neg c1] at h
        by_cases c2 : S.relAffTooLarge s.aff_current = true
        · rw [if_pos c2, Option.some.injEq] at h
          rw [← h] at ht
          simp at ht
        · rw [if_neg c2, Option.some.injEq] at h
          rw [← h]
          refine ⟨rfl, ?_, ?_, rfl, rfl⟩
          · simpa using c1
          · simpa using c2

theorem stereo_true_result {P M : Type} (T : TrackKernel P (AffLight × AffLight) M)
    (S : TrackParams) (fuel : Nat) (p : P) (a ar : AffLight) (buf : WarpBuffers)
    (r : TrackResult P (AffLight × AffLight))
    (h : trackNewestCoarseStereo T S fuel p a ar buf = some r) (ht : r.ret = true) :
    T.levelLoop S fuel fuel S.coarsestLvl (TrackKernel.entry p (a, ar) buf)
      = some (.finished r.state)
    ∧ S.affTooLarge r.state.aff_current.1 = false
    ∧ S.relAffTooLarge r.state.aff_current.1 = false
    ∧ r.lastToNew_out = r.state.refToNew_current
    ∧ r.aff_out = (S.zeroFixed r.state.aff_current.1, r.state.aff_current.2) := by
  unfold trackNewestCoarseStereo at h
  cases hl : T.levelLoop S fuel fuel S.coarsestLvl (TrackKernel.entry p (a, ar) buf) with
  | none => rw [hl] at h; simp at h
  | some exit =>
    rw [hl] at h
    cases exit with
    | aborted s =>
      simp only [Option.some.injEq] at h
      rw [← h] at ht
      simp at ht
    | finished s =>
      simp only at h
      by_cases c1 : S.affTooLarge s.aff_current.1 = true
      · rw [if_pos c1, Option.some.injEq] at h
        rw [← h] at ht
        simp at ht
      · rw [if_neg c1] at h
        by_cases c2 : S.relAffTooLarge s.aff_current.1 = true
        · rw [if_pos c2, Option.some.injEq] at h
          rw [← h] at ht
          simp at ht
        · rw [if_neg c2, Option.some.injEq] at h
          rw [← h]
          refine ⟨rfl, ?_, ?_, rfl, rfl⟩
          · simpa using c1
          · simpa using c2

/-- On a `true` return the left affine out-parameter is zero in every fixed
component, in both functions. -/
theorem true_result_left_affine_zero {P M : Type} (S : TrackParams) (fuel : Nat) (p : P)
    (a ar : AffLight) (buf : WarpBuffers) :
    (∀ (T : TrackKernel P AffLight M) (r : TrackResult P AffLight),
      trackNewestCoarse T S fuel p a buf = some r → r.ret = true →
      (S.setting_affineOptModeA < 0 → r.aff_out.a = 0)
      ∧ (S.setting_affineOptModeB < 0 → r.aff_out.b = 0))
    ∧ (∀ (T : TrackKernel P (AffLight × AffLight) M) (r : TrackResult P (AffLight × AffLight)),
      trackNewestCoarseStereo T S fuel p a ar buf = some r → r.ret = true →
      (S.setting_affineOptModeA < 0 → r.aff_out.1.a = 0)
      ∧ (S.setting_affineOptModeB < 0 → r.aff_out.1.b = 0)
      ∧ r.aff_out.2 = r.state.aff_current.2) := by
  constructor
  · intro T r h ht
    obtain ⟨_, _, _, _, e⟩ := mono_true_result T S fuel p a buf r h ht
    rw [e]
    exact ⟨fun hA => by simp [TrackParams.zeroFixed, hA],
      fun hB => by simp [TrackParams.zeroFixed, hB]⟩
  · intro T r h ht
    obtain ⟨_, _, _, _, e⟩ := stereo_true_result T S fuel p a ar buf r h ht
    rw [e]
    exact ⟨fun hA => by simp [TrackParams.zeroFixed, hA],
      fun hB => by simp [TrackParams.zeroFixed, hB], rfl⟩

set_option maxRecDepth 100000 in
/-- **C14.** A stereo call with both affine modes `-1`, entered with
`aff_g2l_out = (0.3, 5)` and `aff_g2l_r_out = (0.5, 7)`: it returns `true` with
`aff_g2l_out = (0, 0)` and `aff_g2l_r_out` still `(0.5, 7)`. -/
theorem stereo_right_affine_not_zeroed :
    (trackNewestCoarseStereo (TrackKernel.sampleStereo ResEnv.sample TrackParams.sample)
      TrackParams.sample 6 SE3.identity ⟨3 / 10, 5⟩ ⟨1 / 2, 7⟩ WarpBuffers.junk).map
        (fun r => (r.ret, r.aff_out.1.a, r.aff_out.1.b, r.aff_out.2.a, r.aff_out.2.b))
      = some (true, 0, 0, 1 / 2, 7)
    ∧ TrackParams.sample.setting_affineOptModeA < 0
    ∧ TrackParams.sample.setting_affineOptModeB < 0 := by
  decide!

theorem affTooLarge_iff (S : TrackParams) (x : AffLight) :
    S.affTooLarge x = true
      ↔ (S.setting_affineOptModeA ≠ 0 ∧ |x.a| > 12 / 10)
        ∨ (S.setting_affineOptModeB ≠ 0 ∧ |x.b| > 200) := by
  simp [TrackParams.affTooLarge]

theorem relAffTooLarge_iff (S : TrackParams) (x : AffLight) :
    S.relAffTooLarge x = true
      ↔ (S.setting_affineOptModeA = 0
          ∧ IEEE.lt (.fin (15 / 10)) (S.logf (S.fromToVecExposure x).1).abs = true)
        ∨ (S.setting_affineOptModeB = 0 ∧ |(S.fromToVecExposure x).2| > 200) := by
  simp [TrackParams.relAffTooLarge]

theorem mono_false_result {P M : Type} (T : TrackKernel P AffLight M) (S : TrackParams)
    (fuel : Nat) (p : P) (a : AffLight) (buf : WarpBuffers) (r : TrackResult P AffLight)
    (h : trackNewestCoarse T S fuel p a buf = some r)
    (ht : S.affTooLarge r.state.aff_current = true ∨ S.relAffTooLarge r.state.aff_current = true) :
    r.ret = false := by
  cases hr : r.ret
  · rfl
  · obtain ⟨_, h1, h2, _⟩ := mono_true_result T S fuel p a buf r h hr
    rw [h1, h2] at ht
    simp at ht

theorem stereo_false_result {P M : Type} (T : TrackKernel P (AffLight × AffLight) M)
    (S : TrackParams) (fuel : Nat) (p : P) (a ar : AffLight) (buf : WarpBuffers)
    (r : TrackResult P (AffLight × AffLight))
    (h : trackNewestCoarseStereo T S fuel p a ar buf = some r)
    (ht : S.affTooLarge r.state.aff_current.1 = true
      ∨ S.relAffTooLarge r.state.aff_current.1 = true) :
    r.ret = false := by
  cases hr : r.ret
  · rfl
  · obtain ⟨_, h1, h2, _⟩ := stereo_true_result T S fuel p a ar buf r h hr
    rw [h1, h2] at ht
    simp at ht

/-- The tests a final left affine pair `x` has to pass for a `true` return. -/
theorem affine_tests_of_false (S : TrackParams) (x : AffLight)
    (h1 : S.affTooLarge x = false) (h2 : S.relAffTooLarge x = false) :
    (S.setting_affineOptModeA ≠ 0 → |x.a| ≤ 12 / 10)
    ∧ (S.setting_affineOptModeB ≠ 0 → |x.b| ≤ 200)
    ∧ (S.setting_affineOptModeA = 0
        → IEEE.lt (.fin (15 / 10)) (S.logf (S.fromToVecExposure x).1).abs = false)
    ∧ (S.setting_affineOptModeB = 0 → |(S.fromToVecExposure x).2| ≤ 200) := by
  have n1 : ¬ S.affTooLarge x = true := by rw [h1]; simp
  have n2 : ¬ S.relAffTooLarge x = true := by rw [h2]; simp
  rw [affTooLarge_iff] at n1
  rw [relAffTooLarge_iff] at n2
  refine ⟨fun h => ?_, fun h => ?_, fun h => ?_, fun h => ?_⟩
  · by_contra c
    exact n1 (Or.inl ⟨h, not_le.mp c⟩)
  · by_contra c
    exact n1 (Or.inr ⟨h, not_le.mp c⟩)
  · cases c : IEEE.lt (.fin (15 / 10)) (S.logf (S.fromToVecExposure x).1).abs
    · rfl
    · exact absurd (Or.inl ⟨h, c⟩) n2
  · by_contra c
    exact n2 (Or.inr ⟨h, not_le.mp c⟩)

/-- **C15.** A tracking call returns `true` only if its final left affine
parameters (the values `aff_g2l_out` receives after the level loop) pass, for
each of `a` and `b`, the test that applies to its mode: with a non-zero mode
the absolute test `|a| <= 1.2`, resp. `|b| <= 200`; with mode 0 the test on the
relative transfer, `|log relAff.a| > 1.5` false, resp. `|relAff.b| <= 200`.  If
one of the applicable tests fails the call returns `false`. -/
theorem true_only_if_affine_tests_pass {P M : Type} (S : TrackParams) (fuel : Nat) (p : P)
    (a ar : AffLight) (buf : WarpBuffers) :
    (∀ (T : TrackKernel P AffLight M) (r : TrackResult P AffLight),
      trackNewestCoarse T S fuel p a buf = some r →
      (r.ret = true →
        (S.setting_affineOptModeA ≠ 0 → |r.state.aff_current.a| ≤ 12 / 10)
        ∧ (S.setting_affineOptModeB ≠ 0 → |r.state.aff_current.b| ≤ 200)
        ∧ (S.setting_affineOptModeA = 0 → IEEE.lt (.fin (15 / 10))
            (S.logf (S.fromToVecExposure r.state.aff_current).1).abs = false)
        ∧ (S.setting_affineOptModeB = 0
            → |(S.fromToVecExposure r.state.aff_current).2| ≤ 200))
      ∧ ((S.setting_affineOptModeA ≠ 0 ∧ |r.state.aff_current.a| > 12 / 10)
          ∨ (S.setting_affineOptModeB ≠ 0 ∧ |r.state.aff_current.b| > 200)
          ∨ (S.setting_affineOptModeA = 0 ∧ IEEE.lt (.fin (15 / 10))
              (S.logf (S.fromToVecExposure r.state.aff_current).1).abs = true)
          ∨ (S.setting_affineOptModeB = 0
              ∧ |(S.fromToVecExposure r.state.aff_current).2| > 200)
          → r.ret = false))
    ∧ (∀ (T : TrackKernel P (AffLight × AffLight) M) (r : TrackResult P (AffLight × AffLight)),
      trackNewestCoarseStereo T S fuel p a ar buf = some r →
      (r.ret = true →
        (S.setting_affineOptModeA ≠ 0 → |r.state.aff_current.1.a| ≤ 12 / 10)
        ∧ (S.setting_affineOptModeB ≠ 0 → |r.state.aff_current.1.b| ≤ 200)
        ∧ (S.setting_affineOptModeA = 0 → IEEE.lt (.fin (15 / 10))
            (S.logf (S.fromToVecExposure r.state.aff_current.1).1).abs = false)
        ∧ (S.setting_affineOptModeB = 0
            → |(S.fromToVecExposure r.state.aff_current.1).2| ≤ 200))
      ∧ ((S.setting_affineOptModeA ≠ 0 ∧ |r.state.aff_current.1.a| > 12 / 10)
          ∨ (S.setting_affineOptModeB ≠ 0 ∧ |r.state.aff_current.1.b| > 200)
          ∨ (S.setting_affineOptModeA = 0 ∧ IEEE.lt (.fin (15 / 10))
              (S.logf (S.fromToVecExposure r.state.aff_current.1).1).abs = true)
          ∨ (S.setting_affineOptModeB = 0
              ∧ |(S.fromToVecExposure r.state.aff_current.1).2| > 200)
          → r.ret = false)) := by
  constructor
  · intro T r h
    constructor
    · intro ht
      obtain ⟨_, h1, h2, _⟩ := mono_true_result T S fuel p a buf r h ht
      exact affine_tests_of_false S _ h1 h2
    · intro hv
      apply mono_false_result T S fuel p a buf r h
      rcases hv with c | c | c | c
      · left; exact (affTooLarge_iff S _).mpr (Or.inl c)
      · left; exact (affTooLarge_iff S _).mpr (Or.inr c)
      · right; exact (relAffTooLarge_iff S _).mpr (Or.inl c)
      · right; exact (relAffTooLarge_iff S _).mpr (Or.inr c)
  · intro T r h
    constructor
    · intro ht
      obtain ⟨_, h1, h2, _⟩ := stereo_true_result T S fuel p a ar buf r h ht
      exact affine_tests_of_false S _ h1 h2
    · intro hv
      apply stereo_false_result T S fuel p a ar buf r h
      rcases hv with c | c | c | c
      · left; exact (affTooLarge_iff S _).mpr (Or.inl c)
      · left; exact (affTooLarge_iff S _).mpr (Or.inr c)
      · right; exact (relAffTooLarge_iff S _).mpr (Or.inl c)
      · right; exact (relAffTooLarge_iff S _).mpr (Or.inr c)

set_option maxRecDepth 100000 in
/-- A call with both affine modes positive, an exposure ratio of 8 between the
frames and final affine parameters `(0, 5)`: it returns `true` although
`relAff.a = 8` has `|log relAff.a| > 1.5`. -/
theorem true_despite_relAff :
    (trackNewestCoarse
      (TrackKernel.sampleMono ResEnv.sample
        { TrackParams.sample with setting_affineOptModeA := 1, setting_affineOptModeB := 1 })
      { TrackParams.sample with setting_affineOptModeA := 1, setting_affineOptModeB := 1 } 6
      SE3.identity ⟨0, 5⟩ WarpBuffers.junk).map
        (fun r => (r.ret, r.state.aff_current.a, r.state.aff_current.b))
      = some (true, 0, 5)
    ∧ (TrackParams.sample.fromToVecExposure ⟨0, 5⟩).1 = 8
    ∧ IEEE.lt (.fin (15 / 10))
        (TrackParams.sample.logf (TrackParams.sample.fromToVecExposure ⟨0, 5⟩).1).abs = true := by
  decide!

/-- **C16.** The solve step fixes an affine parameter exactly when its mode is
negative: with `setting_affineOptModeA < 0` (resp. `B`) every increment has an
exact zero in the `a` (resp. `b`) slots, left and right alike, every candidate
keeps the parameter, and at the end of the level loop of a call the parameter
still has its value on entry.  The modes are read only through the tests
`mode < 0`, so mode 0 is solved exactly like a positive mode. -/
theorem fixed_affine_unchanged (E : SolverEnv) (S : TrackParams) :
    (S.setting_affineOptModeA < 0 → ∀ (H : Nat → Nat → ℚ) (b : Nat → ℚ) (lambda : ℚ),
      E.incMono S.setting_affineOptModeA S.setting_affineOptModeB H b lambda 6 = .fin 0
      ∧ E.incStereo S.setting_affineOptModeA S.setting_affineOptModeB H b lambda 6 = .fin 0
      ∧ E.incStereo S.setting_affineOptModeA S.setting_affineOptModeB H b lambda 8 = .fin 0)
    ∧ (S.setting_affineOptModeB < 0 → ∀ (H : Nat → Nat → ℚ) (b : Nat → ℚ) (lambda : ℚ),
      E.incMono S.setting_affineOptModeA S.setting_affineOptModeB H b lambda 7 = .fin 0
      ∧ E.incStereo S.setting_affineOptModeA S.setting_affineOptModeB H b lambda 7 = .fin 0
      ∧ E.incStereo S.setting_affineOptModeA S.setting_affineOptModeB H b lambda 9 = .fin 0)
    ∧ (∀ (Hb : (Nat → Nat → ℚ) × (Nat → ℚ)) (lambda : ℚ) (p : SE3) (a : AffLight)
        (ar : AffLight),
        (S.setting_affineOptModeA < 0 →
          (E.candidateMono S.setting_affineOptModeA S.setting_affineOptModeB Hb lambda p a).2.a
              = a.a
          ∧ (E.candidateStereo S.setting_affineOptModeA S.setting_affineOptModeB Hb lambda p
              (a, ar)).2.1.a = a.a
          ∧ (E.candidateStereo S.setting_affineOptModeA S.setting_affineOptModeB Hb lambda p
              (a, ar)).2.2.a = ar.a)
        ∧ (S.setting_affineOptModeB < 0 →
          (E.candidateMono S.setting_affineOptModeA S.setting_affineOptModeB Hb lambda p a).2.b
              = a.b
          ∧ (E.candidateStereo S.setting_affineOptModeA S.setting_affineOptModeB Hb lambda p
              (a, ar)).2.1.b = a.b
          ∧ (E.candidateStereo S.setting_affineOptModeA S.setting_affineOptModeB Hb lambda p
              (a, ar)).2.2.b = ar.b))
    ∧ (∀ (calcRes : Nat → SE3 → AffLight → ℚ → WarpBuffers → Vec6 × WarpBuffers)
        (calcGSSSE : Nat → SE3 → AffLight → WarpBuffers → (Nat → Nat → ℚ) × (Nat → ℚ))
        (fuel : Nat) (p : SE3) (a : AffLight) (buf : WarpBuffers),
        6 ≤ fuel → S.coarsestLvl + 2 ≤ fuel →
        ∃ exit, (E.monoKernel S calcRes calcGSSSE).levelLoop S fuel fuel S.coarsestLvl
            (TrackKernel.entry p a buf) = some exit
          ∧ (S.setting_affineOptModeA < 0 → exit.state.aff_current.a = a.a)
          ∧ (S.setting_affineOptModeB < 0 → exit.state.aff_current.b = a.b))
    ∧ (∀ (calcResStereo : Nat → SE3 → AffLight × AffLight → ℚ → WarpBuffers
          → Vec6 × WarpBuffers)
        (calcGSSSEStereo : Nat → SE3 → AffLight × AffLight → WarpBuffers
          → (Nat → Nat → ℚ) × (Nat → ℚ))
        (fuel : Nat) (p : SE3) (a ar : AffLight) (buf : WarpBuffers),
        6 ≤ fuel → S.coarsestLvl + 2 ≤ fuel →
        ∃ exit, (E.stereoKernel S calcResStereo calcGSSSEStereo).levelLoop S fuel fuel
            S.coarsestLvl (TrackKernel.entry p (a, ar) buf) = some exit
          ∧ (S.setting_affineOptModeA < 0 → exit.state.aff_current.1.a = a.a
              ∧ exit.state.aff_current.2.a = ar.a)
          ∧ (S.setting_affineOptModeB < 0 → exit.state.aff_current.1.b = a.b
              ∧ exit.state.aff_current.2.b = ar.b))
    ∧ (∀ mA mB : ℚ, 0 ≤ mA → 0 ≤ mB →
        E.incMono 0 0 = E.incMono mA mB ∧ E.incStereo 0 0 = E.incStereo mA mB
        ∧ E.incMono 0 (-1) = E.incMono mA (-1) ∧ E.incStereo 0 (-1) = E.incStereo mA (-1)
        ∧ E.incMono (-1) 0 = E.incMono (-1) mB ∧ E.incStereo (-1) 0 = E.incStereo (-1) mB) := by
  refine ⟨fun hA H b lambda => ?_, fun hB H b lambda => ?_, fun Hb lambda p a ar => ?_,
    fun calcRes calcGSSSE fuel p a buf hf hp => ?_,
    fun calcResStereo calcGSSSEStereo fuel p a ar buf hf hp => ?_, fun mA mB hA hB => ?_⟩
  · exact ⟨(incMono_fixed E _ _ H b lambda).1 hA, (incStereo_fixed E _ _ H b lambda).1 hA⟩
  · exact ⟨(incMono_fixed E _ _ H b lambda).2 hB, (incStereo_fixed E _ _ H b lambda).2 hB⟩
  · exact ⟨fun hA => ⟨(candidateMono_fixed E _ _ Hb lambda p a).1 hA,
        (candidateStereo_fixed E _ _ Hb lambda p (a, ar)).1 hA⟩,
      fun hB => ⟨(candidateMono_fixed E _ _ Hb lambda p a).2 hB,
        (candidateStereo_fixed E _ _ Hb lambda p (a, ar)).2 hB⟩⟩
  · obtain ⟨exit, _, e1, e2, _⟩ := levelLoop_spec (E.monoKernel S calcRes calcGSSSE) S fuel hf
      (fun _ x => (S.setting_affineOptModeA < 0 → x.a = a.a)
        ∧ (S.setting_affineOptModeB < 0 → x.b = a.b))
      (fun Hb lambda q x hx =>
        ⟨fun hA => ((candidateMono_fixed E _ _ Hb lambda q x).1 hA).trans (hx.1 hA),
          fun hB => ((candidateMono_fixed E _ _ Hb lambda q x).2 hB).trans (hx.2 hB)⟩)
      fuel S.coarsestLvl (TrackKernel.entry p a buf) ⟨fun _ => rfl, fun _ => rfl⟩
      (by show S.coarsestLvl + 1 + 1 ≤ fuel; omega)
    exact ⟨exit, e1, e2⟩
  · obtain ⟨exit, _, e1, e2, _⟩ := levelLoop_spec
      (E.stereoKernel S calcResStereo calcGSSSEStereo) S fuel hf
      (fun _ x => (S.setting_affineOptModeA < 0 → x.1.a = a.a ∧ x.2.a = ar.a)
        ∧ (S.setting_affineOptModeB < 0 → x.1.b = a.b ∧ x.2.b = ar.b))
      (fun Hb lambda q x hx =>
        ⟨fun hA => ⟨((candidateStereo_fixed E _ _ Hb lambda q x).1 hA).1.trans (hx.1 hA).1,
            ((candidateStereo_fixed E _ _ Hb lambda q x).1 hA).2.trans (hx.1 hA).2⟩,
          fun hB => ⟨((candidateStereo_fixed E _ _ Hb lambda q x).2 hB).1.trans (hx.2 hB).1,
            ((candidateStereo_fixed E _ _ Hb lambda q x).2 hB).2.trans (hx.2 hB).2⟩⟩)
      fuel S.coarsestLvl (TrackKernel.entry p (a, ar) buf)
      ⟨fun _ => ⟨rfl, rfl⟩, fun _ => ⟨rfl, rfl⟩⟩
      (by show S.coarsestLvl + 1 + 1 ≤ fuel; omega)
    exact ⟨exit, e1, e2⟩
  · have z : ¬ ((0 : ℚ) < 0) := lt_irrefl 0
    have nA : ¬ (mA < 0) := not_lt.mpr hA
    have nB : ¬ (mB < 0) := not_lt.mpr hB
    have i1 := inc_mode_sign E 0 mA 0 mB ⟨fun h => absurd h z, fun h => absurd h nA⟩
      ⟨fun h => absurd h z, fun h => absurd h nB⟩
    have i2 := inc_mode_sign E 0 mA (-1) (-1) ⟨fun h => absurd h z, fun h => absurd h nA⟩ Iff.rfl
    have i3 := inc_mode_sign E (-1) (-1) 0 mB Iff.rfl ⟨fun h => absurd h z, fun h => absurd h nB⟩
    exact ⟨i1.1, i1.2, i2.1, i2.2, i3.1, i3.2⟩

/-- With both modes 0 and a gradient in the slot of `a`, the increment has `a`
component 1 and the candidate moves `a` from 0 to 10. -/
theorem mode_zero_is_optimised :
    SolverEnv.sample.incMono 0 0 sampleHbA.1 sampleHbA.2 (1 / 100) 6 = .fin 1
    ∧ (SolverEnv.sample.candidateMono 0 0 sampleHbA (1 / 100) SE3.identity ⟨0, 0⟩).2.a = 10
    ∧ ¬ (SolverEnv.sample.incMono 0 0 sampleHbA.1 sampleHbA.2 (1 / 100) 6 = .fin 0) := by
  decide!

/-! ## IMU pre-integration -/

theorem preintBody_i_steps (L : IMULib) (v : PreintVariant) (imuData : List IMUMeasurement)
    (junk : IMUMeasurement) (sb : SpeedAndBias) (ip : IMUParameters) (s : PreintLoop) (k : Nat)
    (h : s.i = s.steps.length) :
    (preintBody L v imuData junk sb ip s k).i
      = (preintBody L v imuData junk sb ip s k).steps.length := by
  unfold preintBody
  dsimp only
  split_ifs <;> simp [h]

theorem preintFold_i_steps (L : IMULib) (v : PreintVariant) (imuData : List IMUMeasurement)
    (junk : IMUMeasurement) (sb : SpeedAndBias) (ip : IMUParameters) (ks : List Nat)
    (s : PreintLoop) (h : s.i = s.steps.length) :
    (ks.foldl (preintBody L v imuData junk sb ip) s).i
      = (ks.foldl (preintBody L v imuData junk sb ip) s).steps.length := by
  induction ks generalizing s with
  | nil => exact h
  | cons k ks ih => exact ih _ (preintBody_i_steps L v imuData junk sb ip s k h)

theorem preintLoop_i_steps (L : IMULib) (v : PreintVariant) (imuData : List IMUMeasurement)
    (junk : IMUMeasurement) (sb : SpeedAndBias) (ip : IMUParameters) (st : PreintState) :
    (preintLoop L v imuData junk sb ip st).i
      = (preintLoop L v imuData junk sb ip st).steps.length :=
  preintFold_i_steps L v imuData junk sb ip _ _ rfl

theorem preintBody_steps_le (L : IMULib) (v : PreintVariant) (imuData : List IMUMeasurement)
    (junk : IMUMeasurement) (sb : SpeedAndBias) (ip : IMUParameters) (s : PreintLoop) (k : Nat) :
    (preintBody L v imuData junk sb ip s k).steps.length ≤ s.steps.length + 1 := by
  unfold preintBody
  dsimp only
  split_ifs <;> simp

theorem preintFold_steps_le (L : IMULib) (v : PreintVariant) (imuData : List IMUMeasurement)
    (junk : IMUMeasurement) (sb : SpeedAndBias) (ip : IMUParameters) (ks : List Nat)
    (s : PreintLoop) :
    (ks.foldl (preintBody L v imuData junk sb ip) s).steps.length
      ≤ s.steps.length + ks.length := by
  induction ks generalizing s with
  | nil => simp
  | cons k ks ih =>
    have h1 := ih (preintBody L v imuData junk sb ip s k)
    have h2 := preintBody_steps_le L v imuData junk sb ip s k
    simp only [List.foldl_cons, List.length_cons]
    omega

theorem preintLoop_steps_le (L : IMULib) (v : PreintVariant) (imuData : List IMUMeasurement)
    (junk : IMUMeasurement) (sb : SpeedAndBias) (ip : IMUParameters) (st : PreintState) :
    (preintLoop L v imuData junk sb ip st).steps.length ≤ imuData.length := by
  have h := preintFold_steps_le L v imuData junk sb ip (List.range imuData.length)
    (preintEntry st)
  simpa [preintLoop, preintEntry] using h

/-- The three outcomes of the shared body on a non-empty sample list whose
first timestamp passes the assertion. -/
theorem redoPreintegrationCore_cases (L : IMULib) (v : PreintVariant) (front : IMUMeasurement)
    (rest : List IMUMeasurement) (junk : IMUMeasurement) (sb : SpeedAndBias)
    (ip : IMUParameters) (st : PreintState) (hassert : front.timestamp ≤ st.t0_) :
    (((front :: rest).getLast (List.cons_ne_nil front rest)).timestamp < st.t1_
      → redoPreintegrationCore L v (front :: rest) junk sb ip st
          = some { ret := -1, state := st, steps := [], visited := [] })
    ∧ (¬ ((front :: rest).getLast (List.cons_ne_nil front rest)).timestamp < st.t1_
      → redoPreintegrationCore L v (front :: rest) junk sb ip st
          = some { ret := ((preintLoop L v (front :: rest) junk sb ip (preintReset ip st)).i : Int)
                   state := preintFinish L sb
                     (preintLoop L v (front :: rest) junk sb ip (preintReset ip st)).st
                   steps := (preintLoop L v (front :: rest) junk sb ip (preintReset ip st)).steps
                   visited :=
                     (preintLoop L v (front :: rest) junk sb ip (preintReset ip st)).visited }) := by
  have hl : (front :: rest).getLast? = some ((front :: rest).getLast (List.cons_ne_nil front rest)) :=
    List.getLast?_eq_getLast _ _
  constructor
  · intro h
    unfold redoPreintegrationCore
    rw [hl]
    simp only [List.head?_cons]
    rw [if_neg (not_not.mpr hassert), if_pos (not_le.mpr h)]
  · intro h
    unfold redoPreintegrationCore
    rw [hl]
    simp only [List.head?_cons]
    rw [if_neg (not_not.mpr hassert), if_neg (not_not.mpr (not_lt.mp h))]

/-- The result of the shared body: `-1` exactly when the last sample is
earlier than `t1_`, then with the members untouched; otherwise the number of
performed steps. -/
theorem redoPreintegrationCore_ret (L : IMULib) (v : PreintVariant) (front : IMUMeasurement)
    (rest : List IMUMeasurement) (junk : IMUMeasurement) (sb : SpeedAndBias)
    (ip : IMUParameters) (st : PreintState) (hassert : front.timestamp ≤ st.t0_) :
    ∃ r, redoPreintegrationCore L v (front :: rest) junk sb ip st = some r
      ∧ (r.ret = -1
          ↔ ((front :: rest).getLast (List.cons_ne_nil front rest)).timestamp < st.t1_)
      ∧ (r.ret = -1 → r.state = st ∧ r.steps = [])
      ∧ (r.ret ≠ -1 → r.ret = (r.steps.length : Int) ∧ 0 ≤ r.ret
          ∧ r.steps.length ≤ (front :: rest).length) := by
  obtain ⟨h1, h2⟩ := redoPreintegrationCore_cases L v front rest junk sb ip st hassert
  by_cases h : ((front :: rest).getLast (List.cons_ne_nil front rest)).timestamp < st.t1_
  · refine ⟨_, h1 h, ?_, ?_, ?_⟩
    · simp [h]
    · intro _; exact ⟨rfl, rfl⟩
    · intro hne; exact absurd rfl hne
  · refine ⟨_, h2 h, ?_, ?_, ?_⟩
    · constructor
      · intro he
        have : (0 : Int) ≤ -1 := by
          rw [← he]; exact Int.natCast_nonneg _
        omega
      · intro hh; exact absurd hh h
    · intro he
      have : (0 : Int) ≤ -1 := by
        rw [← he]; exact Int.natCast_nonneg _
      omega
    · intro _
      refine ⟨?_, Int.natCast_nonneg _, ?_⟩
      · show ((preintLoop L v (front :: rest) junk sb ip (preintReset ip st)).i : Int) = _
        rw [preintLoop_i_steps]
      · exact preintLoop_steps_le L v (front :: rest) junk sb ip (preintReset ip st)

/-- **C17.** On a non-empty sample list whose first timestamp passes the
assertion, `CoarseTracker::redoPreintegration` and
`IMUResidual::redoPreintegration` return; the result is `-1` exactly when the
timestamp of the last sample is earlier than `t1_`, and then every member (so
Delta R, Delta v, Delta p, the bias Jacobians, Sigma, the information matrix,
its square root and the reference speed-and-bias) is as before the call;
otherwise the result is the number of integration steps performed, which is
non-negative and at most the number of samples. -/
theorem redoPreintegration_sentinel (L : IMULib) (front : IMUMeasurement)
    (rest : List IMUMeasurement) (junk : IMUMeasurement) (T_WS_0 T_WS_1 T_WS : SE3)
    (speedAndBias : SpeedAndBias) (imuParameters : IMUParameters) (st : PreintState)
    (hassert : front.timestamp ≤ st.t0_) :
    (∃ r, CoarseTracker.redoPreintegration L (front :: rest) junk T_WS_0 T_WS_1 speedAndBias
          imuParameters st = some r
      ∧ (r.ret = -1
          ↔ ((front :: rest).getLast (List.cons_ne_nil front rest)).timestamp < st.t1_)
      ∧ (r.ret = -1 → r.state = st ∧ r.steps = [])
      ∧ (r.ret ≠ -1 → r.ret = (r.steps.length : Int) ∧ 0 ≤ r.ret
          ∧ r.steps.length ≤ (front :: rest).length))
    ∧ (∃ r, IMUResidual.redoPreintegration L (front :: rest) junk T_WS speedAndBias
          imuParameters st = some r
      ∧ (r.ret = -1
          ↔ ((front :: rest).getLast (List.cons_ne_nil front rest)).timestamp < st.t1_)
      ∧ (r.ret = -1 → r.state = st ∧ r.steps = [])
      ∧ (r.ret ≠ -1 → r.ret = (r.steps.length : Int) ∧ 0 ≤ r.ret
          ∧ r.steps.length ≤ (front :: rest).length)) :=
  ⟨redoPreintegrationCore_ret L (.coarseTracker T_WS_0 T_WS_1) front rest junk speedAndBias
      imuParameters st hassert,
   redoPreintegrationCore_ret L .imuResidual front rest junk speedAndBias imuParameters st
      hassert⟩

theorem redoPreintegration_sentinel_witness :
    (IMUMeasurement.zeroAt 0).timestamp ≤ PreintState.stale.t0_
    ∧ ∃ r, CoarseTracker.redoPreintegration IMULib.sample
          [IMUMeasurement.zeroAt 0, IMUMeasurement.zeroAt (1 / 2)] (IMUMeasurement.zeroAt 0)
          SE3.identity SE3.identity (SpeedAndBias.ofSpeed 0) IMUParameters.sample
          PreintState.stale = some r
        ∧ (r.ret = -1 → r.state = PreintState.stale ∧ r.steps = []) := by
  refine ⟨by decide!, ?_⟩
  obtain ⟨⟨r, h1, _, h3, _⟩, _⟩ := redoPreintegration_sentinel IMULib.sample
    (IMUMeasurement.zeroAt 0) [IMUMeasurement.zeroAt (1 / 2)] (IMUMeasurement.zeroAt 0)
    SE3.identity SE3.identity SE3.identity (SpeedAndBias.ofSpeed 0) IMUParameters.sample
    PreintState.stale (by decide!)
  exact ⟨r, h1, h3⟩

set_option maxRecDepth 100000 in
/-- Sample runs over the window `[0, 1]`: samples at 0 and 1/2 only give `-1`
in both routines; samples at 0, 1/2, 1 give 2 steps of length 1/2 in
`CoarseTracker`, while `IMUResidual`, which does not advance `time`, takes the
steps 1/2 and 1. -/
theorem redoPreintegration_sample_runs :
    (CoarseTracker.redoPreintegration IMULib.sample
        [IMUMeasurement.zeroAt 0, IMUMeasurement.zeroAt (1 / 2)] (IMUMeasurement.zeroAt 0)
        SE3.identity SE3.identity (SpeedAndBias.ofSpeed 0) IMUParameters.sample
        PreintState.stale).map (fun r => (r.ret, r.steps.map (fun s => s.dt)))
      = some (-1, [])
    ∧ (IMUResidual.redoPreintegration IMULib.sample
        [IMUMeasurement.zeroAt 0, IMUMeasurement.zeroAt (1 / 2)] (IMUMeasurement.zeroAt 0)
        SE3.identity (SpeedAndBias.ofSpeed 0) IMUParameters.sample
        PreintState.stale).map (fun r => (r.ret, r.steps.map (fun s => s.dt)))
      = some (-1, [])
    ∧ (CoarseTracker.redoPreintegration IMULib.sample
        [IMUMeasurement.zeroAt 0, IMUMeasurement.zeroAt (1 / 2), IMUMeasurement.zeroAt 1]
        (IMUMeasurement.zeroAt 0)
        SE3.identity SE3.identity (SpeedAndBias.ofSpeed 0) IMUParameters.sample
        PreintState.stale).map (fun r => (r.ret, r.steps.map (fun s => s.dt)))
      = some (2, [1 / 2, 1 / 2])
    ∧ (IMUResidual.redoPreintegration IMULib.sample
        [IMUMeasurement.zeroAt 0, IMUMeasurement.zeroAt (1 / 2), IMUMeasurement.zeroAt 1]
        (IMUMeasurement.zeroAt 0)
        SE3.identity (SpeedAndBias.ofSpeed 0) IMUParameters.sample
        PreintState.stale).map (fun r => (r.ret, r.steps.map (fun s => s.dt)))
      = some (2, [1 / 2, 1]) := by
  decide!

theorem psd_conj {m n : Nat} (M : Matrix (Fin m) (Fin n) ℚ) {S : Matrix (Fin n) (Fin n) ℚ}
    (h : S.PosSemidef) : (M * S * M.transpose).PosSemidef := by
  have h1 := h.mul_mul_conjTranspose_same M
  rwa [Matrix.conjTranspose_eq_transpose_of_trivial] at h1

theorem psd_isSymm {n : Nat} {S : Matrix (Fin n) (Fin n) ℚ} (h : S.PosSemidef) : S.IsSymm := by
  have h1 : S.conjTranspose = S := h.1
  rwa [Matrix.conjTranspose_eq_transpose_of_trivial] at h1

theorem preintBody_sigma (L : IMULib) (v : PreintVariant) (imuData : List IMUMeasurement)
    (junk : IMUMeasurement) (sb : SpeedAndBias) (ip : IMUParameters) (s : PreintLoop) (k : Nat)
    (hN : s.st.Sigma_eta_.PosSemidef) (hS : s.st.Sigma_ij_.PosSemidef) :
    (preintBody L v imuData junk sb ip s k).st.Sigma_eta_ = s.st.Sigma_eta_
    ∧ (preintBody L v imuData junk sb ip s k).st.Sigma_ij_.PosSemidef := by
  unfold preintBody
  dsimp only
  split_ifs <;>
    first
    | exact ⟨rfl, hS⟩
    | exact ⟨rfl, Matrix.PosSemidef.add (psd_conj _ hS) (psd_conj _ hN)⟩

theorem preintFold_sigma (L : IMULib) (v : PreintVariant) (imuData : List IMUMeasurement)
    (junk : IMUMeasurement) (sb : SpeedAndBias) (ip : IMUParameters) (ks : List Nat)
    (s : PreintLoop) (hN : s.st.Sigma_eta_.PosSemidef) (hS : s.st.Sigma_ij_.PosSemidef) :
    (ks.foldl (preintBody L v imuData junk sb ip) s).st.Sigma_ij_.PosSemidef := by
  induction ks generalizing s with
  | nil => exact hS
  | cons k ks ih =>
    obtain ⟨h1, h2⟩ := preintBody_sigma L v imuData junk sb ip s k hN hS
    exact ih _ (h1 ▸ hN) h2

theorem preintFinish_sigma (L : IMULib) (sb : SpeedAndBias) (st : PreintState)
    (hS : st.Sigma_ij_.PosSemidef) : (preintFinish L sb st).Sigma_ij_ = st.Sigma_ij_ := by
  have hs : st.Sigma_ij_.transpose = st.Sigma_ij_ := psd_isSymm hS
  show (1 / 2 : ℚ) • st.Sigma_ij_ + (1 / 2 : ℚ) • st.Sigma_ij_.transpose = st.Sigma_ij_
  rw [hs, ← add_smul]
  norm_num

/-- A successful run of the shared body ends with a positive semi-definite
`Sigma_ij_` when the noise matrix used in the propagation is. -/
theorem redoPreintegrationCore_sigma (L : IMULib) (v : PreintVariant) (front : IMUMeasurement)
    (rest : List IMUMeasurement) (junk : IMUMeasurement) (sb : SpeedAndBias)
    (ip : IMUParameters) (st : PreintState) (hassert : front.timestamp ≤ st.t0_)
    (hcover : ¬ ((front :: rest).getLast (List.cons_ne_nil front rest)).timestamp < st.t1_)
    (hN : (sigmaEtaAssign ip st.Sigma_eta_).PosSemidef) :
    ∃ r, redoPreintegrationCore L v (front :: rest) junk sb ip st = some r
      ∧ r.ret ≠ -1
      ∧ r.state.Sigma_ij_.IsSymm
      ∧ r.state.Sigma_ij_.PosSemidef := by
  obtain ⟨_, h2⟩ := redoPreintegrationCore_cases L v front rest junk sb ip st hassert
  have hloop : (preintLoop L v (front :: rest) junk sb ip (preintReset ip st)).st.Sigma_ij_.PosSemidef :=
    preintFold_sigma L v (front :: rest) junk sb ip _ (preintEntry (preintReset ip st)) hN
      Matrix.PosSemidef.zero
  have hfin := preintFinish_sigma L sb _ hloop
  refine ⟨_, h2 hcover, ?_, ?_, ?_⟩
  · intro he
    have : (0 : Int) ≤ -1 := by
      rw [← he]; exact Int.natCast_nonneg _
    omega
  · show (preintFinish L sb _).Sigma_ij_.IsSymm
    rw [hfin]; exact psd_isSymm hloop
  · show (preintFinish L sb _).Sigma_ij_.PosSemidef
    rw [hfin]; exact hloop

/-- With zero off-diagonal entries before the call, the noise matrix the
propagation uses is the diagonal matrix of the squared noise densities. -/
theorem sigmaEtaAssign_zero_psd (ip : IMUParameters) : (sigmaEtaAssign ip 0).PosSemidef := by
  have h : sigmaEtaAssign ip 0 = Matrix.diagonal (fun i : Fin 6 =>
      if i.val < 3 then ip.sigma_gw_c * ip.sigma_gw_c else ip.sigma_aw_c * ip.sigma_aw_c) := by
    ext i j
    by_cases hij : i = j
    · subst hij; simp [sigmaEtaAssign]
    · simp [sigmaEtaAssign, hij]
  rw [h]
  apply Matrix.PosSemidef.diagonal
  intro i
  show (0 : ℚ) ≤ if i.val < 3 then ip.sigma_gw_c * ip.sigma_gw_c
    else ip.sigma_aw_c * ip.sigma_aw_c
  split_ifs
  · exact mul_self_nonneg _
  · exact mul_self_nonneg _

/-- **C19.** A successful pre-integration (non-empty sample list, first
timestamp passing the assertion, last timestamp not earlier than `t1_`), in
`CoarseTracker` and in `IMUResidual` alike, returns a count other than `-1` and
leaves a covariance `Sigma_ij_` (started at 0, propagated by
`A * Sigma * A^T + B * Sigma_eta * B^T` at every step, finally
`0.5 * Sigma + 0.5 * Sigma^T`) that is symmetric and positive semi-definite,
provided the noise matrix `Sigma_eta_` used in the propagation (the member
after its six diagonal assignments) is positive semi-definite. -/
theorem preintegration_sigma_psd (L : IMULib) (front : IMUMeasurement)
    (rest : List IMUMeasurement) (junk : IMUMeasurement) (T_WS_0 T_WS_1 T_WS : SE3)
    (speedAndBias : SpeedAndBias) (imuParameters : IMUParameters) (st : PreintState)
    (hassert : front.timestamp ≤ st.t0_)
    (hcover : ¬ ((front :: rest).getLast (List.cons_ne_nil front rest)).timestamp < st.t1_)
    (hN : (sigmaEtaAssign imuParameters st.Sigma_eta_).PosSemidef) :
    (∃ r, CoarseTracker.redoPreintegration L (front :: rest) junk T_WS_0 T_WS_1 speedAndBias
          imuParameters st = some r
      ∧ r.ret ≠ -1 ∧ r.state.Sigma_ij_.IsSymm ∧ r.state.Sigma_ij_.PosSemidef)
    ∧ (∃ r, IMUResidual.redoPreintegration L (front :: rest) junk T_WS speedAndBias
          imuParameters st = some r
      ∧ r.ret ≠ -1 ∧ r.state.Sigma_ij_.IsSymm ∧ r.state.Sigma_ij_.PosSemidef) :=
  ⟨redoPreintegrationCore_sigma L (.coarseTracker T_WS_0 T_WS_1) front rest junk speedAndBias
      imuParameters st hassert hcover hN,
   redoPreintegrationCore_sigma L .imuResidual front rest junk speedAndBias imuParameters st
      hassert hcover hN⟩

theorem preintegration_sigma_psd_witness :
    ((IMUMeasurement.zeroAt 0).timestamp ≤ PreintState.stale.t0_
      ∧ ¬ ([IMUMeasurement.zeroAt 0, IMUMeasurement.zeroAt (1 / 2),
            IMUMeasurement.zeroAt 1].getLast (List.cons_ne_nil _ _)).timestamp
          < PreintState.stale.t1_
      ∧ (sigmaEtaAssign IMUParameters.sample PreintState.stale.Sigma_eta_).PosSemidef)
    ∧ ∃ r, CoarseTracker.redoPreintegration IMULib.sample
          [IMUMeasurement.zeroAt 0, IMUMeasurement.zeroAt (1 / 2), IMUMeasurement.zeroAt 1]
          (IMUMeasurement.zeroAt 0) SE3.identity SE3.identity (SpeedAndBias.ofSpeed 0)
          IMUParameters.sample PreintState.stale = some r
        ∧ r.ret ≠ -1 ∧ r.state.Sigma_ij_.IsSymm ∧ r.state.Sigma_ij_.PosSemidef :=
  ⟨⟨by decide!, by decide!, sigmaEtaAssign_zero_psd IMUParameters.sample⟩,
   (preintegration_sigma_psd IMULib.sample (IMUMeasurement.zeroAt 0)
      [IMUMeasurement.zeroAt (1 / 2), IMUMeasurement.zeroAt 1] (IMUMeasurement.zeroAt 0)
      SE3.identity SE3.identity SE3.identity (SpeedAndBias.ofSpeed 0) IMUParameters.sample
      PreintState.stale (by decide!) (by decide!)
      (sigmaEtaAssign_zero_psd IMUParameters.sample)).1⟩

set_option maxRecDepth 100000 in
/-- **C18.** A call whose IMU samples (one sample at time 0) do not cover the
window `[0, 1]`, on members left by an earlier frame pair with
`Delta_tilde_v_ij_ = (5, 0, 0)`: `redoPreintegration` returns `-1` in both
classes, and still `getIMUHessian` and `IMUResidual::linearize` produce a
residual and Jacobians from the members as they were: with velocities 0 and
`(1, 0, 0)` the velocity residual is `1 - 5 = -4`, and `Jrdxi_1` and `Jrdsb_1`
are not zero. -/
theorem imu_residual_from_stale_state :
    (CoarseTracker.redoPreintegration IMULib.sample [IMUMeasurement.zeroAt 0]
        (IMUMeasurement.zeroAt 0) SE3.identity SE3.identity (SpeedAndBias.ofSpeed 0)
        IMUParameters.sample PreintState.stale).map (fun r => r.ret) = some (-1)
    ∧ (CoarseTracker.getIMUHessian IMULib.sample 1 IMUParameters.sample 1
        [IMUMeasurement.zeroAt 0] (IMUMeasurement.zeroAt 0) SE3.identity SE3.identity
        (SpeedAndBias.ofSpeed 0) (SpeedAndBias.ofSpeed 1) PreintState.stale).map
          (fun r => (r.1.res 6, r.1.res 1, r.1.Jrdxi_1 0 0, r.1.Jrdsb_1 6 0,
            r.2.Delta_tilde_v_ij_ 0))
      = some (-4, 981 / 200, -1, 1, 5)
    ∧ (IMUResidual.redoPreintegration IMULib.sample [IMUMeasurement.zeroAt 0]
        (IMUMeasurement.zeroAt 0) SE3.identity (SpeedAndBias.ofSpeed 0)
        IMUParameters.sample PreintState.stale).map (fun r => r.ret) = some (-1)
    ∧ (IMUResidual.linearize IMULib.sample 1 IMUParameters.sample
        [IMUMeasurement.zeroAt 0] (IMUMeasurement.zeroAt 0) SE3.identity SE3.identity
        (SpeedAndBias.ofSpeed 0) (SpeedAndBias.ofSpeed 1) 0 PreintState.stale).map
          (fun r => (r.J.res 6, r.J.res 2, r.J.Jrdxi_1 0 0, r.J.Jrdsb_1 6 0,
            r.st.Delta_tilde_v_ij_ 0))
      = some (-4, -981 / 200, 1, 1, 5) := by
  decide!


/-! ## Single-lane updates -/

theorem exec_fold_apply (w : ℚ) (off : Nat) (stmts : List SingleStmt) (J : Nat → ℚ) (n : Nat)
    (d : Nat → ℚ) (i : Nat) :
    (stmts.foldl (SingleStmt.exec w) { J := J, pt := off + 4 * n, d := d }).d i
      = d i + (if off ≤ i ∧ (i - off) % 4 = 0
          then SingleStmt.contrib w stmts J n ((i - off) / 4) else 0) := by
  induction stmts generalizing J n d with
  | nil => simp [SingleStmt.contrib]
  | cons st t ih =>
    cases st with
    | addAdv a b =>
      simp only [List.foldl_cons, SingleStmt.exec, SingleStmt.contrib]
      have e : off + 4 * n + 4 = off + 4 * (n + 1) := by ring
      rw [e, ih]
      unfold arrSetN
      by_cases hi : i = off + 4 * n
      · subst hi
        have h1 : off ≤ off + 4 * n ∧ (off + 4 * n - off) % 4 = 0 := ⟨by omega, by omega⟩
        have h2 : (off + 4 * n - off) / 4 = n := by omega
        simp only [if_true, if_pos h1, h2]
        ring
      · by_cases hc : off ≤ i ∧ (i - off) % 4 = 0
        · have h2 : ¬ n = (i - off) / 4 := by omega
          simp only [if_neg hi, if_pos hc, if_neg h2]
          ring
        · simp only [if_neg hi, if_neg hc]
    | addwAdv a b =>
      simp only [List.foldl_cons, SingleStmt.exec, SingleStmt.contrib]
      have e : off + 4 * n + 4 = off + 4 * (n + 1) := by ring
      rw [e, ih]
      unfold arrSetN
      by_cases hi : i = off + 4 * n
      · subst hi
        have h1 : off ≤ off + 4 * n ∧ (off + 4 * n - off) % 4 = 0 := ⟨by omega, by omega⟩
        have h2 : (off + 4 * n - off) / 4 = n := by omega
        simp only [if_true, if_pos h1, h2]
        ring
      · by_cases hc : off ≤ i ∧ (i - off) % 4 = 0
        · have h2 : ¬ n = (i - off) / 4 := by omega
          simp only [if_neg hi, if_pos hc, if_neg h2]
          ring
        · simp only [if_neg hi, if_neg hc]
    | add a b =>
      simp only [List.foldl_cons, SingleStmt.exec, SingleStmt.contrib]
      rw [ih]
      unfold arrSetN
      by_cases hi : i = off + 4 * n
      · subst hi
        have h1 : off ≤ off + 4 * n ∧ (off + 4 * n - off) % 4 = 0 := ⟨by omega, by omega⟩
        have h2 : (off + 4 * n - off) / 4 = n := by omega
        simp only [if_true, if_pos h1, h2]
        ring
      · by_cases hc : off ≤ i ∧ (i - off) % 4 = 0
        · have h2 : ¬ n = (i - off) / 4 := by omega
          simp only [if_neg hi, if_pos hc, if_neg h2]
          ring
        · simp only [if_neg hi, if_neg hc]
    | scale a =>
      simp only [List.foldl_cons, SingleStmt.exec, SingleStmt.contrib]
      rw [ih]

theorem updateSingleBody_tot (D : Nat) (stmts : List SingleStmt) (J : Nat → ℚ) (w : ℚ)
    (off : Nat) (s : AccState) (i : Nat) :
    (AccCore.updateSingleBody D stmts J w off s).tot i
      = s.tot i + (if off ≤ i ∧ (i - off) % 4 = 0
          then SingleStmt.contrib w stmts J 0 ((i - off) / 4) else 0) := by
  unfold AccCore.updateSingleBody AccCore.countSingle
  rw [shiftUp_tot]
  unfold AccState.tot
  have h := exec_fold_apply w off stmts J 0 s.SSEData i
  simp only [Nat.mul_zero, Nat.add_zero] at h
  simp only [h]
  ring


set_option maxRecDepth 100000 in
set_option maxHeartbeats 4000000 in
theorem Accumulator11_weighted_contrib (J : Nat → ℚ) (w : ℚ) (k : Nat) (hk : k < 64) :
    SingleStmt.contrib w Accumulator11.updateSingleWeighted_stmts J 0 k
      = J (Accumulator11.pairs.getD k (0, 0)).1 * w * J (Accumulator11.pairs.getD k (0, 0)).2 := by
  interval_cases k <;>
    simp [SingleStmt.contrib, Accumulator11.updateSingleWeighted_stmts, arrSetN,
      Accumulator11.pairs] <;> ring

set_option maxRecDepth 100000 in
theorem Accumulator11_weighted_contrib_last (J : Nat → ℚ) (w : ℚ) :
    SingleStmt.contrib w Accumulator11.updateSingleWeighted_stmts J 0 64
        = J 9 * w * J 10 + J 10 * w * J 10
    ∧ SingleStmt.contrib w Accumulator11.updateSingleWeighted_stmts J 0 65 = 0 := by
  constructor
  · simp [SingleStmt.contrib, Accumulator11.updateSingleWeighted_stmts, arrSetN]
    ring
  · simp [SingleStmt.contrib, Accumulator11.updateSingleWeighted_stmts, arrSetN]

/-- On the first 64 of its 66 slots (every entry `(r, c)` other than `(9, 10)`
and `(10, 10)`), `Accumulator11::updateSingleWeighted` adds what
`updateSSE_tened` adds when called with the same values in lane `off` and zeros
in the other lanes; on the slot of `(9, 10)` it adds
`w * J9 * J10 + w * J10 * J10`, and on the slot of `(10, 10)` nothing. -/
theorem updateSingleWeighted_slots (J : Nat → ℚ) (w : ℚ) (off : Nat) (hoff : off < 4)
    (s : AccState) :
    (∀ i, i < 256 →
      (Accumulator11.updateSingleWeighted J w off s).tot i
        = (Accumulator11.updateSSE_tened (fun k => laneOnly off (J k)) (laneOnly off w) s).tot i)
    ∧ (Accumulator11.updateSingleWeighted J w off s).tot (256 + off)
        = s.tot (256 + off) + (J 9 * w * J 10 + J 10 * w * J 10)
    ∧ (Accumulator11.updateSingleWeighted J w off s).tot (260 + off) = s.tot (260 + off) := by
  refine ⟨fun i hi => ?_, ?_, ?_⟩
  · unfold Accumulator11.updateSingleWeighted Accumulator11.updateSSE_tened
    rw [updateSingleBody_tot, updateSSEWeighted_tot]
    congr 1
    unfold slotTerm
    have hlen : Accumulator11.pairs.length = 66 := by decide
    have hlt : i < 4 * Accumulator11.pairs.length := by omega
    rw [if_pos hlt]
    by_cases h : i % 4 = off
    · have hc : off ≤ i ∧ (i - off) % 4 = 0 := by omega
      have hd : (i - off) / 4 = i / 4 := by omega
      rw [if_pos hc, hd, Accumulator11_weighted_contrib J w (i / 4) (by omega)]
      simp [mm_mul_ps, laneOnly, h]
    · have hc : ¬ (off ≤ i ∧ (i - off) % 4 = 0) := by omega
      rw [if_neg hc]
      simp [mm_mul_ps, laneOnly, h]
  · unfold Accumulator11.updateSingleWeighted
    rw [updateSingleBody_tot]
    have hc : off ≤ 256 + off ∧ (256 + off - off) % 4 = 0 := by omega
    have hd : (256 + off - off) / 4 = 64 := by omega
    rw [if_pos hc, hd, (Accumulator11_weighted_contrib_last J w).1]
  · unfold Accumulator11.updateSingleWeighted
    rw [updateSingleBody_tot]
    have hc : off ≤ 260 + off ∧ (260 + off - off) % 4 = 0 := by omega
    have hd : (260 + off - off) / 4 = 65 := by omega
    rw [if_pos hc, hd, (Accumulator11_weighted_contrib_last J w).2, add_zero]


/-! ## Single-lane weighted update of `Accumulator11` -/

set_option maxRecDepth 100000 in
/-- **C21.** One call `updateSingleWeighted(1, 2, ..., 11, w = 2, off = 1)` after
`initialize()`, then `finish()`: `H(9,10)` is `2*10*11 + 2*11*11 = 462` and
`H(10,10)` is 0, where `updateSSE_tened` with the same values in lane 1 gives
`H(9,10) = 220` and `H(10,10) = 242`; the entries `H(0,0)`, `H(8,10)` and `H(9,9)`
agree. -/
theorem updateSingleWeighted_last_slots :
    (Accumulator11.finish (Accumulator11.updateSingleWeighted rampJ 2 1
        (Accumulator11.initialise AccState.junk))).H 9 10 = 462
    ∧ (Accumulator11.finish (Accumulator11.updateSingleWeighted rampJ 2 1
        (Accumulator11.initialise AccState.junk))).H 10 10 = 0
    ∧ (Accumulator11.finish (Accumulator11.updateSSE_tened (fun k => laneOnly 1 (rampJ k))
        (laneOnly 1 2) (Accumulator11.initialise AccState.junk))).H 9 10 = 220
    ∧ (Accumulator11.finish (Accumulator11.updateSSE_tened (fun k => laneOnly 1 (rampJ k))
        (laneOnly 1 2) (Accumulator11.initialise AccState.junk))).H 10 10 = 242
    ∧ (Accumulator11.finish (Accumulator11.updateSingleWeighted rampJ 2 1
        (Accumulator11.initialise AccState.junk))).H 0 0 = 2
    ∧ (Accumulator11.finish (Accumulator11.updateSingleWeighted rampJ 2 1
        (Accumulator11.initialise AccState.junk))).H 8 10 = 198
    ∧ (Accumulator11.finish (Accumulator11.updateSingleWeighted rampJ 2 1
        (Accumulator11.initialise AccState.junk))).H 9 9 = 200 := by
  decide!


/-! ## Approximate accumulators: the top-left block -/

theorem dataStep_fold_apply (x y : Nat → ℚ) (a b c : ℚ) (ps : List (Nat × Nat)) (d : Nat → ℚ)
    (n i : Nat) :
    (ps.foldl (ApproxCore.dataStep x y a b c) (d, n)).1 i
      = d i + (if n ≤ i ∧ i < n + ps.length
          then approxTerm x y a b c (ps.getD (i - n) (0, 0)).1 (ps.getD (i - n) (0, 0)).2
          else 0) := by
  induction ps generalizing d n with
  | nil => simp
  | cons pq t ih =>
    rw [List.foldl_cons]
    have e : ApproxCore.dataStep x y a b c (d, n) pq
        = (arrSetN d n (d n + (a * x pq.1 * x pq.2 + c * y pq.1 * y pq.2
            + b * (x pq.1 * y pq.2 + y pq.1 * x pq.2))), n + 1) := rfl
    rw [e, ih]
    unfold arrSetN
    by_cases hi : i = n
    · subst hi
      have h1 : ¬ (i + 1 ≤ i ∧ i < i + 1 + t.length) := by omega
      have h2 : i ≤ i ∧ i < i + (pq :: t).length := by simp
      rw [if_neg h1, if_pos h2]
      simp only [if_true, Nat.sub_self, List.getD_cons_zero, approxTerm]
      ring
    · rw [if_neg hi]
      by_cases hc : n + 1 ≤ i ∧ i < n + 1 + t.length
      · have h2 : n ≤ i ∧ i < n + (pq :: t).length := by
          simp only [List.length_cons]; omega
        rw [if_pos hc, if_pos h2]
        have e2 : i - n = (i - (n + 1)) + 1 := by omega
        rw [e2, List.getD_cons_succ]
      · have h2 : ¬ (n ≤ i ∧ i < n + (pq :: t).length) := by
          simp only [List.length_cons]; omega
        rw [if_neg hc, if_neg h2]

theorem Approx_shiftUp_dtot (nTR nBR : Nat) (force : Bool) (s : ApproxState) (i : Nat) :
    (ApproxCore.shiftUp nTR nBR force s).dtot i = s.dtot i := by
  unfold ApproxCore.shiftUp ApproxState.dtot
  by_cases h1 : s.numIn1 > 1000 ∨ force = true
  · simp only [h1, if_true]
    by_cases h2 : s.numIn1k + s.numIn1 > 1000 ∨ force = true
    · simp only [h2, if_true, addInto_apply, memset0]
      by_cases hi : i < 60
      · simp [hi]
      · simp [hi]
    · simp only [h2, if_false, addInto_apply, memset0]
      by_cases hi : i < 60
      · simp [hi]
      · simp [hi]
  · simp only [h1, if_false]
    by_cases h2 : s.numIn1k > 1000 ∨ force = true
    · simp only [h2, if_true, addInto_apply, memset0]
      by_cases hi : i < 60
      · simp [hi]; ring
      · simp [hi]
    · simp only [h2, if_false]

theorem Approx_shiftUp_true_1m (nTR nBR : Nat) (s : ApproxState) (i : Nat) (hi : i < 60) :
    (ApproxCore.shiftUp nTR nBR true s).Data1m i = s.dtot i := by
  have h := Approx_shiftUp_dtot nTR nBR true s i
  have h2 : (ApproxCore.shiftUp nTR nBR true s).Data i = 0
      ∧ (ApproxCore.shiftUp nTR nBR true s).Data1k i = 0 := by
    simp [ApproxCore.shiftUp, memset0, hi]
  unfold ApproxState.dtot at h
  rw [h2.1, h2.2] at h
  simpa [ApproxState.dtot] using h

theorem Approx_initialise_dtot (nTR nBR : Nat) (s : ApproxState) (i : Nat) (hi : i < 60) :
    (ApproxCore.initialise nTR nBR s).dtot i = 0 := by
  simp [ApproxCore.initialise, ApproxState.dtot, memset0, hi]

/-- What a call adds to float `i` of `Data`, summed over the tiers. -/
theorem Approx_run_dtot (nTR nBR k : Nat) (cl : ApproxCore.Call) (s : ApproxState) (i : Nat) :
    (cl.run nTR nBR k s).dtot i
      = s.dtot i + (if i < 55
          then cl.term (ApproxCore.pairs.getD i (0, 0)).1 (ApproxCore.pairs.getD i (0, 0)).2
          else 0) := by
  have hlen : ApproxCore.pairs.length = 55 := by decide
  cases cl with
  | updateSSE x y a b c =>
    simp only [ApproxCore.Call.run, ApproxCore.updateSSE, ApproxCore.count]
    rw [Approx_shiftUp_dtot]
    unfold ApproxState.dtot
    simp only [dataStep_fold_apply, hlen, Nat.zero_le, true_and, Nat.zero_add, Nat.sub_zero,
      ApproxCore.Call.term]
    ring
  | update x4 x6 y4 y6 a b c =>
    simp only [ApproxCore.Call.run, ApproxCore.update, ApproxCore.count]
    rw [Approx_shiftUp_dtot]
    unfold ApproxState.dtot
    simp only [dataStep_fold_apply, hlen, Nat.zero_le, true_and, Nat.zero_add, Nat.sub_zero,
      ApproxCore.Call.term]
    ring
  | updateTopRight x4 x6 y4 y6 TR =>
    simp [ApproxCore.Call.run, ApproxCore.updateTopRight, ApproxState.dtot,
      ApproxCore.Call.term]
  | updateBotRight args =>
    simp [ApproxCore.Call.run, ApproxCore.updateBotRight, ApproxState.dtot,
      ApproxCore.Call.term]

theorem Approx_foldl_dtot (nTR nBR k : Nat) (calls : List ApproxCore.Call) (s : ApproxState)
    (i : Nat) (hi : i < 55) :
    (calls.foldl (fun s cl => cl.run nTR nBR k s) s).dtot i
      = s.dtot i + (calls.map (fun cl =>
          cl.term (ApproxCore.pairs.getD i (0, 0)).1 (ApproxCore.pairs.getD i (0, 0)).2)).sum := by
  induction calls generalizing s with
  | nil => simp
  | cons cl cs ih =>
    rw [List.foldl_cons, ih, Approx_run_dtot, if_pos hi]
    simp only [List.map_cons, List.sum_cons]
    ring


theorem topLeftStep_eq (m : Nat → ℚ) (H0 : Nat → Nat → ℚ) (idx0 : Nat) (x : Nat × Nat) :
    ApproxCore.topLeftStep m (H0, idx0) x
      = (fun i j => if (i = x.1 ∧ j = x.2) ∨ (i = x.2 ∧ j = x.1) then m idx0 else H0 i j,
          idx0 + 1) := rfl

theorem topLeftStep_fold_untouched (m : Nat → ℚ) (L : List (Nat × Nat)) (H0 : Nat → Nat → ℚ)
    (idx0 i j : Nat) (h : ∀ x ∈ L, ¬ ((i = x.1 ∧ j = x.2) ∨ (i = x.2 ∧ j = x.1))) :
    (L.foldl (ApproxCore.topLeftStep m) (H0, idx0)).1 i j = H0 i j := by
  induction L generalizing H0 idx0 with
  | nil => simp
  | cons x xs ih =>
    rw [List.foldl_cons, topLeftStep_eq, ih _ _ (fun y hy => h y (List.mem_cons_of_mem _ hy))]
    have hx := h x (List.mem_cons_self _ _)
    simp only [if_neg hx]

theorem topLeftStep_fold_at (m : Nat → ℚ) (L : List (Nat × Nat)) (H0 : Nat → Nat → ℚ)
    (idx0 : Nat) (hnd : L.Nodup) (hup : ∀ x ∈ L, x.1 ≤ x.2) (k : Nat) (hk : k < L.length) :
    (L.foldl (ApproxCore.topLeftStep m) (H0, idx0)).1 (L.get ⟨k, hk⟩).1 (L.get ⟨k, hk⟩).2
      = m (idx0 + k) := by
  induction L generalizing H0 idx0 k with
  | nil => simp at hk
  | cons x xs ih =>
    rw [List.foldl_cons]
    have hnd2 := List.nodup_cons.mp hnd
    cases k with
    | zero =>
      simp only [List.get_eq_getElem, List.getElem_cons_zero]
      rw [topLeftStep_eq, topLeftStep_fold_untouched]
      · simp
      · intro y hy hc
        have hy1 := hup y (List.mem_cons_of_mem _ hy)
        have hx1 := hup x (List.mem_cons_self _ _)
        apply hnd2.1
        have : x = y := by
          rcases hc with ⟨h1, h2⟩ | ⟨h1, h2⟩
          · exact Prod.ext h1 h2
          · exact Prod.ext (by omega) (by omega)
        rw [this]; exact hy
    | succ k =>
      have hk2 : k < xs.length := by simpa using hk
      have := ih (ApproxCore.topLeftStep m (H0, idx0) x).1
        (ApproxCore.topLeftStep m (H0, idx0) x).2
        hnd2.2 (fun y hy => hup y (List.mem_cons_of_mem _ hy)) k hk2
      simp only [List.get_eq_getElem, List.getElem_cons_succ] at this ⊢
      rw [this]
      have e : (ApproxCore.topLeftStep m (H0, idx0) x).2 = idx0 + 1 := rfl
      rw [e]
      have e2 : idx0 + 1 + k = idx0 + (k + 1) := by ring
      rw [e2]

theorem topRightStep_fold_untouched (m : Nat → ℚ) (L : List (Nat × Nat)) (H0 : Nat → Nat → ℚ)
    (idx0 i j : Nat) (hi : i < 10) (hj : j < 10) :
    (L.foldl (ApproxCore.topRightStep m) (H0, idx0)).1 i j = H0 i j := by
  induction L generalizing H0 idx0 with
  | nil => simp
  | cons x xs ih =>
    rw [List.foldl_cons]
    have e : ApproxCore.topRightStep m (H0, idx0) x
        = (matSetSym H0 x.1 (x.2 + 10) (m idx0), idx0 + 1) := rfl
    rw [e, ih]
    unfold matSetSym
    rw [if_neg (by omega)]

/-- The two read-out loops leave `Data1m[k]` at the `k`-th upper-triangle
entry of the top-left block. -/
theorem finishLoops_topLeft (kk : Nat) (s : ApproxState) (k : Nat)
    (hk : k < (triangle 10).length) :
    ApproxCore.finishLoops kk s ((triangle 10).get ⟨k, hk⟩).1 ((triangle 10).get ⟨k, hk⟩).2
      = s.Data1m k := by
  unfold ApproxCore.finishLoops
  have hmem := (mem_triangle 10 _ _).mp (List.get_mem (triangle 10) k hk)
  rw [topRightStep_fold_untouched _ _ _ _ _ _ (by omega) (by omega)]
  have h := topLeftStep_fold_at s.Data1m (triangle 10) s.H 0 (triangle_nodup 10)
    (triangle_upper 10) k hk
  rw [h, Nat.zero_add]

theorem pairs_eq_triangle_swap :
    ∀ k, k < 55 → ApproxCore.pairs.getD k (0, 0)
      = (((triangle 10).getD k (0, 0)).2, ((triangle 10).getD k (0, 0)).1) := by
  decide

theorem approxTerm_comm (x y : Nat → ℚ) (a b c : ℚ) (p q : Nat) :
    approxTerm x y a b c p q = approxTerm x y a b c q p := by
  unfold approxTerm; ring

theorem Call_term_comm (cl : ApproxCore.Call) (p q : Nat) : cl.term p q = cl.term q p := by
  cases cl with
  | updateSSE x y a b c => exact approxTerm_comm _ _ _ _ _ _ _
  | update x4 x6 y4 y6 a b c => exact approxTerm_comm _ _ _ _ _ _ _
  | updateTopRight x4 x6 y4 y6 TR => rfl
  | updateBotRight args => rfl

/-- The upper triangle of the top-left block after the two read-out loops
that follow `shiftUp(true)`, on a state reached from `initialize()`. -/
theorem Approx_loops_upper (nTR nBR kq kk : Nat) (calls : List ApproxCore.Call)
    (s0 : ApproxState) (r c : Nat) (hrc : r ≤ c) (hc : c < 10) :
    ApproxCore.finishLoops kk
        (ApproxCore.shiftUp nTR nBR true
          { (calls.foldl (fun s cl => cl.run nTR nBR kq s) (ApproxCore.initialise nTR nBR s0))
            with H := fun _ _ => 0 }) r c
      = (calls.map (fun cl => cl.term r c)).sum := by
  obtain ⟨k, hk, hget⟩ := List.getElem_of_mem ((mem_triangle 10 r c).mpr ⟨hrc, hc⟩)
  have h1 := finishLoops_topLeft kk
    (ApproxCore.shiftUp nTR nBR true
      { (calls.foldl (fun s cl => cl.run nTR nBR kq s) (ApproxCore.initialise nTR nBR s0))
        with H := fun _ _ => 0 }) k hk
  simp only [List.get_eq_getElem, hget] at h1
  rw [h1]
  have h55 : (triangle 10).length = 55 := by decide
  have hk55 : k < 55 := by omega
  rw [Approx_shiftUp_true_1m _ _ _ _ (by omega)]
  have e : ∀ s : ApproxState, ApproxState.dtot { s with H := fun _ _ => 0 } = s.dtot :=
    fun _ => rfl
  rw [e, Approx_foldl_dtot _ _ _ _ _ _ hk55, Approx_initialise_dtot _ _ _ _ (by omega), zero_add]
  congr 1
  apply List.map_congr_left
  intro cl _
  have hp := pairs_eq_triangle_swap k hk55
  rw [List.getD_eq_getElem _ _ hk, hget] at hp
  rw [hp]
  exact Call_term_comm cl c r


theorem Approx_finish_inner (s : ApproxState) (r c : Nat) (hr : r < 10) (_hc : c < 10) :
    (AccumulatorApprox.finish s).H r c
      = ApproxCore.finishLoops 3 (ApproxCore.shiftUp 32 8 true { s with H := fun _ _ => 0 }) r c := by
  unfold AccumulatorApprox.finish AccumulatorApprox.shiftUp
  simp only [matSet, matSetSym]
  repeat rw [if_neg (by omega)]

theorem Approx1515_finish_inner (s : ApproxState) (r c : Nat) (hr : r < 10) (_hc : c < 10) :
    (AccumulatorApprox1515.finish s).H r c
      = ApproxCore.finishLoops 5 (ApproxCore.shiftUp 52 16 true { s with H := fun _ _ => 0 }) r c := by
  unfold AccumulatorApprox1515.finish AccumulatorApprox1515.shiftUp
  simp only [matSet, matSetSym]
  repeat rw [if_neg (by omega)]

/-- Every entry of the top-left block after the two read-out loops. -/
theorem Approx_loops_block (nTR nBR kq kk : Nat) (calls : List ApproxCore.Call)
    (s0 : ApproxState) (r c : Nat) (hr : r < 10) (hc : c < 10) :
    ApproxCore.finishLoops kk
        (ApproxCore.shiftUp nTR nBR true
          { (calls.foldl (fun s cl => cl.run nTR nBR kq s) (ApproxCore.initialise nTR nBR s0))
            with H := fun _ _ => 0 }) r c
      = (calls.map (fun cl => cl.term r c)).sum := by
  by_cases hrc : r ≤ c
  · exact Approx_loops_upper nTR nBR kq kk calls s0 r c hrc hc
  · rw [finishLoops_symm kk _ (fun a b => by simp [Approx_shiftUp_H]) r c,
      Approx_loops_upper nTR nBR kq kk calls s0 c r (by omega) hr]
    congr 1
    apply List.map_congr_left
    intro cl _
    exact Call_term_comm cl c r

/-- **C22.** For `AccumulatorApprox` (13 x 13) and `AccumulatorApprox1515`, in
exact arithmetic: after `initialize()` (from any prior state), any sequence of
update calls and `finish()`, every entry `H(r, c)` with `r, c < 10` is the sum,
over the `updateSSE(x, y, a, b, c)` and `update(x4, x6, y4, y6, a, b, c)` calls,
of `a*x_r*x_c + b*(x_r*y_c + y_r*x_c) + c*y_r*y_c` (`updateTopRight` and
`updateBotRight` calls add nothing there); and `update(x4, x6, y4, y6, a, b, c)`
has the effect of `updateSSE` with `x` = `x4` followed by `x6` and `y` = `y4`
followed by `y6`. -/
theorem approx_topLeft_block :
    (∀ (calls : List ApproxCore.Call) (s0 : ApproxState) (r c : Nat), r < 10 → c < 10 →
      (AccumulatorApprox.finish
        (calls.foldl (fun s cl => AccumulatorApprox.Call.run cl s)
          (AccumulatorApprox.initialise s0))).H r c
        = (calls.map (fun cl => cl.term r c)).sum)
    ∧ (∀ (calls : List ApproxCore.Call) (s0 : ApproxState) (r c : Nat), r < 10 → c < 10 →
      (AccumulatorApprox1515.finish
        (calls.foldl (fun s cl => AccumulatorApprox1515.Call.run cl s)
          (AccumulatorApprox1515.initialise s0))).H r c
        = (calls.map (fun cl => cl.term r c)).sum)
    ∧ (∀ (x y : Nat → ℚ) (a b c : ℚ) (p q : Nat),
      (ApproxCore.Call.updateSSE x y a b c).term p q
        = a * x p * x q + b * (x p * y q + y p * x q) + c * y p * y q)
    ∧ (∀ (x4 x6 y4 y6 : Nat → ℚ) (a b c : ℚ) (s : ApproxState),
      AccumulatorApprox.Call.run (.update x4 x6 y4 y6 a b c) s
        = AccumulatorApprox.Call.run
            (.updateSSE (ApproxCore.join46 x4 x6) (ApproxCore.join46 y4 y6) a b c) s
      ∧ AccumulatorApprox1515.Call.run (.update x4 x6 y4 y6 a b c) s
        = AccumulatorApprox1515.Call.run
            (.updateSSE (ApproxCore.join46 x4 x6) (ApproxCore.join46 y4 y6) a b c) s)
    ∧ (∀ (x4 x6 : Nat → ℚ) (i : Nat),
      ApproxCore.join46 x4 x6 i = if i < 4 then x4 i else x6 (i - 4)) := by
  refine ⟨fun calls s0 r c hr hc => ?_, fun calls s0 r c hr hc => ?_, fun _ _ _ _ _ _ _ => rfl,
    fun _ _ _ _ _ _ _ _ => ⟨rfl, rfl⟩, fun _ _ _ => rfl⟩
  · rw [Approx_finish_inner _ r c hr hc]
    exact Approx_loops_block 32 8 3 3 calls s0 r c hr hc
  · rw [Approx1515_finish_inner _ r c hr hc]
    exact Approx_loops_block 52 16 5 5 calls s0 r c hr hc

/-- Two calls on an `AccumulatorApprox`, one `updateSSE` and one `update` with
the same vectors split 4 + 6, weights `(1, 2, 3)`: `H(1, 2)` is twice the term
`1*2*3 + 2*(2*1 + 1*3) + 3*1*1 = 19`. -/
theorem approx_topLeft_sample :
    (AccumulatorApprox.finish
      ([ApproxCore.Call.updateSSE (fun k => (k : ℚ) + 1) (fun _ => 1) 1 2 3,
        ApproxCore.Call.update (fun k => (k : ℚ) + 1) (fun k => (k : ℚ) + 5)
          (fun _ => 1) (fun _ => 1) 1 2 3].foldl
        (fun s cl => AccumulatorApprox.Call.run cl s)
        (AccumulatorApprox.initialise
          { H := fun _ _ => 7, num := 7, Data := fun _ => 7, Data1k := fun _ => 7,
            Data1m := fun _ => 7, TopRight_Data := fun _ => 7, TopRight_Data1k := fun _ => 7,
            TopRight_Data1m := fun _ => 7, BotRight_Data := fun _ => 7,
            BotRight_Data1k := fun _ => 7, BotRight_Data1m := fun _ => 7,
            numIn1 := 7, numIn1k := 7, numIn1m := 7 }))).H 1 2 = 38 := by
  decide!


/-! ## Point-frame residual linearisation -/

/-- **C23.** `PointFrameResidual::linearize` either leaves through one of its
out-of-bounds returns (the residual was `OOB`, or a projection or a sample
failed), with new state `OOB` and the old `state_energy` returned, or runs its
pattern loop to the end with sums `energyLeft = E` and `wJI2_sum = W`; then the
new state is `OUTLIER` if and only if `E` exceeds
`max(host->frameEnergyTH, target->frameEnergyTH)` or `W < 2`, and `IN`
otherwise; the returned energy equals `state_NewEnergy`, is that threshold
whenever the new state is `OUTLIER`, is `E` when it is `IN`, and never exceeds
the threshold; `state_NewEnergyWithOutlier` is `E`. -/
theorem linearize_outlier_iff (e : LinEnv) (r : ResidualState) :
    ((r.state_state = .OOB ∨ e.projectCenter = none ∨ e.patternLoop = none)
      ∧ (e.linearize r).2.state_NewState = .OOB
      ∧ (e.linearize r).1 = r.state_energy)
    ∨ (r.state_state ≠ .OOB ∧ e.projectCenter ≠ none
      ∧ ∃ E W, e.patternLoop = some (E, W)
        ∧ ((e.linearize r).2.state_NewState = .OUTLIER
            ↔ (E > max e.host_frameEnergyTH e.target_frameEnergyTH ∨ W < 2))
        ∧ ((e.linearize r).2.state_NewState = .IN
            ↔ ¬ (E > max e.host_frameEnergyTH e.target_frameEnergyTH ∨ W < 2))
        ∧ (e.linearize r).1 = (e.linearize r).2.state_NewEnergy
        ∧ ((e.linearize r).2.state_NewState = .OUTLIER
            → (e.linearize r).1 = max e.host_frameEnergyTH e.target_frameEnergyTH)
        ∧ ((e.linearize r).2.state_NewState = .IN → (e.linearize r).1 = E)
        ∧ (e.linearize r).1 ≤ max e.host_frameEnergyTH e.target_frameEnergyTH
        ∧ (e.linearize r).2.state_NewEnergyWithOutlier = E) := by
  by_cases h1 : r.state_state = .OOB
  · left
    refine ⟨Or.inl h1, ?_, ?_⟩ <;> simp [LinEnv.linearize, h1]
  · cases h2 : e.projectCenter with
    | none =>
      left
      refine ⟨Or.inr (Or.inl rfl), ?_, ?_⟩ <;> simp [LinEnv.linearize, h1, h2]
    | some ctr =>
      cases h3 : e.patternLoop with
      | none =>
        left
        refine ⟨Or.inr (Or.inr rfl), ?_, ?_⟩ <;> simp [LinEnv.linearize, h1, h2, h3]
      | some EW =>
        obtain ⟨E, W⟩ := EW
        right
        refine ⟨h1, by simp, E, W, rfl, ?_⟩
        by_cases h4 : E > e.frameEnergyTH ∨ W < 2
        · have hs : (e.linearize r).2.state_NewState = .OUTLIER := by
            simp only [LinEnv.linearize, h1, h2, h3, if_pos h4, if_false]
          have hv : (e.linearize r).1 = e.frameEnergyTH := by
            simp only [LinEnv.linearize, h1, h2, h3, if_pos h4, if_false]
          have hn : (e.linearize r).2.state_NewEnergy = e.frameEnergyTH := by
            simp only [LinEnv.linearize, h1, h2, h3, if_pos h4, if_false]
          have hw : (e.linearize r).2.state_NewEnergyWithOutlier = E := by
            simp only [LinEnv.linearize, h1, h2, h3, if_pos h4, if_false]
          rw [hs, hv, hn, hw]
          exact ⟨⟨fun _ => h4, fun _ => rfl⟩, ⟨fun h => absurd h (by decide), fun h => absurd h4 h⟩, rfl,
            fun _ => rfl, fun h => absurd h (by decide), le_refl _, rfl⟩
        · have hs : (e.linearize r).2.state_NewState = .IN := by
            simp only [LinEnv.linearize, h1, h2, h3, if_neg h4, if_false]
          have hv : (e.linearize r).1 = E := by
            simp only [LinEnv.linearize, h1, h2, h3, if_neg h4, if_false]
          have hn : (e.linearize r).2.state_NewEnergy = E := by
            simp only [LinEnv.linearize, h1, h2, h3, if_neg h4, if_false]
          have hw : (e.linearize r).2.state_NewEnergyWithOutlier = E := by
            simp only [LinEnv.linearize, h1, h2, h3, if_neg h4, if_false]
          have h5 : E ≤ max e.host_frameEnergyTH e.target_frameEnergyTH :=
            not_lt.mp (not_or.mp h4).1
          rw [hs, hv, hn, hw]
          exact ⟨⟨fun h => absurd h (by decide), fun h => absurd h h4⟩, ⟨fun _ => h4, fun _ => rfl⟩, rfl,
            fun h => absurd h (by decide), fun _ => rfl, h5, rfl⟩

set_option maxRecDepth 100000 in
/-- Sample runs: eight pattern points with residual 5 give `E = 128` and
`W = 18432/625`; with thresholds 300 and 200 the new state is `IN` with energy
128, with thresholds 100 and 50 it is `OUTLIER` with energy 100, and with a
gradient that makes `W < 2` it is `OUTLIER` although `E` is below the
threshold. -/
theorem linearize_sample_runs :
    LinEnv.sample.patternLoop = some (128, 18432 / 625)
    ∧ (LinEnv.sample.linearize ResidualState.fresh).1 = 128
    ∧ (LinEnv.sample.linearize ResidualState.fresh).2.state_NewState = .IN
    ∧ ({ LinEnv.sample with host_frameEnergyTH := 100, target_frameEnergyTH := 50 }.linearize
        ResidualState.fresh).1 = 100
    ∧ ({ LinEnv.sample with host_frameEnergyTH := 100, target_frameEnergyTH := 50 }.linearize
        ResidualState.fresh).2.state_NewState = .OUTLIER
    ∧ ({ LinEnv.sample with host_frameEnergyTH := 100, target_frameEnergyTH := 50 }.linearize
        ResidualState.fresh).2.state_NewEnergyWithOutlier = 128
    ∧ ({ LinEnv.sample with interp := fun x _ => (IEEE.fin (x + 5), 0, 0) }.linearize
        ResidualState.fresh).2.state_NewState = .OUTLIER
    ∧ ({ LinEnv.sample with interp := fun x _ => (IEEE.fin (x + 5), 0, 0) }.linearize
        ResidualState.fresh).1 = 300
    ∧ ({ LinEnv.sample with interp := fun _ _ => (IEEE.nan, 3, 0) }.linearize
        ResidualState.fresh).2.state_NewState = .OOB := by
  decide!


/-! ## Pyramid intrinsics -/

theorem div_pow_half (a : ℚ) (k : Nat) : a / 2 ^ k * (1 / 2) = a / 2 ^ (1 + k) := by
  rw [pow_add, pow_one, div_mul_eq_mul_div, mul_one_div, div_div]

theorem scale_fold (p0 : PyramidK) (m : Nat) :
    (∀ L, ((List.range' 1 m).foldl PyramidK.scaleStep p0).w L
        = if 1 ≤ L ∧ L ≤ m then p0.w 0 >>> L else p0.w L)
    ∧ (∀ L, ((List.range' 1 m).foldl PyramidK.scaleStep p0).h L
        = if 1 ≤ L ∧ L ≤ m then p0.h 0 >>> L else p0.h L)
    ∧ (∀ L, ((List.range' 1 m).foldl PyramidK.scaleStep p0).fx L
        = if 1 ≤ L ∧ L ≤ m then p0.fx 0 / 2 ^ L else p0.fx L)
    ∧ (∀ L, ((List.range' 1 m).foldl PyramidK.scaleStep p0).fy L
        = if 1 ≤ L ∧ L ≤ m then p0.fy 0 / 2 ^ L else p0.fy L)
    ∧ (∀ L, ((List.range' 1 m).foldl PyramidK.scaleStep p0).cx L
        = if 1 ≤ L ∧ L ≤ m then (p0.cx 0 + 1 / 2) / 2 ^ L - 1 / 2 else p0.cx L)
    ∧ (∀ L, ((List.range' 1 m).foldl PyramidK.scaleStep p0).cy L
        = if 1 ≤ L ∧ L ≤ m then (p0.cy 0 + 1 / 2) / 2 ^ L - 1 / 2 else p0.cy L)
    ∧ ((List.range' 1 m).foldl PyramidK.scaleStep p0).K = p0.K
    ∧ ((List.range' 1 m).foldl PyramidK.scaleStep p0).Ki = p0.Ki
    ∧ ((List.range' 1 m).foldl PyramidK.scaleStep p0).fxi = p0.fxi
    ∧ ((List.range' 1 m).foldl PyramidK.scaleStep p0).fyi = p0.fyi
    ∧ ((List.range' 1 m).foldl PyramidK.scaleStep p0).cxi = p0.cxi
    ∧ ((List.range' 1 m).foldl PyramidK.scaleStep p0).cyi = p0.cyi := by
  induction m with
  | zero =>
    refine ⟨?_, ?_, ?_, ?_, ?_, ?_, rfl, rfl, rfl, rfl, rfl, rfl⟩ <;>
      intro L <;> rw [if_neg (by omega)] <;> rfl
  | succ m ih =>
    obtain ⟨hw, hh, hfx, hfy, hcx, hcy, hK, hKi, h1, h2, h3, h4⟩ := ih
    rw [List.range'_concat, List.foldl_append]
    simp only [List.foldl_cons, List.foldl_nil, PyramidK.scaleStep, arrSetN, Nat.one_mul]
    refine ⟨?_, ?_, ?_, ?_, ?_, ?_, hK, hKi, h1, h2, h3, h4⟩
    · intro L
      by_cases hL : L = 1 + m
      · rw [if_pos hL, if_pos (by omega), hw 0, if_neg (by omega), hL]
      · rw [if_neg hL, hw L]
        by_cases hc : 1 ≤ L ∧ L ≤ m
        · rw [if_pos hc, if_pos (by omega)]
        · rw [if_neg hc, if_neg (by omega)]
    · intro L
      by_cases hL : L = 1 + m
      · rw [if_pos hL, if_pos (by omega), hh 0, if_neg (by omega), hL]
      · rw [if_neg hL, hh L]
        by_cases hc : 1 ≤ L ∧ L ≤ m
        · rw [if_pos hc, if_pos (by omega)]
        · rw [if_neg hc, if_neg (by omega)]
    · intro L
      by_cases hL : L = 1 + m
      · rw [if_pos hL, if_pos (by omega), hfx (1 + m - 1)]
        have e : 1 + m - 1 = m := by omega
        rw [e, hL]
        by_cases hm : 1 ≤ m ∧ m ≤ m
        · rw [if_pos hm, div_pow_half]
        · have hm0 : m = 0 := by omega
          rw [if_neg hm, hm0]
          norm_num
          ring
      · rw [if_neg hL, hfx L]
        by_cases hc : 1 ≤ L ∧ L ≤ m
        · rw [if_pos hc, if_pos (by omega)]
        · rw [if_neg hc, if_neg (by omega)]
    · intro L
      by_cases hL : L = 1 + m
      · rw [if_pos hL, if_pos (by omega), hfy (1 + m - 1)]
        have e : 1 + m - 1 = m := by omega
        rw [e, hL]
        by_cases hm : 1 ≤ m ∧ m ≤ m
        · rw [if_pos hm, div_pow_half]
        · have hm0 : m = 0 := by omega
          rw [if_neg hm, hm0]
          norm_num
          ring
      · rw [if_neg hL, hfy L]
        by_cases hc : 1 ≤ L ∧ L ≤ m
        · rw [if_pos hc, if_pos (by omega)]
        · rw [if_neg hc, if_neg (by omega)]
    · intro L
      by_cases hL : L = 1 + m
      · rw [if_pos hL, if_pos (by omega), hcx 0, if_neg (by omega), hL]
        simp [PyramidK.shl1]
      · rw [if_neg hL, hcx L]
        by_cases hc : 1 ≤ L ∧ L ≤ m
        · rw [if_pos hc, if_pos (by omega)]
        · rw [if_neg hc, if_neg (by omega)]
    · intro L
      by_cases hL : L = 1 + m
      · rw [if_pos hL, if_pos (by omega), hcy 0, if_neg (by omega), hL]
        simp [PyramidK.shl1]
      · rw [if_neg hL, hcy L]
        by_cases hc : 1 ≤ L ∧ L ≤ m
        · rw [if_pos hc, if_pos (by omega)]
        · rw [if_neg hc, if_neg (by omega)]

theorem k_fold (inverse : Mat33 → Mat33) (p1 : PyramidK) (n : Nat) :
    ((List.range n).foldl (PyramidK.kStep inverse) p1).w = p1.w
    ∧ ((List.range n).foldl (PyramidK.kStep inverse) p1).h = p1.h
    ∧ ((List.range n).foldl (PyramidK.kStep inverse) p1).fx = p1.fx
    ∧ ((List.range n).foldl (PyramidK.kStep inverse) p1).fy = p1.fy
    ∧ ((List.range n).foldl (PyramidK.kStep inverse) p1).cx = p1.cx
    ∧ ((List.range n).foldl (PyramidK.kStep inverse) p1).cy = p1.cy
    ∧ (∀ L, ((List.range n).foldl (PyramidK.kStep inverse) p1).K L
        = if L < n then PyramidK.Kof (p1.fx L) (p1.fy L) (p1.cx L) (p1.cy L) else p1.K L)
    ∧ (∀ L, ((List.range n).foldl (PyramidK.kStep inverse) p1).Ki L
        = if L < n then inverse (PyramidK.Kof (p1.fx L) (p1.fy L) (p1.cx L) (p1.cy L))
          else p1.Ki L)
    ∧ (∀ L, ((List.range n).foldl (PyramidK.kStep inverse) p1).fxi L
        = if L < n then inverse (PyramidK.Kof (p1.fx L) (p1.fy L) (p1.cx L) (p1.cy L)) 0 0
          else p1.fxi L)
    ∧ (∀ L, ((List.range n).foldl (PyramidK.kStep inverse) p1).fyi L
        = if L < n then inverse (PyramidK.Kof (p1.fx L) (p1.fy L) (p1.cx L) (p1.cy L)) 1 1
          else p1.fyi L)
    ∧ (∀ L, ((List.range n).foldl (PyramidK.kStep inverse) p1).cxi L
        = if L < n then inverse (PyramidK.Kof (p1.fx L) (p1.fy L) (p1.cx L) (p1.cy L)) 0 2
          else p1.cxi L)
    ∧ (∀ L, ((List.range n).foldl (PyramidK.kStep inverse) p1).cyi L
        = if L < n then inverse (PyramidK.Kof (p1.fx L) (p1.fy L) (p1.cx L) (p1.cy L)) 1 2
          else p1.cyi L) := by
  induction n with
  | zero =>
    refine ⟨rfl, rfl, rfl, rfl, rfl, rfl, ?_, ?_, ?_, ?_, ?_, ?_⟩ <;>
      intro L <;> rw [if_neg (by omega)] <;> rfl
  | succ n ih =>
    obtain ⟨hw, hh, hfx, hfy, hcx, hcy, hK, hKi, h1, h2, h3, h4⟩ := ih
    rw [List.range_succ, List.foldl_append]
    simp only [List.foldl_cons, List.foldl_nil, PyramidK.kStep, arrSetN]
    refine ⟨hw, hh, hfx, hfy, hcx, hcy, ?_, ?_, ?_, ?_, ?_, ?_⟩ <;> intro L <;>
      by_cases hL : L = n
    all_goals first
      | (subst hL; rw [if_pos rfl, if_pos (by omega), hfx, hfy, hcx, hcy])
      | (rw [if_neg hL]
         first
         | rw [hK L]
         | rw [hKi L]
         | rw [h1 L]
         | rw [h2 L]
         | rw [h3 L]
         | rw [h4 L]
         by_cases hc : L < n
         · rw [if_pos hc, if_pos (by omega)]
         · rw [if_neg hc, if_neg (by omega)])


theorem int_shiftRight_zero (x : Int) : x >>> (0 : Nat) = x := by
  cases x <;> rfl

theorem PyramidK_ext (a b : PyramidK) (h1 : a.w = b.w) (h2 : a.h = b.h) (h3 : a.fx = b.fx)
    (h4 : a.fy = b.fy) (h5 : a.cx = b.cx) (h6 : a.cy = b.cy) (h7 : a.K = b.K) (h8 : a.Ki = b.Ki)
    (h9 : a.fxi = b.fxi) (h10 : a.fyi = b.fyi) (h11 : a.cxi = b.cxi) (h12 : a.cyi = b.cyi) :
    a = b := by
  cases a; cases b
  simp only at h1 h2 h3 h4 h5 h6 h7 h8 h9 h10 h11 h12
  subst h1 h2 h3 h4 h5 h6 h7 h8 h9 h10 h11 h12
  rfl

/-- The values `makeK` writes, as functions of the level. -/
theorem makeK_fields (inverse : Mat33 → Mat33) (wG0 hG0 : Int) (n : Nat)
    (HCalib : CalibHessian) (p : PyramidK) :
    (∀ L, (PyramidK.makeK inverse wG0 hG0 n HCalib p).w L
        = if L = 0 ∨ L < n then wG0 >>> L else p.w L)
    ∧ (∀ L, (PyramidK.makeK inverse wG0 hG0 n HCalib p).h L
        = if L = 0 ∨ L < n then hG0 >>> L else p.h L)
    ∧ (∀ L, (PyramidK.makeK inverse wG0 hG0 n HCalib p).fx L
        = if L = 0 ∨ L < n then HCalib.fxl / 2 ^ L else p.fx L)
    ∧ (∀ L, (PyramidK.makeK inverse wG0 hG0 n HCalib p).fy L
        = if L = 0 ∨ L < n then HCalib.fyl / 2 ^ L else p.fy L)
    ∧ (∀ L, (PyramidK.makeK inverse wG0 hG0 n HCalib p).cx L
        = if L = 0 ∨ L < n then (HCalib.cxl + 1 / 2) / 2 ^ L - 1 / 2 else p.cx L)
    ∧ (∀ L, (PyramidK.makeK inverse wG0 hG0 n HCalib p).cy L
        = if L = 0 ∨ L < n then (HCalib.cyl + 1 / 2) / 2 ^ L - 1 / 2 else p.cy L)
    ∧ (∀ L, (PyramidK.makeK inverse wG0 hG0 n HCalib p).K L
        = if L < n then PyramidK.Kof (HCalib.fxl / 2 ^ L) (HCalib.fyl / 2 ^ L)
            ((HCalib.cxl + 1 / 2) / 2 ^ L - 1 / 2) ((HCalib.cyl + 1 / 2) / 2 ^ L - 1 / 2)
          else p.K L)
    ∧ (∀ L, (PyramidK.makeK inverse wG0 hG0 n HCalib p).Ki L
        = if L < n then inverse (PyramidK.Kof (HCalib.fxl / 2 ^ L) (HCalib.fyl / 2 ^ L)
            ((HCalib.cxl + 1 / 2) / 2 ^ L - 1 / 2) ((HCalib.cyl + 1 / 2) / 2 ^ L - 1 / 2))
          else p.Ki L)
    ∧ (∀ L, (PyramidK.makeK inverse wG0 hG0 n HCalib p).fxi L
        = if L < n then inverse (PyramidK.Kof (HCalib.fxl / 2 ^ L) (HCalib.fyl / 2 ^ L)
            ((HCalib.cxl + 1 / 2) / 2 ^ L - 1 / 2) ((HCalib.cyl + 1 / 2) / 2 ^ L - 1 / 2)) 0 0
          else p.fxi L)
    ∧ (∀ L, (PyramidK.makeK inverse wG0 hG0 n HCalib p).fyi L
        = if L < n then inverse (PyramidK.Kof (HCalib.fxl / 2 ^ L) (HCalib.fyl / 2 ^ L)
            ((HCalib.cxl + 1 / 2) / 2 ^ L - 1 / 2) ((HCalib.cyl + 1 / 2) / 2 ^ L - 1 / 2)) 1 1
          else p.fyi L)
    ∧ (∀ L, (PyramidK.makeK inverse wG0 hG0 n HCalib p).cxi L
        = if L < n then inverse (PyramidK.Kof (HCalib.fxl / 2 ^ L) (HCalib.fyl / 2 ^ L)
            ((HCalib.cxl + 1 / 2) / 2 ^ L - 1 / 2) ((HCalib.cyl + 1 / 2) / 2 ^ L - 1 / 2)) 0 2
          else p.cxi L)
    ∧ (∀ L, (PyramidK.makeK inverse wG0 hG0 n HCalib p).cyi L
        = if L < n then inverse (PyramidK.Kof (HCalib.fxl / 2 ^ L) (HCalib.fyl / 2 ^ L)
            ((HCalib.cxl + 1 / 2) / 2 ^ L - 1 / 2) ((HCalib.cyl + 1 / 2) / 2 ^ L - 1 / 2)) 1 2
          else p.cyi L) := by
  obtain ⟨sw, sh, sfx, sfy, scx, scy, sK, sKi, s1, s2, s3, s4⟩ := scale_fold
    { p with
      w := arrSetN p.w 0 wG0
      h := arrSetN p.h 0 hG0
      fx := arrSetN p.fx 0 HCalib.fxl
      fy := arrSetN p.fy 0 HCalib.fyl
      cx := arrSetN p.cx 0 HCalib.cxl
      cy := arrSetN p.cy 0 HCalib.cyl } (n - 1)
  obtain ⟨kw, kh, kfx, kfy, kcx, kcy, kK, kKi, k1, k2, k3, k4⟩ := k_fold inverse
    ((List.range' 1 (n - 1)).foldl PyramidK.scaleStep
      { p with
        w := arrSetN p.w 0 wG0
        h := arrSetN p.h 0 hG0
        fx := arrSetN p.fx 0 HCalib.fxl
        fy := arrSetN p.fy 0 HCalib.fyl
        cx := arrSetN p.cx 0 HCalib.cxl
        cy := arrSetN p.cy 0 HCalib.cyl }) n
  have fw : ∀ L, (PyramidK.makeK inverse wG0 hG0 n HCalib p).w L
      = if L = 0 ∨ L < n then wG0 >>> L else p.w L := by
    intro L
    unfold PyramidK.makeK
    simp only [kw, sw, arrSetN]
    by_cases h0 : L = 0
    · subst h0; simp; exact (int_shiftRight_zero _).symm
    · by_cases hc : L < n
      · have h1 : 1 ≤ L ∧ L ≤ n - 1 := by omega
        simp [h0, hc, h1]
      · have h1 : ¬ (1 ≤ L ∧ L ≤ n - 1) := by omega
        simp [h0, hc, h1]
  have fh : ∀ L, (PyramidK.makeK inverse wG0 hG0 n HCalib p).h L
      = if L = 0 ∨ L < n then hG0 >>> L else p.h L := by
    intro L
    unfold PyramidK.makeK
    simp only [kh, sh, arrSetN]
    by_cases h0 : L = 0
    · subst h0; simp; exact (int_shiftRight_zero _).symm
    · by_cases hc : L < n
      · have h1 : 1 ≤ L ∧ L ≤ n - 1 := by omega
        simp [h0, hc, h1]
      · have h1 : ¬ (1 ≤ L ∧ L ≤ n - 1) := by omega
        simp [h0, hc, h1]
  have ffx : ∀ L, (PyramidK.makeK inverse wG0 hG0 n HCalib p).fx L
      = if L = 0 ∨ L < n then HCalib.fxl / 2 ^ L else p.fx L := by
    intro L
    unfold PyramidK.makeK
    simp only [kfx, sfx, arrSetN]
    by_cases h0 : L = 0
    · subst h0; simp
    · by_cases hc : L < n
      · have h1 : 1 ≤ L ∧ L ≤ n - 1 := by omega
        simp [h0, hc, h1]
      · have h1 : ¬ (1 ≤ L ∧ L ≤ n - 1) := by omega
        simp [h0, hc, h1]
  have ffy : ∀ L, (PyramidK.makeK inverse wG0 hG0 n HCalib p).fy L
      = if L = 0 ∨ L < n then HCalib.fyl / 2 ^ L else p.fy L := by
    intro L
    unfold PyramidK.makeK
    simp only [kfy, sfy, arrSetN]
    by_cases h0 : L = 0
    · subst h0; simp
    · by_cases hc : L < n
      · have h1 : 1 ≤ L ∧ L ≤ n - 1 := by omega
        simp [h0, hc, h1]
      · have h1 : ¬ (1 ≤ L ∧ L ≤ n - 1) := by omega
        simp [h0, hc, h1]
  have fcx : ∀ L, (PyramidK.makeK inverse wG0 hG0 n HCalib p).cx L
      = if L = 0 ∨ L < n then (HCalib.cxl + 1 / 2) / 2 ^ L - 1 / 2 else p.cx L := by
    intro L
    unfold PyramidK.makeK
    simp only [kcx, scx, arrSetN]
    by_cases h0 : L = 0
    · subst h0; simp
    · by_cases hc : L < n
      · have h1 : 1 ≤ L ∧ L ≤ n - 1 := by omega
        simp [h0, hc, h1]
      · have h1 : ¬ (1 ≤ L ∧ L ≤ n - 1) := by omega
        simp [h0, hc, h1]
  have fcy : ∀ L, (PyramidK.makeK inverse wG0 hG0 n HCalib p).cy L
      = if L = 0 ∨ L < n then (HCalib.cyl + 1 / 2) / 2 ^ L - 1 / 2 else p.cy L := by
    intro L
    unfold PyramidK.makeK
    simp only [kcy, scy, arrSetN]
    by_cases h0 : L = 0
    · subst h0; simp
    · by_cases hc : L < n
      · have h1 : 1 ≤ L ∧ L ≤ n - 1 := by omega
        simp [h0, hc, h1]
      · have h1 : ¬ (1 ≤ L ∧ L ≤ n - 1) := by omega
        simp [h0, hc, h1]
  have e1 : ∀ L, L < n →
      ((List.range' 1 (n - 1)).foldl PyramidK.scaleStep
        { p with
          w := arrSetN p.w 0 wG0
          h := arrSetN p.h 0 hG0
          fx := arrSetN p.fx 0 HCalib.fxl
          fy := arrSetN p.fy 0 HCalib.fyl
          cx := arrSetN p.cx 0 HCalib.cxl
          cy := arrSetN p.cy 0 HCalib.cyl }).fx L = HCalib.fxl / 2 ^ L := by
    intro L hL
    have h := ffx L
    unfold PyramidK.makeK at h
    simp only [kfx] at h
    rw [h, if_pos (Or.inr hL)]
  have e2 : ∀ L, L < n →
      ((List.range' 1 (n - 1)).foldl PyramidK.scaleStep
        { p with
          w := arrSetN p.w 0 wG0
          h := arrSetN p.h 0 hG0
          fx := arrSetN p.fx 0 HCalib.fxl
          fy := arrSetN p.fy 0 HCalib.fyl
          cx := arrSetN p.cx 0 HCalib.cxl
          cy := arrSetN p.cy 0 HCalib.cyl }).fy L = HCalib.fyl / 2 ^ L := by
    intro L hL
    have h := ffy L
    unfold PyramidK.makeK at h
    simp only [kfy] at h
    rw [h, if_pos (Or.inr hL)]
  have e3 : ∀ L, L < n →
      ((List.range' 1 (n - 1)).foldl PyramidK.scaleStep
        { p with
          w := arrSetN p.w 0 wG0
          h := arrSetN p.h 0 hG0
          fx := arrSetN p.fx 0 HCalib.fxl
          fy := arrSetN p.fy 0 HCalib.fyl
          cx := arrSetN p.cx 0 HCalib.cxl
          cy := arrSetN p.cy 0 HCalib.cyl }).cx L = (HCalib.cxl + 1 / 2) / 2 ^ L - 1 / 2 := by
    intro L hL
    have h := fcx L
    unfold PyramidK.makeK at h
    simp only [kcx] at h
    rw [h, if_pos (Or.inr hL)]
  have e4 : ∀ L, L < n →
      ((List.range' 1 (n - 1)).foldl PyramidK.scaleStep
        { p with
          w := arrSetN p.w 0 wG0
          h := arrSetN p.h 0 hG0
          fx := arrSetN p.fx 0 HCalib.fxl
          fy := arrSetN p.fy 0 HCalib.fyl
          cx := arrSetN p.cx 0 HCalib.cxl
          cy := arrSetN p.cy 0 HCalib.cyl }).cy L = (HCalib.cyl + 1 / 2) / 2 ^ L - 1 / 2 := by
    intro L hL
    have h := fcy L
    unfold PyramidK.makeK at h
    simp only [kcy] at h
    rw [h, if_pos (Or.inr hL)]
  refine ⟨fw, fh, ffx, ffy, fcx, fcy, ?_, ?_, ?_, ?_, ?_, ?_⟩ <;> intro L <;>
    unfold PyramidK.makeK <;> simp only [kK, kKi, k1, k2, k3, k4] <;>
    by_cases hc : L < n
  all_goals first
    | (rw [if_pos hc, if_pos hc, e1 L hc, e2 L hc, e3 L hc, e4 L hc])
    | (rw [if_neg hc, if_neg hc]
       first
       | rw [sK]
       | rw [sKi]
       | rw [s1]
       | rw [s2]
       | rw [s3]
       | rw [s4])


/-- **C24.** After `CoarseTracker::makeK`, for every level `L < pyrLevelsUsed`
(and `L < 31`, where `(int) 1 << L` is `2^L`): `w_L = w_0 >> L`, `h_L = h_0 >> L`,
`fx_L = fx_0 / 2^L`, `fy_L = fy_0 / 2^L`, `cx_L = (cx_0 + 0.5) / 2^L - 0.5`,
`cy_L = (cy_0 + 0.5) / 2^L - 0.5`, where `w_0`, `h_0`, `fx_0`, ... are `wG[0]`, `hG[0]` and the
calibration values, and `K_L` is the upper-triangular matrix
`fx_L, 0, cx_L, 0, fy_L, cy_L, 0, 0, 1`; a second call with the same calibration
leaves every member as the first call left it. -/
theorem makeK_levels (inverse : Mat33 → Mat33) (wG0 hG0 : Int) (pyrLevelsUsed : Nat)
    (HCalib : CalibHessian) (p : PyramidK) :
    (∀ L, L < pyrLevelsUsed → L < 31 →
      (PyramidK.makeK inverse wG0 hG0 pyrLevelsUsed HCalib p).w L = wG0 >>> L
      ∧ (PyramidK.makeK inverse wG0 hG0 pyrLevelsUsed HCalib p).h L = hG0 >>> L
      ∧ (PyramidK.makeK inverse wG0 hG0 pyrLevelsUsed HCalib p).fx L = HCalib.fxl / 2 ^ L
      ∧ (PyramidK.makeK inverse wG0 hG0 pyrLevelsUsed HCalib p).fy L = HCalib.fyl / 2 ^ L
      ∧ (PyramidK.makeK inverse wG0 hG0 pyrLevelsUsed HCalib p).cx L
          = (HCalib.cxl + 1 / 2) / 2 ^ L - 1 / 2
      ∧ (PyramidK.makeK inverse wG0 hG0 pyrLevelsUsed HCalib p).cy L
          = (HCalib.cyl + 1 / 2) / 2 ^ L - 1 / 2
      ∧ (∀ i j : Fin 3, (PyramidK.makeK inverse wG0 hG0 pyrLevelsUsed HCalib p).K L i j
          = if i = 0 ∧ j = 0 then (PyramidK.makeK inverse wG0 hG0 pyrLevelsUsed HCalib p).fx L
            else if i = 0 ∧ j = 2
              then (PyramidK.makeK inverse wG0 hG0 pyrLevelsUsed HCalib p).cx L
            else if i = 1 ∧ j = 1
              then (PyramidK.makeK inverse wG0 hG0 pyrLevelsUsed HCalib p).fy L
            else if i = 1 ∧ j = 2
              then (PyramidK.makeK inverse wG0 hG0 pyrLevelsUsed HCalib p).cy L
            else if i = 2 ∧ j = 2 then 1 else 0))
    ∧ (PyramidK.makeK inverse wG0 hG0 pyrLevelsUsed HCalib p).w 0 = wG0
    ∧ (PyramidK.makeK inverse wG0 hG0 pyrLevelsUsed HCalib p).h 0 = hG0
    ∧ (PyramidK.makeK inverse wG0 hG0 pyrLevelsUsed HCalib p).fx 0 = HCalib.fxl
    ∧ (PyramidK.makeK inverse wG0 hG0 pyrLevelsUsed HCalib p).fy 0 = HCalib.fyl
    ∧ (PyramidK.makeK inverse wG0 hG0 pyrLevelsUsed HCalib p).cx 0 = HCalib.cxl
    ∧ (PyramidK.makeK inverse wG0 hG0 pyrLevelsUsed HCalib p).cy 0 = HCalib.cyl
    ∧ PyramidK.makeK inverse wG0 hG0 pyrLevelsUsed HCalib
        (PyramidK.makeK inverse wG0 hG0 pyrLevelsUsed HCalib p)
      = PyramidK.makeK inverse wG0 hG0 pyrLevelsUsed HCalib p := by
  obtain ⟨fw, fh, ffx, ffy, fcx, fcy, fK, fKi, f1, f2, f3, f4⟩ :=
    makeK_fields inverse wG0 hG0 pyrLevelsUsed HCalib p
  obtain ⟨gw, gh, gfx, gfy, gcx, gcy, gK, gKi, g1, g2, g3, g4⟩ :=
    makeK_fields inverse wG0 hG0 pyrLevelsUsed HCalib
      (PyramidK.makeK inverse wG0 hG0 pyrLevelsUsed HCalib p)
  refine ⟨fun L hL _ => ?_, ?_, ?_, ?_, ?_, ?_, ?_, ?_⟩
  · refine ⟨?_, ?_, ?_, ?_, ?_, ?_, ?_⟩
    · rw [fw, if_pos (Or.inr hL)]
    · rw [fh, if_pos (Or.inr hL)]
    · rw [ffx, if_pos (Or.inr hL)]
    · rw [ffy, if_pos (Or.inr hL)]
    · rw [fcx, if_pos (Or.inr hL)]
    · rw [fcy, if_pos (Or.inr hL)]
    · intro i j
      simp only [fK, ffx, ffy, fcx, fcy, hL, if_true, PyramidK.Kof, or_true]
  · rw [fw, if_pos (Or.inl rfl)]; exact int_shiftRight_zero _
  · rw [fh, if_pos (Or.inl rfl)]; exact int_shiftRight_zero _
  · rw [ffx, if_pos (Or.inl rfl)]; simp
  · rw [ffy, if_pos (Or.inl rfl)]; simp
  · rw [fcx, if_pos (Or.inl rfl)]; simp
  · rw [fcy, if_pos (Or.inl rfl)]; simp
  · apply PyramidK_ext
    · funext L; rw [gw, fw]; split_ifs <;> rfl
    · funext L; rw [gh, fh]; split_ifs <;> rfl
    · funext L; rw [gfx, ffx]; split_ifs <;> rfl
    · funext L; rw [gfy, ffy]; split_ifs <;> rfl
    · funext L; rw [gcx, fcx]; split_ifs <;> rfl
    · funext L; rw [gcy, fcy]; split_ifs <;> rfl
    · funext L; rw [gK, fK]; split_ifs <;> rfl
    · funext L; rw [gKi, fKi]; split_ifs <;> rfl
    · funext L; rw [g1, f1]; split_ifs <;> rfl
    · funext L; rw [g2, f2]; split_ifs <;> rfl
    · funext L; rw [g3, f3]; split_ifs <;> rfl
    · funext L; rw [g4, f4]; split_ifs <;> rfl

set_option maxRecDepth 100000 in
/-- A 640 x 480 image with `fx = 500`, `fy = 480`, `cx = 319.5`, `cy = 239.5` and four
levels, starting from members holding left-over values: level 2 is 160 x 120
with `fx = 125`, `fy = 120`, `cx = 79.5`, `cy = 59.5`, and level 4 is not written. -/
theorem makeK_sample :
    (PyramidK.makeK inverseK 640 480 4 ⟨500, 480, 639 / 2, 479 / 2⟩ PyramidK.junk).w 2 = 160
    ∧ (PyramidK.makeK inverseK 640 480 4 ⟨500, 480, 639 / 2, 479 / 2⟩ PyramidK.junk).h 2 = 120
    ∧ (PyramidK.makeK inverseK 640 480 4 ⟨500, 480, 639 / 2, 479 / 2⟩ PyramidK.junk).fx 2 = 125
    ∧ (PyramidK.makeK inverseK 640 480 4 ⟨500, 480, 639 / 2, 479 / 2⟩ PyramidK.junk).fy 2 = 120
    ∧ (PyramidK.makeK inverseK 640 480 4 ⟨500, 480, 639 / 2, 479 / 2⟩ PyramidK.junk).cx 2
        = 159 / 2
    ∧ (PyramidK.makeK inverseK 640 480 4 ⟨500, 480, 639 / 2, 479 / 2⟩ PyramidK.junk).cy 2
        = 119 / 2
    ∧ (PyramidK.makeK inverseK 640 480 4 ⟨500, 480, 639 / 2, 479 / 2⟩ PyramidK.junk).K 2 0 2
        = 159 / 2
    ∧ (PyramidK.makeK inverseK 640 480 4 ⟨500, 480, 639 / 2, 479 / 2⟩ PyramidK.junk).fxi 2
        = 1 / 125
    ∧ (PyramidK.makeK inverseK 640 480 4 ⟨500, 480, 639 / 2, 479 / 2⟩ PyramidK.junk).fx 4 = 7 := by
  decide!


set_option maxRecDepth 100000 in
/-- **C25.** `calcResStereo` at level 0 on `ResEnv.wideBaseline` with the identity pose and
cutoff 20: the first reference point passes the left tests and is stored as warp
entry 0; its right projection `(Ku_r, Kv_r) = (1, 3)` fails the right border test
(`Ku_r > 2` is false), the right image sample there is finite with non-zero
gradient, and the right-side entries of warp entry 0 are stored non-zero:
`idepth_r = 1`, `dx_r = 1`, `dy_r = 1`, `residual_r = 4`, `weight_r = 1`. -/
theorem calcResStereo_right_border_ignored :
    ResEnv.wideBaseline.inBounds 0 SE3.identity 0 = true
    ∧ ResEnv.wideBaseline.Ku_r 0 SE3.identity 0 = 1
    ∧ ResEnv.wideBaseline.Kv_r 0 SE3.identity 0 = 3
    ∧ ResEnv.wideBaseline.inBounds_r 0 SE3.identity 0 = false
    ∧ ResEnv.rightSampleBad (ResEnv.wideBaseline.interp_r 0 1 3) = false
    ∧ (ResEnv.wideBaseline.calcResStereo 0 SE3.identity ⟨0, 0⟩ ⟨0, 0⟩ 20 WarpBuffers.junk).2.u 0 = 3
    ∧ (ResEnv.wideBaseline.calcResStereo 0 SE3.identity ⟨0, 0⟩ ⟨0, 0⟩ 20 WarpBuffers.junk).2.v 0 = 3
    ∧ (ResEnv.wideBaseline.calcResStereo 0 SE3.identity ⟨0, 0⟩ ⟨0, 0⟩ 20
        WarpBuffers.junk).2.idepth_r 0 = 1
    ∧ (ResEnv.wideBaseline.calcResStereo 0 SE3.identity ⟨0, 0⟩ ⟨0, 0⟩ 20
        WarpBuffers.junk).2.dx_r 0 = 1
    ∧ (ResEnv.wideBaseline.calcResStereo 0 SE3.identity ⟨0, 0⟩ ⟨0, 0⟩ 20
        WarpBuffers.junk).2.dy_r 0 = 1
    ∧ (ResEnv.wideBaseline.calcResStereo 0 SE3.identity ⟨0, 0⟩ ⟨0, 0⟩ 20
        WarpBuffers.junk).2.residual_r 0 = 4
    ∧ (ResEnv.wideBaseline.calcResStereo 0 SE3.identity ⟨0, 0⟩ ⟨0, 0⟩ 20
        WarpBuffers.junk).2.weight_r 0 = 1 := by
  refine ⟨?_, ?_, ?_, ?_, ?_, ?_, ?_, ?_, ?_, ?_, ?_, ?_⟩ <;> decide!


/-! ## The damping factor of the inner loop -/

/-- The new `lambda` of an inner iteration. -/
theorem lmIteration_lambda {P A M : Type} (K : LMKernel P A M) (s : LMState P A M) :
    (K.lmIteration s).1.lambda
      = if LMKernel.accept
            (K.calcRes (K.candidate s.Hb s.lambda s.refToNew_current s.aff_current).1
              (K.candidate s.Hb s.lambda s.refToNew_current s.aff_current).2 s.buf).1 s.resOld
            = true
        then s.lambda * (1 / 2)
        else if s.lambda * 4 < lambdaExtrapolationLimit then lambdaExtrapolationLimit
        else s.lambda * 4 := by
  unfold LMKernel.lmIteration
  simp only
  split <;> rfl

theorem lmIteration_lambda_pos {P A M : Type} (K : LMKernel P A M) (s : LMState P A M)
    (h : 0 < s.lambda) : 0 < (K.lmIteration s).1.lambda := by
  rw [lmIteration_lambda]
  unfold lambdaExtrapolationLimit
  split_ifs <;> linarith

theorem lmIteration_lambda_floor {P A M : Type} (K : LMKernel P A M) (s : LMState P A M)
    (h : LMKernel.accept
      (K.calcRes (K.candidate s.Hb s.lambda s.refToNew_current s.aff_current).1
        (K.candidate s.Hb s.lambda s.refToNew_current s.aff_current).2 s.buf).1 s.resOld = false) :
    lambdaExtrapolationLimit ≤ (K.lmIteration s).1.lambda := by
  rw [lmIteration_lambda, h]
  simp only [Bool.false_eq_true, if_false]
  split_ifs with h1
  · exact le_refl _
  · exact not_lt.mp h1

theorem step_iterate_lambda_pos {P A M : Type} (K : LMKernel P A M) (m : Nat)
    (s : LMState P A M) (h : 0 < s.lambda) : 0 < (K.step^[m] s).lambda := by
  induction m generalizing s with
  | zero => exact h
  | succ m ih =>
    rw [Function.iterate_succ_apply]
    exact ih _ (lmIteration_lambda_pos K s h)

theorem lmLoop_lambda_pos {P A M : Type} (K : LMKernel P A M) (n : Nat) (s : LMState P A M)
    (h : 0 < s.lambda) : 0 < (K.lmLoop n s).lambda := by
  obtain ⟨k, _, e⟩ := lmLoop_iterate K n s
  rw [e]
  exact step_iterate_lambda_pos K k s h

theorem mulQ_one (x : IEEE) : x.mulQ 1 = x := by
  cases x <;> simp [IEEE.mulQ]

theorem extrapFac_gt_one (E : SolverEnv) (hsqrt : ∀ x : ℚ, 1 < x → 1 < E.sqrt x) (lambda : ℚ)
    (h0 : 0 < lambda) (h1 : lambda < lambdaExtrapolationLimit) : 1 < E.extrapFac lambda := by
  unfold SolverEnv.extrapFac
  rw [if_pos h1]
  apply hsqrt
  apply hsqrt
  rw [lt_div_iff₀ h0]
  linarith

/-- **C26.** In the inner LM loop of `trackNewestCoarse` and `trackNewestCoarseStereo`:
every level pass runs the loop from `lambda = 0.01` (and, the cutoff loop ending
within 6 doublings, every pass does run it); an accepted step leaves
`lambda * 0.5`, a rejected step leaves `lambda * 4`, replaced by `0.001` when that
is below `0.001`, hence a value `≥ 0.001`; `lambda` is positive after every
number of iterations of a pass and when the loop is left; `extrapFac` is
`sqrt(sqrt(0.001 / lambda))` when `lambda < 0.001` and 1 otherwise, in which case
`inc *= extrapFac` changes nothing; and, for a library `sqrt` that maps values
above 1 to values above 1, `extrapFac > 1` whenever `0 < lambda < 0.001`, in
particular at every iteration of a pass at which `lambda < 0.001`. -/
theorem lm_lambda_schedule {P A M : Type} (T : TrackKernel P A M) (S : TrackParams)
    (E : SolverEnv) (hsqrt : ∀ x : ℚ, 1 < x → 1 < E.sqrt x) :
    (∀ fuel lvl (ts : TrackState P A) r, T.levelPass S fuel lvl ts = some r →
      ∃ s0 : LMState P A M, s0.lambda = 1 / 100
        ∧ r.1 = (T.atLevel S.setting_coarseCutoffTH lvl r.2).lmLoop (maxIterations lvl) s0
        ∧ 0 < r.1.lambda)
    ∧ (∀ fuel lvl (ts : TrackState P A), 6 ≤ fuel → ∃ r, T.levelPass S fuel lvl ts = some r)
    ∧ (∀ (K : LMKernel P A M) (s : LMState P A M),
        (LMKernel.accept
            (K.calcRes (K.candidate s.Hb s.lambda s.refToNew_current s.aff_current).1
              (K.candidate s.Hb s.lambda s.refToNew_current s.aff_current).2 s.buf).1 s.resOld
            = true
          → (K.lmIteration s).1.lambda = s.lambda * (1 / 2))
        ∧ (LMKernel.accept
            (K.calcRes (K.candidate s.Hb s.lambda s.refToNew_current s.aff_current).1
              (K.candidate s.Hb s.lambda s.refToNew_current s.aff_current).2 s.buf).1 s.resOld
            = false
          → (K.lmIteration s).1.lambda
              = (if s.lambda * 4 < 1 / 1000 then 1 / 1000 else s.lambda * 4)
            ∧ 1 / 1000 ≤ (K.lmIteration s).1.lambda))
    ∧ (∀ (K : LMKernel P A M) (s : LMState P A M), s.lambda = 1 / 100 →
        ∀ m, 0 < (K.step^[m] s).lambda ∧ 0 < (K.lmLoop m s).lambda
          ∧ ((K.step^[m] s).lambda < 1 / 1000 → 1 < E.extrapFac (K.step^[m] s).lambda))
    ∧ (∀ lambda : ℚ, (lambda < 1 / 1000 →
          E.extrapFac lambda = E.sqrt (E.sqrt (1 / 1000 / lambda)))
        ∧ (¬ lambda < 1 / 1000 →
          E.extrapFac lambda = 1 ∧ ∀ x : IEEE, x.mulQ (E.extrapFac lambda) = x)
        ∧ (0 < lambda → lambda < 1 / 1000 → 1 < E.extrapFac lambda)) := by
  refine ⟨?_, ?_, ?_, ?_, ?_⟩
  · intro fuel lvl ts r hr
    unfold TrackKernel.levelPass at hr
    split at hr
    · exact absurd hr (by simp)
    · rename_i c hc
      simp only [Option.some.injEq] at hr
      subst hr
      exact ⟨_, rfl, rfl, lmLoop_lambda_pos _ _ _ (by norm_num)⟩
  · intro fuel lvl ts hf
    obtain ⟨c, _, m, _, _, _, _, h5⟩ := levelPass_spec T S fuel hf lvl ts
    exact ⟨_, h5⟩
  · intro K s
    constructor
    · intro h
      rw [lmIteration_lambda, h, if_pos rfl]
    · intro h
      refine ⟨?_, lmIteration_lambda_floor K s h⟩
      rw [lmIteration_lambda, h]
      simp only [Bool.false_eq_true, if_false, lambdaExtrapolationLimit]
  · intro K s hs m
    have hp : 0 < s.lambda := by rw [hs]; norm_num
    exact ⟨step_iterate_lambda_pos K m s hp, lmLoop_lambda_pos K m s hp,
      fun hlt => extrapFac_gt_one E hsqrt _ (step_iterate_lambda_pos K m s hp) hlt⟩
  · intro lambda
    refine ⟨fun h => ?_, fun h => ?_, fun h0 h1 => extrapFac_gt_one E hsqrt _ h0 h1⟩
    · unfold SolverEnv.extrapFac lambdaExtrapolationLimit
      rw [if_pos h]
    · have e : E.extrapFac lambda = 1 := by
        unfold SolverEnv.extrapFac lambdaExtrapolationLimit
        rw [if_neg h]
      exact ⟨e, fun x => by rw [e]; exact mulQ_one x⟩

set_option maxRecDepth 100000 in
theorem lm_lambda_schedule_witness :
    (∀ x : ℚ, 1 < x → 1 < SolverEnv.sample.sqrt x)
    ∧ (∃ r, (TrackKernel.sampleMono ResEnv.sample TrackParams.sample).levelPass
          TrackParams.sample 6 1 (TrackKernel.entry SE3.identity ⟨0, 0⟩ WarpBuffers.junk) = some r
        ∧ 0 < r.1.lambda)
    ∧ 1 < SolverEnv.sample.extrapFac (1 / 16000) := by
  have h := lm_lambda_schedule (TrackKernel.sampleMono ResEnv.sample TrackParams.sample)
    TrackParams.sample SolverEnv.sample (fun x hx => hx)
  obtain ⟨r, hr⟩ := h.2.1 6 1 (TrackKernel.entry SE3.identity ⟨0, 0⟩ WarpBuffers.junk)
    (le_refl _)
  obtain ⟨_, _, _, hpos⟩ := h.1 6 1 _ r hr
  exact ⟨fun x hx => hx, ⟨r, hr, hpos⟩,
    (h.2.2.2.2 (1 / 16000)).2.2 (by norm_num) (by norm_num)⟩


/-! ## The solve step: the systems of the affine-fix branches -/

/-- The stitched system of the mono fix-a branch is the principal sub-system of
`Hl`, `b` on the indices 0..5, 7. -/
theorem stitchMono_entries (Hl : Nat → Nat → ℚ) (b : Nat → ℚ) (i j : Nat) :
    rowAssign (colAssign Hl 6 7) 6 7 i j
        = Hl (if i = 6 then 7 else i) (if j = 6 then 7 else j)
    ∧ arrSetN b 6 (b 7) i = b (if i = 6 then 7 else i) := by
  unfold rowAssign colAssign arrSetN
  constructor
  · split_ifs <;> rfl
  · split_ifs <;> rfl

/-- The stitched system of the stereo fix-b branch is the principal sub-system
of `Hl`, `b` on the indices 0..6, 8. -/
theorem stitchStereoB_entries (Hl : Nat → Nat → ℚ) (b : Nat → ℚ) (i j : Nat) :
    rowAssign (colAssign Hl 7 8) 7 8 i j
        = Hl (if i = 7 then 8 else i) (if j = 7 then 8 else j)
    ∧ arrSetN b 7 (b 8) i = b (if i = 7 then 8 else i) := by
  unfold rowAssign colAssign arrSetN
  constructor
  · split_ifs <;> rfl
  · split_ifs <;> rfl

/-- The stitched system of the stereo fix-a branch is the principal sub-system
of `Hl`, `b` on the indices 0..5, 7, 9. -/
theorem stitchStereoA_entries (Hl : Nat → Nat → ℚ) (b : Nat → ℚ) (i j : Nat) (hi : i < 8)
    (hj : j < 8) :
    rowAssign (colAssign (rowAssign (colAssign Hl 6 7) 6 7) 7 9) 7 9 i j
        = Hl (if i = 6 then 7 else if i = 7 then 9 else i)
            (if j = 6 then 7 else if j = 7 then 9 else j)
    ∧ arrSetN (arrSetN b 6 (b 7)) 7 (b 9) i
        = b (if i = 6 then 7 else if i = 7 then 9 else i) := by
  have hi' : i < 6 ∨ i = 6 ∨ i = 7 := by omega
  have hj' : j < 6 ∨ j = 6 ∨ j = 7 := by omega
  unfold rowAssign colAssign arrSetN
  rcases hi' with h | rfl | rfl <;> rcases hj' with h' | rfl | rfl
  all_goals
    first
    | (have a1 : i ≠ 6 := by omega
       have a2 : i ≠ 7 := by omega
       have a3 : j ≠ 6 := by omega
       have a4 : j ≠ 7 := by omega
       simp [a1, a2, a3, a4])
    | (have a1 : i ≠ 6 := by omega
       have a2 : i ≠ 7 := by omega
       simp [a1, a2])
    | (have a3 : j ≠ 6 := by omega
       have a4 : j ≠ 7 := by omega
       simp [a3, a4])
    | simp

/-- **C27.** In the affine-fix branches of the inner loop the increment (as it is after
`inc *= extrapFac`) is, at the non-fixed indices, the LDLT solution of the system
handed to the solver times `extrapFac`, and an exact zero at the fixed indices;
the system handed to the solver has the entries of the damped `Hl` and of `-b`
at the non-fixed indices:
mono fix-b, the leading 7 x 7 corner (indices 0..6); mono fix-a, 7 x 7 with
entry `(i, j)` equal to `Hl(t i, t j)`, `t` listing 0..5, 7; stereo fix-b, 8 x 8 with
`t` listing 0..6, 8; stereo fix-a, 8 x 8 with `t` listing 0..5, 7, 9; fix both, the
leading 6 x 6 corner. -/
theorem affine_fix_subsystems (E : SolverEnv) (modeA modeB : ℚ) (H : Nat → Nat → ℚ)
    (b : Nat → ℚ) (lambda : ℚ) :
    -- mono, fix b
    (¬ modeA < 0 → modeB < 0 →
      (∀ k, k < 7 → E.incMono modeA modeB H b lambda k
          = (E.ldltSolve 7 (damp 8 H lambda) (fun i => -b i) k).mulQ (E.extrapFac lambda))
      ∧ E.incMono modeA modeB H b lambda 7 = .fin 0)
    -- mono, fix a
    ∧ (modeA < 0 → ¬ modeB < 0 →
      (∀ k, k < 7 → E.incMono modeA modeB H b lambda (if k = 6 then 7 else k)
          = (E.ldltSolve 7 (rowAssign (colAssign (damp 8 H lambda) 6 7) 6 7)
              (fun i => -arrSetN b 6 (b 7) i) k).mulQ (E.extrapFac lambda))
      ∧ E.incMono modeA modeB H b lambda 6 = .fin 0
      ∧ (∀ i j, i < 7 → j < 7 →
          rowAssign (colAssign (damp 8 H lambda) 6 7) 6 7 i j
              = damp 8 H lambda (if i = 6 then 7 else i) (if j = 6 then 7 else j)
          ∧ -arrSetN b 6 (b 7) i = -b (if i = 6 then 7 else i)))
    -- mono, fix a and b
    ∧ (modeA < 0 → modeB < 0 →
      (∀ k, k < 6 → E.incMono modeA modeB H b lambda k
          = (E.ldltSolve 6 (damp 8 H lambda) (fun i => -b i) k).mulQ (E.extrapFac lambda))
      ∧ E.incMono modeA modeB H b lambda 6 = .fin 0
      ∧ E.incMono modeA modeB H b lambda 7 = .fin 0)
    -- stereo, fix b
    ∧ (¬ modeA < 0 → modeB < 0 →
      (∀ k, k < 8 → E.incStereo modeA modeB H b lambda (if k = 7 then 8 else k)
          = (E.ldltSolve 8 (rowAssign (colAssign (damp 10 H lambda) 7 8) 7 8)
              (fun i => -arrSetN b 7 (b 8) i) k).mulQ (E.extrapFac lambda))
      ∧ E.incStereo modeA modeB H b lambda 7 = .fin 0
      ∧ E.incStereo modeA modeB H b lambda 9 = .fin 0
      ∧ (∀ i j, i < 8 → j < 8 →
          rowAssign (colAssign (damp 10 H lambda) 7 8) 7 8 i j
              = damp 10 H lambda (if i = 7 then 8 else i) (if j = 7 then 8 else j)
          ∧ -arrSetN b 7 (b 8) i = -b (if i = 7 then 8 else i)))
    -- stereo, fix a
    ∧ (modeA < 0 → ¬ modeB < 0 →
      (∀ k, k < 8 →
        E.incStereo modeA modeB H b lambda (if k = 6 then 7 else if k = 7 then 9 else k)
          = (E.ldltSolve 8
              (rowAssign (colAssign (rowAssign (colAssign (damp 10 H lambda) 6 7) 6 7) 7 9) 7 9)
              (fun i => -arrSetN (arrSetN b 6 (b 7)) 7 (b 9) i) k).mulQ (E.extrapFac lambda))
      ∧ E.incStereo modeA modeB H b lambda 6 = .fin 0
      ∧ E.incStereo modeA modeB H b lambda 8 = .fin 0
      ∧ (∀ i j, i < 8 → j < 8 →
          rowAssign (colAssign (rowAssign (colAssign (damp 10 H lambda) 6 7) 6 7) 7 9) 7 9 i j
              = damp 10 H lambda (if i = 6 then 7 else if i = 7 then 9 else i)
                  (if j = 6 then 7 else if j = 7 then 9 else j)
          ∧ -arrSetN (arrSetN b 6 (b 7)) 7 (b 9) i
              = -b (if i = 6 then 7 else if i = 7 then 9 else i)))
    -- stereo, fix a and b
    ∧ (modeA < 0 → modeB < 0 →
      (∀ k, k < 6 → E.incStereo modeA modeB H b lambda k
          = (E.ldltSolve 6 (damp 10 H lambda) (fun i => -b i) k).mulQ (E.extrapFac lambda))
      ∧ (∀ k, 6 ≤ k → k < 10 → E.incStereo modeA modeB H b lambda k = .fin 0)) := by
  refine ⟨fun hA hB => ⟨fun k hk => ?_, ?_⟩, fun hA hB => ⟨fun k hk => ?_, ?_, fun i j _ _ => ?_⟩,
    fun hA hB => ⟨fun k hk => ?_, ?_, ?_⟩,
    fun hA hB => ⟨fun k hk => ?_, ?_, ?_, fun i j _ _ => ?_⟩,
    fun hA hB => ⟨fun k hk => ?_, ?_, ?_, fun i j hi hj => ?_⟩,
    fun hA hB => ⟨fun k hk => ?_, fun k hk hk' => ?_⟩⟩
  -- mono, fix b
  · simp [SolverEnv.incMono, hA, hB, hk]
  · simp [SolverEnv.incMono, hA, hB, IEEE.mulQ]
  -- mono, fix a
  · have hk' : k < 6 ∨ k = 6 := by omega
    rcases hk' with h | rfl
    · have a1 : k ≠ 6 := by omega
      simp [SolverEnv.incMono, hA, hB, h, a1]
    · simp [SolverEnv.incMono, hA, hB]
  · simp [SolverEnv.incMono, hA, hB, IEEE.mulQ]
  · obtain ⟨e1, e2⟩ := stitchMono_entries (damp 8 H lambda) b i j
    exact ⟨e1, by rw [e2]⟩
  -- mono, fix both
  · simp [SolverEnv.incMono, hA, hB, hk]
  · simp [SolverEnv.incMono, hA, hB, IEEE.mulQ]
  · simp [SolverEnv.incMono, hA, hB, IEEE.mulQ]
  -- stereo, fix b
  · have hk' : k < 6 ∨ k = 6 ∨ k = 7 := by omega
    rcases hk' with h | rfl | rfl
    · have a1 : k ≠ 7 := by omega
      simp [SolverEnv.incStereo, hA, hB, h, a1]
    · simp [SolverEnv.incStereo, hA, hB]
    · simp [SolverEnv.incStereo, hA, hB]
  · simp [SolverEnv.incStereo, hA, hB, IEEE.mulQ]
  · simp [SolverEnv.incStereo, hA, hB, IEEE.mulQ]
  · obtain ⟨e1, e2⟩ := stitchStereoB_entries (damp 10 H lambda) b i j
    exact ⟨e1, by rw [e2]⟩
  -- stereo, fix a
  · have hk' : k < 6 ∨ k = 6 ∨ k = 7 := by omega
    rcases hk' with h | rfl | rfl
    · have a1 : k ≠ 6 := by omega
      have a2 : k ≠ 7 := by omega
      simp [SolverEnv.incStereo, hA, hB, h, a1, a2]
    · simp [SolverEnv.incStereo, hA, hB]
    · simp [SolverEnv.incStereo, hA, hB]
  · simp [SolverEnv.incStereo, hA, hB, IEEE.mulQ]
  · simp [SolverEnv.incStereo, hA, hB, IEEE.mulQ]
  · obtain ⟨e1, e2⟩ := stitchStereoA_entries (damp 10 H lambda) b i j hi hj
    exact ⟨e1, by rw [e2]⟩
  -- stereo, fix both
  · simp [SolverEnv.incStereo, hA, hB, hk]
  · have a1 : ¬ k < 6 := by omega
    simp [SolverEnv.incStereo, hA, hB, a1, IEEE.mulQ]

/-- The fix-a branches on a system whose `a` and `b` rows differ, with the sample
solver: the increment of `b` is the solution of the row of `b` (index 7, resp. 7
and 9), and the increment of `a` is an exact zero. -/
theorem affine_fix_sample :
    SolverEnv.sample.incMono (-1) 0 (fun i j => if i = j then (i : ℚ) + 1 else 0)
        (fun i => -(i : ℚ) - 1) 1 7 = .fin (1 / 2)
    ∧ SolverEnv.sample.incMono (-1) 0 (fun i j => if i = j then (i : ℚ) + 1 else 0)
        (fun i => if i = 7 then -4 else 0) 1 7 = .fin (1 / 4)
    ∧ SolverEnv.sample.incMono (-1) 0 (fun i j => if i = j then (i : ℚ) + 1 else 0)
        (fun i => if i = 7 then -4 else 0) 1 6 = .fin 0
    ∧ SolverEnv.sample.incStereo (-1) 0 (fun i j => if i = j then (i : ℚ) + 1 else 0)
        (fun i => if i = 9 then -5 else 0) 1 9 = .fin (1 / 4)
    ∧ SolverEnv.sample.incStereo 0 (-1) (fun i j => if i = j then (i : ℚ) + 1 else 0)
        (fun i => if i = 8 then -9 else 0) 1 8 = .fin (1 / 2) := by
  refine ⟨?_, ?_, ?_, ?_, ?_⟩ <;> decide!


/-! ## The non-finite guard of the solve step: results -/

theorem IEEE.lt_self (x : IEEE) : x.lt x = false := by
  cases x <;> simp [IEEE.lt]

theorem IEEE.add_nan (x : IEEE) : x.add .nan = .nan := by
  cases x <;> rfl

theorem IEEE.nan_add (x : IEEE) : IEEE.nan.add x = .nan := by
  cases x <;> rfl

/-- A sum with a NaN term is NaN. -/
theorem vecSum_nan (n : Nat) (v : Nat → IEEE) (i : Nat) (hi : i < n) (h : v i = .nan) :
    vecSum n v = .nan := by
  induction n with
  | zero => omega
  | succ n ih =>
    have e : vecSum (n + 1) v = (vecSum n v).add (v n) := by
      unfold vecSum
      rw [List.range_succ, List.foldl_append]
      rfl
    rw [e]
    by_cases hn : i < n
    · rw [ih hn]; exact IEEE.nan_add _
    · have e2 : i = n := by omega
      rw [← e2, h]; exact IEEE.add_nan _

/-- The norm test fails on an increment with a NaN component. -/
theorem normLarge_nan (n : Nat) (v : Nat → IEEE) (i : Nat) (hi : i < n) (h : v i = .nan) :
    normLarge n v = false := by
  unfold normLarge
  rw [vecSum_nan n (fun i => (v i).sq) i hi (by simp [h, IEEE.sq])]
  rfl

theorem incScaledMono_guard (E : SolverEnv) (inc : Nat → IEEE)
    (h : (vecSum 8 (E.scaledMono inc)).isfinite = false) (i : Nat) :
    E.incScaledMono inc i = .fin 0 := by
  have e : E.incScaledMono inc = finiteOrZero 8 (E.scaledMono inc) := rfl
  rw [e]
  unfold finiteOrZero
  rw [if_pos h]

theorem incScaledStereo_guard (E : SolverEnv) (inc : Nat → IEEE)
    (h : (vecSum 10 (E.scaledStereo inc)).isfinite = false) (i : Nat) :
    E.incScaledStereo inc i = .fin 0 := by
  have e : E.incScaledStereo inc = finiteOrZero 10 (E.scaledStereo inc) := rfl
  rw [e]
  unfold finiteOrZero
  rw [if_pos h]

theorem candidateMono_guard (E : SolverEnv) (hexp : ∀ p : SE3, E.expMul (fun _ => 0) p = p)
    (modeA modeB : ℚ) (Hb : (Nat → Nat → ℚ) × (Nat → ℚ)) (lambda : ℚ) (p : SE3) (a : AffLight)
    (h : (vecSum 8 (E.scaledMono (E.incMono modeA modeB Hb.1 Hb.2 lambda))).isfinite = false) :
    E.candidateMono modeA modeB Hb lambda p a = (p, a) := by
  unfold SolverEnv.candidateMono
  simp only [incScaledMono_guard E _ h, IEEE.toQ, add_zero]
  rw [hexp]

theorem candidateStereo_guard (E : SolverEnv) (hexp : ∀ p : SE3, E.expMul (fun _ => 0) p = p)
    (modeA modeB : ℚ) (Hb : (Nat → Nat → ℚ) × (Nat → ℚ)) (lambda : ℚ) (p : SE3)
    (a : AffLight × AffLight)
    (h : (vecSum 10 (E.scaledStereo (E.incStereo modeA modeB Hb.1 Hb.2 lambda))).isfinite
      = false) :
    E.candidateStereo modeA modeB Hb lambda p a = (p, a) := by
  unfold SolverEnv.candidateStereo
  simp only [incScaledStereo_guard E _ h, IEEE.toQ, add_zero]
  rw [hexp]

/-- An iteration whose candidate is the current state, evaluated to the current
residual record, is a rejection. -/
theorem lmIteration_same_candidate {P A M : Type} (K : LMKernel P A M) (s : LMState P A M)
    (hc : K.candidate s.Hb s.lambda s.refToNew_current s.aff_current
      = (s.refToNew_current, s.aff_current))
    (hres : (K.calcRes s.refToNew_current s.aff_current s.buf).1 = s.resOld) :
    (K.lmIteration s).1.refToNew_current = s.refToNew_current
    ∧ (K.lmIteration s).1.aff_current = s.aff_current
    ∧ (K.lmIteration s).1.resOld = s.resOld
    ∧ (K.lmIteration s).1.Hb = s.Hb
    ∧ (K.lmIteration s).1.lambda
        = (if s.lambda * 4 < 1 / 1000 then 1 / 1000 else s.lambda * 4) := by
  have hacc : LMKernel.accept
      (K.calcRes (K.candidate s.Hb s.lambda s.refToNew_current s.aff_current).1
        (K.candidate s.Hb s.lambda s.refToNew_current s.aff_current).2 s.buf).1 s.resOld
      = false := by
    rw [hc]
    simp only [hres]
    exact IEEE.lt_self _
  rw [lmIteration_reject K s hacc]
  exact ⟨rfl, rfl, rfl, rfl, rfl⟩


/-- **C28.** When the sum of the scaled increment is not finite, in `trackNewestCoarse` and
in `trackNewestCoarseStereo` (with `SE3::exp(0) * T = T`, and the residual record
`resOld` being the one `calcRes` gives at the current state): `incScaled` is set to
zero, the candidate pose and affine parameters are the current ones; the
candidate is evaluated and rejected, so that pose, affine parameters, residual
record, `H` and `b` are kept and `lambda` becomes `lambda * 4`, or `0.001` when that is
smaller; the iteration is the last one of the level when the unscaled increment
has norm not `> 1e-3`, which is the case when one of its components is NaN. -/
theorem nonfinite_step_is_rejected (E : SolverEnv) (S : TrackParams)
    (hexp : ∀ p : SE3, E.expMul (fun _ => 0) p = p) :
    (∀ (calcRes : Nat → SE3 → AffLight → ℚ → WarpBuffers → Vec6 × WarpBuffers)
        (calcGSSSE : Nat → SE3 → AffLight → WarpBuffers → (Nat → Nat → ℚ) × (Nat → ℚ))
        (lvl : Nat) (levelCutoffRepeat : ℚ)
        (s : LMState SE3 AffLight ((Nat → Nat → ℚ) × (Nat → ℚ))),
      (vecSum 8 (E.scaledMono (E.incMono S.setting_affineOptModeA S.setting_affineOptModeB
          s.Hb.1 s.Hb.2 s.lambda))).isfinite = false →
      (calcRes lvl s.refToNew_current s.aff_current
          (S.setting_coarseCutoffTH * levelCutoffRepeat) s.buf).1 = s.resOld →
      (∀ i, E.incScaledMono (E.incMono S.setting_affineOptModeA S.setting_affineOptModeB
          s.Hb.1 s.Hb.2 s.lambda) i = .fin 0)
      ∧ E.candidateMono S.setting_affineOptModeA S.setting_affineOptModeB s.Hb s.lambda
          s.refToNew_current s.aff_current = (s.refToNew_current, s.aff_current)
      ∧ ((((E.monoKernel S calcRes calcGSSSE).atLevel S.setting_coarseCutoffTH lvl
            levelCutoffRepeat).lmIteration s).1.refToNew_current = s.refToNew_current
        ∧ (((E.monoKernel S calcRes calcGSSSE).atLevel S.setting_coarseCutoffTH lvl
            levelCutoffRepeat).lmIteration s).1.aff_current = s.aff_current
        ∧ (((E.monoKernel S calcRes calcGSSSE).atLevel S.setting_coarseCutoffTH lvl
            levelCutoffRepeat).lmIteration s).1.resOld = s.resOld
        ∧ (((E.monoKernel S calcRes calcGSSSE).atLevel S.setting_coarseCutoffTH lvl
            levelCutoffRepeat).lmIteration s).1.Hb = s.Hb
        ∧ (((E.monoKernel S calcRes calcGSSSE).atLevel S.setting_coarseCutoffTH lvl
            levelCutoffRepeat).lmIteration s).1.lambda
          = (if s.lambda * 4 < 1 / 1000 then 1 / 1000 else s.lambda * 4))
      ∧ (((E.monoKernel S calcRes calcGSSSE).atLevel S.setting_coarseCutoffTH lvl
            levelCutoffRepeat).lmIteration s).2
          = normLarge 8 (E.incMono S.setting_affineOptModeA S.setting_affineOptModeB
              s.Hb.1 s.Hb.2 s.lambda)
      ∧ ((∃ i, i < 8 ∧ E.incMono S.setting_affineOptModeA S.setting_affineOptModeB
              s.Hb.1 s.Hb.2 s.lambda i = .nan) →
          (((E.monoKernel S calcRes calcGSSSE).atLevel S.setting_coarseCutoffTH lvl
            levelCutoffRepeat).lmIteration s).2 = false))
    ∧ (∀ (calcResStereo : Nat → SE3 → AffLight × AffLight → ℚ → WarpBuffers
          → Vec6 × WarpBuffers)
        (calcGSSSEStereo : Nat → SE3 → AffLight × AffLight → WarpBuffers
          → (Nat → Nat → ℚ) × (Nat → ℚ))
        (lvl : Nat) (levelCutoffRepeat : ℚ)
        (s : LMState SE3 (AffLight × AffLight) ((Nat → Nat → ℚ) × (Nat → ℚ))),
      (vecSum 10 (E.scaledStereo (E.incStereo S.setting_affineOptModeA
          S.setting_affineOptModeB s.Hb.1 s.Hb.2 s.lambda))).isfinite = false →
      (calcResStereo lvl s.refToNew_current s.aff_current
          (S.setting_coarseCutoffTH * levelCutoffRepeat) s.buf).1 = s.resOld →
      (∀ i, E.incScaledStereo (E.incStereo S.setting_affineOptModeA
          S.setting_affineOptModeB s.Hb.1 s.Hb.2 s.lambda) i = .fin 0)
      ∧ E.candidateStereo S.setting_affineOptModeA S.setting_affineOptModeB s.Hb s.lambda
          s.refToNew_current s.aff_current = (s.refToNew_current, s.aff_current)
      ∧ ((((E.stereoKernel S calcResStereo calcGSSSEStereo).atLevel S.setting_coarseCutoffTH lvl
            levelCutoffRepeat).lmIteration s).1.refToNew_current = s.refToNew_current
        ∧ (((E.stereoKernel S calcResStereo calcGSSSEStereo).atLevel S.setting_coarseCutoffTH lvl
            levelCutoffRepeat).lmIteration s).1.aff_current = s.aff_current
        ∧ (((E.stereoKernel S calcResStereo calcGSSSEStereo).atLevel S.setting_coarseCutoffTH lvl
            levelCutoffRepeat).lmIteration s).1.resOld = s.resOld
        ∧ (((E.stereoKernel S calcResStereo calcGSSSEStereo).atLevel S.setting_coarseCutoffTH lvl
            levelCutoffRepeat).lmIteration s).1.Hb = s.Hb
        ∧ (((E.stereoKernel S calcResStereo calcGSSSEStereo).atLevel S.setting_coarseCutoffTH lvl
            levelCutoffRepeat).lmIteration s).1.lambda
          = (if s.lambda * 4 < 1 / 1000 then 1 / 1000 else s.lambda * 4))
      ∧ (((E.stereoKernel S calcResStereo calcGSSSEStereo).atLevel S.setting_coarseCutoffTH lvl
            levelCutoffRepeat).lmIteration s).2
          = normLarge 10 (E.incStereo S.setting_affineOptModeA S.setting_affineOptModeB
              s.Hb.1 s.Hb.2 s.lambda)
      ∧ ((∃ i, i < 10 ∧ E.incStereo S.setting_affineOptModeA S.setting_affineOptModeB
              s.Hb.1 s.Hb.2 s.lambda i = .nan) →
          (((E.stereoKernel S calcResStereo calcGSSSEStereo).atLevel S.setting_coarseCutoffTH lvl
            levelCutoffRepeat).lmIteration s).2 = false)) := by
  constructor
  · intro calcRes calcGSSSE lvl lcr s hnf hres
    have hc := candidateMono_guard E hexp S.setting_affineOptModeA S.setting_affineOptModeB
      s.Hb s.lambda s.refToNew_current s.aff_current hnf
    refine ⟨incScaledMono_guard E _ hnf, hc,
      lmIteration_same_candidate
        ((E.monoKernel S calcRes calcGSSSE).atLevel S.setting_coarseCutoffTH lvl lcr) s hc hres,
      rfl, ?_⟩
    rintro ⟨i, hi, h⟩
    exact normLarge_nan 8 _ i hi h
  · intro calcRes calcGSSSE lvl lcr s hnf hres
    have hc := candidateStereo_guard E hexp S.setting_affineOptModeA S.setting_affineOptModeB
      s.Hb s.lambda s.refToNew_current s.aff_current hnf
    refine ⟨incScaledStereo_guard E _ hnf, hc,
      lmIteration_same_candidate
        ((E.stereoKernel S calcRes calcGSSSE).atLevel S.setting_coarseCutoffTH lvl lcr) s hc hres,
      rfl, ?_⟩
    rintro ⟨i, hi, h⟩
    exact normLarge_nan 10 _ i hi h

theorem expMul_zero_sample (p : SE3) : SolverEnv.nanSolve.expMul (fun _ => 0) p = p := by
  cases p
  simp [SolverEnv.nanSolve, SolverEnv.sample]

set_option maxRecDepth 100000 in
theorem nonfinite_step_is_rejected_witness :
    (∀ p : SE3, SolverEnv.nanSolve.expMul (fun _ => 0) p = p)
    ∧ (((SolverEnv.nanSolve.monoKernel TrackParams.sample
          (fun lvl p a c buf => ResEnv.sample.calcRes lvl p a c buf) sampleGS).atLevel
          TrackParams.sample.setting_coarseCutoffTH 0 1).lmIteration
        LMState.sampleMono).1.resOld = LMState.sampleMono.resOld
    ∧ (((SolverEnv.nanSolve.stereoKernel TrackParams.sample
          (fun lvl p a c buf => ResEnv.sample.calcResStereo lvl p a.1 a.2 c buf) sampleGS).atLevel
          TrackParams.sample.setting_coarseCutoffTH 0 1).lmIteration
        LMState.sampleStereo).1.lambda
        = (if LMState.sampleStereo.lambda * 4 < 1 / 1000 then 1 / 1000
           else LMState.sampleStereo.lambda * 4) := by
  have h := nonfinite_step_is_rejected SolverEnv.nanSolve TrackParams.sample expMul_zero_sample
  have h1 := h.1 (fun lvl p a c buf => ResEnv.sample.calcRes lvl p a c buf) sampleGS 0 1
    LMState.sampleMono (by decide!) (by decide!)
  have h2 := h.2 (fun lvl p a c buf => ResEnv.sample.calcResStereo lvl p a.1 a.2 c buf) sampleGS
    0 1 LMState.sampleStereo (by decide!) (by decide!)
  exact ⟨expMul_zero_sample, h1.2.2.1.2.2.1, h2.2.2.1.2.2.2.2⟩

set_option maxRecDepth 100000 in
/-- An iteration of `trackNewestCoarse` at `lambda = 0.01` whose solve returns NaN: the sum
of the scaled increment is not finite, the candidate is the current state, and
the iteration leaves `lambda = 0.04` and ends the loop of the level (ten
iterations allowed, one made); with a solve returning `+inf` the iteration
leaves `lambda = 0.04` and the loop goes on. -/
theorem nonfinite_step_changes_lambda :
    (vecSum 8 (SolverEnv.nanSolve.scaledMono
        (SolverEnv.nanSolve.incMono TrackParams.sample.setting_affineOptModeA
          TrackParams.sample.setting_affineOptModeB LMState.sampleMono.Hb.1
          LMState.sampleMono.Hb.2 LMState.sampleMono.lambda))).isfinite = false
    ∧ LMState.sampleMono.lambda = 1 / 100
    ∧ (((SolverEnv.nanSolve.monoKernel TrackParams.sample
          (fun lvl p a c buf => ResEnv.sample.calcRes lvl p a c buf) sampleGS).atLevel
          20 0 1).lmIteration LMState.sampleMono).1.lambda = 1 / 25
    ∧ (((SolverEnv.nanSolve.monoKernel TrackParams.sample
          (fun lvl p a c buf => ResEnv.sample.calcRes lvl p a c buf) sampleGS).atLevel
          20 0 1).lmIteration LMState.sampleMono).2 = false
    ∧ (((SolverEnv.nanSolve.monoKernel TrackParams.sample
          (fun lvl p a c buf => ResEnv.sample.calcRes lvl p a c buf) sampleGS).atLevel
          20 0 1).lmLoop 10 LMState.sampleMono).lambda = 1 / 25
    ∧ (vecSum 8 (SolverEnv.infSolve.scaledMono
        (SolverEnv.infSolve.incMono TrackParams.sample.setting_affineOptModeA
          TrackParams.sample.setting_affineOptModeB LMState.sampleMono.Hb.1
          LMState.sampleMono.Hb.2 LMState.sampleMono.lambda))).isfinite = false
    ∧ (((SolverEnv.infSolve.monoKernel TrackParams.sample
          (fun lvl p a c buf => ResEnv.sample.calcRes lvl p a c buf) sampleGS).atLevel
          20 0 1).lmIteration LMState.sampleMono).1.lambda = 1 / 25
    ∧ (((SolverEnv.infSolve.monoKernel TrackParams.sample
          (fun lvl p a c buf => ResEnv.sample.calcRes lvl p a c buf) sampleGS).atLevel
          20 0 1).lmIteration LMState.sampleMono).2 = true := by
  refine ⟨?_, ?_, ?_, ?_, ?_, ?_, ?_, ?_⟩ <;> decide!


/-! ## The inertial iterations: results -/

/-- An inertial iteration never writes `refToNew_current`; the residual record
`resOld` it compares with is the one of `refToNew_current`, and the pose it
updates on acceptance is `T_SW_1`. -/
theorem inertialIteration_record (K : InertialKernel) (E : SolverEnv) (lastFrameShell : Bool)
    (HM : Nat → Nat → ℚ) (bM : Nat → ℚ) (s s1 : InertialState)
    (h : K.inertialIteration E lastFrameShell HM bM s = some s1) :
    s1.refToNew_current = s.refToNew_current
    ∧ ∃ e : InertialEval, s1.evals = s.evals ++ [e]
      ∧ e.resPose = s.refToNew_current ∧ e.resAff = s.aff_current ∧ e.T_SW_1 = s.T_SW_1
      ∧ e.resOld = (K.calcResStereo s.refToNew_current s.aff_current s.buf).1
      ∧ (e.accept = false → s1.T_SW_1 = s.T_SW_1 ∧ s1.aff_current = s.aff_current) := by
  unfold InertialKernel.inertialIteration at h
  simp only at h
  split at h
  · exact absurd h (by simp)
  · split at h
    · rename_i hacc
      split at h
      · simp only [Option.some.injEq] at h
        subst h
        refine ⟨rfl, _, rfl, rfl, rfl, rfl, rfl, ?_⟩
        intro hf
        exact absurd (hacc.symm.trans hf) (by simp)
      · exact absurd h (by simp)
    · simp only [Option.some.injEq] at h
      subst h
      exact ⟨rfl, _, rfl, rfl, rfl, rfl, rfl, fun _ => ⟨rfl, rfl⟩⟩

set_option maxRecDepth 100000 in
/-- **C29.** The six inertial iterations on the sample input, with a last-frame shell.
The first iteration accepts a step that moves `T_SW_1` by `-1/2` in `x` and lowers
the mean energy from `18/25` to `1/50`.  Every later iteration again evaluates
`resOld` at the pose `refToNew_current`, still the identity, and gets `18/25`, while
`T_SW_1` is at `-1/2`, then at `-1`, where the mean energy is `1/50`, then `8/25`; the
second iteration therefore accepts a step that raises the mean energy from
`1/50` to `8/25`. -/
theorem inertial_residual_at_stale_pose :
    (InertialKernel.sample.inertialLoop SolverEnv.diagSolve true (fun _ _ => 0) (fun _ => 0)
        InertialState.sample).map
      (fun s => s.evals.map
        (fun e => (e.resPose.translation 0, e.T_SW_1.translation 0, e.accept)))
      = some [(0, 0, true), (0, -1 / 2, true), (0, -1, false), (0, -1, false), (0, -1, false),
          (0, -1, false)]
    ∧ (InertialKernel.sample.inertialLoop SolverEnv.diagSolve true (fun _ _ => 0) (fun _ => 0)
        InertialState.sample).map (fun s => s.evals.map (fun e => e.resOld.meanEnergy))
      = some [.fin (18 / 25), .fin (18 / 25), .fin (18 / 25), .fin (18 / 25), .fin (18 / 25),
          .fin (18 / 25)]
    ∧ (InertialKernel.sample.inertialLoop SolverEnv.diagSolve true (fun _ _ => 0) (fun _ => 0)
        InertialState.sample).map (fun s => s.evals.map (fun e => e.resNew.meanEnergy))
      = some [.fin (1 / 50), .fin (8 / 25), .fin (81 / 50), .fin (81 / 50), .fin (81 / 50),
          .fin (81 / 50)]
    ∧ (InertialKernel.sample.calcResStereo
        { rotationMatrix := Mat33.Identity, translation := Vec3f (-1 / 2) 0 0 }
        (⟨0, 0⟩, ⟨0, 0⟩) WarpBuffers.junk).1.meanEnergy = .fin (1 / 50)
    ∧ (InertialKernel.sample.inertialLoop SolverEnv.diagSolve true (fun _ _ => 0) (fun _ => 0)
        InertialState.sample).map
      (fun s => (s.refToNew_current.translation 0, s.T_SW_1.translation 0)) = some (0, -1) := by
  refine ⟨?_, ?_, ?_, ?_, ?_⟩ <;> decide!


/-! ## The 38 x 38 system -/

theorem addBlock_pos (M : Nat → Nat → ℚ) (p q r c : Nat) (B : Nat → Nat → ℚ) (i j : Nat)
    (h : r ≤ i ∧ i < r + p ∧ c ≤ j ∧ j < c + q) :
    addBlock M p q r c B i j = M i j + B (i - r) (j - c) := by
  unfold addBlock
  rw [if_pos h]

theorem addBlock_neg (M : Nat → Nat → ℚ) (p q r c : Nat) (B : Nat → Nat → ℚ) (i j : Nat)
    (h : ¬ (r ≤ i ∧ i < r + p ∧ c ≤ j ∧ j < c + q)) :
    addBlock M p q r c B i j = M i j := by
  unfold addBlock
  rw [if_neg h]

theorem mirrorBlock_pos (M : Nat → Nat → ℚ) (p q r c : Nat) (i j : Nat)
    (h : r ≤ i ∧ i < r + p ∧ c ≤ j ∧ j < c + q) :
    mirrorBlock M p q r c c r i j = M j i := by
  unfold mirrorBlock
  rw [if_pos h]
  congr 1 <;> omega

theorem mirrorBlock_neg (M : Nat → Nat → ℚ) (p q r c r2 c2 : Nat) (i j : Nat)
    (h : ¬ (r ≤ i ∧ i < r + p ∧ c ≤ j ∧ j < c + q)) :
    mirrorBlock M p q r c r2 c2 i j = M i j := by
  unfold mirrorBlock
  rw [if_neg h]

theorem addSegment_pos (v : Nat → ℚ) (p s : Nat) (w : Nat → ℚ) (i : Nat)
    (h : s ≤ i ∧ i < s + p) : addSegment v p s w i = v i + w (i - s) := by
  unfold addSegment
  rw [if_pos h]

theorem addSegment_neg (v : Nat → ℚ) (p s : Nat) (w : Nat → ℚ) (i : Nat)
    (h : ¬ (s ≤ i ∧ i < s + p)) : addSegment v p s w i = v i := by
  unfold addSegment
  rw [if_neg h]

/-- An entry of a product `A^T * B` read at natural indices. -/
theorem natMat_prod {p q : Nat} (A : Matrix (Fin 15) (Fin p) ℚ) (B : Matrix (Fin 15) (Fin q) ℚ)
    (i j : Nat) (hi : i < p) (hj : j < q) :
    natMat (A.transpose * B) i j = ∑ k : Fin 15, A k ⟨i, hi⟩ * B k ⟨j, hj⟩ := by
  unfold natMat
  rw [dif_pos ⟨hi, hj⟩]
  simp [Matrix.mul_apply]

theorem natVec_prod {p : Nat} (A : Matrix (Fin 15) (Fin p) ℚ) (v : Fin 15 → ℚ)
    (i : Nat) (hi : i < p) :
    natVec (A.transpose.mulVec v) i = ∑ k : Fin 15, A k ⟨i, hi⟩ * v k := by
  unfold natVec
  rw [dif_pos hi]
  simp [Matrix.mulVec, Matrix.dotProduct]


/-- The right-hand side of the 38-system. -/
theorem build38_b (H_D : Nat → Nat → ℚ) (b_D : Nat → ℚ) (J : IMUJacobians)
    (HM : Nat → Nat → ℚ) (bM : Nat → ℚ) (i : Nat) :
    (build38 H_D b_D J HM bM).2 i
      = (if 19 ≤ i ∧ i < 29 then b_D (i - 19) else 0) + J.Jtres i
        + (if i < 19 then bM i else 0) := by
  have bi : i < 6 ∨ (6 ≤ i ∧ i < 10) ∨ (10 ≤ i ∧ i < 19) ∨ (19 ≤ i ∧ i < 25)
      ∨ (25 ≤ i ∧ i < 29) ∨ (29 ≤ i ∧ i < 38) ∨ 38 ≤ i := by omega
  simp only [build38, IMUJacobians.Jtres, IMUJacobians.stacked]
  rcases bi with h | h | h | h | h | h | h
  all_goals
    simp (disch := omega) only [addSegment_pos, addSegment_neg, if_pos, if_neg, dif_pos, dif_neg,
      Nat.add_sub_cancel', natVec_prod, Nat.sub_zero, zero_add, add_zero, zero_mul,
      Finset.sum_const_zero]

/-- The entries of the 38-system outside the blocks that couple the indices
28..37 with the indices 0..5 and 10..24. -/
theorem build38_H (H_D : Nat → Nat → ℚ) (b_D : Nat → ℚ) (J : IMUJacobians)
    (HM : Nat → Nat → ℚ) (bM : Nat → ℚ) (i j : Nat) (hi : i < 38) (hj : j < 38)
    (h1 : ¬ ((i < 6 ∨ (10 ≤ i ∧ i < 25)) ∧ 28 ≤ j))
    (h2 : ¬ ((j < 6 ∨ (10 ≤ j ∧ j < 25)) ∧ 28 ≤ i)) :
    (build38 H_D b_D J HM bM).1 i j
      = (if 19 ≤ i ∧ i < 29 ∧ 19 ≤ j ∧ j < 29 then H_D (i - 19) (j - 19) else 0)
        + J.JtJ i j
        + (if i < 10 ∧ j < 10 then HM i j else 0)
        + (if 10 ≤ i ∧ i < 19 ∧ 10 ≤ j ∧ j < 19 then HM i j else 0) := by
  have bi : i < 6 ∨ (6 ≤ i ∧ i < 10) ∨ (10 ≤ i ∧ i < 19) ∨ (19 ≤ i ∧ i < 25)
      ∨ (25 ≤ i ∧ i < 28) ∨ i = 28 ∨ (29 ≤ i ∧ i < 38) := by omega
  have bj : j < 6 ∨ (6 ≤ j ∧ j < 10) ∨ (10 ≤ j ∧ j < 19) ∨ (19 ≤ j ∧ j < 25)
      ∨ (25 ≤ j ∧ j < 28) ∨ j = 28 ∨ (29 ≤ j ∧ j < 38) := by omega
  simp only [build38, IMUJacobians.JtJ, IMUJacobians.stacked]
  rcases bi with h | h | h | h | h | h | h <;> rcases bj with h' | h' | h' | h' | h' | h' | h'
  all_goals first
    | (exfalso; omega)
    | (simp (disch := omega) only [addBlock_pos, addBlock_neg, mirrorBlock_pos, mirrorBlock_neg,
        if_pos, if_neg, dif_pos, dif_neg, Nat.add_sub_cancel', natMat_prod, Nat.sub_zero,
        zero_add, add_zero, zero_mul, mul_zero, Finset.sum_const_zero]
       done)
    | (simp (disch := omega) only [addBlock_pos, addBlock_neg, mirrorBlock_pos, mirrorBlock_neg,
        if_pos, if_neg, dif_pos, dif_neg, Nat.add_sub_cancel', natMat_prod, Nat.sub_zero,
        zero_add, add_zero, zero_mul, mul_zero, Finset.sum_const_zero]
       exact Finset.sum_congr rfl (fun k _ => mul_comm _ _))


/-- **C30.** With a last-frame shell the system of an inertial iteration is, before the
damping, `build38`, and in the layout pose0 + affine 0..9, sb0 10..18, pose1 + affine
19..28, sb1 29..37: every entry `(i, j)` outside the blocks that couple the indices
28..37 with the indices 0..5 and 10..24 is the entry of `H_D` embedded at 19..28,
plus the entry of `J^T * J` for the stacked Jacobian (column blocks at the offsets
0, 10, 19, 29), plus the entry of the prior `HM` when `i`, `j` are both in 0..9 or both
in 10..18; the blocks of `HM` that couple 0..9 with 10..18 are not added, so that
these entries are those of `J^T * J` alone; and every entry of `b` is the entry of
`b_D` embedded at 19..28, plus `J^T * res`, plus the entry of `bM` at 0..18. -/
theorem system38_composition (H_D : Nat → Nat → ℚ) (b_D : Nat → ℚ) (J : IMUJacobians)
    (HM : Nat → Nat → ℚ) (bM : Nat → ℚ) :
    (∀ lambda, inertialSystem true HM bM (H_D, b_D) J lambda
        = (damp 38 (build38 H_D b_D J HM bM).1 lambda, (build38 H_D b_D J HM bM).2))
    ∧ (∀ i j, i < 38 → j < 38 →
        ¬ ((i < 6 ∨ (10 ≤ i ∧ i < 25)) ∧ 28 ≤ j) →
        ¬ ((j < 6 ∨ (10 ≤ j ∧ j < 25)) ∧ 28 ≤ i) →
        (build38 H_D b_D J HM bM).1 i j
          = (if 19 ≤ i ∧ i < 29 ∧ 19 ≤ j ∧ j < 29 then H_D (i - 19) (j - 19) else 0)
            + J.JtJ i j
            + (if i < 10 ∧ j < 10 then HM i j else 0)
            + (if 10 ≤ i ∧ i < 19 ∧ 10 ≤ j ∧ j < 19 then HM i j else 0))
    ∧ (∀ i j, i < 10 → 10 ≤ j → j < 19 →
        (build38 H_D b_D J HM bM).1 i j = J.JtJ i j
        ∧ (build38 H_D b_D J HM bM).1 j i = J.JtJ j i)
    ∧ (∀ i, (build38 H_D b_D J HM bM).2 i
        = (if 19 ≤ i ∧ i < 29 then b_D (i - 19) else 0) + J.Jtres i
          + (if i < 19 then bM i else 0)) := by
  refine ⟨fun lambda => rfl, fun i j hi hj h1 h2 => build38_H H_D b_D J HM bM i j hi hj h1 h2,
    fun i j hi hj hj' => ⟨?_, ?_⟩, fun i => build38_b H_D b_D J HM bM i⟩
  · rw [build38_H H_D b_D J HM bM i j (by omega) (by omega) (by omega) (by omega)]
    simp (disch := omega) only [if_neg, add_zero, zero_add]
  · rw [build38_H H_D b_D J HM bM j i (by omega) (by omega) (by omega) (by omega)]
    simp (disch := omega) only [if_neg, add_zero, zero_add]

set_option maxRecDepth 100000 in
/-- The 38-system for zero `H_D`, zero Jacobians and a prior with 1 in every entry:
the entry `(0, 10)` is 0, while the entry of the prior there is 1 and the entries
of `H_D` and of `J^T * J` there are 0; the entries `(0, 0)` and `(10, 10)` are 1. -/
theorem system38_prior_coupling_missing :
    (build38 (fun _ _ => 0) (fun _ => 0) IMUJacobians.zero onesHM (fun _ => 0)).1 0 10 = 0
    ∧ (build38 (fun _ _ => 0) (fun _ => 0) IMUJacobians.zero onesHM (fun _ => 0)).1 10 0 = 0
    ∧ onesHM 0 10 = 1
    ∧ IMUJacobians.zero.JtJ 0 10 = 0
    ∧ (build38 (fun _ _ => 0) (fun _ => 0) IMUJacobians.zero onesHM (fun _ => 0)).1 0 10
        ≠ 0 + IMUJacobians.zero.JtJ 0 10 + onesHM 0 10
    ∧ (build38 (fun _ _ => 0) (fun _ => 0) IMUJacobians.zero onesHM (fun _ => 0)).1 0 0 = 1
    ∧ (build38 (fun _ _ => 0) (fun _ => 0) IMUJacobians.zero onesHM (fun _ => 0)).1 10 10 = 1 := by
  refine ⟨?_, ?_, ?_, ?_, ?_, ?_, ?_⟩ <;> decide!

set_option maxRecDepth 100000 in
/-- The 38-system for the Jacobians `IMUJacobians.corner`, zero `H_D` and zero prior:
the product of column 0 of `Jrdxi_0` with columns 0 and 8 of `Jrdsb_1`, which `J^T * J`
has at `(0, 29)` and `(0, 37)`, is found at `(0, 28)` and `(0, 36)`. -/
theorem system38_sb1_sample :
    IMUJacobians.corner.JtJ 0 29 = 2 ∧ IMUJacobians.corner.JtJ 0 37 = 3
    ∧ IMUJacobians.corner.JtJ 0 28 = 0
    ∧ (build38 (fun _ _ => 0) (fun _ => 0) IMUJacobians.corner (fun _ _ => 0) (fun _ => 0)).1 0 28
        = 2
    ∧ (build38 (fun _ _ => 0) (fun _ => 0) IMUJacobians.corner (fun _ _ => 0) (fun _ => 0)).1 0 36
        = 3
    ∧ (build38 (fun _ _ => 0) (fun _ => 0) IMUJacobians.corner (fun _ _ => 0) (fun _ => 0)).1 0 37
        = 0
    ∧ (build38 (fun _ _ => 0) (fun _ => 0) IMUJacobians.corner (fun _ _ => 0) (fun _ => 0)).1 29 29
        = 4
    ∧ (build38 (fun _ _ => 0) (fun _ => 0) IMUJacobians.corner (fun _ _ => 0) (fun _ => 0)).1 0 0
        = 1
    ∧ (build38 (fun _ _ => 0) (fun _ => 0) IMUJacobians.corner (fun _ _ => 0) (fun _ => 0)).2 29
        = 2 := by
  refine ⟨?_, ?_, ?_, ?_, ?_, ?_, ?_, ?_, ?_⟩ <;> decide!



/-! ## The marginalisation after the inertial iterations: results -/

theorem assignBlock_pos (M : Nat → Nat → ℚ) (p q r c : Nat) (B : Nat → Nat → ℚ) (i j : Nat)
    (h : r ≤ i ∧ i < r + p ∧ c ≤ j ∧ j < c + q) :
    assignBlock M p q r c B i j = B (i - r) (j - c) := by
  unfold assignBlock
  rw [if_pos h]

theorem assignBlock_neg (M : Nat → Nat → ℚ) (p q r c : Nat) (B : Nat → Nat → ℚ) (i j : Nat)
    (h : ¬ (r ≤ i ∧ i < r + p ∧ c ≤ j ∧ j < c + q)) :
    assignBlock M p q r c B i j = M i j := by
  unfold assignBlock
  rw [if_neg h]

theorem assignSegment_pos (v : Nat → ℚ) (p s : Nat) (w : Nat → ℚ) (i : Nat)
    (h : s ≤ i ∧ i < s + p) : assignSegment v p s w i = w (i - s) := by
  unfold assignSegment
  rw [if_pos h]

theorem assignSegment_neg (v : Nat → ℚ) (p s : Nat) (w : Nat → ℚ) (i : Nat)
    (h : ¬ (s ≤ i ∧ i < s + p)) : assignSegment v p s w i = v i := by
  unfold assignSegment
  rw [if_neg h]

/-- The moves on `b` exchange the segments at 10 and at 19. -/
theorem moveBlocks28_b (H : Nat → Nat → ℚ) (b : Nat → ℚ) (i : Nat) :
    (moveBlocks28 H b).2 i = b (swapSb i) := by
  have bi : i < 10 ∨ (10 ≤ i ∧ i < 19) ∨ (19 ≤ i ∧ i < 28) ∨ 28 ≤ i := by omega
  simp only [moveBlocks28, swapSb, readSegment]
  rcases bi with h | h | h | h
  all_goals
    simp (disch := omega) only [assignSegment_pos, assignSegment_neg, if_pos, if_neg,
      readSegment]
  all_goals first
    | rfl
    | (congr 1; omega)

/-- On a symmetric `H` the block moves exchange the index ranges 10..18 and
19..27 in rows and columns. -/
theorem moveBlocks28_H (H : Nat → Nat → ℚ) (b : Nat → ℚ)
    (hsym : ∀ i j, i < 28 → j < 28 → H i j = H j i) (i j : Nat) (hi : i < 28) (hj : j < 28) :
    (moveBlocks28 H b).1 i j = H (swapSb i) (swapSb j) := by
  have bi : i < 10 ∨ (10 ≤ i ∧ i < 19) ∨ (19 ≤ i ∧ i < 28) := by omega
  have bj : j < 10 ∨ (10 ≤ j ∧ j < 19) ∨ (19 ≤ j ∧ j < 28) := by omega
  simp only [moveBlocks28, swapSb, readBlock]
  rcases bi with h | h | h <;> rcases bj with h' | h' | h'
  all_goals
    simp (disch := omega) only [assignBlock_pos, assignBlock_neg, if_pos, if_neg, readBlock]
  all_goals first
    | rfl
    | (congr 1 <;> omega)
    | (rw [hsym _ _ (by omega) (by omega)]; congr 1 <;> omega)


theorem swapSb_lt (i : Nat) (h : i < 28) : swapSb i < 28 := by
  unfold swapSb
  split_ifs <;> omega

theorem triple_symm (m : Nat) (B Di C : Nat → Nat → ℚ) (i j : Nat)
    (hD : ∀ k l, k < m → l < m → Di k l = Di l k)
    (hj : ∀ k, k < m → C k j = B j k) (hi : ∀ k, k < m → C k i = B i k) :
    triple m B Di C i j = triple m B Di C j i := by
  unfold triple
  rw [Finset.sum_comm]
  apply Finset.sum_congr rfl
  intro l hl
  apply Finset.sum_congr rfl
  intro k hk
  rw [Finset.mem_range] at hl hk
  rw [hj l hl, hi k hk, hD k l hk hl]
  ring

/-- The marginalised `HM` of a symmetric system is symmetric, for an `inverse` that
gives a symmetric matrix on a symmetric one. -/
theorem marginalize_symm (inverse : Nat → (Nat → Nat → ℚ) → Nat → Nat → ℚ)
    (hinv : ∀ m M, (∀ k l, k < m → l < m → M k l = M l k) →
      ∀ k l, k < m → l < m → inverse m M k l = inverse m M l k)
    (lastFrameShell : Bool) (H : Nat → Nat → ℚ) (b : Nat → ℚ)
    (hsym : ∀ i j, i < inertialSize lastFrameShell → j < inertialSize lastFrameShell →
      H i j = H j i) (i j : Nat) :
    (marginalize inverse lastFrameShell H b).1 i j
      = (marginalize inverse lastFrameShell H b).1 j i := by
  cases lastFrameShell with
  | false =>
    have hs : ∀ i j, i < 28 → j < 28 → H i j = H j i := hsym
    have hm : ∀ i j, i < 28 → j < 28 →
        (moveBlocks28 H b).1 i j = (moveBlocks28 H b).1 j i := by
      intro i j hi hj
      rw [moveBlocks28_H H b hs i j hi hj, moveBlocks28_H H b hs j i hj hi]
      exact hs _ _ (swapSb_lt i hi) (swapSb_lt j hj)
    simp only [marginalize, if_true]
    by_cases hij : i < 19 ∧ j < 19
    · rw [if_pos hij, if_pos ⟨hij.2, hij.1⟩, hm i j (by omega) (by omega)]
      congr 1
      apply triple_symm
      · apply hinv
        intro k l hk hl
        exact hm _ _ (by omega) (by omega)
      · intro k hk
        exact hm _ _ (by omega) (by omega)
      · intro k hk
        exact hm _ _ (by omega) (by omega)
    · rw [if_neg hij, if_neg (fun h => hij ⟨h.2, h.1⟩)]
  | true =>
    have hs : ∀ i j, i < 38 → j < 38 → H i j = H j i := hsym
    simp only [marginalize, Bool.true_eq_false, if_false]
    by_cases hij : i < 19 ∧ j < 19
    · rw [if_pos hij, if_pos ⟨hij.2, hij.1⟩]
      have e : readBlock H 19 19 i j = readBlock H 19 19 j i :=
        hs _ _ (by omega) (by omega)
      rw [e]
      congr 1
      apply triple_symm
      · apply hinv
        intro k l hk hl
        exact hs _ _ (by omega) (by omega)
      · intro k hk
        exact hs _ _ (by omega) (by omega)
      · intro k hk
        exact hs _ _ (by omega) (by omega)
    · rw [if_neg hij, if_neg (fun h => hij ⟨h.2, h.1⟩)]


theorem schur_mat {n m : Nat} (A : Matrix (Fin n) (Fin n) ℚ) (B : Matrix (Fin n) (Fin m) ℚ)
    (C : Matrix (Fin m) (Fin n) ℚ) (D Di : Matrix (Fin m) (Fin m) ℚ) (x : Fin n → ℚ)
    (y : Fin m → ℚ) (b1 : Fin n → ℚ) (b2 : Fin m → ℚ) (hDi : Di * D = 1)
    (h1 : A.mulVec x + B.mulVec y = b1) (h2 : C.mulVec x + D.mulVec y = b2) :
    (A - B * Di * C).mulVec x = b1 - (B * Di).mulVec b2 := by
  subst h1 h2
  rw [Matrix.sub_mulVec, Matrix.mulVec_add, Matrix.mulVec_mulVec, Matrix.mulVec_mulVec,
    Matrix.mul_assoc B Di D, hDi, Matrix.mul_one]
  abel

theorem triple_eq_mat (n m : Nat) (B Di C : Nat → Nat → ℚ) (i : Fin n) (j : Fin n) :
    triple m B Di C i.val j.val
      = ((Matrix.of fun (a : Fin n) (k : Fin m) => B a.val k.val)
          * (Matrix.of fun (k l : Fin m) => Di k.val l.val)
          * (Matrix.of fun (l : Fin m) (c : Fin n) => C l.val c.val)) i j := by
  unfold triple
  simp only [Matrix.mul_apply, Matrix.of_apply, Finset.sum_mul]
  rw [Finset.sum_range, Finset.sum_comm, Finset.sum_range]

theorem tripleVec_eq_mat (n m : Nat) (B Di : Nat → Nat → ℚ) (v : Nat → ℚ) (i : Fin n) :
    tripleVec m B Di v i.val
      = (((Matrix.of fun (a : Fin n) (k : Fin m) => B a.val k.val)
          * (Matrix.of fun (k l : Fin m) => Di k.val l.val)).mulVec
            (fun l : Fin m => v l.val)) i := by
  unfold tripleVec
  simp only [Matrix.mulVec, Matrix.dotProduct, Matrix.mul_apply, Matrix.of_apply, Finset.sum_mul]
  rw [Finset.sum_range, Finset.sum_comm, Finset.sum_range]

/-- The Schur complement eliminates: when `Di` is a left inverse of `D`, a
solution `(x, y)` of the system with the blocks `A`, `B`, `C`, `D` and the right-hand
side `(b1, b2)` gives a solution `x` of the reduced system. -/
theorem schur_eliminates (n m : Nat) (A B C D Di : Nat → Nat → ℚ) (b1 b2 x y : Nat → ℚ)
    (hDi : ∀ k l, k < m → l < m →
      ∑ t in Finset.range m, Di k t * D t l = if k = l then 1 else 0)
    (h1 : ∀ i, i < n →
      ∑ j in Finset.range n, A i j * x j + ∑ k in Finset.range m, B i k * y k = b1 i)
    (h2 : ∀ l, l < m →
      ∑ j in Finset.range n, C l j * x j + ∑ k in Finset.range m, D l k * y k = b2 l)
    (i : Nat) (hi : i < n) :
    ∑ j in Finset.range n, (A i j - triple m B Di C i j) * x j
      = b1 i - tripleVec m B Di b2 i := by
  have key := schur_mat (Matrix.of fun (a c : Fin n) => A a.val c.val)
    (Matrix.of fun (a : Fin n) (k : Fin m) => B a.val k.val)
    (Matrix.of fun (l : Fin m) (c : Fin n) => C l.val c.val)
    (Matrix.of fun (k l : Fin m) => D k.val l.val)
    (Matrix.of fun (k l : Fin m) => Di k.val l.val)
    (fun c : Fin n => x c.val) (fun k : Fin m => y k.val)
    (fun a : Fin n => b1 a.val) (fun l : Fin m => b2 l.val)
    (by
      ext k l
      simp only [Matrix.mul_apply, Matrix.of_apply, Matrix.one_apply]
      rw [← Finset.sum_range (fun t => Di k.val t * D t l.val), hDi k.val l.val k.isLt l.isLt]
      simp only [Fin.ext_iff])
    (by
      funext a
      simp only [Pi.add_apply, Matrix.mulVec, Matrix.dotProduct, Matrix.of_apply]
      rw [← Finset.sum_range (fun j => A a.val j * x j),
        ← Finset.sum_range (fun k => B a.val k * y k)]
      exact h1 a.val a.isLt)
    (by
      funext l
      simp only [Pi.add_apply, Matrix.mulVec, Matrix.dotProduct, Matrix.of_apply]
      rw [← Finset.sum_range (fun j => C l.val j * x j),
        ← Finset.sum_range (fun k => D l.val k * y k)]
      exact h2 l.val l.isLt)
  have key2 := congrFun key ⟨i, hi⟩
  rw [Pi.sub_apply, ← tripleVec_eq_mat n m B Di b2 ⟨i, hi⟩] at key2
  rw [← key2, Finset.sum_range]
  simp only [Matrix.mulVec, Matrix.dotProduct, Matrix.sub_apply, Matrix.of_apply]
  apply Finset.sum_congr rfl
  intro j _
  rw [triple_eq_mat n m B Di C ⟨i, hi⟩ j]


/-- Without a last-frame shell: a solution of the system after the block moves
gives a solution of `(HM, bM)`, for an `inverse` that gives a left inverse of the
eliminated block. -/
theorem marginalize_false_eliminates (inverse : Nat → (Nat → Nat → ℚ) → Nat → Nat → ℚ)
    (H : Nat → Nat → ℚ) (b z : Nat → ℚ)
    (hinv : ∀ k l, k < 9 → l < 9 →
      ∑ t in Finset.range 9, inverse 9 (readBlock (moveBlocks28 H b).1 19 19) k t
        * (moveBlocks28 H b).1 (19 + t) (19 + l) = if k = l then 1 else 0)
    (hz : ∀ r, r < 28 →
      ∑ c in Finset.range 28, (moveBlocks28 H b).1 r c * z c = (moveBlocks28 H b).2 r)
    (i : Nat) (hi : i < 19) :
    ∑ j in Finset.range 19, (marginalize inverse false H b).1 i j * z j
      = (marginalize inverse false H b).2 i := by
  have key := schur_eliminates 19 9 (moveBlocks28 H b).1 (readBlock (moveBlocks28 H b).1 0 19)
    (readBlock (moveBlocks28 H b).1 19 0) (readBlock (moveBlocks28 H b).1 19 19)
    (inverse 9 (readBlock (moveBlocks28 H b).1 19 19)) (moveBlocks28 H b).2
    (readSegment (moveBlocks28 H b).2 19) z (readSegment z 19) hinv
    (by
      intro r hr
      have h := hz r (by omega)
      rw [show (28 : Nat) = 19 + 9 from rfl, Finset.sum_range_add] at h
      simpa [readBlock, readSegment] using h)
    (by
      intro l hl
      have h := hz (19 + l) (by omega)
      rw [show (28 : Nat) = 19 + 9 from rfl, Finset.sum_range_add] at h
      simpa [readBlock, readSegment] using h)
    i hi
  simp only [marginalize, if_true]
  rw [if_pos hi, ← key]
  apply Finset.sum_congr rfl
  intro j hj
  rw [Finset.mem_range] at hj
  rw [if_pos ⟨hi, hj⟩]

/-- With a last-frame shell: a solution of the system gives a solution of
`(HM, bM)` in its last 19 components, for an `inverse` that gives a left inverse of
the eliminated block. -/
theorem marginalize_true_eliminates (inverse : Nat → (Nat → Nat → ℚ) → Nat → Nat → ℚ)
    (H : Nat → Nat → ℚ) (b z : Nat → ℚ)
    (hinv : ∀ k l, k < 19 → l < 19 →
      ∑ t in Finset.range 19, inverse 19 (readBlock H 0 0) k t * H t l
        = if k = l then 1 else 0)
    (hz : ∀ r, r < 38 → ∑ c in Finset.range 38, H r c * z c = b r)
    (i : Nat) (hi : i < 19) :
    ∑ j in Finset.range 19, (marginalize inverse true H b).1 i j * z (19 + j)
      = (marginalize inverse true H b).2 i := by
  have key := schur_eliminates 19 19 (readBlock H 19 19) (readBlock H 19 0)
    (readBlock H 0 19) (readBlock H 0 0)
    (inverse 19 (readBlock H 0 0)) (readSegment b 19)
    (readSegment b 0) (readSegment z 19) z
    (by
      intro k l hk hl
      simpa [readBlock] using hinv k l hk hl)
    (by
      intro r hr
      have h := hz (19 + r) (by omega)
      rw [show (38 : Nat) = 19 + 19 from rfl, Finset.sum_range_add] at h
      rw [add_comm] at h
      simpa [readBlock, readSegment] using h)
    (by
      intro l hl
      have h := hz l (by omega)
      rw [show (38 : Nat) = 19 + 19 from rfl, Finset.sum_range_add] at h
      rw [add_comm] at h
      simpa [readBlock, readSegment] using h)
    i hi
  simp only [marginalize, Bool.true_eq_false, if_false]
  rw [if_pos hi, ← key]
  apply Finset.sum_congr rfl
  intro j hj
  rw [Finset.mem_range] at hj
  rw [if_pos ⟨hi, hj⟩]
  rfl


/-- **C31.** The members `HM`, `bM` after the inertial part are `marginalize` of the `H`, `b`
that the last iteration left (`H` after its damping).  Without a last-frame
shell: on a symmetric 28 x 28 `H` the block moves give `H(s i, s j)` and `b(s i)`, `s`
exchanging the index ranges 10..18 and 19..27; then
`HM(i, j) = H'(i, j) - sum_k sum_l H'(i, 19 + k) * Dinv(k, l) * H'(19 + l, j)` with `Dinv` the
inverse of the block of `H'` at 19..27, `bM` alike: the last 9 variables are
eliminated, and a solution of `(H', b')` solves `(HM, bM)` in its first 19 components
when `Dinv` is a left inverse.  With a last-frame shell
`HM(i, j) = H(19 + i, 19 + j) - sum_k sum_l H(19 + i, k) * Dinv(k, l) * H(l, 19 + j)` with `Dinv` the
inverse of the block at 0..18, `bM` alike: the first 19 variables are eliminated,
and a solution of `(H, b)` solves `(HM, bM)` in its last 19 components.  If `H` is
symmetric then `HM` is symmetric, for an `inverse` that is symmetric on symmetric
matrices. -/
theorem marginalize_schur (inverse : Nat → (Nat → Nat → ℚ) → Nat → Nat → ℚ)
    (H : Nat → Nat → ℚ) (b : Nat → ℚ) :
    (∀ (K : InertialKernel) (E : SolverEnv) (l : Bool) (HM : Nat → Nat → ℚ) (bM : Nat → ℚ)
        (s : InertialState),
      K.inertialPrior E inverse l HM bM s
        = (K.inertialLoop E l HM bM s).map (fun s1 => marginalize inverse l s1.H s1.b))
    ∧ ((∀ i j, i < 28 → j < 28 → H i j = H j i) →
        ∀ i j, i < 28 → j < 28 → (moveBlocks28 H b).1 i j = H (swapSb i) (swapSb j))
    ∧ (∀ i, (moveBlocks28 H b).2 i = b (swapSb i))
    ∧ (∀ i j, i < 19 → j < 19 →
        (marginalize inverse false H b).1 i j
          = (moveBlocks28 H b).1 i j
            - ∑ k in Finset.range 9, ∑ l in Finset.range 9,
                (moveBlocks28 H b).1 i (19 + k)
                  * inverse 9 (readBlock (moveBlocks28 H b).1 19 19) k l
                  * (moveBlocks28 H b).1 (19 + l) j)
    ∧ (∀ i, i < 19 →
        (marginalize inverse false H b).2 i
          = (moveBlocks28 H b).2 i
            - ∑ k in Finset.range 9, ∑ l in Finset.range 9,
                (moveBlocks28 H b).1 i (19 + k)
                  * inverse 9 (readBlock (moveBlocks28 H b).1 19 19) k l
                  * (moveBlocks28 H b).2 (19 + l))
    ∧ (∀ i j, i < 19 → j < 19 →
        (marginalize inverse true H b).1 i j
          = H (19 + i) (19 + j)
            - ∑ k in Finset.range 19, ∑ l in Finset.range 19,
                H (19 + i) k * inverse 19 (readBlock H 0 0) k l * H l (19 + j))
    ∧ (∀ i, i < 19 →
        (marginalize inverse true H b).2 i
          = b (19 + i)
            - ∑ k in Finset.range 19, ∑ l in Finset.range 19,
                H (19 + i) k * inverse 19 (readBlock H 0 0) k l * b l)
    ∧ (∀ z : Nat → ℚ,
        (∀ k l, k < 9 → l < 9 →
          ∑ t in Finset.range 9, inverse 9 (readBlock (moveBlocks28 H b).1 19 19) k t
            * (moveBlocks28 H b).1 (19 + t) (19 + l) = if k = l then 1 else 0) →
        (∀ r, r < 28 →
          ∑ c in Finset.range 28, (moveBlocks28 H b).1 r c * z c = (moveBlocks28 H b).2 r) →
        ∀ i, i < 19 →
          ∑ j in Finset.range 19, (marginalize inverse false H b).1 i j * z j
            = (marginalize inverse false H b).2 i)
    ∧ (∀ z : Nat → ℚ,
        (∀ k l, k < 19 → l < 19 →
          ∑ t in Finset.range 19, inverse 19 (readBlock H 0 0) k t * H t l
            = if k = l then 1 else 0) →
        (∀ r, r < 38 → ∑ c in Finset.range 38, H r c * z c = b r) →
        ∀ i, i < 19 →
          ∑ j in Finset.range 19, (marginalize inverse true H b).1 i j * z (19 + j)
            = (marginalize inverse true H b).2 i)
    ∧ ((∀ m M, (∀ k l, k < m → l < m → M k l = M l k) →
          ∀ k l, k < m → l < m → inverse m M k l = inverse m M l k) →
        ∀ l : Bool, (∀ i j, i < inertialSize l → j < inertialSize l → H i j = H j i) →
          ∀ i j, (marginalize inverse l H b).1 i j = (marginalize inverse l H b).1 j i) := by
  refine ⟨fun K E l HM bM s => rfl, fun hs i j hi hj => moveBlocks28_H H b hs i j hi hj,
    fun i => moveBlocks28_b H b i, fun i j hi hj => ?_, fun i hi => ?_, fun i j hi hj => ?_,
    fun i hi => ?_, fun z h1 h2 i hi => marginalize_false_eliminates inverse H b z h1 h2 i hi,
    fun z h1 h2 i hi => marginalize_true_eliminates inverse H b z h1 h2 i hi,
    fun hinv l hs i j => marginalize_symm inverse hinv l H b hs i j⟩
  · simp only [marginalize, if_true]
    rw [if_pos ⟨hi, hj⟩]
    simp only [triple, readBlock, Nat.zero_add]
  · simp only [marginalize, if_true]
    rw [if_pos hi]
    simp only [tripleVec, readBlock, readSegment, Nat.zero_add]
  · simp only [marginalize, Bool.true_eq_false, if_false]
    rw [if_pos ⟨hi, hj⟩]
    simp only [triple, readBlock, Nat.zero_add]
  · simp only [marginalize, Bool.true_eq_false, if_false]
    rw [if_pos hi]
    simp only [tripleVec, readBlock, readSegment, Nat.zero_add]

set_option maxRecDepth 100000 in
/-- The marginalisation of the sample systems with the inverse of a diagonal
block: without a shell (new pose at 0, eliminated variable at 10, which the
block moves bring to 19) and with one (new pose at 19, eliminated variable at 0)
the entry `HM(0, 0)` is `3 - 1 * (1 / 2) * 1 = 5/2` and `bM(0)` is `1 - 1 * (1 / 2) * 4 = -1`. -/
theorem marginalize_sample :
    (moveBlocks28 (sampleSystem 0 10).1 (sampleSystem 0 10).2).1 0 19 = 1
    ∧ (moveBlocks28 (sampleSystem 0 10).1 (sampleSystem 0 10).2).2 19 = 4
    ∧ (marginalize inverseDiag false (sampleSystem 0 10).1 (sampleSystem 0 10).2).1 0 0 = 5 / 2
    ∧ (marginalize inverseDiag false (sampleSystem 0 10).1 (sampleSystem 0 10).2).1 1 1 = 2
    ∧ (marginalize inverseDiag false (sampleSystem 0 10).1 (sampleSystem 0 10).2).2 0 = -1
    ∧ (marginalize inverseDiag true (sampleSystem 19 0).1 (sampleSystem 19 0).2).1 0 0 = 5 / 2
    ∧ (marginalize inverseDiag true (sampleSystem 19 0).1 (sampleSystem 19 0).2).1 1 1 = 2
    ∧ (marginalize inverseDiag true (sampleSystem 19 0).1 (sampleSystem 19 0).2).2 0 = -1 := by
  decide!


/-! ## Pre-integration: the saturation tests -/

set_option maxHeartbeats 4000000 in
/-- Apart from the records of the steps, an iteration of the sample loop
depends neither on the noise parameters nor on the records made so far. -/
theorem preintBody_core_step (L : IMULib) (v : PreintVariant) (imuData : List IMUMeasurement)
    (junk : IMUMeasurement) (sb : SpeedAndBias) (p p2 : IMUParameters) (s : PreintLoop)
    (k : Nat) :
    (preintBody L v imuData junk sb p s k).core
      = (preintBody L v imuData junk sb p2 s.core k).core := by
  unfold preintBody PreintLoop.core
  dsimp only
  split_ifs <;> rfl

theorem preintBody_core (L : IMULib) (v : PreintVariant) (imuData : List IMUMeasurement)
    (junk : IMUMeasurement) (sb : SpeedAndBias) (p p2 : IMUParameters) (s s2 : PreintLoop)
    (k : Nat) (h : s.core = s2.core) :
    (preintBody L v imuData junk sb p s k).core
      = (preintBody L v imuData junk sb p2 s2 k).core := by
  rw [preintBody_core_step L v imuData junk sb p p2 s k,
    preintBody_core_step L v imuData junk sb p2 p2 s2 k, h]

theorem preintFold_core (L : IMULib) (v : PreintVariant) (imuData : List IMUMeasurement)
    (junk : IMUMeasurement) (sb : SpeedAndBias) (p p2 : IMUParameters) (ks : List Nat)
    (s s2 : PreintLoop) (h : s.core = s2.core) :
    (ks.foldl (preintBody L v imuData junk sb p) s).core
      = (ks.foldl (preintBody L v imuData junk sb p2) s2).core := by
  induction ks generalizing s s2 with
  | nil => exact h
  | cons k ks ih => exact ih _ _ (preintBody_core L v imuData junk sb p p2 s s2 k h)

/-- The members and the counter that the sample loop leaves depend on the noise
parameters only through `sigma_gw_c` and `sigma_aw_c`. -/
theorem preintLoop_core (L : IMULib) (v : PreintVariant) (imuData : List IMUMeasurement)
    (junk : IMUMeasurement) (sb : SpeedAndBias) (p p2 : IMUParameters) (st : PreintState)
    (hgw : p.sigma_gw_c = p2.sigma_gw_c) (haw : p.sigma_aw_c = p2.sigma_aw_c) :
    (preintLoop L v imuData junk sb p (preintReset p st)).st
        = (preintLoop L v imuData junk sb p2 (preintReset p2 st)).st
    ∧ (preintLoop L v imuData junk sb p (preintReset p st)).i
        = (preintLoop L v imuData junk sb p2 (preintReset p2 st)).i
    ∧ (preintLoop L v imuData junk sb p (preintReset p st)).visited
        = (preintLoop L v imuData junk sb p2 (preintReset p2 st)).visited := by
  have e : preintReset p st = preintReset p2 st := by
    unfold preintReset sigmaEtaAssign
    rw [hgw, haw]
  have h := preintFold_core L v imuData junk sb p p2 (List.range imuData.length)
    (preintEntry (preintReset p st)) (preintEntry (preintReset p2 st)) (by rw [e])
  have h2 : (preintLoop L v imuData junk sb p (preintReset p st)).core
      = (preintLoop L v imuData junk sb p2 (preintReset p2 st)).core := h
  simp only [PreintLoop.core, PreintLoop.mk.injEq] at h2
  exact ⟨h2.1, h2.2.2.2.2.1, h2.2.2.2.2.2.2.2⟩

/-- The members that a call of the shared body leaves, and the returned
value, depend on the noise parameters only through `sigma_gw_c` and `sigma_aw_c`. -/
theorem redoPreintegrationCore_noise (L : IMULib) (v : PreintVariant)
    (imuData : List IMUMeasurement) (junk : IMUMeasurement) (sb : SpeedAndBias)
    (p p2 : IMUParameters) (st : PreintState)
    (hgw : p.sigma_gw_c = p2.sigma_gw_c) (haw : p.sigma_aw_c = p2.sigma_aw_c) :
    (redoPreintegrationCore L v imuData junk sb p st).map (fun r => (r.ret, r.state))
      = (redoPreintegrationCore L v imuData junk sb p2 st).map (fun r => (r.ret, r.state)) := by
  obtain ⟨h1, h2, _⟩ := preintLoop_core L v imuData junk sb p p2 st hgw haw
  unfold redoPreintegrationCore
  split
  · split_ifs
    all_goals first
      | rfl
      | simp only [Option.map_some', h1, h2]
  · rfl


set_option maxRecDepth 100000 in
/-- **C32.** Pre-integration over the window `[0, 1]` of two samples at 0 and 1 with
acceleration `(200, 0, 0)`, above `a_max = 176`: in the one step the local
`sigma_a_c` is `100 * 0.008 = 0.8`, and the entry `(12, 12)` of the resulting
`Sigma_ij_` is `1/100 = dt^2 * sigma_aw_c^2`, as with `a_max = 1000`, where no
component is above the bound and the local stays `0.008`; with rates
`(10, 0, 0)`, above `g_max = 8`, the local `sigma_g_c` is `100 * 0.012 = 1.2` in
`IMUResidual` as well.  For every input, both routines return the same value
and leave the same members whatever `g_max`, `a_max`, `sigma_g_c` and
`sigma_a_c` are. -/
theorem saturation_noise_unused :
    (CoarseTracker.redoPreintegration IMULib.sample
        [IMUMeasurement.accAt 0 200, IMUMeasurement.accAt 1 200] (IMUMeasurement.zeroAt 0)
        SE3.identity SE3.identity (SpeedAndBias.ofSpeed 0) IMUParameters.sample
        PreintState.stale).map (fun r => r.steps.map (fun s => (s.dt, s.sigma_a_c)))
      = some [(1, 4 / 5)]
    ∧ (CoarseTracker.redoPreintegration IMULib.sample
        [IMUMeasurement.accAt 0 200, IMUMeasurement.accAt 1 200] (IMUMeasurement.zeroAt 0)
        SE3.identity SE3.identity (SpeedAndBias.ofSpeed 0)
        { IMUParameters.sample with a_max := 1000 }
        PreintState.stale).map (fun r => r.steps.map (fun s => (s.dt, s.sigma_a_c)))
      = some [(1, 1 / 125)]
    ∧ (CoarseTracker.redoPreintegration IMULib.sample
        [IMUMeasurement.accAt 0 200, IMUMeasurement.accAt 1 200] (IMUMeasurement.zeroAt 0)
        SE3.identity SE3.identity (SpeedAndBias.ofSpeed 0) IMUParameters.sample
        PreintState.stale).map (fun r => r.state.Sigma_ij_ 12 12) = some (1 / 100)
    ∧ (CoarseTracker.redoPreintegration IMULib.sample
        [IMUMeasurement.accAt 0 200, IMUMeasurement.accAt 1 200] (IMUMeasurement.zeroAt 0)
        SE3.identity SE3.identity (SpeedAndBias.ofSpeed 0)
        { IMUParameters.sample with a_max := 1000 }
        PreintState.stale).map (fun r => r.state.Sigma_ij_ 12 12) = some (1 / 100)
    ∧ (IMUResidual.redoPreintegration IMULib.sample
        [IMUMeasurement.gyrAt 0 10, IMUMeasurement.gyrAt 1 10]
        (IMUMeasurement.zeroAt 0) SE3.identity (SpeedAndBias.ofSpeed 0) IMUParameters.sample
        PreintState.stale).map (fun r => r.steps.map (fun s => s.sigma_g_c))
      = some [6 / 5]
    ∧ (∀ (L : IMULib) (imuData : List IMUMeasurement) (junk : IMUMeasurement)
        (T_WS_0 T_WS_1 : SE3) (sb : SpeedAndBias) (p : IMUParameters) (st : PreintState)
        (g a sg sa : ℚ),
        (CoarseTracker.redoPreintegration L imuData junk T_WS_0 T_WS_1 sb
            { p with g_max := g, a_max := a, sigma_g_c := sg, sigma_a_c := sa } st).map
          (fun r => (r.ret, r.state))
        = (CoarseTracker.redoPreintegration L imuData junk T_WS_0 T_WS_1 sb p st).map
          (fun r => (r.ret, r.state))
        ∧ (IMUResidual.redoPreintegration L imuData junk T_WS_0 sb
            { p with g_max := g, a_max := a, sigma_g_c := sg, sigma_a_c := sa } st).map
          (fun r => (r.ret, r.state))
        = (IMUResidual.redoPreintegration L imuData junk T_WS_0 sb p st).map
          (fun r => (r.ret, r.state))) := by
  refine ⟨by decide!, by decide!, by decide!, by decide!, by decide!, ?_⟩
  intro L imuData junk T_WS_0 T_WS_1 sb p st g a sg sa
  exact ⟨redoPreintegrationCore_noise L _ imuData junk sb _ p st rfl rfl,
    redoPreintegrationCore_noise L _ imuData junk sb _ p st rfl rfl⟩

/-! ## The redo test of the inertial residual -/

/-- The members after `getIMUHessian`: pre-integration is re-done when the
flag is set or the norm of `speedAndBias_1 - speedAndBias_ref_` restricted to
its first three entries, times the window length, exceeds `1e-4`. -/
theorem getIMUHessian_state (L : IMULib) (w : ℚ) (p : IMUParameters) (lastRefRot : Mat3)
    (vIMUData : List IMUMeasurement) (junk : IMUMeasurement) (T_SW_0 T_SW_1 : SE3)
    (sb0 sb1 : SpeedAndBias) (st : PreintState) :
    (getIMUHessian L w p lastRefRot vIMUData junk T_SW_0 T_SW_1 sb0 sb1 st).map Prod.snd
      = if st.redoPropagation_ = true
            ∨ L.norm ((sb1 - st.speedAndBias_ref_).segment3 0) * (st.t1_ - st.t0_) > 1 / 10000
        then (redoPreintegration L vIMUData junk (L.se3Inverse T_SW_0) (L.se3Inverse T_SW_1)
                sb0 p st).map (fun r => { r.state with redoPropagation_ := false })
        else some st := by
  unfold getIMUHessian PreintState.redoIf
  simp only [Option.map_map, Bool.or_eq_true, decide_eq_true_eq]
  split_ifs
  · cases redoPreintegration L vIMUData junk (L.se3Inverse T_SW_0) (L.se3Inverse T_SW_1)
      sb0 p st <;> rfl
  · rfl

/-- The members and the counter after `linearize`: pre-integration is re-done
when the flag is set or the norm of the gyro-bias part of
`speedAndBiases_0 - speedAndBias_ref_`, times the window length, exceeds
`1e-4`. -/
theorem linearize_state (L : IMULib) (w : ℚ) (p : IMUParameters)
    (imuData : List IMUMeasurement) (junk : IMUMeasurement) (T0 T1 : SE3)
    (sb0 sb1 : SpeedAndBias) (n : Nat) (st : PreintState) :
    (IMUResidual.linearize L w p imuData junk T0 T1 sb0 sb1 n st).map
        (fun r => (r.st, r.redoCounter_))
      = if st.redoPropagation_ = true
            ∨ L.norm ((sb0 - st.speedAndBias_ref_).segment3 3) * (st.t1_ - st.t0_) > 1 / 10000
        then (IMUResidual.redoPreintegration L imuData junk (L.se3Inverse T0) sb0 p st).map
                (fun r => ({ r.state with redoPropagation_ := false }, n + 1))
        else some (st, n) := by
  unfold IMUResidual.linearize PreintState.redoIf
  simp only [Option.map_map, Bool.or_eq_true, decide_eq_true_eq]
  have e : (fun k : Fin 3 => (sb0.tail6 - st.speedAndBias_ref_.tail6) ⟨k.val, by omega⟩)
      = (sb0 - st.speedAndBias_ref_).segment3 3 := by
    funext k
    simp only [SpeedAndBias.tail6, SpeedAndBias.segment3, Pi.sub_apply]
    rfl
  rw [e]
  split_ifs with h
  · cases IMUResidual.redoPreintegration L imuData junk (L.se3Inverse T0) sb0 p st with
    | none => rfl
    | some r => simp [h]
  · simp [h]

set_option maxRecDepth 100000 in
/-- **C33.** The redo test of `getIMUHessian` reads the first three entries of
`speedAndBias_1 - speedAndBias_ref_`, the velocity of the second frame against
the velocity of the linearisation point, where `IMUResidual::linearize` reads
the gyro-bias entries of `speedAndBiases_0 - speedAndBias_ref_`.  On members
with no redo requested, window `[0, 1]`, linearisation point 0,
`Delta_tilde_v_ij_ = (5, 0, 0)` and `d_v_d_bg_` the identity: with a gyro bias
`(1, 0, 0)` in the first frame and equal velocities, `getIMUHessian` keeps the
old members (`Delta_tilde_v_ij_` stays 5, the linearisation point stays 0)
while `linearize` re-does the pre-integration; with zero biases and velocity
`(1, 0, 0)` in the second frame, `getIMUHessian` re-does the pre-integration
and `linearize` does not; with zero biases and velocity `(1/10000, 0, 0)` in
the second frame neither re-does it, and `getIMUHessian` subtracts that
velocity through `d_v_d_bg_` (velocity residual `-5`) where `linearize`
subtracts nothing (`1/10000 - 5`). -/
theorem imuHessian_redo_reads_velocity :
    (∀ (L : IMULib) (w : ℚ) (p : IMUParameters) (lastRefRot : Mat3)
        (vIMUData : List IMUMeasurement) (junk : IMUMeasurement) (T_SW_0 T_SW_1 : SE3)
        (sb0 sb1 : SpeedAndBias) (st : PreintState),
      (getIMUHessian L w p lastRefRot vIMUData junk T_SW_0 T_SW_1 sb0 sb1 st).map Prod.snd
        = if st.redoPropagation_ = true
              ∨ L.norm ((sb1 - st.speedAndBias_ref_).segment3 0) * (st.t1_ - st.t0_)
                  > 1 / 10000
          then (redoPreintegration L vIMUData junk (L.se3Inverse T_SW_0) (L.se3Inverse T_SW_1)
                  sb0 p st).map (fun r => { r.state with redoPropagation_ := false })
          else some st)
    ∧ (∀ (L : IMULib) (w : ℚ) (p : IMUParameters) (imuData : List IMUMeasurement)
        (junk : IMUMeasurement) (T0 T1 : SE3) (sb0 sb1 : SpeedAndBias) (n : Nat)
        (st : PreintState),
      (IMUResidual.linearize L w p imuData junk T0 T1 sb0 sb1 n st).map
          (fun r => (r.st, r.redoCounter_))
        = if st.redoPropagation_ = true
              ∨ L.norm ((sb0 - st.speedAndBias_ref_).segment3 3) * (st.t1_ - st.t0_)
                  > 1 / 10000
          then (IMUResidual.redoPreintegration L imuData junk (L.se3Inverse T0) sb0 p st).map
                  (fun r => ({ r.state with redoPropagation_ := false }, n + 1))
          else some (st, n))
    ∧ (getIMUHessian IMULib.sample 1 IMUParameters.sample 1 IMUMeasurement.zeroRun
        (IMUMeasurement.zeroAt 0) SE3.identity SE3.identity
        (SpeedAndBias.ofGyroBias 1) (SpeedAndBias.ofSpeed 0) PreintState.settled).map
          (fun r => (r.1.res 6, r.2.Delta_tilde_v_ij_ 0, r.2.speedAndBias_ref_ 3))
      = some (-5, 5, 0)
    ∧ (IMUResidual.linearize IMULib.sample 1 IMUParameters.sample IMUMeasurement.zeroRun
        (IMUMeasurement.zeroAt 0) SE3.identity SE3.identity
        (SpeedAndBias.ofGyroBias 1) (SpeedAndBias.ofSpeed 0) 0 PreintState.settled).map
          (fun r => (r.st.Delta_tilde_v_ij_ 0, r.st.speedAndBias_ref_ 3, r.redoCounter_))
      = some (0, 1, 1)
    ∧ (getIMUHessian IMULib.sample 1 IMUParameters.sample 1 IMUMeasurement.zeroRun
        (IMUMeasurement.zeroAt 0) SE3.identity SE3.identity
        (SpeedAndBias.ofSpeed 0) (SpeedAndBias.ofSpeed 1) PreintState.settled).map
          (fun r => (r.2.Delta_tilde_v_ij_ 0, r.2.d_v_d_bg_ 0 0))
      = some (0, 0)
    ∧ (IMUResidual.linearize IMULib.sample 1 IMUParameters.sample IMUMeasurement.zeroRun
        (IMUMeasurement.zeroAt 0) SE3.identity SE3.identity
        (SpeedAndBias.ofSpeed 0) (SpeedAndBias.ofSpeed 1) 0 PreintState.settled).map
          (fun r => (r.J.res 6, r.st.Delta_tilde_v_ij_ 0, r.redoCounter_))
      = some (-4, 5, 0)
    ∧ (getIMUHessian IMULib.sample 1 IMUParameters.sample 1 IMUMeasurement.zeroRun
        (IMUMeasurement.zeroAt 0) SE3.identity SE3.identity
        (SpeedAndBias.ofSpeed 0) (SpeedAndBias.ofSpeed (1 / 10000)) PreintState.settled).map
          (fun r => (r.1.res 6, r.2.Delta_tilde_v_ij_ 0))
      = some (-5, 5)
    ∧ (IMUResidual.linearize IMULib.sample 1 IMUParameters.sample IMUMeasurement.zeroRun
        (IMUMeasurement.zeroAt 0) SE3.identity SE3.identity
        (SpeedAndBias.ofSpeed 0) (SpeedAndBias.ofSpeed (1 / 10000)) 0 PreintState.settled).map
          (fun r => (r.J.res 6, r.st.Delta_tilde_v_ij_ 0, r.redoCounter_))
      = some (-49999 / 10000, 5, 0) := by
  refine ⟨?_, ?_, ?_⟩
  · intro L w p lastRefRot vIMUData junk T_SW_0 T_SW_1 sb0 sb1 st
    exact getIMUHessian_state L w p lastRefRot vIMUData junk T_SW_0 T_SW_1 sb0 sb1 st
  · intro L w p imuData junk T0 T1 sb0 sb1 n st
    exact linearize_state L w p imuData junk T0 T1 sb0 sb1 n st
  · decide!

/-! ## The walk of the pre-integration loop through the samples -/

set_option maxHeartbeats 4000000 in
theorem preintBody_skip (L : IMULib) (v : PreintVariant) (imuData : List IMUMeasurement)
    (junk : IMUMeasurement) (sb : SpeedAndBias) (ip : IMUParameters) (s : PreintLoop) (k : Nat)
    (hd : s.done = false) (hdt : preintNexttime imuData junk s.st.t1_ k - s.time ≤ 0) :
    preintBody L v imuData junk sb ip s k = { s with visited := s.visited ++ [k] } := by
  unfold preintNexttime at hdt
  unfold preintBody
  dsimp only at hdt ⊢
  rw [if_neg (by simp [hd])]
  simp only [decide_eq_true_eq]
  rw [if_pos hdt]

set_option maxHeartbeats 4000000 in
theorem preintBody_step (L : IMULib) (T0 T1 : SE3) (imuData : List IMUMeasurement)
    (junk : IMUMeasurement) (sb : SpeedAndBias) (ip : IMUParameters) (s : PreintLoop) (k : Nat)
    (hd : s.done = false) (hdt : 0 < preintNexttime imuData junk s.st.t1_ k - s.time) :
    (preintBody L (.coarseTracker T0 T1) imuData junk sb ip s k).time
        = preintNexttime imuData junk s.st.t1_ k
    ∧ (preintBody L (.coarseTracker T0 T1) imuData junk sb ip s k).Delta_t
        = s.Delta_t + (preintNexttime imuData junk s.st.t1_ k - s.time)
    ∧ (preintBody L (.coarseTracker T0 T1) imuData junk sb ip s k).done
        = decide (preintNexttime imuData junk s.st.t1_ k = s.st.t1_)
    ∧ (preintBody L (.coarseTracker T0 T1) imuData junk sb ip s k).visited = s.visited ++ [k]
    ∧ (preintBody L (.coarseTracker T0 T1) imuData junk sb ip s k).st.t0_ = s.st.t0_
    ∧ (preintBody L (.coarseTracker T0 T1) imuData junk sb ip s k).st.t1_ = s.st.t1_
    ∧ ∃ sg sa, (preintBody L (.coarseTracker T0 T1) imuData junk sb ip s k).steps
        = s.steps ++ [{ k := k, time := s.time
                        nexttime := preintNexttime imuData junk s.st.t1_ k
                        dt := preintNexttime imuData junk s.st.t1_ k - s.time
                        sigma_g_c := sg, sigma_a_c := sa }] := by
  unfold preintNexttime at hdt ⊢
  unfold preintBody
  dsimp only at hdt ⊢
  rw [if_neg (by simp [hd])]
  simp only [decide_eq_true_eq]
  rw [if_neg (not_le.mpr hdt)]
  refine ⟨rfl, rfl, rfl, rfl, rfl, rfl, _, _, rfl⟩

theorem preintBody_done (L : IMULib) (v : PreintVariant) (imuData : List IMUMeasurement)
    (junk : IMUMeasurement) (sb : SpeedAndBias) (ip : IMUParameters) (s : PreintLoop) (k : Nat)
    (hd : s.done = true) :
    preintBody L v imuData junk sb ip s k = s := by
  unfold preintBody
  rw [if_pos hd]

theorem preintNexttime_le (imuData : List IMUMeasurement) (junk : IMUMeasurement) (t1 : ℚ)
    (k : Nat) : preintNexttime imuData junk t1 k ≤ t1 := by
  unfold preintNexttime
  dsimp only
  split_ifs with h1 h2 h3
  · exact le_refl _
  · exact le_refl _
  · exact le_refl _
  · exact not_lt.mp h3

theorem preintNexttime_last (imuData : List IMUMeasurement) (junk back : IMUMeasurement)
    (t1 : ℚ) (k : Nat) (hk : k + 2 = imuData.length) (hback : imuData.getLast? = some back)
    (h1 : t1 ≤ back.timestamp) : preintNexttime imuData junk t1 k = t1 := by
  have e : imuData.getD (k + 1) junk = back := by
    rw [List.getLast?_eq_getElem?] at hback
    have : imuData.length - 1 = k + 1 := by omega
    rw [this] at hback
    rw [List.getD_eq_getElem?_getD, hback]
    rfl
  have hne : ¬ k + 1 = imuData.length := by omega
  unfold preintNexttime
  dsimp only
  rw [if_neg hne, e]
  by_cases h : t1 < back.timestamp
  · rw [if_pos h]
  · rw [if_neg h]
    exact le_antisymm (not_lt.mp h) h1

theorem preintEntry_walked (n : Nat) (ip : IMUParameters) (st : PreintState)
    (h01 : st.t0_ < st.t1_) :
    PreintLoop.Walked n st.t0_ st.t1_ (preintEntry (preintReset ip st)) where
  ht1 := rfl
  open_lt := fun _ => h01
  closed := fun h => by simp [preintEntry] at h
  dt_pos := fun p hp => by simp [preintEntry] at hp
  chain := by simp [preintEntry]
  first := fun p hp => by simp [preintEntry] at hp
  last := fun p hp => by simp [preintEntry] at hp
  empty := fun _ => rfl
  total := by simp [preintEntry, preintReset]
  delta := by simp [preintEntry, preintReset]
  visited := fun k hk => by simp [preintEntry] at hk

theorem preintBody_walked (L : IMULib) (T0 T1 : SE3) (imuData : List IMUMeasurement)
    (junk : IMUMeasurement) (sb : SpeedAndBias) (ip : IMUParameters) (t0 t1 : ℚ)
    (s : PreintLoop) (k : Nat) (hk : k + 1 < imuData.length)
    (h : PreintLoop.Walked imuData.length t0 t1 s) :
    PreintLoop.Walked imuData.length t0 t1
      (preintBody L (.coarseTracker T0 T1) imuData junk sb ip s k) := by
  cases hd : s.done with
  | true => rw [preintBody_done L _ imuData junk sb ip s k hd]; exact h
  | false =>
    have hnt := preintNexttime_le imuData junk s.st.t1_ k
    rw [h.ht1] at hnt
    by_cases hdt : preintNexttime imuData junk s.st.t1_ k - s.time ≤ 0
    · rw [preintBody_skip L _ imuData junk sb ip s k hd hdt]
      exact
        { ht1 := h.ht1, open_lt := h.open_lt, closed := h.closed, dt_pos := h.dt_pos
          chain := h.chain, first := h.first, last := h.last, empty := h.empty
          total := h.total, delta := h.delta
          visited := fun j hj => by
            rcases List.mem_append.mp hj with hj | hj
            · exact h.visited j hj
            · rw [List.mem_singleton.mp hj]; exact hk }
    · have hpos : 0 < preintNexttime imuData junk s.st.t1_ k - s.time := not_le.mp hdt
      obtain ⟨e1, e2, e3, e4, _, e6, sg, sa, e7⟩ :=
        preintBody_step L T0 T1 imuData junk sb ip s k hd hpos
      rw [h.ht1] at e1 e2 e3 e7 hpos
      refine
        { ht1 := e6.trans h.ht1, open_lt := ?_, closed := ?_, dt_pos := ?_
          chain := ?_, first := ?_, last := ?_, empty := ?_
          total := ?_, delta := ?_, visited := ?_ }
      · intro hdone
        rw [e3] at hdone
        rw [e1]
        exact lt_of_le_of_ne hnt (of_decide_eq_false hdone)
      · intro hdone
        rw [e3] at hdone
        rw [e1]
        exact of_decide_eq_true hdone
      · intro p hp
        rw [e7] at hp
        rcases List.mem_append.mp hp with hp | hp
        · exact h.dt_pos p hp
        · rw [List.mem_singleton.mp hp]
          exact ⟨hpos, rfl, hk⟩
      · rw [e7]
        apply List.Chain'.append h.chain (List.chain'_singleton _)
        intro a ha b hb
        simp only [List.head?_cons, Option.mem_def, Option.some.injEq] at hb
        rw [← hb]
        exact (h.last a ha).symm
      · intro p hp
        rw [e7] at hp
        cases hs : s.steps with
        | nil =>
          rw [hs] at hp
          simp only [List.nil_append, List.head?_cons, Option.some.injEq] at hp
          rw [← hp]
          exact h.empty hs
        | cons a t =>
          rw [hs] at hp
          simp only [List.cons_append, List.head?_cons, Option.some.injEq] at hp
          exact h.first p (by rw [hs, ← hp]; rfl)
      · intro p hp
        rw [e7] at hp
        simp only [List.getLast?_append, List.getLast?_singleton, Option.or_some,
          Option.some.injEq] at hp
        rw [← hp, e1]
      · intro hnil
        rw [e7] at hnil
        simp at hnil
      · rw [e7, e1]
        simp only [List.map_append, List.sum_append, List.map_cons, List.map_nil, List.sum_cons,
          List.sum_nil, h.total]
        ring
      · rw [e2, e1, h.delta]
        ring
      · intro j hj
        rw [e4] at hj
        rcases List.mem_append.mp hj with hj | hj
        · exact h.visited j hj
        · rw [List.mem_singleton.mp hj]; exact hk

theorem preintFold_walked (L : IMULib) (T0 T1 : SE3) (imuData : List IMUMeasurement)
    (junk : IMUMeasurement) (sb : SpeedAndBias) (ip : IMUParameters) (t0 t1 : ℚ)
    (s : PreintLoop) (h : PreintLoop.Walked imuData.length t0 t1 s) (m : Nat)
    (hm : m + 1 ≤ imuData.length) :
    PreintLoop.Walked imuData.length t0 t1
      ((List.range m).foldl (preintBody L (.coarseTracker T0 T1) imuData junk sb ip) s) := by
  induction m with
  | zero => exact h
  | succ m ih =>
    rw [List.range_succ, List.foldl_append]
    exact preintBody_walked L T0 T1 imuData junk sb ip t0 t1 _ m (by omega) (ih (by omega))

theorem preintBody_last_done (L : IMULib) (T0 T1 : SE3) (imuData : List IMUMeasurement)
    (junk back : IMUMeasurement) (sb : SpeedAndBias) (ip : IMUParameters) (t0 t1 : ℚ)
    (s : PreintLoop) (k : Nat) (hk : k + 2 = imuData.length)
    (hback : imuData.getLast? = some back) (h1 : t1 ≤ back.timestamp)
    (h : PreintLoop.Walked imuData.length t0 t1 s) :
    (preintBody L (.coarseTracker T0 T1) imuData junk sb ip s k).done = true := by
  cases hd : s.done with
  | true => rw [preintBody_done L _ imuData junk sb ip s k hd]; exact hd
  | false =>
    have hnt : preintNexttime imuData junk s.st.t1_ k = s.st.t1_ :=
      preintNexttime_last imuData junk back s.st.t1_ k hk hback (by rw [h.ht1]; exact h1)
    have hpos : 0 < preintNexttime imuData junk s.st.t1_ k - s.time := by
      rw [hnt, h.ht1]
      exact sub_pos.mpr (h.open_lt hd)
    obtain ⟨_, _, e3, _⟩ := preintBody_step L T0 T1 imuData junk sb ip s k hd hpos
    rw [e3, hnt]
    exact decide_eq_true rfl

/-- The whole loop of `CoarseTracker::redoPreintegration` on samples that
cover the window: the invariant holds at the end and the loop was left through
`break`. -/
theorem preintLoop_walked (L : IMULib) (T0 T1 : SE3) (imuData : List IMUMeasurement)
    (junk front back : IMUMeasurement) (sb : SpeedAndBias) (ip : IMUParameters)
    (st : PreintState) (hfront : imuData.head? = some front)
    (hback : imuData.getLast? = some back) (h0 : front.timestamp ≤ st.t0_)
    (h1 : st.t1_ ≤ back.timestamp) (h01 : st.t0_ < st.t1_) :
    PreintLoop.Walked imuData.length st.t0_ st.t1_
        (preintLoop L (.coarseTracker T0 T1) imuData junk sb ip (preintReset ip st))
    ∧ (preintLoop L (.coarseTracker T0 T1) imuData junk sb ip (preintReset ip st)).done
        = true := by
  have hlen : 2 ≤ imuData.length := by
    match imuData, hfront, hback with
    | [], hf, _ => simp at hf
    | [a], hf, hb =>
      simp only [List.head?_cons, Option.some.injEq] at hf
      simp only [List.getLast?_singleton, Option.some.injEq] at hb
      rw [← hf] at h0
      rw [← hb] at h1
      exact absurd (lt_of_lt_of_le h01 (le_trans h1 h0)) (lt_irrefl _)
    | _ :: _ :: _, _, _ => simp
  obtain ⟨m, hm⟩ : ∃ m, imuData.length = m + 2 := ⟨imuData.length - 2, by omega⟩
  have hw := preintFold_walked L T0 T1 imuData junk sb ip st.t0_ st.t1_ _
    (preintEntry_walked imuData.length ip st h01) m (by omega)
  have hw1 := preintBody_walked L T0 T1 imuData junk sb ip st.t0_ st.t1_ _ m (by omega) hw
  have hd1 := preintBody_last_done L T0 T1 imuData junk back sb ip st.t0_ st.t1_ _ m
    (by omega) hback h1 hw
  have e : preintLoop L (.coarseTracker T0 T1) imuData junk sb ip (preintReset ip st)
      = preintBody L (.coarseTracker T0 T1) imuData junk sb ip
          ((List.range m).foldl (preintBody L (.coarseTracker T0 T1) imuData junk sb ip)
            (preintEntry (preintReset ip st))) m := by
    unfold preintLoop
    rw [hm, List.range_succ, List.foldl_append, List.range_succ, List.foldl_append]
    simp only [List.foldl_cons, List.foldl_nil]
    rw [preintBody_done L _ imuData junk sb ip _ (m + 1) hd1]
  rw [e]
  exact ⟨hw1, hd1⟩

set_option maxHeartbeats 4000000 in
theorem preintBody_junk (L : IMULib) (v : PreintVariant) (imuData : List IMUMeasurement)
    (junk junk2 : IMUMeasurement) (sb : SpeedAndBias) (ip : IMUParameters) (s : PreintLoop)
    (k : Nat) (hk : k + 1 < imuData.length) :
    preintBody L v imuData junk sb ip s k = preintBody L v imuData junk2 sb ip s k := by
  have e1 : imuData.getD k junk = imuData.getD k junk2 := by
    rw [List.getD_eq_getElem _ _ (by omega), List.getD_eq_getElem _ _ (by omega)]
  have e2 : imuData.getD (k + 1) junk = imuData.getD (k + 1) junk2 := by
    rw [List.getD_eq_getElem _ _ hk, List.getD_eq_getElem _ _ hk]
  unfold preintBody
  simp only [e1, e2]

theorem preintFold_junk (L : IMULib) (v : PreintVariant) (imuData : List IMUMeasurement)
    (junk junk2 : IMUMeasurement) (sb : SpeedAndBias) (ip : IMUParameters) (s : PreintLoop)
    (m : Nat) (hm : m + 1 ≤ imuData.length) :
    (List.range m).foldl (preintBody L v imuData junk sb ip) s
      = (List.range m).foldl (preintBody L v imuData junk2 sb ip) s := by
  induction m with
  | zero => simp only [List.range_zero, List.foldl_nil]
  | succ m ih =>
    rw [List.range_succ, List.foldl_append, List.foldl_append, ih (by omega)]
    simp only [List.foldl_cons, List.foldl_nil]
    exact preintBody_junk L v imuData junk junk2 sb ip _ m (by omega)

/-- On samples that cover the window, the loop of
`CoarseTracker::redoPreintegration` does not depend on what lies behind the
last sample. -/
theorem preintLoop_junk (L : IMULib) (T0 T1 : SE3) (imuData : List IMUMeasurement)
    (junk junk2 front back : IMUMeasurement) (sb : SpeedAndBias) (ip : IMUParameters)
    (st : PreintState) (hfront : imuData.head? = some front)
    (hback : imuData.getLast? = some back) (h0 : front.timestamp ≤ st.t0_)
    (h1 : st.t1_ ≤ back.timestamp) (h01 : st.t0_ < st.t1_) :
    preintLoop L (.coarseTracker T0 T1) imuData junk sb ip (preintReset ip st)
      = preintLoop L (.coarseTracker T0 T1) imuData junk2 sb ip (preintReset ip st) := by
  have hA := (preintLoop_walked L T0 T1 imuData junk front back sb ip st hfront hback h0 h1
    h01).2
  have hB := (preintLoop_walked L T0 T1 imuData junk2 front back sb ip st hfront hback h0 h1
    h01).2
  have hlen : 1 ≤ imuData.length := by
    cases imuData with
    | nil => simp at hfront
    | cons a t => simp
  obtain ⟨m, hm⟩ : ∃ m, imuData.length = m + 1 := ⟨imuData.length - 1, by omega⟩
  unfold preintLoop at hA hB ⊢
  rw [hm, List.range_succ] at hA hB ⊢
  simp only [List.foldl_append, List.foldl_cons, List.foldl_nil] at hA hB ⊢
  have ef := preintFold_junk L (.coarseTracker T0 T1) imuData junk junk2 sb ip
    (preintEntry (preintReset ip st)) m (by omega)
  rw [← ef] at hB ⊢
  cases hd : ((List.range m).foldl (preintBody L (.coarseTracker T0 T1) imuData junk sb ip)
      (preintEntry (preintReset ip st))).done with
  | true =>
    rw [preintBody_done L _ imuData junk sb ip _ m hd,
      preintBody_done L _ imuData junk2 sb ip _ m hd]
  | false =>
    exfalso
    have hw := preintFold_walked L T0 T1 imuData junk sb ip st.t0_ st.t1_ _
      (preintEntry_walked imuData.length ip st h01) m (by omega)
    have hlen2 : 2 ≤ imuData.length := by
      match imuData, hfront, hback with
      | [], hf, _ => simp at hf
      | [a], hf, hb =>
        simp only [List.head?_cons, Option.some.injEq] at hf
        simp only [List.getLast?_singleton, Option.some.injEq] at hb
        rw [← hf] at h0
        rw [← hb] at h1
        exact absurd (lt_of_lt_of_le h01 (le_trans h1 h0)) (lt_irrefl _)
      | _ :: _ :: _, _, _ => simp
    obtain ⟨j, hj⟩ : ∃ j, m = j + 1 := ⟨m - 1, by omega⟩
    subst hj
    rw [List.range_succ, List.foldl_append] at hd
    simp only [List.foldl_cons, List.foldl_nil] at hd
    have hw2 := preintFold_walked L T0 T1 imuData junk sb ip st.t0_ st.t1_ _
      (preintEntry_walked imuData.length ip st h01) j (by omega)
    have := preintBody_last_done L T0 T1 imuData junk back sb ip st.t0_ st.t1_ _ j
      (by omega) hback h1 hw2
    rw [this] at hd
    exact Bool.noConfusion hd

theorem redoPreintegration_covered (L : IMULib) (T0 T1 : SE3) (imuData : List IMUMeasurement)
    (junk front back : IMUMeasurement) (sb : SpeedAndBias) (ip : IMUParameters)
    (st : PreintState) (hfront : imuData.head? = some front)
    (hback : imuData.getLast? = some back) (h0 : front.timestamp ≤ st.t0_)
    (h1 : st.t1_ ≤ back.timestamp) :
    CoarseTracker.redoPreintegration L imuData junk T0 T1 sb ip st
      = some
          { ret := ((preintLoop L (.coarseTracker T0 T1) imuData junk sb ip
              (preintReset ip st)).i : Int)
            state := preintFinish L sb
              (preintLoop L (.coarseTracker T0 T1) imuData junk sb ip (preintReset ip st)).st
            steps := (preintLoop L (.coarseTracker T0 T1) imuData junk sb ip
              (preintReset ip st)).steps
            visited := (preintLoop L (.coarseTracker T0 T1) imuData junk sb ip
              (preintReset ip st)).visited } := by
  unfold CoarseTracker.redoPreintegration redoPreintegrationCore
  rw [hfront, hback]
  simp only
  rw [if_neg (not_not.mpr h0), if_neg (not_not.mpr h1)]

/-- **C34.** `CoarseTracker::redoPreintegration` on samples whose first
timestamp is at most `t0_` and whose last timestamp is at least `t1_`, with
`t0_ < t1_` (the timestamps in between need not be ordered): the call returns
through the end of the function, the loop is left through `break`; every
recorded step has `dt = nexttime - time > 0`, each step starts where the step
before ended, the first starts at `t0_`, the last ends at `t1_`, and the `dt`
add up to `t1_ - t0_` (in exact arithmetic); the returned count is the number
of steps and is at least one; every pass of the loop runs at an index that has
a next sample, and the result does not depend on what lies behind the last
sample; and a pass that finds `dt <= 0` changes nothing. -/
theorem redoPreintegration_walks_window (L : IMULib) (T0 T1 : SE3)
    (imuData : List IMUMeasurement) (junk front back : IMUMeasurement) (sb : SpeedAndBias)
    (ip : IMUParameters) (st : PreintState) (hfront : imuData.head? = some front)
    (hback : imuData.getLast? = some back) (h0 : front.timestamp ≤ st.t0_)
    (h1 : st.t1_ ≤ back.timestamp) (h01 : st.t0_ < st.t1_) :
    ∃ r, CoarseTracker.redoPreintegration L imuData junk T0 T1 sb ip st = some r
      ∧ (preintLoop L (.coarseTracker T0 T1) imuData junk sb ip (preintReset ip st)).done = true
      ∧ r.steps = (preintLoop L (.coarseTracker T0 T1) imuData junk sb ip
          (preintReset ip st)).steps
      ∧ (∀ p ∈ r.steps, 0 < p.dt ∧ p.dt = p.nexttime - p.time)
      ∧ List.Chain' (fun a b : PreintStep => b.time = a.nexttime) r.steps
      ∧ (∃ f l, r.steps.head? = some f ∧ f.time = st.t0_
          ∧ r.steps.getLast? = some l ∧ l.nexttime = st.t1_)
      ∧ (r.steps.map PreintStep.dt).sum = st.t1_ - st.t0_
      ∧ r.ret = (r.steps.length : Int) ∧ 1 ≤ r.ret
      ∧ (∀ k ∈ r.visited, k + 1 < imuData.length)
      ∧ (∀ junk2, CoarseTracker.redoPreintegration L imuData junk2 T0 T1 sb ip st = some r)
      ∧ (∀ (s : PreintLoop) (k : Nat), s.done = false
          → preintNexttime imuData junk s.st.t1_ k - s.time ≤ 0
          → preintBody L (.coarseTracker T0 T1) imuData junk sb ip s k
              = { s with visited := s.visited ++ [k] }) := by
  obtain ⟨hw, hd⟩ := preintLoop_walked L T0 T1 imuData junk front back sb ip st hfront hback
    h0 h1 h01
  have htime := hw.closed hd
  have hne : (preintLoop L (.coarseTracker T0 T1) imuData junk sb ip
      (preintReset ip st)).steps ≠ [] := by
    intro hnil
    have := hw.empty hnil
    rw [htime] at this
    exact absurd this (ne_of_gt h01)
  have hi := preintLoop_i_steps L (.coarseTracker T0 T1) imuData junk sb ip (preintReset ip st)
  refine ⟨_, redoPreintegration_covered L T0 T1 imuData junk front back sb ip st hfront hback
    h0 h1, hd, rfl, ?_, hw.chain, ?_, ?_, ?_, ?_, hw.visited, ?_, ?_⟩
  · intro p hp
    exact ⟨(hw.dt_pos p hp).1, (hw.dt_pos p hp).2.1⟩
  · obtain ⟨f, hf⟩ : ∃ f, (preintLoop L (.coarseTracker T0 T1) imuData junk sb ip
        (preintReset ip st)).steps.head? = some f := by
      cases hs : (preintLoop L (.coarseTracker T0 T1) imuData junk sb ip
          (preintReset ip st)).steps with
      | nil => exact absurd hs hne
      | cons a t => exact ⟨a, rfl⟩
    refine ⟨f, _, hf, hw.first f hf, List.getLast?_eq_getLast _ hne, ?_⟩
    rw [hw.last _ (List.getLast?_eq_getLast _ hne), htime]
  · show (List.map PreintStep.dt (preintLoop L (.coarseTracker T0 T1) imuData junk sb ip
        (preintReset ip st)).steps).sum = st.t1_ - st.t0_
    rw [hw.total, htime]
  · show ((preintLoop L (.coarseTracker T0 T1) imuData junk sb ip (preintReset ip st)).i : Int)
      = _
    rw [hi]
  · show (1 : Int) ≤ ((preintLoop L (.coarseTracker T0 T1) imuData junk sb ip
        (preintReset ip st)).i : Int)
    rw [hi]
    have : 0 < (preintLoop L (.coarseTracker T0 T1) imuData junk sb ip
        (preintReset ip st)).steps.length := List.length_pos.mpr hne
    omega
  · intro junk2
    rw [redoPreintegration_covered L T0 T1 imuData junk2 front back sb ip st hfront hback h0 h1,
      preintLoop_junk L T0 T1 imuData junk junk2 front back sb ip st hfront hback h0 h1 h01]
  · intro s k hd2 hdt
    exact preintBody_skip L _ imuData junk sb ip s k hd2 hdt

/-- The samples at times 0, 1/2 and 1 cover the window `[0, 1]` of the
sample members. -/
theorem redoPreintegration_walks_window_witness :
    ∃ r, CoarseTracker.redoPreintegration IMULib.sample IMUMeasurement.zeroRun
        (IMUMeasurement.zeroAt 0) SE3.identity SE3.identity (SpeedAndBias.ofSpeed 0)
        IMUParameters.sample PreintState.stale = some r
      ∧ (r.steps.map PreintStep.dt).sum = 1 :=
  (redoPreintegration_walks_window IMULib.sample SE3.identity SE3.identity
    IMUMeasurement.zeroRun (IMUMeasurement.zeroAt 0) (IMUMeasurement.zeroAt 0)
    (IMUMeasurement.zeroAt 1) (SpeedAndBias.ofSpeed 0) IMUParameters.sample PreintState.stale
    rfl rfl (by decide!) (by decide!) (by decide!)).imp
    (fun _ h => ⟨h.1, by
      have e := h.2.2.2.2.2.2.1
      have e2 : PreintState.stale.t1_ - PreintState.stale.t0_ = 1 := by decide!
      rw [e2] at e
      exact e⟩)

/-! ## The two copies of the pre-integration on the same samples -/

set_option maxRecDepth 100000 in
/-- **C35.** The samples at times 0, 1/2 and 1, each with acceleration
`(1, 0, 0)` and zero rates, the window `[0, 1]` and zero speed and biases:
`CoarseTracker::redoPreintegration` takes the steps `[0, 1/2]` and `[1/2, 1]`
(`dt = 1/2, 1/2`) and leaves `Delta_tilde_v_ij_ = (1, 0, 0)`;
`IMUResidual::redoPreintegration`, which never advances `time`, takes both
steps from `time = 0` (`dt = 1/2, 1`, sum `3/2`) and leaves
`Delta_tilde_v_ij_ = (3/2, 0, 0)`. -/
theorem imuResidual_steps_from_t0 :
    (CoarseTracker.redoPreintegration IMULib.sample IMUMeasurement.pushRun
        (IMUMeasurement.zeroAt 0) SE3.identity SE3.identity (SpeedAndBias.ofSpeed 0)
        IMUParameters.sample PreintState.stale).map
          (fun r => (r.ret, r.steps.map (fun p => (p.time, p.nexttime, p.dt)),
            (r.steps.map PreintStep.dt).sum, r.state.Delta_tilde_v_ij_ 0))
      = some (2, [(0, 1 / 2, 1 / 2), (1 / 2, 1, 1 / 2)], 1, 1)
    ∧ (IMUResidual.redoPreintegration IMULib.sample IMUMeasurement.pushRun
        (IMUMeasurement.zeroAt 0) SE3.identity (SpeedAndBias.ofSpeed 0)
        IMUParameters.sample PreintState.stale).map
          (fun r => (r.ret, r.steps.map (fun p => (p.time, p.nexttime, p.dt)),
            (r.steps.map PreintStep.dt).sum, r.state.Delta_tilde_v_ij_ 0))
      = some (2, [(0, 1 / 2, 1 / 2), (0, 1, 1)], 3 / 2, 3 / 2) := by
  constructor <;> decide!

/-! ## The indices touched by the dilation loop -/

theorem dilateIndices_first (w h : Int) (a : LevelArrays) (hw : 1 ≤ w) (hh : 3 ≤ h)
    (hz : a.weightSums w ≤ 0) :
    w ∈ intRange w (w * h - w)
    ∧ (-1 : Int) ∈ dilateIndices (diagOffsets w)
        { a with weightSums_bak := memcpyZ a.weightSums_bak a.weightSums (w * h) } w := by
  have hwh : 3 * w ≤ w * h := by nlinarith
  refine ⟨(mem_intRange _ _ _).mpr ⟨le_refl _, by linarith⟩, ?_⟩
  have hb : memcpyZ a.weightSums_bak a.weightSums (w * h) w ≤ 0 := by
    rw [memcpyZ_in _ _ _ _ (by linarith) (by linarith)]
    exact hz
  unfold dilateIndices
  rw [if_pos hb]
  simp only [diagOffsets, List.map_cons, List.map_nil, List.mem_cons]
  right; right; left
  ring

theorem dilateIndices_last (w h : Int) (b : LevelArrays) (hw : 1 ≤ w) (hh : 3 ≤ h)
    (hz : b.weightSums_bak (w * h - w - 1) ≤ 0) :
    (w * h - w - 1) ∈ intRange w (w * h - w)
    ∧ w * h ∈ dilateIndices (diagOffsets w) b (w * h - w - 1) := by
  have hwh : 3 * w ≤ w * h := by nlinarith
  refine ⟨(mem_intRange _ _ _).mpr ⟨by linarith, by linarith⟩, ?_⟩
  unfold dilateIndices
  rw [if_pos hz]
  simp only [diagOffsets, List.map_cons, List.map_nil, List.mem_cons]
  right; left
  ring

theorem dilateIndices_cross (w h : Int) (b : LevelArrays) (i : Int) (hw : 1 ≤ w)
    (hi : i ∈ intRange w (w * h - w)) (j : Int) (hj : j ∈ dilateIndices (crossOffsets w) b i) :
    0 ≤ j ∧ j < w * h := by
  obtain ⟨h1, h2⟩ := (mem_intRange _ _ _).mp hi
  unfold dilateIndices at hj
  split_ifs at hj
  · simp only [crossOffsets, List.map_cons, List.map_nil, List.mem_cons, List.mem_nil_iff,
      or_false] at hj
    rcases hj with rfl | rfl | rfl | rfl | rfl <;> constructor <;> linarith
  · rw [List.mem_singleton.mp hj]
    constructor <;> linarith

theorem dilateIndices_diag (w h : Int) (b : LevelArrays) (i : Int) (hw : 1 ≤ w)
    (hi : i ∈ intRange w (w * h - w)) (j : Int) (hj : j ∈ dilateIndices (diagOffsets w) b i) :
    -1 ≤ j ∧ j ≤ w * h := by
  obtain ⟨h1, h2⟩ := (mem_intRange _ _ _).mp hi
  unfold dilateIndices at hj
  split_ifs at hj
  · simp only [diagOffsets, List.map_cons, List.map_nil, List.mem_cons, List.mem_nil_iff,
      or_false] at hj
    rcases hj with rfl | rfl | rfl | rfl | rfl <;> constructor <;> linarith
  · rw [List.mem_singleton.mp hj]
    constructor <;> linarith

set_option maxRecDepth 100000 in
/-- **C36.** The diagonal dilation pass leaves the level: at its first index
`i = w`, when the weight there is not positive, it tests `weightSums_bak[-1]`,
and at its last index `i = w*h - w - 1` it tests `weightSums_bak[w*h]`; all
other indices it touches lie in `[-1, w*h]`.  The cross pass stays inside
`[0, w*h)`.  On a 4 × 5 level whose only valid pixel is `(2, 2)` with inverse
depth `1/2`, the last index `15` of the diagonal pass (pixel `(3, 3)`) receives
`19/4`, the mean of `1/2` and the float behind `idepth`, when the float behind
`weightSums_bak` is positive, and `1/2` when it is `0`. -/
theorem dilate_diag_leaves_level :
    (∀ (w h : Int) (a : LevelArrays), 1 ≤ w → 3 ≤ h → a.weightSums w ≤ 0 →
      w ∈ intRange w (w * h - w)
      ∧ (-1 : Int) ∈ dilateIndices (diagOffsets w)
          { a with weightSums_bak := memcpyZ a.weightSums_bak a.weightSums (w * h) } w)
    ∧ (∀ (w h : Int) (b : LevelArrays), 1 ≤ w → 3 ≤ h → b.weightSums_bak (w * h - w - 1) ≤ 0 →
      (w * h - w - 1) ∈ intRange w (w * h - w)
      ∧ w * h ∈ dilateIndices (diagOffsets w) b (w * h - w - 1))
    ∧ (∀ (w h : Int) (b : LevelArrays) (i : Int), 1 ≤ w → i ∈ intRange w (w * h - w) →
      ∀ j ∈ dilateIndices (diagOffsets w) b i, -1 ≤ j ∧ j ≤ w * h)
    ∧ (∀ (w h : Int) (b : LevelArrays) (i : Int), 1 ≤ w → i ∈ intRange w (w * h - w) →
      ∀ j ∈ dilateIndices (crossOffsets w) b i, 0 ≤ j ∧ j < w * h)
    ∧ (dilatePass (diagOffsets 4) 4 5 (LevelArrays.nearEnd 4 5)).idepth 15 = 19 / 4
    ∧ (dilatePass (diagOffsets 4) 4 5
        { LevelArrays.nearEnd 4 5 with weightSums_bak := fun _ => 0 }).idepth 15 = 1 / 2
    ∧ (20 : Int) ∈ dilateIndices (diagOffsets 4)
        { LevelArrays.nearEnd 4 5 with
          weightSums_bak := memcpyZ (LevelArrays.nearEnd 4 5).weightSums_bak
            (LevelArrays.nearEnd 4 5).weightSums (4 * 5) } 15 := by
  refine ⟨fun w h a hw hh hz => dilateIndices_first w h a hw hh hz,
    fun w h b hw hh hz => dilateIndices_last w h b hw hh hz,
    fun w h b i hw hi j hj => dilateIndices_diag w h b i hw hi j hj,
    fun w h b i hw hi j hj => dilateIndices_cross w h b i hw hi j hj, ?_⟩
  decide!

/-! ## The per-lane factor of `calcMSCSSEStereo` -/

/-- On every padding lane left by `calcResStereo` in inertial mode the divisor
of `dd2_i` is 0, `dd2_i` is `+inf` and both weight operands are NaN. -/
theorem calcMSCSSEStereo_padding (e : ResEnv) (lvl : Nat) (refToNew : SE3)
    (aff_g2l aff_g2l_r : AffLight) (cutoffTH : ℚ) (buf : WarpBuffers) (hin : e.inertial = true)
    (j : Nat)
    (h1 : (e.calcResStereoLoop lvl refToNew aff_g2l aff_g2l_r cutoffTH buf).numTermsInWarped ≤ j)
    (h2 : j < (e.calcResStereo lvl refToNew aff_g2l aff_g2l_r cutoffTH buf).2.n) :
    calcMSCSSEStereo_divisor (e.calcResStereo lvl refToNew aff_g2l aff_g2l_r cutoffTH buf).2 j = 0
    ∧ calcMSCSSEStereo_dd2_i (e.calcResStereo lvl refToNew aff_g2l aff_g2l_r cutoffTH buf).2 j
        = .pinf
    ∧ calcMSCSSEStereo_weight (e.calcResStereo lvl refToNew aff_g2l aff_g2l_r cutoffTH buf).2 j
        = .nan
    ∧ calcMSCSSEStereo_weight_r (e.calcResStereo lvl refToNew aff_g2l aff_g2l_r cutoffTH buf).2 j
        = .nan := by
  obtain ⟨_, _, _, _, _, hz⟩ := calcRes_stereo_shape e lvl refToNew aff_g2l aff_g2l_r cutoffTH buf
  obtain ⟨hm, hr, hi⟩ := hz j h1 h2
  obtain ⟨d1, d2⟩ := hi hin
  have hw : (e.calcResStereo lvl refToNew aff_g2l aff_g2l_r cutoffTH buf).2.weight j = 0 := by
    simp only [ResEnv.zeroMonoAt] at hm
    tauto
  have hwr : (e.calcResStereo lvl refToNew aff_g2l aff_g2l_r cutoffTH buf).2.weight_r j = 0 := by
    simp only [ResEnv.zeroRightAt] at hr
    tauto
  have hd : calcMSCSSEStereo_divisor
      (e.calcResStereo lvl refToNew aff_g2l aff_g2l_r cutoffTH buf).2 j = 0 := by
    unfold calcMSCSSEStereo_divisor
    rw [d1, d2]
    norm_num
  have hdd : calcMSCSSEStereo_dd2_i
      (e.calcResStereo lvl refToNew aff_g2l aff_g2l_r cutoffTH buf).2 j = .pinf := by
    unfold calcMSCSSEStereo_dd2_i
    rw [hd]
    simp [IEEE.divQ]
  refine ⟨hd, hdd, ?_, ?_⟩
  · unfold calcMSCSSEStereo_weight
    rw [hdd, hw]
    simp [IEEE.mulQ]
  · unfold calcMSCSSEStereo_weight_r
    rw [hdd, hwr]
    simp [IEEE.mulQ]

theorem calcResStereoStep_zeroT (e : ResEnv) (lvl : Nat) (refToNew : SE3)
    (aff_g2l aff_g2l_r : AffLight) (cutoffTH : ℚ) (acc : ResAcc) (i : Nat)
    (hin : e.inertial = true) (ht : refToNew.translation = 0)
    (h : ∀ j, j < acc.numTermsInWarped → ResEnv.zeroInertialAt acc.buf j) :
    ∀ j, j < (e.calcResStereoStep lvl refToNew aff_g2l aff_g2l_r cutoffTH acc i).numTermsInWarped
      → ResEnv.zeroInertialAt
          (e.calcResStereoStep lvl refToNew aff_g2l aff_g2l_r cutoffTH acc i).buf j := by
  obtain ⟨_, _, f3, _, f5⟩ := flowStep_frame e lvl refToNew i acc
  have keep : ∀ j, j < (e.flowStep lvl refToNew i acc).numTermsInWarped
      → ResEnv.zeroInertialAt (e.flowStep lvl refToNew i acc).buf j := by
    intro j hj
    rw [f5]
    exact h j (by rw [f3] at hj; exact hj)
  generalize hacc' : e.calcResStereoStep lvl refToNew aff_g2l aff_g2l_r cutoffTH acc i = acc'
  unfold ResEnv.calcResStereoStep at hacc'
  by_cases hb : e.inBounds lvl refToNew i = false
  · simp only [hb, if_true] at hacc'
    rw [← hacc']; exact keep
  · have hb' : e.inBounds lvl refToNew i = true := by simpa using hb
    simp only [hb', Bool.true_eq_false, ↓reduceIte] at hacc'
    cases hi : (e.interp lvl (e.Ku lvl refToNew i) (e.Kv lvl refToNew i)).1 with
    | fin hit0 =>
      simp only [hi] at hacc'
      split at hacc'
      · rw [← hacc']; exact keep
      · split at hacc'
        · rw [← hacc']; exact keep
        · rw [← hacc']
          intro j hj
          simp only [f3] at hj
          have hold : j ≠ acc.numTermsInWarped → acc.buf.dd j = 0 ∧ acc.buf.dd_r j = 0 :=
            fun hne => h j (by omega)
          unfold ResEnv.zeroInertialAt
          simp only [f3, f5, hin, ht, if_true, Pi.zero_apply, mul_zero, sub_zero, zero_sub,
            neg_zero, add_zero, zero_mul]
          by_cases hne : j = acc.numTermsInWarped
          · cases hr : (e.interp_r lvl (e.Ku_r lvl refToNew i) (e.Kv_r lvl refToNew i)).1 <;>
              simp only [hr] <;> (try split_ifs) <;>
              simp [ResEnv.storeLeft, ResEnv.storeRight, arrSetN, hne]
          · obtain ⟨o1, o2⟩ := hold hne
            cases hr : (e.interp_r lvl (e.Ku_r lvl refToNew i) (e.Kv_r lvl refToNew i)).1 <;>
              simp only [hr] <;> (try split_ifs) <;>
              simp [ResEnv.storeLeft, ResEnv.storeRight, arrSetN, hne, o1, o2]
    | pinf => simp only [hi] at hacc'; rw [← hacc']; exact keep
    | ninf => simp only [hi] at hacc'; rw [← hacc']; exact keep
    | nan => simp only [hi] at hacc'; rw [← hacc']; exact keep

theorem zeroEntryStereo_inertial_at (b : WarpBuffers) (k : Nat) :
    ResEnv.zeroInertialAt (ResEnv.zeroEntryStereo true b k) k := by
  simp [ResEnv.zeroInertialAt, ResEnv.zeroEntryStereo, ResEnv.storeLeft, ResEnv.storeRight,
    arrSetN]

theorem zeroEntryStereo_inertial_keeps (b : WarpBuffers) (k j : Nat) (hj : j ≠ k)
    (h : ResEnv.zeroInertialAt b j) :
    ResEnv.zeroInertialAt (ResEnv.zeroEntryStereo true b k) j := by
  simpa [ResEnv.zeroInertialAt, ResEnv.zeroEntryStereo, ResEnv.storeLeft, ResEnv.storeRight,
    arrSetN, hj] using h

/-- At a pose with zero translation, in inertial mode, `calcResStereo` leaves 0
in `buf_warped_dd` and `buf_warped_dd_r` on every lane below `buf_warped_n`. -/
theorem calcResStereo_zeroT (e : ResEnv) (lvl : Nat) (refToNew : SE3)
    (aff_g2l aff_g2l_r : AffLight) (cutoffTH : ℚ) (buf : WarpBuffers)
    (hin : e.inertial = true) (ht : refToNew.translation = 0) (j : Nat)
    (hj : j < (e.calcResStereo lvl refToNew aff_g2l aff_g2l_r cutoffTH buf).2.n) :
    (e.calcResStereo lvl refToNew aff_g2l aff_g2l_r cutoffTH buf).2.dd j = 0
    ∧ (e.calcResStereo lvl refToNew aff_g2l aff_g2l_r cutoffTH buf).2.dd_r j = 0 := by
  have hloop : ∀ j,
      j < (e.calcResStereoLoop lvl refToNew aff_g2l aff_g2l_r cutoffTH buf).numTermsInWarped →
      ResEnv.zeroInertialAt
        (e.calcResStereoLoop lvl refToNew aff_g2l aff_g2l_r cutoffTH buf).buf j := by
    unfold ResEnv.calcResStereoLoop
    apply foldl_range_inv _
      (fun (acc : ResAcc) (_ : Nat) =>
        ∀ j, j < acc.numTermsInWarped → ResEnv.zeroInertialAt acc.buf j)
      (fun acc i h =>
        calcResStereoStep_zeroT e lvl refToNew aff_g2l aff_g2l_r cutoffTH acc i hin ht h)
    intro j hj
    simp [ResEnv.initAcc] at hj
  obtain ⟨_, _, _, _, _, _, p7⟩ := padLoop_spec (ResEnv.zeroEntryStereo true)
    ResEnv.zeroInertialAt zeroEntryStereo_inertial_at zeroEntryStereo_inertial_keeps 3
    (e.calcResStereoLoop lvl refToNew aff_g2l aff_g2l_r cutoffTH buf)
  unfold ResEnv.calcResStereo ResEnv.padStereo at hj ⊢
  rw [hin] at hj ⊢
  simp only at hj ⊢
  by_cases hlt :
      j < (e.calcResStereoLoop lvl refToNew aff_g2l aff_g2l_r cutoffTH buf).numTermsInWarped
  · exact p7 j (Or.inl (hloop j hlt))
  · exact p7 j (Or.inr ⟨not_lt.mp hlt, hj⟩)

set_option maxRecDepth 100000 in
/-- **C37.** The divisor `dd * dd + dd_r * dd_r` of `dd2_i` in
`calcMSCSSEStereo` is 0 on every padding lane that `calcResStereo` appends
(there `dd2_i` is `+inf` and the weight operands `0 * inf` are NaN), and on
every lane at all when the pose has zero translation.  On the sample input
(two stored points, two padding lanes) the divisors are `0, 0, 0, 0` at the
identity pose and `1/50, 1/50, 0, 0` at a pose shifted by `(1/10, 0, 0)`. -/
theorem calcMSCSSEStereo_divides_by_zero :
    (∀ (e : ResEnv) (lvl : Nat) (refToNew : SE3) (aff_g2l aff_g2l_r : AffLight) (cutoffTH : ℚ)
        (buf : WarpBuffers) (j : Nat), e.inertial = true →
      (e.calcResStereoLoop lvl refToNew aff_g2l aff_g2l_r cutoffTH buf).numTermsInWarped ≤ j →
      j < (e.calcResStereo lvl refToNew aff_g2l aff_g2l_r cutoffTH buf).2.n →
      calcMSCSSEStereo_divisor
          (e.calcResStereo lvl refToNew aff_g2l aff_g2l_r cutoffTH buf).2 j = 0
      ∧ calcMSCSSEStereo_dd2_i
          (e.calcResStereo lvl refToNew aff_g2l aff_g2l_r cutoffTH buf).2 j = .pinf
      ∧ calcMSCSSEStereo_weight
          (e.calcResStereo lvl refToNew aff_g2l aff_g2l_r cutoffTH buf).2 j = .nan
      ∧ calcMSCSSEStereo_weight_r
          (e.calcResStereo lvl refToNew aff_g2l aff_g2l_r cutoffTH buf).2 j = .nan)
    ∧ (∀ (e : ResEnv) (lvl : Nat) (refToNew : SE3) (aff_g2l aff_g2l_r : AffLight)
        (cutoffTH : ℚ) (buf : WarpBuffers) (j : Nat), e.inertial = true →
      refToNew.translation = 0 →
      j < (e.calcResStereo lvl refToNew aff_g2l aff_g2l_r cutoffTH buf).2.n →
      calcMSCSSEStereo_divisor
          (e.calcResStereo lvl refToNew aff_g2l aff_g2l_r cutoffTH buf).2 j = 0)
    ∧ (ResEnv.sample.calcResStereo 0 SE3.identity ⟨0, 0⟩ ⟨0, 0⟩ 20 WarpBuffers.junk).2.n = 4
    ∧ (List.range 4).map (calcMSCSSEStereo_divisor
        (ResEnv.sample.calcResStereo 0 SE3.identity ⟨0, 0⟩ ⟨0, 0⟩ 20 WarpBuffers.junk).2)
      = [0, 0, 0, 0]
    ∧ (ResEnv.sample.calcResStereo 0 (SE3.shiftX (1 / 10)) ⟨0, 0⟩ ⟨0, 0⟩ 20
        WarpBuffers.junk).2.n = 4
    ∧ (List.range 4).map (calcMSCSSEStereo_divisor
        (ResEnv.sample.calcResStereo 0 (SE3.shiftX (1 / 10)) ⟨0, 0⟩ ⟨0, 0⟩ 20
          WarpBuffers.junk).2)
      = [1 / 50, 1 / 50, 0, 0]
    ∧ (List.range 4).map (calcMSCSSEStereo_weight
        (ResEnv.sample.calcResStereo 0 (SE3.shiftX (1 / 10)) ⟨0, 0⟩ ⟨0, 0⟩ 20
          WarpBuffers.junk).2)
      = [.fin 50, .fin (4500 / 101), .nan, .nan] := by
  refine ⟨fun e lvl refToNew aff_g2l aff_g2l_r cutoffTH buf j hin h1 h2 =>
      calcMSCSSEStereo_padding e lvl refToNew aff_g2l aff_g2l_r cutoffTH buf hin j h1 h2,
    fun e lvl refToNew aff_g2l aff_g2l_r cutoffTH buf j hin ht hj => ?_, ?_⟩
  · obtain ⟨d1, d2⟩ := calcResStereo_zeroT e lvl refToNew aff_g2l aff_g2l_r cutoffTH buf hin ht
      j hj
    unfold calcMSCSSEStereo_divisor
    rw [d1, d2]
    norm_num
  · decide!

/-! ## Dilated pixels after the normalisation -/

theorem normalizeStep_other (wl : Int) (dIRefl : Int → IEEE) (st : LevelArrays × LevelPC)
    (p : Int × Int) (j : Int) (hj : j ≠ p.1 + p.2 * wl) :
    (normalizeStep wl dIRefl st p).1.idepth j = st.1.idepth j
    ∧ (normalizeStep wl dIRefl st p).1.weightSums j = st.1.weightSums j := by
  unfold normalizeStep
  simp only
  split_ifs <;> simp [arrSet, hj]

theorem normalizeStep_at (wl : Int) (dIRefl : Int → IEEE) (st : LevelArrays × LevelPC)
    (p : Int × Int) :
    (normalizeStep wl dIRefl st p).1.idepth (p.1 + p.2 * wl)
      = normalizedValue (st.1.idepth (p.1 + p.2 * wl)) (st.1.weightSums (p.1 + p.2 * wl))
          (dIRefl (p.1 + p.2 * wl)) := by
  unfold normalizeStep normalizedValue
  simp only
  by_cases hw : st.1.weightSums (p.1 + p.2 * wl) > 0
  · simp only [hw, if_true, true_and]
    by_cases hf : (dIRefl (p.1 + p.2 * wl)).isfinite = true
    · by_cases hq : st.1.idepth (p.1 + p.2 * wl) / st.1.weightSums (p.1 + p.2 * wl) > 0
      · simp [arrSet, arrSetN, hf, hq]
      · simp [arrSet, arrSetN, hf, hq]
    · simp [arrSet, arrSetN, hf]
  · simp [arrSet, hw]

theorem normalizeFold_other (wl : Int) (dIRefl : Int → IEEE) (S : List (Int × Int))
    (st : LevelArrays × LevelPC) (j : Int) (hj : ∀ q ∈ S, j ≠ q.1 + q.2 * wl) :
    (S.foldl (normalizeStep wl dIRefl) st).1.idepth j = st.1.idepth j
    ∧ (S.foldl (normalizeStep wl dIRefl) st).1.weightSums j = st.1.weightSums j := by
  induction S generalizing st with
  | nil => exact ⟨rfl, rfl⟩
  | cons p S ih =>
    rw [List.foldl_cons]
    obtain ⟨e1, e2⟩ := normalizeStep_other wl dIRefl st p j (hj p (List.mem_cons_self _ _))
    obtain ⟨f1, f2⟩ := ih (normalizeStep wl dIRefl st p)
      (fun q hq => hj q (List.mem_cons_of_mem _ hq))
    exact ⟨f1.trans e1, f2.trans e2⟩

theorem normalizeFold_at (wl : Int) (dIRefl : Int → IEEE) (S : List (Int × Int))
    (st : LevelArrays × LevelPC) (p : Int × Int) (hp : p ∈ S)
    (hS : S.Pairwise (fun p q => p.1 + p.2 * wl < q.1 + q.2 * wl)) :
    (S.foldl (normalizeStep wl dIRefl) st).1.idepth (p.1 + p.2 * wl)
      = normalizedValue (st.1.idepth (p.1 + p.2 * wl)) (st.1.weightSums (p.1 + p.2 * wl))
          (dIRefl (p.1 + p.2 * wl)) := by
  induction S generalizing st with
  | nil => cases hp
  | cons p0 S ih =>
    rw [List.foldl_cons]
    obtain ⟨h0, hS'⟩ := List.pairwise_cons.mp hS
    rcases List.mem_cons.mp hp with rfl | hmem
    · obtain ⟨f1, _⟩ := normalizeFold_other wl dIRefl S (normalizeStep wl dIRefl st p)
        (p.1 + p.2 * wl) (fun q hq => ne_of_lt (h0 q hq))
      rw [f1, normalizeStep_at]
    · have hne : p.1 + p.2 * wl ≠ p0.1 + p0.2 * wl := ne_of_gt (h0 p hmem)
      obtain ⟨e1, e2⟩ := normalizeStep_other wl dIRefl st p0 _ hne
      rw [ih (normalizeStep wl dIRefl st p0) hmem hS', e1, e2]

theorem weighted_mean_bounds (V : List Int) (s wt : Int → ℚ) (lo hi : ℚ)
    (hpos : ∀ j ∈ V, 0 < wt j)
    (hb : ∀ j ∈ V, lo ≤ s j / wt j ∧ s j / wt j ≤ hi) :
    lo * (V.map wt).sum ≤ (V.map s).sum ∧ (V.map s).sum ≤ hi * (V.map wt).sum := by
  induction V with
  | nil => simp
  | cons j V ih =>
    obtain ⟨i1, i2⟩ := ih (fun k hk => hpos k (List.mem_cons_of_mem _ hk))
      (fun k hk => hb k (List.mem_cons_of_mem _ hk))
    have hw := hpos j (List.mem_cons_self _ _)
    obtain ⟨b1, b2⟩ := hb j (List.mem_cons_self _ _)
    rw [le_div_iff₀ hw] at b1
    rw [div_le_iff₀ hw] at b2
    simp only [List.map_cons, List.sum_cons]
    constructor <;> nlinarith

theorem sum_pos_of_valid (V : List Int) (wt : Int → ℚ) (hne : V ≠ [])
    (hpos : ∀ j ∈ V, 0 < wt j) : 0 < (V.map wt).sum := by
  induction V with
  | nil => exact absurd rfl hne
  | cons j V ih =>
    simp only [List.map_cons, List.sum_cons]
    have hj := hpos j (List.mem_cons_self _ _)
    by_cases hV : V = []
    · subst hV
      simpa using hj
    · have := ih hV (fun k hk => hpos k (List.mem_cons_of_mem _ hk))
      linarith

/-- A pixel inside the 2-pixel border that a dilation pass filled with the
means over its valid neighbours. -/
theorem filled_of_mean (nb : List (Int × Int)) (offs : List Int) (w h : Int) (a : LevelArrays)
    (dIRefl : Int → IEEE) (pc : LevelPC) (x y : Int) (hx : 2 ≤ x) (hx' : x < w - 2)
    (hy : 2 ≤ y) (hy' : y < h - 2)
    (hM : MeanOfNeighbours nb w a (dilatePass offs w h a) x y)
    (hv : validNeighbours nb w a ≠ []) :
    FilledByDilation nb offs w h a dIRefl pc x y := by
  obtain ⟨e1, e2⟩ := hM.2 hv
  have hpos : ∀ j ∈ validNeighbours nb w a, 0 < a.weightSums j := by
    intro j hj
    unfold validNeighbours at hj
    have := (List.mem_filter.mp hj).2
    simpa using this
  have hsum := sum_pos_of_valid _ a.weightSums hv hpos
  have hlen : (0 : ℚ) < ((validNeighbours nb w a).length : ℚ) := by
    have : 0 < (validNeighbours nb w a).length := List.length_pos.mpr hv
    exact_mod_cast this
  have hw : 0 < (dilatePass offs w h a).weightSums (x + y * w) := by
    rw [e2]
    exact div_pos hsum hlen
  have hq : (dilatePass offs w h a).idepth (x + y * w)
      / (dilatePass offs w h a).weightSums (x + y * w)
      = ((validNeighbours nb w a).map a.idepth).sum
          / ((validNeighbours nb w a).map a.weightSums).sum := by
    rw [e1, e2]
    field_simp
  refine ⟨hsum, hw, hq, ?_, ?_⟩
  · intro lo hi hb
    obtain ⟨b1, b2⟩ := weighted_mean_bounds _ a.idepth a.weightSums lo hi hpos hb
    exact ⟨(le_div_iff₀ hsum).mpr b1, (div_le_iff₀ hsum).mpr b2⟩
  · have hp : (x, y) ∈ pixelLoop 2 (w - 2) 2 (h - 2) :=
      (mem_pixelLoop _ _ _ _ _).mpr ⟨⟨hx, hx'⟩, ⟨hy, hy'⟩⟩
    have hpw := pixelLoop_pairwise w 2 (w - 2) 2 (h - 2) (by norm_num) (by linarith)
    have := normalizeFold_at w dIRefl _ (dilatePass offs w h a, { pc with n := 0 }) (x, y) hp hpw
    simp only at this
    rw [this]
    unfold normalizedValue
    rw [hq]
    by_cases hc : (dIRefl (x + y * w)).isfinite = true
    · simp [hw, hc]
    · simp [hw, hc]

/-- **C38.** A pixel `(x, y)` inside the 2-pixel border whose weight before the
dilation pass is not positive and which has at least one valid neighbour
(diagonal neighbours on levels 0 and 1, direct neighbours from level 2 on):
after the pass its weight is positive and `idepth / weightSums` equals the sum
of the valid neighbours' pre-pass `idepth` sums over the sum of their weights;
that quotient lies within any bounds of the neighbours' own quotients; and the
normalisation loop of the level stores the quotient in `idepth` (it stores
`-1` instead when the reference colour is not finite or the quotient is not
positive). -/
theorem dilated_pixel_weighted_mean (w h : Int) (a : LevelArrays) (dIRefl : Int → IEEE)
    (pc : LevelPC) (x y : Int) (hx : 2 ≤ x) (hx' : x < w - 2) (hy : 2 ≤ y) (hy' : y < h - 2)
    (hz : a.weightSums (x + y * w) ≤ 0) :
    (validNeighbours (diagNeighbours x y) w a ≠ [] →
      FilledByDilation (diagNeighbours x y) (diagOffsets w) w h a dIRefl pc x y)
    ∧ (validNeighbours (crossNeighbours x y) w a ≠ [] →
      FilledByDilation (crossNeighbours x y) (crossOffsets w) w h a dIRefl pc x y) := by
  constructor
  · intro hv
    exact filled_of_mean _ _ w h a dIRefl pc x y hx hx' hy hy'
      (dilate_diag_interior w h a x y (by linarith) (by linarith) (by linarith) (by linarith) hz)
      hv
  · intro hv
    exact filled_of_mean _ _ w h a dIRefl pc x y hx hx' hy hy'
      (dilate_cross_interior w h a x y (by linarith) (by linarith) (by linarith) (by linarith)
        hz) hv

set_option maxRecDepth 100000 in
/-- On the 5 × 5 sample level the centre pixel `(2, 2)` has the valid diagonal
neighbours `(3, 3)` and `(1, 1)` (quotients `1/2` and `3`) and the valid direct
neighbours `(3, 2)` and `(2, 1)` (quotients `1/2` and `1`): the diagonal pass
followed by the normalisation leaves `4/3` there, the cross pass `3/5`. -/
theorem dilated_pixel_weighted_mean_witness :
    ((pixelLoop 2 (5 - 2) 2 (5 - 2)).foldl (normalizeStep 5 (fun _ => IEEE.fin 1))
        (dilatePass (diagOffsets 5) 5 5 LevelArrays.fourValid,
          { CoarseTracker.onePoint20.pc 0 with n := 0 })).1.idepth (2 + 2 * 5) = 4 / 3
    ∧ ((pixelLoop 2 (5 - 2) 2 (5 - 2)).foldl (normalizeStep 5 (fun _ => IEEE.fin 1))
        (dilatePass (crossOffsets 5) 5 5 LevelArrays.fourValid,
          { CoarseTracker.onePoint20.pc 0 with n := 0 })).1.idepth (2 + 2 * 5) = 3 / 5 := by
  have hT := dilated_pixel_weighted_mean 5 5 LevelArrays.fourValid (fun _ => IEEE.fin 1)
    (CoarseTracker.onePoint20.pc 0) 2 2 (by decide) (by decide) (by decide) (by decide)
    (by decide!)
  have v1 : validNeighbours (diagNeighbours 2 2) 5 LevelArrays.fourValid = [18, 6] := by
    decide!
  have v2 : validNeighbours (crossNeighbours 2 2) 5 LevelArrays.fourValid = [13, 7] := by
    decide!
  obtain ⟨_, _, _, _, d5⟩ := hT.1 (by rw [v1]; exact List.cons_ne_nil _ _)
  obtain ⟨_, _, _, _, c5⟩ := hT.2 (by rw [v2]; exact List.cons_ne_nil _ _)
  rw [v1] at d5
  rw [v2] at c5
  constructor
  · rw [d5]
    decide!
  · rw [c5]
    decide!

/-! ## Bounds on the energy of `calcRes` -/

theorem huber_term_bounds (e : ResEnv) (cutoffTH r : ℚ) (hh : 0 < e.setting_huberTH)
    (hc : e.setting_huberTH ≤ cutoffTH) (hr : |r| ≤ cutoffTH) :
    0 ≤ e.huberWeight r * r * r * (2 - e.huberWeight r)
    ∧ e.huberWeight r * r * r * (2 - e.huberWeight r) ≤ e.maxEnergy cutoffTH
    ∧ (e.huberWeight r * r * r * (2 - e.huberWeight r) = e.maxEnergy cutoffTH
        ↔ |r| = cutoffTH) := by
  have habs : r * r = |r| * |r| := (abs_mul_abs_self r).symm
  have h0 : 0 ≤ |r| := abs_nonneg r
  unfold ResEnv.huberWeight ResEnv.maxEnergy
  by_cases hlt : |r| < e.setting_huberTH
  · rw [if_pos hlt]
    have e1 : (1 : ℚ) * r * r * (2 - 1) = |r| * |r| := by rw [← habs]; ring
    rw [e1]
    refine ⟨by nlinarith, by nlinarith, ?_⟩
    constructor
    · intro h
      exfalso
      nlinarith
    · intro h
      exfalso
      linarith
  · rw [if_neg hlt]
    have hge : e.setting_huberTH ≤ |r| := not_lt.mp hlt
    have hpos : 0 < |r| := lt_of_lt_of_le hh hge
    have e1 : e.setting_huberTH / |r| * r * r * (2 - e.setting_huberTH / |r|)
        = 2 * e.setting_huberTH * |r| - e.setting_huberTH * e.setting_huberTH := by
      have : e.setting_huberTH / |r| * r * r * (2 - e.setting_huberTH / |r|)
          = e.setting_huberTH / |r| * (r * r) * (2 - e.setting_huberTH / |r|) := by ring
      rw [this, habs]
      have hne : |r| ≠ 0 := ne_of_gt hpos
      generalize |r| = a at hne
      field_simp
      ring
    rw [e1]
    refine ⟨by nlinarith, by nlinarith, ?_⟩
    constructor
    · intro h
      have : 2 * e.setting_huberTH * (|r| - cutoffTH) = 0 := by linarith
      rcases mul_eq_zero.mp this with h2 | h2
      · exfalso; linarith
      · linarith
    · intro h
      rw [h]

theorem maxEnergy_nonneg (e : ResEnv) (cutoffTH : ℚ) (hh : 0 < e.setting_huberTH)
    (hc : e.setting_huberTH ≤ cutoffTH) : 0 ≤ e.maxEnergy cutoffTH := by
  unfold ResEnv.maxEnergy
  nlinarith

theorem calcResStep_energy (e : ResEnv) (lvl : Nat) (refToNew : SE3) (aff_g2l : AffLight)
    (cutoffTH : ℚ) (hh : 0 < e.setting_huberTH) (hc : e.setting_huberTH ≤ cutoffTH)
    (acc : ResAcc) (i : Nat)
    (h : ∃ q, acc.E = .fin q ∧ 0 ≤ q ∧ q ≤ (acc.numTermsInE : ℚ) * e.maxEnergy cutoffTH) :
    ∃ q, (e.calcResStep lvl refToNew aff_g2l cutoffTH acc i).E = .fin q ∧ 0 ≤ q
      ∧ q ≤ ((e.calcResStep lvl refToNew aff_g2l cutoffTH acc i).numTermsInE : ℚ)
          * e.maxEnergy cutoffTH := by
  obtain ⟨q, hq, q0, q1⟩ := h
  obtain ⟨f1, f2, _, _, _⟩ := flowStep_frame e lvl refToNew i acc
  have hm := maxEnergy_nonneg e cutoffTH hh hc
  cases hr : e.pointResidual lvl refToNew aff_g2l i with
  | none =>
    rw [calcResStep_none e lvl refToNew aff_g2l cutoffTH acc i hr, f1, f2]
    exact ⟨q, hq, q0, q1⟩
  | some r =>
    by_cases hcut : |r| > cutoffTH
    · rw [calcResStep_sat e lvl refToNew aff_g2l cutoffTH acc i r hr hcut]
      refine ⟨q + e.maxEnergy cutoffTH, ?_, by linarith, ?_⟩
      · show (e.flowStep lvl refToNew i acc).E.add _ = _
        rw [f1, hq]
        rfl
      · show q + e.maxEnergy cutoffTH
            ≤ (((e.flowStep lvl refToNew i acc).numTermsInE + 1 : Nat) : ℚ) * e.maxEnergy cutoffTH
        rw [f2]
        push_cast
        linarith
    · rw [calcResStep_store e lvl refToNew aff_g2l cutoffTH acc i r hr hcut]
      obtain ⟨b0, b1, _⟩ := huber_term_bounds e cutoffTH r hh hc (not_lt.mp hcut)
      refine ⟨q + e.huberWeight r * r * r * (2 - e.huberWeight r), ?_, by linarith, ?_⟩
      · show (e.flowStep lvl refToNew i acc).E.add _ = _
        rw [f1, hq]
        rfl
      · show q + e.huberWeight r * r * r * (2 - e.huberWeight r)
            ≤ (((e.flowStep lvl refToNew i acc).numTermsInE + 1 : Nat) : ℚ) * e.maxEnergy cutoffTH
        rw [f2]
        push_cast
        linarith

/-- **C39.** `calcRes` with `0 < setting_huberTH <= cutoffTH`: for a residual
with `|r| <= cutoffTH` the energy term `hw * r * r * (2 - hw)` lies in
`[0, maxEnergy]` and equals `maxEnergy` exactly when `|r| = cutoffTH`;
`maxEnergy` is not negative; and the returned energy is a finite value `E` with
`0 <= E <= N_E * maxEnergy`, `N_E` being the returned number of terms (in exact
arithmetic). -/
theorem calcRes_energy_bounds (e : ResEnv) (lvl : Nat) (refToNew : SE3) (aff_g2l : AffLight)
    (cutoffTH : ℚ) (buf : WarpBuffers) (hh : 0 < e.setting_huberTH)
    (hc : e.setting_huberTH ≤ cutoffTH) :
    (∀ r : ℚ, |r| ≤ cutoffTH →
      0 ≤ e.huberWeight r * r * r * (2 - e.huberWeight r)
      ∧ e.huberWeight r * r * r * (2 - e.huberWeight r) ≤ e.maxEnergy cutoffTH
      ∧ (e.huberWeight r * r * r * (2 - e.huberWeight r) = e.maxEnergy cutoffTH
          ↔ |r| = cutoffTH))
    ∧ 0 ≤ e.maxEnergy cutoffTH
    ∧ ∃ E : ℚ, (e.calcRes lvl refToNew aff_g2l cutoffTH buf).1.r0 = .fin E ∧ 0 ≤ E
        ∧ E ≤ (e.calcRes lvl refToNew aff_g2l cutoffTH buf).1.r1 * e.maxEnergy cutoffTH := by
  refine ⟨fun r hr => huber_term_bounds e cutoffTH r hh hc hr,
    maxEnergy_nonneg e cutoffTH hh hc, ?_⟩
  have hloop : ∃ q, (e.calcResLoop lvl refToNew aff_g2l cutoffTH buf).E = .fin q ∧ 0 ≤ q
      ∧ q ≤ ((e.calcResLoop lvl refToNew aff_g2l cutoffTH buf).numTermsInE : ℚ)
          * e.maxEnergy cutoffTH := by
    unfold ResEnv.calcResLoop
    apply foldl_range_inv _
      (fun (acc : ResAcc) (_ : Nat) =>
        ∃ q, acc.E = .fin q ∧ 0 ≤ q ∧ q ≤ (acc.numTermsInE : ℚ) * e.maxEnergy cutoffTH)
      (fun acc i h => calcResStep_energy e lvl refToNew aff_g2l cutoffTH hh hc acc i h)
    exact ⟨0, rfl, le_refl _, by simp [ResEnv.initAcc]⟩
  obtain ⟨q, hq, q0, q1⟩ := hloop
  obtain ⟨_, _, _, p4, p5, _, _⟩ := padLoop_spec ResEnv.zeroEntryMono ResEnv.zeroMonoAt
    zeroEntryMono_at zeroEntryMono_keeps 3 (e.calcResLoop lvl refToNew aff_g2l cutoffTH buf)
  refine ⟨q, ?_, q0, ?_⟩
  · show (ResEnv.padMono 3 (e.calcResLoop lvl refToNew aff_g2l cutoffTH buf)).E = _
    unfold ResEnv.padMono
    rw [p4, hq]
  · show q ≤ ((ResEnv.padMono 3 (e.calcResLoop lvl refToNew aff_g2l cutoffTH buf)).numTermsInE
        : ℚ) * e.maxEnergy cutoffTH
    unfold ResEnv.padMono
    rw [p5]
    exact q1

/-- The sample input has `setting_huberTH = 9` and is run with cutoff 20. -/
theorem calcRes_energy_bounds_witness :
    ∃ E : ℚ, (ResEnv.sample.calcRes 0 SE3.identity ⟨0, 0⟩ 20 WarpBuffers.junk).1.r0 = .fin E
      ∧ 0 ≤ E
      ∧ E ≤ (ResEnv.sample.calcRes 0 SE3.identity ⟨0, 0⟩ 20 WarpBuffers.junk).1.r1
          * ResEnv.sample.maxEnergy 20 :=
  (calcRes_energy_bounds ResEnv.sample 0 SE3.identity ⟨0, 0⟩ 20 WarpBuffers.junk
    (by decide!) (by decide!)).2.2

/-! ## The middle tier of the accumulator cascade -/

/-- In a run of operations that starts with `initialize` or `finish`, the
state after every operation that is `initialize`, `finish` or a shifting
update is settled. -/
theorem settled_after_ops {S C : Type} (mid settled : S → Prop) (init fin : S → S)
    (run : C → S → S) (shifts : C → Bool) (h1 : ∀ s, settled s → mid s)
    (hinit : ∀ s, settled (init s)) (hfin : ∀ s, settled (fin s))
    (hrun : ∀ c s, mid s → mid (run c s))
    (hshift : ∀ c s, shifts c = true → mid s → settled (run c s))
    (pre : List (AccOp C)) (o : AccOp C) (s0 : S)
    (hhead : (pre ++ [o]).head? = some .initialise ∨ (pre ++ [o]).head? = some .finish)
    (ho : o.settles shifts = true) :
    settled ((pre ++ [o]).foldl (fun s p => p.run init fin run s) s0) := by
  have hop : ∀ (p : AccOp C) (s : S), mid s → mid (p.run init fin run s) := by
    intro p s hs
    cases p with
    | initialise => exact h1 _ (hinit s)
    | finish => exact h1 _ (hfin s)
    | call c => exact hrun c s hs
  have hfold : ∀ (ps : List (AccOp C)) (s : S), mid s →
      mid (ps.foldl (fun s p => p.run init fin run s) s) := by
    intro ps
    induction ps with
    | nil => intro s hs; exact hs
    | cons p ps ih => intro s hs; exact ih _ (hop p s hs)
  have hlast : ∀ s : S, mid s → settled (o.run init fin run s) := by
    intro s hs
    cases o with
    | initialise => exact hinit s
    | finish => exact hfin s
    | call c => exact hshift c s ho hs
  rw [List.foldl_append]
  simp only [List.foldl_cons, List.foldl_nil]
  cases pre with
  | nil =>
    simp only [List.nil_append, List.head?_cons, Option.some.injEq] at hhead
    rcases hhead with rfl | rfl
    · exact hinit s0
    · exact hfin s0
  | cons p ps =>
    simp only [List.cons_append, List.head?_cons, Option.some.injEq] at hhead
    apply hlast
    rw [List.foldl_cons]
    apply hfold
    rcases hhead with rfl | rfl
    · exact h1 _ (hinit s0)
    · exact h1 _ (hfin s0)

theorem AccCore_shiftUp_settled (D : Nat) (force : Bool) (s : AccState)
    (h : force = true ∨ s.midEmpty D) : (AccCore.shiftUp D force s).settled D := by
  unfold AccCore.shiftUp AccState.settled AccState.midEmpty
  by_cases h1 : s.numIn1 > 1000 ∨ force = true
  · by_cases h2 : s.numIn1k + s.numIn1 > 1000 ∨ force = true
    · simp only [h1, h2, if_true]
      refine ⟨⟨trivial, fun i hi => ?_⟩, Nat.zero_le _⟩
      simp [memset0, hi]
    · exfalso
      rcases h1 with h1 | h1
      · exact h2 (Or.inl (by omega))
      · exact h2 (Or.inr h1)
  · have hf : force ≠ true := fun hf => h1 (Or.inr hf)
    rcases h with h | ⟨hk, hz⟩
    · exact absurd h hf
    · have h2 : ¬ (s.numIn1k > 1000 ∨ force = true) := by
        rintro (h2 | h2)
        · omega
        · exact hf h2
      simp only [h1, h2, if_false]
      exact ⟨⟨hk, hz⟩, by omega⟩

theorem AccCore_shiftUp_jump (D : Nat) (s : AccState) (hk : s.numIn1k = 0)
    (h : s.numIn1 > 1000) :
    (AccCore.shiftUp D false s).numIn1m = s.numIn1m + s.numIn1
    ∧ (AccCore.shiftUp D false s).numIn1 = 0 ∧ (AccCore.shiftUp D false s).numIn1k = 0 := by
  unfold AccCore.shiftUp
  have h1 : s.numIn1 > 1000 ∨ false = true := Or.inl h
  have h2 : s.numIn1k + s.numIn1 > 1000 ∨ false = true := Or.inl (by omega)
  simp only [h1, h2, if_true]
  simp [hk]

theorem AccCore_initialise_settled (D : Nat) (s : AccState) :
    (AccCore.initialise D s).settled D := by
  refine ⟨⟨rfl, fun i hi => ?_⟩, Nat.zero_le _⟩
  simp [AccCore.initialise, memset0, hi]

theorem AccCore_finish_settled (D : Nat) (s : AccState) : (AccCore.finish D s).settled D := by
  obtain ⟨⟨a, b⟩, c⟩ := AccCore_shiftUp_settled D true { s with H := fun _ _ => 0 } (Or.inl rfl)
  exact ⟨⟨a, b⟩, c⟩

theorem AccCore_countSSE_settled (D : Nat) (s : AccState) (h : s.midEmpty D) :
    (AccCore.countSSE D s).settled D :=
  AccCore_shiftUp_settled D false _ (Or.inr h)

theorem AccCore_countSingle_settled (D : Nat) (s : AccState) (h : s.midEmpty D) :
    (AccCore.countSingle D s).settled D :=
  AccCore_shiftUp_settled D false _ (Or.inr h)

theorem Accumulator9_call_settled (c : Accumulator9.AnyCall) (s : AccState)
    (h : s.midEmpty 9) : (c.run s).settled 9 := by
  cases c with
  | sse c =>
    cases c with
    | updateSSE J => exact AccCore_countSSE_settled 9 _ h
    | updateSSE_eighted J w => exact AccCore_countSSE_settled 9 _ h
  | updateSingle J off => exact AccCore_countSingle_settled 9 _ h
  | updateSingleWeighted J w off => exact AccCore_countSingle_settled 9 _ h

theorem Accumulator11_call_settled (c : Accumulator11.AnyCall) (s : AccState)
    (h : s.midEmpty 11) : (c.run s).settled 11 := by
  cases c with
  | sse c =>
    cases c with
    | updateSSE J => exact AccCore_countSSE_settled 11 _ h
    | updateSSE_tened J w => exact AccCore_countSSE_settled 11 _ h
  | updateSingle J off => exact AccCore_countSingle_settled 11 _ h
  | updateSingleWeighted J w off => exact AccCore_countSingle_settled 11 _ h

theorem Accumulator14_call_settled (c : Accumulator14.AnyCall) (s : AccState)
    (h : s.midEmpty 14) : (c.run s).settled 14 := by
  cases c with
  | updateSSE J => exact AccCore_countSSE_settled 14 _ h
  | updateSingle J off => exact AccCore_countSingle_settled 14 _ h

theorem Accumulator14_finish_settled (s : AccState) : (Accumulator14.finish s).settled 14 := by
  obtain ⟨⟨a, b⟩, c⟩ := AccCore_finish_settled 14 s
  exact ⟨⟨a, b⟩, c⟩

theorem Accumulator1_shiftUp_settled (force : Bool) (s : Acc1State)
    (h : force = true ∨ s.midEmpty) : (Accumulator1.shiftUp force s).settled := by
  unfold Accumulator1.shiftUp Acc1State.settled Acc1State.midEmpty
  by_cases h1 : s.numIn1 > 1000 ∨ force = true
  · by_cases h2 : s.numIn1k + s.numIn1 > 1000 ∨ force = true
    · simp only [h1, h2, if_true]
      refine ⟨⟨trivial, fun i hi => ?_⟩, Nat.zero_le _⟩
      simp [memset0, hi]
    · exfalso
      rcases h1 with h1 | h1
      · exact h2 (Or.inl (by omega))
      · exact h2 (Or.inr h1)
  · have hf : force ≠ true := fun hf => h1 (Or.inr hf)
    rcases h with h | ⟨hk, hz⟩
    · exact absurd h hf
    · have h2 : ¬ (s.numIn1k > 1000 ∨ force = true) := by
        rintro (h2 | h2)
        · omega
        · exact hf h2
      simp only [h1, h2, if_false]
      exact ⟨⟨hk, hz⟩, by omega⟩

theorem Accumulator1_shiftUp_jump (s : Acc1State) (hk : s.numIn1k = 0) (h : s.numIn1 > 1000) :
    (Accumulator1.shiftUp false s).numIn1m = s.numIn1m + s.numIn1
    ∧ (Accumulator1.shiftUp false s).numIn1 = 0
    ∧ (Accumulator1.shiftUp false s).numIn1k = 0 := by
  unfold Accumulator1.shiftUp
  have h1 : s.numIn1 > 1000 ∨ false = true := Or.inl h
  have h2 : s.numIn1k + s.numIn1 > 1000 ∨ false = true := Or.inl (by omega)
  simp only [h1, h2, if_true]
  simp [hk]

theorem Accumulator1_initialise_settled (s : Acc1State) :
    (Accumulator1.initialise s).settled := by
  refine ⟨⟨rfl, fun i hi => ?_⟩, Nat.zero_le _⟩
  simp [Accumulator1.initialise, memset0, hi]

theorem Accumulator1_finish_settled (s : Acc1State) : (Accumulator1.finish s).settled := by
  obtain ⟨⟨a, b⟩, c⟩ := Accumulator1_shiftUp_settled true s (Or.inl rfl)
  exact ⟨⟨a, b⟩, c⟩

theorem Accumulator1_call_settled (c : Accumulator1.Call) (s : Acc1State)
    (hc : c.shifts = true) (h : s.midEmpty) : (c.run s).settled := by
  cases c with
  | updateSingle v => exact Accumulator1_shiftUp_settled false _ (Or.inr h)
  | updateSSE v => exact Accumulator1_shiftUp_settled false _ (Or.inr h)
  | updateSingleNoShift v => exact absurd hc (by simp [Accumulator1.Call.shifts])
  | updateSSENoShift v => exact absurd hc (by simp [Accumulator1.Call.shifts])

theorem Accumulator1_call_mid (c : Accumulator1.Call) (s : Acc1State) (h : s.midEmpty) :
    (c.run s).midEmpty := by
  cases c with
  | updateSingle v => exact (Accumulator1_call_settled (.updateSingle v) s rfl h).1
  | updateSSE v => exact (Accumulator1_call_settled (.updateSSE v) s rfl h).1
  | updateSingleNoShift v => exact h
  | updateSSENoShift v => exact h

theorem AccumulatorXX_shiftUp_settled (force : Bool) (s : AccXState)
    (h : force = true ∨ s.midEmpty) : (AccumulatorXX.shiftUp force s).settled := by
  unfold AccumulatorXX.shiftUp AccXState.settled AccXState.midEmpty
  by_cases h1 : s.numIn1 > 1000 ∨ force = true
  · by_cases h2 : s.numIn1k + s.numIn1 > 1000 ∨ force = true
    · simp only [h1, h2, if_true]
      exact ⟨⟨trivial, fun _ _ => trivial⟩, Nat.zero_le _⟩
    · exfalso
      rcases h1 with h1 | h1
      · exact h2 (Or.inl (by omega))
      · exact h2 (Or.inr h1)
  · have hf : force ≠ true := fun hf => h1 (Or.inr hf)
    rcases h with h | ⟨hk, hz⟩
    · exact absurd h hf
    · have h2 : ¬ (s.numIn1k > 1000 ∨ force = true) := by
        rintro (h2 | h2)
        · omega
        · exact hf h2
      simp only [h1, h2, if_false]
      exact ⟨⟨hk, hz⟩, by omega⟩

theorem AccumulatorXX_shiftUp_jump (s : AccXState) (hk : s.numIn1k = 0) (h : s.numIn1 > 1000) :
    (AccumulatorXX.shiftUp false s).numIn1m = s.numIn1m + s.numIn1
    ∧ (AccumulatorXX.shiftUp false s).numIn1 = 0
    ∧ (AccumulatorXX.shiftUp false s).numIn1k = 0 := by
  unfold AccumulatorXX.shiftUp
  have h1 : s.numIn1 > 1000 ∨ false = true := Or.inl h
  have h2 : s.numIn1k + s.numIn1 > 1000 ∨ false = true := Or.inl (by omega)
  simp only [h1, h2, if_true]
  simp [hk]

theorem AccumulatorXX_initialise_settled (s : AccXState) :
    (AccumulatorXX.initialise s).settled :=
  ⟨⟨rfl, fun _ _ => rfl⟩, Nat.zero_le _⟩

theorem AccumulatorXX_finish_settled (s : AccXState) : (AccumulatorXX.finish s).settled := by
  obtain ⟨⟨a, b⟩, c⟩ := AccumulatorXX_shiftUp_settled true s (Or.inl rfl)
  exact ⟨⟨a, b⟩, c⟩

theorem AccumulatorXX_update_settled (L R : Nat → ℚ) (w : ℚ) (s : AccXState)
    (h : s.midEmpty) : (AccumulatorXX.update L R w s).settled :=
  AccumulatorXX_shiftUp_settled false _ (Or.inr h)

theorem AccumulatorX_call_settled (c : AccumulatorX.Call) (s : AccXState) (h : s.midEmpty) :
    (c.run s).settled := by
  cases c with
  | update L w => exact AccumulatorXX_shiftUp_settled false _ (Or.inr h)
  | updateNoWeight L => exact AccumulatorXX_shiftUp_settled false _ (Or.inr h)

theorem ApproxCore_shiftUp_settled (nTR nBR : Nat) (force : Bool) (s : ApproxState)
    (h : force = true ∨ s.midEmpty nTR nBR) :
    (ApproxCore.shiftUp nTR nBR force s).settled nTR nBR := by
  unfold ApproxCore.shiftUp ApproxState.settled ApproxState.midEmpty
  by_cases h1 : s.numIn1 > 1000 ∨ force = true
  · by_cases h2 : s.numIn1k + s.numIn1 > 1000 ∨ force = true
    · simp only [h1, h2, if_true]
      refine ⟨⟨trivial, fun i hi => ?_, fun i hi => ?_, fun i hi => ?_⟩, Nat.zero_le _⟩ <;>
        simp [memset0, hi]
    · exfalso
      rcases h1 with h1 | h1
      · exact h2 (Or.inl (by omega))
      · exact h2 (Or.inr h1)
  · have hf : force ≠ true := fun hf => h1 (Or.inr hf)
    rcases h with h | ⟨hk, hz⟩
    · exact absurd h hf
    · have h2 : ¬ (s.numIn1k > 1000 ∨ force = true) := by
        rintro (h2 | h2)
        · omega
        · exact hf h2
      simp only [h1, h2, if_false]
      exact ⟨⟨hk, hz⟩, by omega⟩

theorem ApproxCore_shiftUp_jump (nTR nBR : Nat) (s : ApproxState) (hk : s.numIn1k = 0)
    (h : s.numIn1 > 1000) :
    (ApproxCore.shiftUp nTR nBR false s).numIn1m = s.numIn1m + s.numIn1
    ∧ (ApproxCore.shiftUp nTR nBR false s).numIn1 = 0
    ∧ (ApproxCore.shiftUp nTR nBR false s).numIn1k = 0 := by
  unfold ApproxCore.shiftUp
  have h1 : s.numIn1 > 1000 ∨ false = true := Or.inl h
  have h2 : s.numIn1k + s.numIn1 > 1000 ∨ false = true := Or.inl (by omega)
  simp only [h1, h2, if_true]
  simp [hk]

theorem ApproxCore_initialise_settled (nTR nBR : Nat) (s : ApproxState) :
    (ApproxCore.initialise nTR nBR s).settled nTR nBR := by
  refine ⟨⟨rfl, fun i hi => ?_, fun i hi => ?_, fun i hi => ?_⟩, Nat.zero_le _⟩ <;>
    simp [ApproxCore.initialise, memset0, hi]

theorem ApproxCore_call_settled (nTR nBR k : Nat) (c : ApproxCore.Call) (s : ApproxState)
    (hc : c.counted = true) (h : s.midEmpty nTR nBR) : (c.run nTR nBR k s).settled nTR nBR := by
  cases c with
  | updateSSE x y a b c => exact ApproxCore_shiftUp_settled nTR nBR false _ (Or.inr h)
  | update x4 x6 y4 y6 a b c => exact ApproxCore_shiftUp_settled nTR nBR false _ (Or.inr h)
  | updateTopRight x4 x6 y4 y6 TR => exact absurd hc (by simp [ApproxCore.Call.counted])
  | updateBotRight args => exact absurd hc (by simp [ApproxCore.Call.counted])

theorem ApproxCore_call_mid (nTR nBR k : Nat) (c : ApproxCore.Call) (s : ApproxState)
    (h : s.midEmpty nTR nBR) : (c.run nTR nBR k s).midEmpty nTR nBR := by
  cases c with
  | updateSSE x y a b c =>
    exact (ApproxCore_call_settled nTR nBR k (.updateSSE x y a b c) s rfl h).1
  | update x4 x6 y4 y6 a b c =>
    exact (ApproxCore_call_settled nTR nBR k (.update x4 x6 y4 y6 a b c) s rfl h).1
  | updateTopRight x4 x6 y4 y6 TR => exact h
  | updateBotRight args => exact h

theorem AccumulatorApprox_finish_settled (s : ApproxState) :
    (AccumulatorApprox.finish s).settled 32 8 := by
  obtain ⟨⟨a, b, c, d⟩, e⟩ :=
    ApproxCore_shiftUp_settled 32 8 true { s with H := fun _ _ => 0 } (Or.inl rfl)
  exact ⟨⟨a, b, c, d⟩, e⟩

theorem AccumulatorApprox1515_finish_settled (s : ApproxState) :
    (AccumulatorApprox1515.finish s).settled 52 16 := by
  obtain ⟨⟨a, b, c, d⟩, e⟩ :=
    ApproxCore_shiftUp_settled 52 16 true { s with H := fun _ _ => 0 } (Or.inl rfl)
  exact ⟨⟨a, b, c, d⟩, e⟩

theorem settled_after_runAll {S C : Type} (mid settled : S → Prop) (init fin : S → S)
    (run : C → S → S) (shifts : C → Bool) (h1 : ∀ s, settled s → mid s)
    (hinit : ∀ s, settled (init s)) (hfin : ∀ s, settled (fin s))
    (hrun : ∀ c s, mid s → mid (run c s))
    (hshift : ∀ c s, shifts c = true → mid s → settled (run c s))
    (pre : List (AccOp C)) (o : AccOp C) (s0 : S) (hhead : AccOp.startsFresh (pre ++ [o]))
    (ho : o.settles shifts = true) :
    settled (AccOp.runAll init fin run (pre ++ [o]) s0) :=
  settled_after_ops mid settled init fin run shifts h1 hinit hfin hrun hshift pre o s0 hhead ho

/-- **C40.** In each of the eight accumulator classes, in any run of public
operations that starts with `initialize()` or `finish()`, after every
`initialize()`, `finish()` and update that calls `shiftUp` the middle tier is
empty (`numIn1k = 0`, the 1k buffers hold zeros) and `numIn1 <= 1000`; the
updates that do not call `shiftUp` (`updateSingleNoShift`, `updateSSENoShift`,
`updateTopRight`, `updateBotRight`) may come anywhere in the run.  When
`shiftUp(false)` finds more than 1000 counts in tier 0 and an empty middle
tier, both shifts fire and the counts go straight to `numIn1m`.  On an
`Accumulator1` holding 1000 counts, the next `updateSingle` leaves
`numIn1 = numIn1k = 0`, `numIn1m = 1001` and the sum 1001 in `SSEData1m`. -/
theorem middle_tier_empty :
    (∀ (pre : List (AccOp Accumulator9.AnyCall)) (o : AccOp Accumulator9.AnyCall)
        (s0 : AccState), AccOp.startsFresh (pre ++ [o]) → o.settles (fun _ => true) = true →
      (AccOp.runAll Accumulator9.initialise Accumulator9.finish Accumulator9.AnyCall.run
        (pre ++ [o]) s0).settled 9)
    ∧ (∀ (pre : List (AccOp Accumulator11.AnyCall)) (o : AccOp Accumulator11.AnyCall)
        (s0 : AccState), AccOp.startsFresh (pre ++ [o]) → o.settles (fun _ => true) = true →
      (AccOp.runAll Accumulator11.initialise Accumulator11.finish Accumulator11.AnyCall.run
        (pre ++ [o]) s0).settled 11)
    ∧ (∀ (pre : List (AccOp Accumulator14.AnyCall)) (o : AccOp Accumulator14.AnyCall)
        (s0 : AccState), AccOp.startsFresh (pre ++ [o]) → o.settles (fun _ => true) = true →
      (AccOp.runAll Accumulator14.initialise Accumulator14.finish Accumulator14.AnyCall.run
        (pre ++ [o]) s0).settled 14)
    ∧ (∀ (pre : List (AccOp Accumulator1.Call)) (o : AccOp Accumulator1.Call)
        (s0 : Acc1State), AccOp.startsFresh (pre ++ [o]) →
      o.settles Accumulator1.Call.shifts = true →
      (AccOp.runAll Accumulator1.initialise Accumulator1.finish Accumulator1.Call.run
        (pre ++ [o]) s0).settled)
    ∧ (∀ (pre : List (AccOp ((Nat → ℚ) × (Nat → ℚ) × ℚ)))
        (o : AccOp ((Nat → ℚ) × (Nat → ℚ) × ℚ)) (s0 : AccXState),
      AccOp.startsFresh (pre ++ [o]) → o.settles (fun _ => true) = true →
      (AccOp.runAll AccumulatorXX.initialise AccumulatorXX.finish
        (fun c => AccumulatorXX.update c.1 c.2.1 c.2.2) (pre ++ [o]) s0).settled)
    ∧ (∀ (pre : List (AccOp AccumulatorX.Call)) (o : AccOp AccumulatorX.Call)
        (s0 : AccXState), AccOp.startsFresh (pre ++ [o]) → o.settles (fun _ => true) = true →
      (AccOp.runAll AccumulatorX.initialise AccumulatorX.finish AccumulatorX.Call.run
        (pre ++ [o]) s0).settled)
    ∧ (∀ (pre : List (AccOp ApproxCore.Call)) (o : AccOp ApproxCore.Call) (s0 : ApproxState),
      AccOp.startsFresh (pre ++ [o]) → o.settles ApproxCore.Call.counted = true →
      (AccOp.runAll AccumulatorApprox.initialise AccumulatorApprox.finish
        AccumulatorApprox.Call.run (pre ++ [o]) s0).settled 32 8)
    ∧ (∀ (pre : List (AccOp ApproxCore.Call)) (o : AccOp ApproxCore.Call) (s0 : ApproxState),
      AccOp.startsFresh (pre ++ [o]) → o.settles ApproxCore.Call.counted = true →
      (AccOp.runAll AccumulatorApprox1515.initialise AccumulatorApprox1515.finish
        AccumulatorApprox1515.Call.run (pre ++ [o]) s0).settled 52 16)
    ∧ (∀ (D : Nat) (s : AccState), s.numIn1k = 0 → s.numIn1 > 1000 →
      (AccCore.shiftUp D false s).numIn1m = s.numIn1m + s.numIn1
      ∧ (AccCore.shiftUp D false s).numIn1 = 0 ∧ (AccCore.shiftUp D false s).numIn1k = 0)
    ∧ (∀ (s : Acc1State), s.numIn1k = 0 → s.numIn1 > 1000 →
      (Accumulator1.shiftUp false s).numIn1m = s.numIn1m + s.numIn1
      ∧ (Accumulator1.shiftUp false s).numIn1 = 0 ∧ (Accumulator1.shiftUp false s).numIn1k = 0)
    ∧ (∀ (s : AccXState), s.numIn1k = 0 → s.numIn1 > 1000 →
      (AccumulatorXX.shiftUp false s).numIn1m = s.numIn1m + s.numIn1
      ∧ (AccumulatorXX.shiftUp false s).numIn1 = 0
      ∧ (AccumulatorXX.shiftUp false s).numIn1k = 0)
    ∧ (∀ (nTR nBR : Nat) (s : ApproxState), s.numIn1k = 0 → s.numIn1 > 1000 →
      (ApproxCore.shiftUp nTR nBR false s).numIn1m = s.numIn1m + s.numIn1
      ∧ (ApproxCore.shiftUp nTR nBR false s).numIn1 = 0
      ∧ (ApproxCore.shiftUp nTR nBR false s).numIn1k = 0)
    ∧ ((Accumulator1.updateSingle 1 Acc1State.full).numIn1 = 0
      ∧ (Accumulator1.updateSingle 1 Acc1State.full).numIn1k = 0
      ∧ (Accumulator1.updateSingle 1 Acc1State.full).numIn1m = 1001
      ∧ (Accumulator1.updateSingle 1 Acc1State.full).SSEData1k 0 = 0
      ∧ (Accumulator1.updateSingle 1 Acc1State.full).SSEData1m 0 = 1001) := by
  refine ⟨?_, ?_, ?_, ?_, ?_, ?_, ?_, ?_, ?_, ?_, ?_, ?_, ?_⟩
  · intro pre o s0 hh ho
    exact settled_after_runAll (AccState.midEmpty 9) (AccState.settled 9) _ _ _ _
      (fun s h => h.1) (AccCore_initialise_settled 9) (AccCore_finish_settled 9)
      (fun c s h => (Accumulator9_call_settled c s h).1)
      (fun c s _ h => Accumulator9_call_settled c s h) pre o s0 hh ho
  · intro pre o s0 hh ho
    exact settled_after_runAll (AccState.midEmpty 11) (AccState.settled 11) _ _ _ _
      (fun s h => h.1) (AccCore_initialise_settled 11) (AccCore_finish_settled 11)
      (fun c s h => (Accumulator11_call_settled c s h).1)
      (fun c s _ h => Accumulator11_call_settled c s h) pre o s0 hh ho
  · intro pre o s0 hh ho
    exact settled_after_runAll (AccState.midEmpty 14) (AccState.settled 14) _ _ _ _
      (fun s h => h.1) (AccCore_initialise_settled 14) Accumulator14_finish_settled
      (fun c s h => (Accumulator14_call_settled c s h).1)
      (fun c s _ h => Accumulator14_call_settled c s h) pre o s0 hh ho
  · intro pre o s0 hh ho
    exact settled_after_runAll Acc1State.midEmpty Acc1State.settled _ _ _ _
      (fun s h => h.1) Accumulator1_initialise_settled Accumulator1_finish_settled
      Accumulator1_call_mid Accumulator1_call_settled pre o s0 hh ho
  · intro pre o s0 hh ho
    exact settled_after_runAll AccXState.midEmpty AccXState.settled _ _ _ _
      (fun s h => h.1) AccumulatorXX_initialise_settled AccumulatorXX_finish_settled
      (fun c s h => (AccumulatorXX_update_settled c.1 c.2.1 c.2.2 s h).1)
      (fun c s _ h => AccumulatorXX_update_settled c.1 c.2.1 c.2.2 s h) pre o s0 hh ho
  · intro pre o s0 hh ho
    exact settled_after_runAll AccXState.midEmpty AccXState.settled _ _ _ _
      (fun s h => h.1) AccumulatorXX_initialise_settled AccumulatorXX_finish_settled
      (fun c s h => (AccumulatorX_call_settled c s h).1)
      (fun c s _ h => AccumulatorX_call_settled c s h) pre o s0 hh ho
  · intro pre o s0 hh ho
    exact settled_after_runAll (ApproxState.midEmpty 32 8) (ApproxState.settled 32 8) _ _ _ _
      (fun s h => h.1) (ApproxCore_initialise_settled 32 8) AccumulatorApprox_finish_settled
      (ApproxCore_call_mid 32 8 3) (ApproxCore_call_settled 32 8 3) pre o s0 hh ho
  · intro pre o s0 hh ho
    exact settled_after_runAll (ApproxState.midEmpty 52 16) (ApproxState.settled 52 16) _ _ _ _
      (fun s h => h.1) (ApproxCore_initialise_settled 52 16)
      AccumulatorApprox1515_finish_settled
      (ApproxCore_call_mid 52 16 5) (ApproxCore_call_settled 52 16 5) pre o s0 hh ho
  · exact fun D s hk h => AccCore_shiftUp_jump D s hk h
  · exact fun s hk h => Accumulator1_shiftUp_jump s hk h
  · exact fun s hk h => AccumulatorXX_shiftUp_jump s hk h
  · exact fun nTR nBR s hk h => ApproxCore_shiftUp_jump nTR nBR s hk h
  · decide!


end dso
